import Mathlib

/-!
BitTorrentProtocol_MPI: tracker registry and client downloader.

A shallow embedding of the C sources (`utils.h`, `tracker.c`, `download.c`,
`peer.c`, `tema2.c`).

Conventions of the embedding

* A C string (a `char` buffer read up to its first NUL) is a `List Char`.
* A `(count, array)` pair of the C structures is one Lean list; the count is
  the length of the list.
* `malloc`, `realloc`, `fopen` and every MPI call are taken to succeed.
* MPI receives are inputs of the model, MPI sends are recorded in a trace.
-/

namespace BitTorrent

/-! ## utils.h -/

/-- C string: the characters of a buffer before its first NUL. -/
abbrev CStr := List Char

def TRACKER_RANK : Int := 0
def MAX_FILES : Nat := 10
def MAX_FILENAME : Nat := 15
def HASH_SIZE : Nat := 32
def MAX_CHUNKS : Nat := 100
def BUFF_SIZE : Nat := 64

/-- Number of values of a `size_t` (64-bit target). -/
def SIZE_T_MOD : Nat := 2 ^ 64

inductive Client_Type_t where
  | SEEDER
  | PEER
  | LEECHER
  deriving DecidableEq, Repr

structure FileSegment_t where
  hash : CStr
  deriving DecidableEq, Repr

/-- Manifest of one file; `segment_count` of the C structure is
`segments.length`. -/
structure FileData_t where
  file_name : CStr
  file_id : Int
  segments : List FileSegment_t
  deriving DecidableEq, Repr

structure FileName_t where
  file_name : CStr
  deriving DecidableEq, Repr

/-- Swarm of one file; `clients_in_swarm_count` is the length of the list
(a NULL array is the empty list). -/
structure Swarm_t where
  file_name : CStr
  clients_in_swarm : List Int
  deriving DecidableEq, Repr

structure PeerInfo_t where
  file_id : Int
  peer_rank : Int
  segments : List FileSegment_t
  deriving DecidableEq, Repr

/-- Inventory of one client at the tracker; `files_count` is
`files.length`. -/
structure TrackerData_t where
  rank : Int
  files : List FileData_t
  client_type : Client_Type_t
  deriving DecidableEq, Repr

structure PeersList_t where
  peers_array : List PeerInfo_t
  peers_count : Int
  deriving DecidableEq, Repr

/-- Tracker registry; `client_count` is `data.length`. -/
structure TrackerDataSet_t where
  data : List TrackerData_t
  swarms : List Swarm_t
  swarm_size : Int
  deriving DecidableEq, Repr

structure ClientFiles_t where
  client_rank : Int
  owned_files : List FileData_t
  wanted_files : List FileName_t
  peers : List PeersList_t
  client_type : Client_Type_t
  deriving DecidableEq, Repr

/-! ## libc helpers -/

/-- Decimal rendering of an `int`, as `%d` prints it. -/
def fmt_d (n : Int) : CStr :=
  if n < 0 then '-' :: Nat.toDigits 10 n.natAbs else Nat.toDigits 10 n.toNat

/-- The call `snprintf(buf, size, "file%d", id)`: at most `size - 1`
characters are stored. -/
def snprintf_file (size : Nat) (id : Int) : CStr :=
  ("file".toList ++ fmt_d id).take (size - 1)

/-- The call `strncpy(dst, src, n)` followed by a terminating NUL at
`dst[n]` (or a buffer that is zero there): the first `n` characters. -/
def strncpy (src : CStr) (n : Nat) : CStr :=
  src.take n

/-- Apply `f` to the element at index `i`; the list is unchanged when `i`
is out of range. -/
def update_nth {α : Type} (f : α → α) : Nat → List α → List α
  | _, [] => []
  | 0, x :: xs => f x :: xs
  | n + 1, x :: xs => x :: update_nth f n xs

/-! ## download.c: manifest helpers shared with the tracker -/

/-- Index of the first entry with the given id (`find_file_data` returns a
pointer to that entry, NULL when there is none). -/
def find_file_data : List FileData_t → Int → Option Nat
  | [], _ => none
  | fd :: rest, file_id =>
    if fd.file_id = file_id then some 0
    else (find_file_data rest file_id).map (fun i => i + 1)

/-! ## tracker.c -/

/-- One pass of the body of the inner loop of `create_file_swarms`
(tracker.c 266-295): an entry with an invalid id is skipped, otherwise the
rank is appended to the swarm of the file. -/
def swarm_add (swarm_size : Int) (swarms : List Swarm_t) (file_id : Int)
    (rank : Int) : List Swarm_t :=
  if file_id ≤ 0 ∨ file_id > swarm_size then swarms
  else
    update_nth
      (fun sw =>
        if sw.clients_in_swarm = [] then { sw with clients_in_swarm := [rank] }
        else { sw with clients_in_swarm := sw.clients_in_swarm ++ [rank] })
      (file_id - 1).toNat swarms

/-- Initial value of `swarms[i]` in `create_file_swarms`
(tracker.c 256-258). -/
def fresh_swarm (i : Nat) : Swarm_t :=
  { file_name := snprintf_file MAX_FILENAME ((i : Int) + 1),
    clients_in_swarm := [] }

/-- Fresh swarm table of `create_file_swarms` (tracker.c 248-259). -/
def init_swarms (swarm_size : Int) : List Swarm_t :=
  (List.range swarm_size.toNat).map fresh_swarm

/-- The inner loop of `create_file_swarms` for the client of rank `rank`. -/
def swarm_add_client (swarm_size : Int) (swarms : List Swarm_t)
    (rank : Int) (files : List FileData_t) : List Swarm_t :=
  files.foldl (fun sws fd => swarm_add swarm_size sws fd.file_id rank) swarms

/-- The function `create_file_swarms` (tracker.c 246-298): ranks
`1 .. numtasks - 1` are visited in order. A rank without an inventory slot
(never the case for the callers, which pass `client_count + 1`) is
skipped. -/
def create_file_swarms (m : TrackerDataSet_t) (numtasks : Int) :
    TrackerDataSet_t :=
  { m with
    swarms :=
      (List.range (numtasks - 1).toNat).foldl
        (fun sws i =>
          match m.data[i]? with
          | none => sws
          | some cd => swarm_add_client m.swarm_size sws ((i : Int) + 1) cd.files)
        (init_swarms m.swarm_size) }

/-- The function `tracker_client_has_file` (tracker.c 303-315) on the file
list of the client. -/
def tracker_client_has_file (files : List FileData_t) (file_id : Int) : Bool :=
  if files.length = 0 then false
  else files.any (fun fd => decide (fd.file_id = file_id))

/-- The function `tracker_add_file_to_owned` (tracker.c 320-351) on the
inventory slot of the client: a zeroed entry named `file<id>` is added at
the end. -/
def tracker_add_file_to_owned (cd : TrackerData_t) (file_id : Int) :
    TrackerData_t :=
  { cd with
    files := cd.files ++
      [{ file_name := snprintf_file MAX_FILENAME file_id,
         file_id := file_id,
         segments := [] }] }

/-- One pass of the receive loop of `update_tracker_swarm`
(tracker.c 126-135): `HASH_SIZE - 1` characters of the received buffer are
copied and the copy is terminated at index `HASH_SIZE - 1`. -/
def store_received_hash (fd : FileData_t) (buff : CStr) : FileData_t :=
  { fd with segments := fd.segments ++ [{ hash := strncpy buff (HASH_SIZE - 1) }] }

/-- The function `update_tracker_swarm` (tracker.c 104-140). `file_id` and
`buffs` are what the receives on the INFORM tag deliver: the file id and
the ten buffers, in order. The result is `none` when `rank` has no
inventory slot (an out-of-bounds access in C). The array
`segments[MAX_CHUNKS]` is a list here, and the function has no test on
`segment_count`: the result is that of the C function as long as the entry
of the file ends with at most `MAX_CHUNKS` segments. Beyond that the list
records the hashes stored at the indexes `MAX_CHUNKS` and above, which in C
lie in the storage that follows the array `segments` of the entry, that is
in the next entry of the array `files` of the client. -/
def update_tracker_swarm (m : TrackerDataSet_t) (rank : Int) (file_id : Int)
    (buffs : Fin 10 → CStr) : Option TrackerDataSet_t :=
  if rank < 1 then none
  else
    match m.data[(rank - 1).toNat]? with
    | none => none
    | some cd =>
      let cd1 :=
        if !tracker_client_has_file cd.files file_id then
          tracker_add_file_to_owned cd file_id
        else cd
      match find_file_data cd1.files file_id with
      | none => some { m with data := m.data.set (rank - 1).toNat cd1 }
      | some idx =>
        let cd2 :=
          { cd1 with
            files := update_nth
              (fun fd => (List.ofFn buffs).foldl store_received_hash fd)
              idx cd1.files }
        some (create_file_swarms
          { m with data := m.data.set (rank - 1).toNat cd2 }
          ((m.data.length : Int) + 1))

/-! ## Messages -/

def HASH_TAG : Nat := 0
def CLIENT_TYPE_TAG : Nat := 1
def ACK_TAG : Nat := 2
def PEERS_SEEDERS_TRANSFER_TAG : Nat := 3
def REQUEST_TAG : Nat := 4
def INFORM_TAG : Nat := 5

/-- Content of one MPI message: `count` elements of type `MPI_CHAR` taken
from (or stored into) a buffer that holds the C string `s`, one integer
(`MPI_INT` or `MPI_UNSIGNED`), or an array of `MPI_INT`. -/
inductive Payload where
  | chars (count : Nat) (s : CStr)
  | int (v : Int)
  | ints (vs : List Int)
  deriving DecidableEq, Repr

/-- Actions of a process, in the order in which it performs them: a
completed `MPI_Send`, a completed `MPI_Recv`, a file written by
`write_to_file`, and a hash stored by a successful call of
`add_segment_to_file_data` in the manifest of the file with the given id. -/
inductive Event where
  | send (dest : Int) (tag : Nat) (payload : Payload)
  | recv (src : Int) (tag : Nat) (payload : Payload)
  | write_file (name : CStr) (content : CStr)
  | store (file_id : Int) (hash : CStr)
  deriving DecidableEq, Repr

def OK : CStr := "OK".toList
def DOWN_10 : CStr := "DOWN_10".toList
def DOWN_X : CStr := "DOWN_X".toList
def GIVE_PEERS : CStr := "GIVE_PEERS".toList
def FINISHED_DOWN_ALL : CStr := "FINISHED_DOWN_ALL".toList
def STOP_UPLOADING : CStr := "STOP_UPLOADING".toList

/-! ## tema2.c: the tracker -/

/-- One message taken by the `MPI_Recv` of the tracker loop
(tema2.c 199): the sender, the string in `buffer`, and what the receives of
`update_tracker_swarm` then read from that sender when the string is
`DOWN_10` or `DOWN_X` (the file id and ten buffers). How these are taken
from the messages that wait on the INFORM tag, and that the receives of
`update_tracker_swarm` may find no message, is in `take_inform`. -/
structure InformMsg where
  source : Int
  buffer : CStr
  file_id : Int
  hashes : Fin 10 → CStr

/-- Local variables of `tracker` together with the registry and the
messages sent so far. -/
structure TrackerState where
  tracker_data : TrackerDataSet_t
  finished_clients : Int
  continue_tracking : Bool
  sent : List Event

/-- Start of the tracker loop: the local variables as `tracker`
initialises them. -/
def tracker_init (td : TrackerDataSet_t) : TrackerState :=
  { tracker_data := td, finished_clients := 0, continue_tracking := true, sent := [] }

/-- The counting loop of `tracker` (tema2.c 190-194). -/
def total_downloading_clients (data : List TrackerData_t) : Int :=
  data.foldl
    (fun total cd => if cd.client_type = Client_Type_t.SEEDER then total else total + 1) 0

/-- The branch for `FINISHED_DOWN_ALL` (tema2.c 205-212); `none` when the
sender has no inventory slot. -/
def handle_finished (st : TrackerState) (source : Int) : Option TrackerState :=
  if source < 1 then none
  else
    match st.tracker_data.data[(source - 1).toNat]? with
    | none => none
    | some cd =>
      let cd1 :=
        if cd.client_type = Client_Type_t.PEER then
          { cd with client_type := Client_Type_t.SEEDER }
        else cd
      some { st with
        tracker_data :=
          { st.tracker_data with
            data := st.tracker_data.data.set (source - 1).toNat cd1 },
        finished_clients := st.finished_clients + 1 }

/-- The branch for `DOWN_10` and `DOWN_X` (tema2.c 213-222). -/
def handle_down (st : TrackerState) (msg : InformMsg) : Option TrackerState :=
  match update_tracker_swarm st.tracker_data msg.source msg.file_id msg.hashes with
  | none => none
  | some td =>
    some { st with
      tracker_data := td,
      sent := st.sent ++ [Event.send msg.source ACK_TAG (Payload.chars 2 OK)] }

/-- One pass of the body of the tracker loop (tema2.c 197-236). -/
def tracker_handle (total : Int) (st : TrackerState) (msg : InformMsg) :
    Option TrackerState :=
  let handled : Option TrackerState :=
    if msg.buffer = FINISHED_DOWN_ALL then handle_finished st msg.source
    else if msg.buffer = DOWN_10 ∨ msg.buffer = DOWN_X then handle_down st msg
    else if msg.buffer = GIVE_PEERS then some st
    else some st
  handled.map (fun st1 =>
    if st1.finished_clients = total then { st1 with continue_tracking := false }
    else st1)

/-- The tracker loop (tema2.c 197-236) on the messages that arrive, in
order of arrival. The result is the state when the loop is left or when the
messages are used up (the tracker then waits in `MPI_Recv` with
`continue_tracking` still true), and the messages not taken. -/
def tracker_loop (total : Int) :
    TrackerState → List InformMsg → Option (TrackerState × List InformMsg)
  | st, [] => some (st, [])
  | st, msg :: rest =>
    if st.continue_tracking then
      match tracker_handle total st msg with
      | none => none
      | some st1 => tracker_loop total st1 rest
    else some (st, msg :: rest)

/-- The final loop of `tracker` (tema2.c 239-246), from rank `rank` on. -/
def stop_uploading_from : Int → List TrackerData_t → List Event
  | _, [] => []
  | rank, cd :: rest =>
    if cd.client_type ≠ Client_Type_t.LEECHER then
      Event.send rank REQUEST_TAG (Payload.chars 15 STOP_UPLOADING)
        :: stop_uploading_from (rank + 1) rest
    else stop_uploading_from (rank + 1) rest

/-- The function `tracker` after its call of `send_peers_to_clients`
(tema2.c 189-246); `td` is the registry as that call leaves it. The
shutdown messages are sent only when the loop has been left. -/
def tracker (td : TrackerDataSet_t) (msgs : List InformMsg) :
    Option TrackerState :=
  let total := total_downloading_clients td.data
  match tracker_loop total (tracker_init td) msgs with
  | none => none
  | some (st, _) =>
    if st.continue_tracking then some st
    else
      some { st with
        sent := st.sent ++ stop_uploading_from 1 st.tracker_data.data }

/-- Ranks that the counting loop of `tracker` counts, when the first
inventory slot of the list belongs to rank `rank`. -/
def downloading_ranks_from : Int → List TrackerData_t → List Int
  | _, [] => []
  | rank, cd :: rest =>
    if cd.client_type = Client_Type_t.SEEDER then
      downloading_ranks_from (rank + 1) rest
    else rank :: downloading_ranks_from (rank + 1) rest

/-- Kind of rank `r` in the registry. -/
def kind_of (td : TrackerDataSet_t) (r : Int) : Option Client_Type_t :=
  if r < 1 then none
  else (td.data[(r - 1).toNat]?).map (fun cd => cd.client_type)

/-- Ranks from which a `FINISHED_DOWN_ALL` is among the messages. -/
def finished_senders (msgs : List InformMsg) : List Int :=
  (msgs.filter (fun msg => decide (msg.buffer = FINISHED_DOWN_ALL))).map
    (fun msg => msg.source)

/-- Every rank whose kind in `td` is not SEEDER has sent
`FINISHED_DOWN_ALL` among `msgs`. -/
def all_finished (td : TrackerDataSet_t) (msgs : List InformMsg) : Prop :=
  ∀ r : Int, 1 ≤ r → r ≤ (td.data.length : Int) →
    kind_of td r ≠ some Client_Type_t.SEEDER → r ∈ finished_senders msgs

/-- The message `STOP_UPLOADING` to rank `r` on the REQUEST tag. -/
def stop_msg (r : Int) : Event :=
  Event.send r REQUEST_TAG (Payload.chars 15 STOP_UPLOADING)

/-- Ten 32-character hashes, made of the letters `a` to `j`. -/
def ten_hashes : Fin 10 → CStr :=
  fun i => List.replicate 32 (Char.ofNat (97 + i.val))

/-- Registry after the intake of two clients: rank 1 owns nothing (a
LEECHER), rank 2 owns `file1` with the ten hashes `ten_hashes` (a
SEEDER). -/
def leecher_seeder_registry : TrackerDataSet_t :=
  create_file_swarms
    { data :=
        [{ rank := 1, files := [], client_type := Client_Type_t.LEECHER },
         { rank := 2,
           files := [{ file_name := "file1".toList, file_id := 1,
                       segments := (List.ofFn ten_hashes).map (fun h => { hash := h }) }],
           client_type := Client_Type_t.SEEDER }],
      swarms := [],
      swarm_size := 1 }
    3

/-- The kinds of the mixed scenario: rank 1 SEEDER, rank 2 PEER, rank 3
LEECHER, rank 4 PEER. -/
def mixed_kinds : List Client_Type_t :=
  [Client_Type_t.SEEDER, Client_Type_t.PEER, Client_Type_t.LEECHER, Client_Type_t.PEER]

/-- The orders in which the ranks 2, 3 and 4 can report. -/
def report_orders : List (List Int) :=
  [[2, 3, 4], [2, 4, 3], [3, 2, 4], [3, 4, 2], [4, 2, 3], [4, 3, 2]]

/-- Registry with the given kinds for ranks `1, 2, ...` and no files. -/
def registry_of_kinds (kinds : List Client_Type_t) : TrackerDataSet_t :=
  { data := kinds.enum.map
      (fun p => { rank := (p.1 : Int) + 1, files := [], client_type := p.2 }),
    swarms := [],
    swarm_size := 0 }

/-- The message `FINISHED_DOWN_ALL` from rank `r`. -/
def finished_msg (r : Int) : InformMsg :=
  { source := r, buffer := FINISHED_DOWN_ALL, file_id := 0, hashes := fun _ => [] }

/-- Ranks listed in the swarm of file `f`, that is `swarms[f - 1]`. -/
def swarm_members (swarms : List Swarm_t) (f : Int) : List Int :=
  match swarms[(f - 1).toNat]? with
  | some sw => sw.clients_in_swarm
  | none => []

/-- Manifest held by the tracker for `(rank, file_id)`: the chunk hashes of
the entry `find_file_data` returns, `none` when there is no entry. -/
def tracker_manifest (m : TrackerDataSet_t) (rank : Int) (file_id : Int) :
    Option (List CStr) :=
  if rank < 1 then none
  else
    match m.data[(rank - 1).toNat]? with
    | none => none
    | some cd =>
      match find_file_data cd.files file_id with
      | none => none
      | some idx => (cd.files[idx]?).map (fun fd => fd.segments.map (fun s => s.hash))

/-- Whether the inventory of rank `r` has an entry for file `f`, whatever
its chunk count. -/
def tracker_has_entry (m : TrackerDataSet_t) (r : Int) (f : Int) : Bool :=
  if r < 1 then false
  else
    match m.data[(r - 1).toNat]? with
    | none => false
    | some cd => cd.files.any (fun fd => decide (fd.file_id = f))

/-- Whether the inventory of rank `r` holds file `f` with at least one
chunk. -/
def tracker_has_chunk (m : TrackerDataSet_t) (r : Int) (f : Int) : Bool :=
  if r < 1 then false
  else
    match m.data[(r - 1).toNat]? with
    | none => false
    | some cd =>
      cd.files.any (fun fd => decide (fd.file_id = f) && decide (fd.segments ≠ []))

/-- Registry after the intake of one client that declared `file1` with
zero chunks (input manifest lines `1`, `file1 0`, `0`). -/
def zero_chunk_registry : TrackerDataSet_t :=
  { data := [{ rank := 1,
               files := [{ file_name := "file1".toList, file_id := 1, segments := [] }],
               client_type := Client_Type_t.SEEDER }],
    swarms := [],
    swarm_size := 1 }

/-! ## peer.c: the manifest reader -/

/-- The newline character. -/
def NEWLINE : Char := Char.ofNat 10

/-- The test `isspace` of libc. -/
def is_space (c : Char) : Bool :=
  c = ' ' || (9 ≤ c.toNat && c.toNat ≤ 13)

/-- Value of the leading decimal digits of a string, after `acc`. -/
def digits_value : List Char → Nat → Nat
  | [], acc => acc
  | c :: cs, acc =>
    if c.isDigit then digits_value cs (acc * 10 + (c.toNat - 48)) else acc

/-- The function `atoi` of libc (values beyond the range of `int`, where C
leaves the result undefined, are kept as they are). -/
def atoi (s : CStr) : Int :=
  match s.dropWhile is_space with
  | '-' :: r => - (digits_value r 0 : Int)
  | '+' :: r => (digits_value r 0 : Int)
  | r => (digits_value r 0 : Int)

/-- Characters one call of `fgets` stores when at most `n` may be read:
up to and including the first newline. -/
def fgets_chars : Nat → List Char → List Char
  | 0, _ => []
  | _, [] => []
  | n + 1, c :: cs => if c = NEWLINE then [c] else c :: fgets_chars n cs

/-- The call `fgets(buf, size, fp)` on the unread part of the file: the
string stored and the part left unread, `none` at end of file. -/
def fgets (size : Nat) (inp : List Char) : Option (CStr × List Char) :=
  if inp = [] then none
  else some (fgets_chars (size - 1) inp, inp.drop (fgets_chars (size - 1) inp).length)

/-- One call of `strtok` with a single delimiter: the token and the string
after the delimiter that ends it, `none` when there is no token. -/
def strtok (s : CStr) (delim : Char) : Option (CStr × CStr) :=
  match s.dropWhile (fun c => c = delim) with
  | [] => none
  | c :: cs =>
    some ((c :: cs).takeWhile (fun x => x ≠ delim),
      ((c :: cs).dropWhile (fun x => x ≠ delim)).drop 1)

/-- The function `trim_newline` (peer.c 85-92). -/
def trim_newline (s : CStr) : CStr :=
  match s.getLast? with
  | some c => if c = NEWLINE then s.dropLast else s
  | none => s

/-- The file id computed from a file name: `atoi` of the string that starts
at the last character of the name. -/
def file_id_of_name (name : CStr) : Int :=
  atoi (name.drop (name.length - 1))

/-- The loop over the hash lines of one owned file (peer.c 164-176). -/
def read_segments : Nat → List Char → Option (List FileSegment_t × List Char)
  | 0, inp => some ([], inp)
  | n + 1, inp =>
    match fgets BUFF_SIZE inp with
    | none => none
    | some (line, rest) =>
      match read_segments n rest with
      | none => none
      | some (segs, rest1) => some ({ hash := strncpy line HASH_SIZE } :: segs, rest1)

/-- The loop over the owned files (peer.c 134-177). The result is `none`
when the program aborts (a line is missing or has no name or count) and
when the declared chunk count does not fit the array of `MAX_CHUNKS`
segments. -/
def read_owned_files : Nat → List Char → Option (List FileData_t × List Char)
  | 0, inp => some ([], inp)
  | n + 1, inp =>
    match fgets BUFF_SIZE inp with
    | none => none
    | some (line, rest) =>
      match strtok line ' ' with
      | none => none
      | some (parsed_file_name, after) =>
        match strtok after NEWLINE with
        | none => none
        | some (parsed_segment_count, _) =>
          let local_segment_count := atoi parsed_segment_count
          if local_segment_count < 0 ∨ local_segment_count > (MAX_CHUNKS : Int) then none
          else
            match read_segments local_segment_count.toNat rest with
            | none => none
            | some (segs, rest1) =>
              match read_owned_files n rest1 with
              | none => none
              | some (files, rest2) =>
                some ({ file_name := parsed_file_name,
                        file_id := file_id_of_name parsed_file_name,
                        segments := segs } :: files, rest2)

/-- The loop over the wanted file names (peer.c 201-216). -/
def read_wanted_files : Nat → List Char → Option (List FileName_t × List Char)
  | 0, inp => some ([], inp)
  | n + 1, inp =>
    match fgets BUFF_SIZE inp with
    | none => none
    | some (line, rest) =>
      match read_wanted_files n rest with
      | none => none
      | some (names, rest1) =>
        some ({ file_name := strncpy (trim_newline line) (MAX_FILENAME - 1) } :: names,
          rest1)

/-- The function `read_from_file` (peer.c 99-237) on the content of
`in<rank>.txt`. The result is `none` when the program aborts; a negative
count, which the cast to `size_t` turns into an allocation that cannot
succeed, aborts as well. The arrays `owned_files` and `wanted_files` are
NULL exactly when the count read for them is zero, and the kind is decided
on these pointers. -/
def read_from_file (content : List Char) (rank : Int) : Option ClientFiles_t :=
  match fgets BUFF_SIZE content with
  | none => none
  | some (line1, rest1) =>
    let owned_files_count := atoi line1
    if owned_files_count < 0 then none
    else
      let owned_is_null : Bool := decide (owned_files_count = 0)
      match read_owned_files owned_files_count.toNat rest1 with
      | none => none
      | some (owned_files, rest2) =>
        match fgets BUFF_SIZE rest2 with
        | none => none
        | some (line2, rest3) =>
          let wanted_files_count := atoi line2
          if wanted_files_count < 0 then none
          else
            let wanted_is_null : Bool := decide (wanted_files_count = 0)
            match read_wanted_files wanted_files_count.toNat rest3 with
            | none => none
            | some (wanted_files, _) =>
              some
                { client_rank := rank,
                  owned_files := owned_files,
                  wanted_files := wanted_files,
                  peers := List.replicate wanted_files_count.toNat
                    { peers_array := [], peers_count := 0 },
                  client_type :=
                    if !owned_is_null && !wanted_is_null then Client_Type_t.PEER
                    else if !owned_is_null && wanted_is_null then Client_Type_t.SEEDER
                    else Client_Type_t.LEECHER }

/-- Text of a file made of the given lines, each ended by a newline. -/
def text_of_lines (ls : List String) : List Char :=
  ls.flatMap (fun l => l.toList ++ [NEWLINE])

/-- An input manifest: `file1` owned with two chunks, `file2` wanted. -/
def sample_manifest : List Char :=
  text_of_lines
    ["1", "file1 2", "aaaaaaaaaaaaaaaaaaaaaaaaaaaaaaaa",
     "bbbbbbbbbbbbbbbbbbbbbbbbbbbbbbbb", "1", "file2"]

/-! ## download.c -/

/-- The function `file_is_owned` (download.c 197-204). -/
def file_is_owned (client : ClientFiles_t) (file_id : Int) : Bool :=
  client.owned_files.any (fun fd => decide (fd.file_id = file_id))

/-- The function `add_file_to_owned` (download.c 208-226): a new entry
named `file<id>` with zero segments is added at the end. -/
def add_file_to_owned (client : ClientFiles_t) (file_id : Int) : ClientFiles_t :=
  { client with
    owned_files := client.owned_files ++
      [{ file_name := snprintf_file MAX_FILENAME file_id,
         file_id := file_id,
         segments := [] }] }

/-- The function `add_segment_to_file_data` (download.c 230-239): the
returned flag and the manifest afterwards. -/
def add_segment_to_file_data (data : FileData_t) (seg : FileSegment_t) :
    Bool × FileData_t :=
  if data.segments.length ≥ MAX_CHUNKS then (false, data)
  else
    (true,
      { data with segments := data.segments ++ [{ hash := strncpy seg.hash HASH_SIZE }] })

/-- The function `has_segment` (download.c 243-250). -/
def has_segment (data : FileData_t) (seg : FileSegment_t) : Bool :=
  data.segments.any (fun s => decide (s.hash = seg.hash))

/-- Content of the file that `write_to_file` (download.c 265-285) writes:
each hash followed by a newline. -/
def write_to_file (data : FileData_t) : CStr :=
  data.segments.flatMap (fun s => s.hash ++ [NEWLINE])

/-! ## tema2.c: the downloader -/

/-- What the downloader receives: the value of the n-th call of `rand`, the
string in `buffer` after the n-th receive of an ACK from a peer, and after
the n-th receive of an ACK from the tracker. -/
structure DownloadEnv where
  rand : Nat → Nat
  peer_ack : Nat → CStr
  tracker_ack : Nat → CStr

/-- Local variables of `download_thread_func` with the client structure, the
number of values taken from each input so far, and the actions so far. -/
structure DownloadState where
  client : ClientFiles_t
  downloaded_segments : Int
  current_file_idx : Nat
  continue_downloading : Bool
  rand_calls : Nat
  peer_acks : Nat
  tracker_acks : Nat
  trace : List Event

/-- Variables that the loop over the segments of the selected peer
changes. -/
structure SegmentLoopState where
  data : FileData_t
  downloaded_segments : Int
  segment_downloaded : Bool
  peer_acks : Nat
  trace : List Event

/-- The request for a segment (tema2.c 55): `HASH_SIZE - 1` characters of
the hash on the REQUEST tag. -/
def request_msg (peer_rank : Int) (segment : FileSegment_t) : Event :=
  Event.send peer_rank REQUEST_TAG
    (Payload.chars (HASH_SIZE - 1) (segment.hash.take (HASH_SIZE - 1)))

/-- The loop over the segments of the selected peer (tema2.c 50-76), on the
segments from index `segment_count` of the current file on. -/
def segment_loop (env : DownloadEnv) (peer_rank : Int) :
    List FileSegment_t → SegmentLoopState → SegmentLoopState
  | [], s => s
  | segment :: rest, s =>
    if !has_segment s.data segment then
      let reply := env.peer_ack s.peer_acks
      let s1 : SegmentLoopState :=
        { s with
          peer_acks := s.peer_acks + 1,
          trace := s.trace ++
            [request_msg peer_rank segment,
             Event.recv peer_rank ACK_TAG (Payload.chars BUFF_SIZE reply)] }
      if reply = OK then
        let added := add_segment_to_file_data s1.data segment
        { s1 with
          data := added.2,
          downloaded_segments := s1.downloaded_segments + 1,
          segment_downloaded := true,
          trace :=
            if added.1 then
              s1.trace ++ [Event.store s1.data.file_id (strncpy segment.hash HASH_SIZE)]
            else s1.trace }
      else segment_loop env peer_rank rest s1
    else segment_loop env peer_rank rest s

/-- Index at which the loops that send the latest hashes start
(tema2.c 89 and 115): `segment_count - 10` computed in `size_t`. -/
def report_start (segment_count : Nat) : Nat :=
  (segment_count + SIZE_T_MOD - 10) % SIZE_T_MOD

/-- Hashes sent by the loops at tema2.c 89-94 and 115-120: those at the
indexes `i` from `report_start` on with `i < segment_count`. -/
def report_hashes (data : FileData_t) : List CStr :=
  (data.segments.drop (report_start data.segments.length)).map (fun s => s.hash)

/-- One hash message of a report. -/
def hash_msg (h : CStr) : Event :=
  Event.send TRACKER_RANK INFORM_TAG (Payload.chars HASH_SIZE h)

/-- A verb sent to the tracker on the INFORM tag with the given count. -/
def inform_msg (count : Nat) (verb : CStr) : Event :=
  Event.send TRACKER_RANK INFORM_TAG (Payload.chars count verb)

/-- The messages of a report: the verb, the file id, the hashes. -/
def report_msgs (verb : CStr) (data : FileData_t) : List Event :=
  [inform_msg 8 verb, Event.send TRACKER_RANK INFORM_TAG (Payload.int data.file_id)]
    ++ (report_hashes data).map hash_msg

/-- The name built by `sprintf(output_file_name, "client%d_file%d", ...)`. -/
def output_file_name (client_rank : Int) (file_id : Int) : CStr :=
  "client".toList ++ fmt_d client_rank ++ "_file".toList ++ fmt_d file_id

/-- The branch taken when no segment was downloaded from the selected peer
(tema2.c 79-104). -/
def complete_file (s : DownloadState) (data : FileData_t) (file_id : Int) :
    DownloadState :=
  let s1 : DownloadState :=
    if s.downloaded_segments > 0 then
      { s with
        trace := s.trace ++ report_msgs DOWN_X data,
        downloaded_segments := 0 }
    else s
  { s1 with
    trace := s1.trace ++
      [Event.write_file (output_file_name s1.client.client_rank file_id)
        (write_to_file data)],
    current_file_idx := s1.current_file_idx + 1 }

/-- The periodic report (tema2.c 107-139). -/
def report_progress (env : DownloadEnv) (s : DownloadState) (data : FileData_t) :
    DownloadState :=
  if s.downloaded_segments > 0 ∧ s.downloaded_segments % 10 = 0 then
    { s with
      trace := s.trace ++ report_msgs DOWN_10 data ++
        [inform_msg 11 GIVE_PEERS,
         Event.recv TRACKER_RANK ACK_TAG
           (Payload.chars BUFF_SIZE (env.tracker_ack s.tracker_acks))],
      downloaded_segments := 0,
      tracker_acks := s.tracker_acks + 1 }
  else s

/-- The choice of the peer (tema2.c 33). -/
def select_peer (env : DownloadEnv) (s : DownloadState) (available_peers : Int) : Int :=
  if available_peers > 1 then (env.rand s.rand_calls : Int) % available_peers else 0

/-- The owned files after tema2.c 42-44: the file is added when it is not
owned. -/
def ensure_owned (client : ClientFiles_t) (file_id : Int) : ClientFiles_t :=
  if !file_is_owned client file_id then add_file_to_owned client file_id else client

/-- The end of a pass (tema2.c 78-139), after the loop over the segments has
left `inner`; `di` is the index of the entry `current_file_data` points
to. -/
def finish_pass (env : DownloadEnv) (s : DownloadState) (di : Nat)
    (inner : SegmentLoopState) (file_id : Int) : DownloadState :=
  let s2 : DownloadState :=
    { s with
      client := { s.client with owned_files := s.client.owned_files.set di inner.data },
      downloaded_segments := inner.downloaded_segments,
      peer_acks := inner.peer_acks,
      trace := inner.trace }
  let s3 :=
    if !inner.segment_downloaded then complete_file s2 inner.data file_id else s2
  report_progress env s3 inner.data

/-- A pass from the lookup of `current_file_data` on (tema2.c 46-139). The
result is `none` when the assertion `current_file_data != NULL` fails. -/
def download_from_peer (env : DownloadEnv) (s : DownloadState)
    (selected_peer : PeerInfo_t) (file_id : Int) : Option DownloadState :=
  match find_file_data s.client.owned_files file_id with
  | none => none
  | some di =>
    match s.client.owned_files[di]? with
    | none => none
    | some current_file_data =>
      some (finish_pass env s di
        (segment_loop env selected_peer.peer_rank
          (selected_peer.segments.drop current_file_data.segments.length)
          { data := current_file_data,
            downloaded_segments := s.downloaded_segments,
            segment_downloaded := false,
            peer_acks := s.peer_acks,
            trace := s.trace })
        file_id)

/-- One pass of the body of the download loop (tema2.c 23-139). The result
is `none` when an array is read out of its bounds and when the assertion
`current_file_data != NULL` fails. -/
def download_iter (env : DownloadEnv) (s : DownloadState) : Option DownloadState :=
  match s.client.peers[s.current_file_idx]? with
  | none => none
  | some pl =>
    if pl.peers_count ≤ 0 then
      some { s with current_file_idx := s.current_file_idx + 1 }
    else
      match pl.peers_array[(select_peer env s pl.peers_count).toNat]?,
          s.client.wanted_files[s.current_file_idx]? with
      | some selected_peer, some wanted =>
        download_from_peer env
          { s with
            client := ensure_owned s.client (file_id_of_name wanted.file_name),
            rand_calls :=
              if pl.peers_count > 1 then s.rand_calls + 1 else s.rand_calls }
          selected_peer (file_id_of_name wanted.file_name)
      | _, _ => none

/-- The condition of the download loop (tema2.c 22). -/
def download_cond (s : DownloadState) : Bool :=
  s.continue_downloading && decide (s.current_file_idx < s.client.wanted_files.length)

/-- The download loop (tema2.c 22-140), for at most `fuel` passes. The
result is `none` when a pass has no result and when the loop has not been
left after `fuel` passes. -/
def download_loop (env : DownloadEnv) : Nat → DownloadState → Option DownloadState
  | 0, s => if download_cond s then none else some s
  | fuel + 1, s =>
    if download_cond s then
      match download_iter env s with
      | none => none
      | some s1 => download_loop env fuel s1
    else some s

/-- The local variables at the start of the download loop. -/
def download_init (client : ClientFiles_t) : DownloadState :=
  { client := client,
    downloaded_segments := 0,
    current_file_idx := 0,
    continue_downloading := true,
    rand_calls := 0,
    peer_acks := 0,
    tracker_acks := 0,
    trace := [] }

/-- The final message of the downloader (tema2.c 143). -/
def finished_inform : Event :=
  inform_msg 18 FINISHED_DOWN_ALL

/-- The function `download_thread_func` (tema2.c 6-149) after its call of
`request_seeders_peers_list`: `client` holds the peer tables received from
the tracker. -/
def download_thread_func (env : DownloadEnv) (fuel : Nat) (client : ClientFiles_t) :
    Option DownloadState :=
  (download_loop env fuel (download_init client)).map
    (fun s => { s with trace := s.trace ++ [finished_inform] })

/-- The state after `n` passes of the download loop, each entered with the
loop condition true. -/
def download_steps (env : DownloadEnv) : Nat → DownloadState → Option DownloadState
  | 0, s => some s
  | n + 1, s =>
    if download_cond s then
      match download_iter env s with
      | none => none
      | some s1 => download_steps env n s1
    else none

/-- Manifest of the file with the given id among the owned files: the
hashes of the entry that `find_file_data` returns. -/
def owned_manifest (client : ClientFiles_t) (file_id : Int) : Option (List CStr) :=
  match find_file_data client.owned_files file_id with
  | none => none
  | some di => (client.owned_files[di]?).map (fun fd => fd.segments.map (fun s => s.hash))

/-- The segment requests among the actions. -/
def requests_of (trace : List Event) : List Event :=
  trace.filter
    (fun e =>
      match e with
      | Event.send _ tag _ => decide (tag = REQUEST_TAG)
      | _ => false)

/-- Inputs under which every request is answered `OK` and every random
value is the given one. -/
def env_ok (r : Nat → Nat) : DownloadEnv :=
  { rand := r, peer_ack := fun _ => OK, tracker_ack := fun _ => OK }

/-- A client of rank `rank` that owns nothing, wants `file1` and has
received the given peer table for it. -/
def leecher_client (rank : Int) (peers : List PeerInfo_t) : ClientFiles_t :=
  { client_rank := rank,
    owned_files := [],
    wanted_files := [{ file_name := "file1".toList }],
    peers := [{ peers_array := peers, peers_count := (peers.length : Int) }],
    client_type := Client_Type_t.LEECHER }

/-- The peer table entry of a peer of the given rank that advertises the
given hashes of file 1. -/
def peer_of (rank : Int) (hashes : List CStr) : PeerInfo_t :=
  { file_id := 1, peer_rank := rank, segments := hashes.map (fun h => { hash := h }) }

/-- The segments with the given hashes. -/
def segments_of (hashes : List CStr) : List FileSegment_t :=
  hashes.map (fun h => { hash := h })

/-- The entry that `find_file_data` returns for file `fid` holds the first
`k` hashes of `L`. -/
def holds_first (client : ClientFiles_t) (fid : Int) (L : List CStr) (k : Nat) : Prop :=
  ∃ di fd, find_file_data client.owned_files fid = some di ∧
    client.owned_files[di]? = some fd ∧ fd.file_id = fid ∧
    fd.segments = segments_of (L.take k)

/-- Three 32-character hashes, made of the letters `A`, `B` and `C`. -/
def hashes_abc : List CStr :=
  [List.replicate 32 'A', List.replicate 32 'B', List.replicate 32 'C']

/-- The messages sent to the tracker on the INFORM tag among the actions. -/
def informs_of (trace : List Event) : List Event :=
  trace.filter
    (fun e =>
      match e with
      | Event.send dest tag _ => decide (dest = TRACKER_RANK) && decide (tag = INFORM_TAG)
      | _ => false)

/-- Five 32-character hashes, made of the letters `A` to `E`. -/
def hashes_abcde : List CStr :=
  [List.replicate 32 'A', List.replicate 32 'B', List.replicate 32 'C',
   List.replicate 32 'D', List.replicate 32 'E']

/-- A client of rank `rank` that owns nothing and wants `file1`, with a peer
table of two entries: the peer `r1` advertises the first three hashes of
`L`, the peer `r2` advertises `L`. -/
def two_peer_client (rank r1 r2 : Int) (L : List CStr) : ClientFiles_t :=
  leecher_client rank [peer_of r1 (L.take 3), peer_of r2 L]

/-- State of the download loop of `two_peer_client` at the start of a pass:
the first `k` hashes of `L` are held once the file has been added, and `c`
random values have been taken. -/
def two_peer_inv (rank r1 r2 : Int) (L : List CStr) (s : DownloadState) (k c : Nat) :
    Prop :=
  s.client.wanted_files = (two_peer_client rank r1 r2 L).wanted_files ∧
  s.client.peers = (two_peer_client rank r1 r2 L).peers ∧
  s.current_file_idx = 0 ∧ s.continue_downloading = true ∧ s.rand_calls = c ∧
  holds_first (ensure_owned s.client 1) 1 L k

/-- Effect of one action on the list of the hashes stored since the last
report: a stored hash is added at the end, the verb of a report (`DOWN_10`
or `DOWN_X`, sent with count 8 on the INFORM tag) empties the list. -/
def pending_step (acc : List CStr) (e : Event) : List CStr :=
  match e with
  | Event.store _ h => acc ++ [h]
  | Event.send _ tag (Payload.chars count v) =>
    if tag = INFORM_TAG ∧ count = 8 ∧ (v = DOWN_10 ∨ v = DOWN_X) then [] else acc
  | _ => acc

/-- The hashes stored since the last report, in the order in which they
were stored. -/
def pending (trace : List Event) : List CStr :=
  trace.foldl pending_step []

/-- A request to a peer or a completed receive. -/
def is_exchange (e : Event) : Bool :=
  match e with
  | Event.send _ tag _ => decide (tag = REQUEST_TAG)
  | Event.recv _ _ _ => true
  | _ => false

/-- The peer tables as `receive_and_store_swarm_info` builds them: one table
per wanted file, a positive count is the length of the array, and no peer
advertises more than `MAX_CHUNKS` segments. -/
def wf_client (client : ClientFiles_t) : Prop :=
  client.peers.length = client.wanted_files.length ∧
  ∀ pl ∈ client.peers,
    (pl.peers_count ≤ 0 ∨ pl.peers_count = (pl.peers_array.length : Int)) ∧
    ∀ p ∈ pl.peers_array, p.segments.length ≤ MAX_CHUNKS

/-- The entry of the current wanted file among the owned files. -/
def cur_entry (s : DownloadState) : Option FileData_t :=
  match s.client.wanted_files[s.current_file_idx]? with
  | none => none
  | some w =>
    match find_file_data s.client.owned_files (file_id_of_name w.file_name) with
    | none => none
    | some di => s.client.owned_files[di]?

/-- Number of segments held of the current wanted file. -/
def cur_len (s : DownloadState) : Nat :=
  match cur_entry s with
  | some fd => fd.segments.length
  | none => 0

/-- Bound on the number of passes of the download loop still to come. -/
def download_measure (s : DownloadState) : Nat :=
  if s.current_file_idx < s.client.wanted_files.length then
    (s.client.wanted_files.length - s.current_file_idx - 1) * (MAX_CHUNKS + 1)
      + (MAX_CHUNKS - cur_len s) + 1
  else 0

/-- What holds at the start of every pass of the download loop: the counter
`downloaded_segments` is the number of hashes stored since the last report,
it is at most 9, and these hashes are the end of the manifest of the current
wanted file. -/
def download_inv (s : DownloadState) : Prop :=
  wf_client s.client ∧ s.continue_downloading = true ∧
  s.downloaded_segments = ((pending s.trace).length : Int) ∧
  (pending s.trace).length ≤ 9 ∧
  (pending s.trace ≠ [] →
    (∃ pl, s.client.peers[s.current_file_idx]? = some pl ∧ 0 < pl.peers_count) ∧
    ∃ fd base, cur_entry s = some fd ∧
      fd.segments.map (fun x => x.hash) = base ++ pending s.trace)

/-- The messages of a `DOWN_10` report with what follows it (tema2.c
108-131): the verb, the file id, the hashes, `GIVE_PEERS`, and the receive of
the ACK of the tracker. -/
def down_10_block (file_id : Int) (hashes : List CStr) (ack : CStr) : List Event :=
  [inform_msg 8 DOWN_10, Event.send TRACKER_RANK INFORM_TAG (Payload.int file_id)]
    ++ hashes.map hash_msg
    ++ [inform_msg 11 GIVE_PEERS,
        Event.recv TRACKER_RANK ACK_TAG (Payload.chars BUFF_SIZE ack)]

/-- What one pass of the download loop from `s` to `s1` does, `pre` being
the actions of the pass before the periodic report: the property
`download_inv` holds again, the bound on the passes to come decreases, `pre`
holds neither a `DOWN_10` nor the final message, at most ten hashes are
stored since the last report; when they are fewer than ten nothing follows
`pre`, and when they are ten, `pre` is followed by the `DOWN_10` block whose
hashes are these ten, the last ten of the manifest of the current file. -/
def pass_ok (env : DownloadEnv) (s s1 : DownloadState) (pre : List Event) : Prop :=
  download_inv s1 ∧
  s1.client.wanted_files = s.client.wanted_files ∧
  download_measure s1 < download_measure s ∧
  (∀ e ∈ pre, e ≠ inform_msg 8 DOWN_10 ∧ e ≠ finished_inform) ∧
  (pending (s.trace ++ pre)).length ≤ 10 ∧
  ((pending (s.trace ++ pre)).length ≠ 10 → s1.trace = s.trace ++ pre) ∧
  ((pending (s.trace ++ pre)).length = 10 →
    ∃ fd w, cur_entry s1 = some fd ∧ s1.current_file_idx = s.current_file_idx ∧
      s.client.wanted_files[s.current_file_idx]? = some w ∧
      fd.file_id = file_id_of_name w.file_name ∧
      (fd.segments.map (fun x => x.hash)).drop (fd.segments.length - 10) =
        pending (s.trace ++ pre) ∧
      s1.trace = s.trace ++ pre ++
        down_10_block fd.file_id (pending (s.trace ++ pre))
          (env.tracker_ack s.tracker_acks))

/-- Twelve distinct hashes of one letter each, `A` to `L`. -/
def hashes_twelve : List CStr :=
  (List.range 12).map (fun i => [Char.ofNat (65 + i)])

/-- An INFORM message whose verb is none of those the tracker knows. -/
def unknown_msg (r : Int) : InformMsg :=
  { source := r, buffer := "HELLO".toList, file_id := 0, hashes := fun _ => [] }

/-- Registry with a PEER (rank 1) that holds `file1` with one chunk, a
LEECHER (rank 2) and a SEEDER (rank 3) that holds `file1` with two chunks. -/
def three_kinds_registry : TrackerDataSet_t :=
  create_file_swarms
    { data :=
        [{ rank := 1,
           files := [{ file_name := "file1".toList, file_id := 1,
                       segments := [{ hash := List.replicate 32 'a' }] }],
           client_type := Client_Type_t.PEER },
         { rank := 2, files := [], client_type := Client_Type_t.LEECHER },
         { rank := 3,
           files := [{ file_name := "file1".toList, file_id := 1,
                       segments := [{ hash := List.replicate 32 'a' },
                                    { hash := List.replicate 32 'b' }] }],
           client_type := Client_Type_t.SEEDER }],
      swarms := [],
      swarm_size := 1 }
    4

/-! ## tema2.c: the uploader -/

/-- One message taken by the `MPI_Recv` of the upload loop (tema2.c 158):
the sender and the string in `buffer`. -/
structure RequestMsg where
  source : Int
  buffer : CStr
  deriving DecidableEq, Repr

/-- One pass of the body of the upload loop (tema2.c 156-173): whether the
loop goes on, and the messages sent. -/
def upload_step (msg : RequestMsg) : Bool × List Event :=
  if msg.buffer = STOP_UPLOADING then (false, [])
  else (true, [Event.send msg.source ACK_TAG (Payload.chars 2 OK)])

/-- The function `upload_thread_func` (tema2.c 151-176) on the messages that
arrive on the REQUEST tag, in order of arrival: whether the function has
returned, and the messages sent. When the messages are used up the thread
waits in `MPI_Recv`. The argument of the C function is not read (it is
NULL), so the owned files are not an input. -/
def upload_thread_func : List RequestMsg → Bool × List Event
  | [] => (false, [])
  | msg :: rest =>
    if (upload_step msg).1 then
      ((upload_thread_func rest).1, (upload_step msg).2 ++ (upload_thread_func rest).2)
    else (true, (upload_step msg).2)

/-- The manifest of file `f` among the owned files, empty when there is no
entry. -/
def manifest_or_nil (client : ClientFiles_t) (f : Int) : List CStr :=
  (owned_manifest client f).getD []

/-- A PEER of rank 3 that holds the first two of `hashes_abc` of `file1` and
wants `file1`; the peer of rank 2 advertises these two hashes. -/
def idle_peer_client : ClientFiles_t :=
  { client_rank := 3,
    owned_files := [{ file_name := "file1".toList, file_id := 1,
                      segments := segments_of (hashes_abc.take 2) }],
    wanted_files := [{ file_name := "file1".toList }],
    peers := [{ peers_array := [peer_of 2 (hashes_abc.take 2)], peers_count := 1 }],
    client_type := Client_Type_t.PEER }

/-- A LEECHER of rank 1 that wants `file1` and has received an empty peer
table for it. -/
def no_peer_client : ClientFiles_t :=
  { client_rank := 1,
    owned_files := [],
    wanted_files := [{ file_name := "file1".toList }],
    peers := [{ peers_array := [], peers_count := 0 }],
    client_type := Client_Type_t.LEECHER }

/-- Manifest of file `f` in a list of entries: the hashes of the entry that
`find_file_data` returns, `none` when there is no entry. -/
def files_manifest (files : List FileData_t) (f : Int) : Option (List CStr) :=
  match find_file_data files f with
  | none => none
  | some idx => (files[idx]?).map (fun fd => fd.segments.map (fun s => s.hash))

/-- The hash of chunk `i`: thirty times `x` and the two decimal digits of
`i`. -/
def hash_no (i : Nat) : CStr :=
  List.replicate 30 'x' ++ [Char.ofNat (48 + i / 10), Char.ofNat (48 + i % 10)]

/-- The hashes of the chunks `0 .. n - 1`. -/
def chunk_hashes (n : Nat) : List CStr :=
  (List.range n).map hash_no

/-- A PEER of rank 1 that holds the first 95 of the 100 chunks of `file1`
and wants the file; the SEEDER of rank 2 advertises the 100 chunks. -/
def nearly_full_client : ClientFiles_t :=
  { client_rank := 1,
    owned_files := [{ file_name := "file1".toList, file_id := 1,
                      segments := segments_of (chunk_hashes 95) }],
    wanted_files := [{ file_name := "file1".toList }],
    peers := [{ peers_array := [peer_of 2 (chunk_hashes 100)], peers_count := 1 }],
    client_type := Client_Type_t.PEER }

/-- Registry after the intake of `nearly_full_client` (rank 1) and of the
SEEDER of rank 2 that holds the 100 chunks of `file1`. -/
def nearly_full_registry : TrackerDataSet_t :=
  create_file_swarms
    { data :=
        [{ rank := 1,
           files := [{ file_name := "file1".toList, file_id := 1,
                       segments := segments_of (chunk_hashes 95) }],
           client_type := Client_Type_t.PEER },
         { rank := 2,
           files := [{ file_name := "file1".toList, file_id := 1,
                       segments := segments_of (chunk_hashes 100) }],
           client_type := Client_Type_t.SEEDER }],
      swarms := [],
      swarm_size := 1 }
    3

/-- The ten buffers of the report of `nearly_full_client`: the hashes of
the chunks 90 to 99. -/
def last_ten_buffers : Fin 10 → CStr :=
  fun i => hash_no (90 + i.val)

/-! ## peer.c and tracker.c: the intake -/

/-- Value of a kind as an `int` (utils.h 33-37). -/
def client_type_code : Client_Type_t → Int
  | Client_Type_t.SEEDER => 0
  | Client_Type_t.PEER => 1
  | Client_Type_t.LEECHER => 2

/-- The kind with the given value, `none` for a value outside the
enumeration. -/
def client_type_of_code (v : Int) : Option Client_Type_t :=
  if v = 0 then some Client_Type_t.SEEDER
  else if v = 1 then some Client_Type_t.PEER
  else if v = 2 then some Client_Type_t.LEECHER
  else none

/-- The message that carries one hash of an owned file (peer.c 58-63). -/
def send_hash (s : FileSegment_t) : Event :=
  Event.send TRACKER_RANK HASH_TAG (Payload.chars HASH_SIZE s.hash)

/-- The messages of one owned file (peer.c 40-66): the name, the segment
count, the hashes. -/
def send_file_data (fd : FileData_t) : List Event :=
  [Event.send TRACKER_RANK HASH_TAG (Payload.chars MAX_FILENAME fd.file_name),
   Event.send TRACKER_RANK HASH_TAG (Payload.int (fd.segments.length : Int))]
    ++ fd.segments.map send_hash

/-- The function `send_data_to_tracker` (peer.c 19-67): the messages sent,
in order. -/
def send_data_to_tracker (client : ClientFiles_t) : List Event :=
  [Event.send TRACKER_RANK HASH_TAG (Payload.int (client.owned_files.length : Int)),
   Event.send TRACKER_RANK CLIENT_TYPE_TAG
     (Payload.int (client_type_code client.client_type))]
    ++ client.owned_files.flatMap send_file_data

/-- The payloads of the messages sent to the tracker with the given tag, in
the order in which they were sent. -/
def payloads_on (tag : Nat) (sent : List Event) : List Payload :=
  sent.filterMap
    (fun e =>
      match e with
      | Event.send dest t p => if dest = TRACKER_RANK ∧ t = tag then some p else none
      | _ => none)

/-- Messages of one rank that wait at the tracker during the intake, by
tag; messages of one sender with one tag are received in the order sent. -/
structure Inbox where
  hash_tag : List Payload
  type_tag : List Payload

/-- The inbox filled by the given sends. -/
def inbox_of (sent : List Event) : Inbox :=
  { hash_tag := payloads_on HASH_TAG sent, type_tag := payloads_on CLIENT_TYPE_TAG sent }

/-- A receive of one integer: the value and the messages left; `none` when
no message waits (the receive never completes) or the message is not an
integer. -/
def recv_int : List Payload → Option (Int × List Payload)
  | Payload.int v :: rest => some (v, rest)
  | _ => none

/-- A receive of at most `count` characters into a zeroed buffer: the string
the buffer holds afterwards and the messages left; `none` when no message
waits, the message is longer than `count`, or it is not made of
characters. -/
def recv_chars (count : Nat) : List Payload → Option (CStr × List Payload)
  | Payload.chars c s :: rest => if c ≤ count then some (s.take c, rest) else none
  | _ => none

/-- The loop that receives the hashes of one file (tracker.c 217-222). -/
def recv_segments : Nat → List Payload → Option (List FileSegment_t × List Payload)
  | 0, q => some ([], q)
  | k + 1, q =>
    match recv_chars HASH_SIZE q with
    | none => none
    | some (h, q1) =>
      match recv_segments k q1 with
      | none => none
      | some (segs, q2) => some ({ hash := h } :: segs, q2)

/-- The loop that receives the files of one client (tracker.c 189-223),
with the running value of `max_file_id`. The result is `none` when a
receive has no result and when the segment count does not fit the array of
`MAX_CHUNKS` segments. -/
def recv_files : Nat → Int → List Payload →
    Option (List FileData_t × Int × List Payload)
  | 0, max_file_id, q => some ([], max_file_id, q)
  | j + 1, max_file_id, q =>
    match recv_chars MAX_FILENAME q with
    | none => none
    | some (temp_name, q1) =>
      match recv_int q1 with
      | none => none
      | some (segment_count, q2) =>
        if segment_count < 0 ∨ segment_count > (MAX_CHUNKS : Int) then none
        else
          match recv_segments segment_count.toNat q2 with
          | none => none
          | some (segs, q3) =>
            match recv_files j
                (if max_file_id > file_id_of_name temp_name then max_file_id
                  else file_id_of_name temp_name) q3 with
            | none => none
            | some (files, max1, q4) =>
              some ({ file_name := strncpy temp_name (MAX_FILENAME - 1),
                      file_id := file_id_of_name temp_name,
                      segments := segs } :: files, max1, q4)

/-- One pass of the loop over the clients in `receive_data_from_clients`
(tracker.c 157-224): the inventory slot of rank `rank` and the new value of
`max_file_id`. A negative count makes the allocation of the file array
fail, and the slot is left without files, as for a count of zero. -/
def recv_client (rank : Int) (inbox : Inbox) (max_file_id : Int) :
    Option (TrackerData_t × Int) :=
  match recv_int inbox.hash_tag with
  | none => none
  | some (owned_files_count, q1) =>
    match recv_int inbox.type_tag with
    | none => none
    | some (code, _) =>
      match client_type_of_code code with
      | none => none
      | some client_type =>
        if owned_files_count ≤ 0 then
          some ({ rank := rank, files := [], client_type := client_type }, max_file_id)
        else
          match recv_files owned_files_count.toNat max_file_id q1 with
          | none => none
          | some (files, max1, _) =>
            some ({ rank := rank, files := files, client_type := client_type }, max1)

/-- The loop over the clients in `receive_data_from_clients`, for `n`
clients from rank `rank` on. -/
def recv_clients_from (inbox : Int → Inbox) :
    Int → Nat → Int → Option (List TrackerData_t × Int)
  | _, 0, max_file_id => some ([], max_file_id)
  | rank, n + 1, max_file_id =>
    match recv_client rank (inbox rank) max_file_id with
    | none => none
    | some (cd, max1) =>
      match recv_clients_from inbox (rank + 1) n max1 with
      | none => none
      | some (cds, max2) => some (cd :: cds, max2)

/-- The message `OK` of two characters to the rank `i + 1` on the ACK tag
(tracker.c 237). -/
def ok_msg (i : Nat) : Event :=
  Event.send ((i : Int) + 1) ACK_TAG (Payload.chars 2 OK)

/-- The loop that notifies the clients (tracker.c 236-240). -/
def ok_broadcast (numtasks : Int) : List Event :=
  (List.range (numtasks - 1).toNat).map ok_msg

/-- The function `receive_data_from_clients` (tracker.c 145-241): the
registry and the messages sent; `inbox rank` holds what rank `rank` has
sent. The result is `none` when a receive has no result. -/
def receive_data_from_clients (numtasks : Int) (inbox : Int → Inbox) :
    Option (TrackerDataSet_t × List Event) :=
  match recv_clients_from inbox 1 (numtasks - 1).toNat 0 with
  | none => none
  | some (data, max_file_id) =>
    if max_file_id = 0 then
      some ({ data := data, swarms := [], swarm_size := max_file_id }, [])
    else
      some (create_file_swarms
          { data := data, swarms := [], swarm_size := max_file_id } numtasks,
        ok_broadcast numtasks)

/-- What the tracker finds from each rank when the clients `clients` (rank
`i + 1` is `clients[i]`) have each called `send_data_to_tracker`. -/
def intake_inbox (clients : List ClientFiles_t) (rank : Int) : Inbox :=
  if rank < 1 then { hash_tag := [], type_tag := [] }
  else
    match clients[(rank - 1).toNat]? with
    | some c => inbox_of (send_data_to_tracker c)
    | none => { hash_tag := [], type_tag := [] }

/-- One query taken by the receives of `send_peers_to_clients`
(tracker.c 18-41): the sender, the value received as its kind, and the file
ids it wants (`wanted_file_count` is the length of the list). -/
structure PeersQuery where
  source : Int
  client_type : Int
  files_id : List Int
  deriving DecidableEq, Repr

/-- The messages that describe one member of a swarm (tracker.c 70-92): the
segment count, the rank, the hashes. A member without an inventory slot,
which `create_file_swarms` never lists, and a member without an entry for
the file are skipped. -/
def peer_entry (m : TrackerDataSet_t) (client_rank : Int) (wanted_swarm_id : Int)
    (peer_rank : Int) : List Event :=
  if peer_rank < 1 then []
  else
    match m.data[(peer_rank - 1).toNat]? with
    | none => []
    | some peer_data =>
      match find_file_data peer_data.files wanted_swarm_id with
      | none => []
      | some idx =>
        match peer_data.files[idx]? with
        | none => []
        | some peer_file =>
          [Event.send client_rank PEERS_SEEDERS_TRANSFER_TAG
             (Payload.int (peer_file.segments.length : Int)),
           Event.send client_rank PEERS_SEEDERS_TRANSFER_TAG (Payload.int peer_rank)]
            ++ peer_file.segments.map
              (fun s => Event.send client_rank HASH_TAG (Payload.chars HASH_SIZE s.hash))

/-- One pass of the loop over the wanted files (tracker.c 48-94): nothing is
sent for an invalid id, otherwise the size of the swarm, its ranks, and the
description of each member. -/
def swarm_reply (m : TrackerDataSet_t) (client_rank : Int) (wanted_swarm_id : Int) :
    List Event :=
  if wanted_swarm_id ≤ 0 ∨ wanted_swarm_id > m.swarm_size then []
  else
    match m.swarms[(wanted_swarm_id - 1).toNat]? with
    | none => []
    | some current_swarm =>
      [Event.send client_rank PEERS_SEEDERS_TRANSFER_TAG
         (Payload.int (current_swarm.clients_in_swarm.length : Int)),
       Event.send client_rank PEERS_SEEDERS_TRANSFER_TAG
         (Payload.ints current_swarm.clients_in_swarm)]
        ++ current_swarm.clients_in_swarm.flatMap
          (peer_entry m client_rank wanted_swarm_id)

/-- The body of the loop of `send_peers_to_clients` from the receive of the
kind on (tracker.c 23-97), for the query `q`: the registry with the kind of
the sender set to the value received, and the replies to the wanted ids.
The result is `none` when the sender has no slot or sends a value that is
not a kind. -/
def answer_query (m : TrackerDataSet_t) (q : PeersQuery) :
    Option (TrackerDataSet_t × List Event) :=
  if q.source < 1 then none
  else
    match m.data[(q.source - 1).toNat]?, client_type_of_code q.client_type with
    | some slot, some client_type =>
      some
        ({ m with
            data := m.data.set (q.source - 1).toNat
              { slot with client_type := client_type } },
          q.files_id.flatMap
            (swarm_reply
              { m with
                data := m.data.set (q.source - 1).toNat
                  { slot with client_type := client_type } }
              q.source))
    | _, _ => none

/-- One pass of the loop of `send_peers_to_clients` (tracker.c 11-98), for
the slot at index `i`: the registry, the messages sent and the queries not
taken. A SEEDER is skipped. The result is `none` when a slot that is not a
SEEDER finds no query (the receive never completes) and when a query has no
answer. -/
def send_peers_step (i : Nat) (m : TrackerDataSet_t) (qs : List PeersQuery)
    (sent : List Event) : Option (TrackerDataSet_t × List Event × List PeersQuery) :=
  match m.data[i]? with
  | none => none
  | some cd =>
    if cd.client_type = Client_Type_t.SEEDER then some (m, sent, qs)
    else
      match qs with
      | [] => none
      | q :: rest =>
        match answer_query m q with
        | none => none
        | some (m1, reply) => some (m1, sent ++ reply, rest)

/-- The loop of `send_peers_to_clients` (tracker.c 11-98) for `n` slots from
index `i` on. -/
def send_peers_loop : Nat → Nat → TrackerDataSet_t → List PeersQuery → List Event →
    Option (TrackerDataSet_t × List Event × List PeersQuery)
  | 0, _, m, qs, sent => some (m, sent, qs)
  | n + 1, i, m, qs, sent =>
    match send_peers_step i m qs sent with
    | none => none
    | some (m1, sent1, rest) => send_peers_loop n (i + 1) m1 rest sent1

/-- The function `send_peers_to_clients` (tracker.c 6-99) on the queries in
the order in which their first message is received. -/
def send_peers_to_clients (m : TrackerDataSet_t) (qs : List PeersQuery) :
    Option (TrackerDataSet_t × List Event × List PeersQuery) :=
  send_peers_loop m.data.length 0 m qs []

/-- The messages that describe the peer `r` with the hashes `hs` to the
client `q`. -/
def peer_block (q : Int) (r : Int) (hs : List CStr) : List Event :=
  [Event.send q PEERS_SEEDERS_TRANSFER_TAG (Payload.int (hs.length : Int)),
   Event.send q PEERS_SEEDERS_TRANSFER_TAG (Payload.int r)]
    ++ hs.map (fun h => Event.send q HASH_TAG (Payload.chars HASH_SIZE h))

/-- What `read_from_file` guarantees of the owned files: a name fits its
buffer, the id is computed from the name, the segments fit their array and a
hash has at most `HASH_SIZE` characters. -/
def owned_ok (client : ClientFiles_t) : Prop :=
  ∀ fd ∈ client.owned_files,
    fd.file_name.length < MAX_FILENAME ∧ fd.file_id = file_id_of_name fd.file_name ∧
    fd.segments.length ≤ MAX_CHUNKS ∧ ∀ s ∈ fd.segments, s.hash.length ≤ HASH_SIZE

/-- A client that owns nothing and wants `file1`. -/
def bare_leecher (rank : Int) : ClientFiles_t :=
  { client_rank := rank,
    owned_files := [],
    wanted_files := [{ file_name := "file1".toList }],
    peers := [{ peers_array := [], peers_count := 0 }],
    client_type := Client_Type_t.LEECHER }

/-- A SEEDER that owns the file with the given name, with the first two of
`hashes_abc`. -/
def seeder_of (rank : Int) (name : String) : ClientFiles_t :=
  { client_rank := rank,
    owned_files := [{ file_name := name.toList, file_id := file_id_of_name name.toList,
                      segments := segments_of (hashes_abc.take 2) }],
    wanted_files := [],
    peers := [],
    client_type := Client_Type_t.SEEDER }

/-- The payloads of the messages of one owned file. -/
def file_payloads (fd : FileData_t) : List Payload :=
  Payload.chars MAX_FILENAME fd.file_name :: Payload.int (fd.segments.length : Int) ::
    fd.segments.map (fun s => Payload.chars HASH_SIZE s.hash)

/-- The value of `max_file_id` after the files `files`, from the value
`max_file_id` on. -/
def max_id_fold (max_file_id : Int) (files : List FileData_t) : Int :=
  files.foldl (fun a fd => if a > fd.file_id then a else fd.file_id) max_file_id

/-- The inventory slot the intake builds for a client. -/
def slot_of (rank : Int) (c : ClientFiles_t) : TrackerData_t :=
  { rank := rank, files := c.owned_files, client_type := c.client_type }

/-- Two registries with the same file lists, swarms and swarm count. -/
def same_inventory (m m1 : TrackerDataSet_t) : Prop :=
  m1.data.map (fun cd => cd.files) = m.data.map (fun cd => cd.files) ∧
  m1.swarms = m.swarms ∧ m1.swarm_size = m.swarm_size

/-- The hashes stored in the manifest of file `f` among the actions, in the
order in which they were stored. -/
def stores_of (f : Int) (trace : List Event) : List CStr :=
  trace.filterMap
    (fun e =>
      match e with
      | Event.store fid h => if fid = f then some h else none
      | _ => none)

/-- A hash stored in a manifest. -/
def is_store (e : Event) : Bool :=
  match e with
  | Event.store _ _ => true
  | _ => false

/-- A completed receive of `OK` on the ACK tag from a rank other than the
tracker. -/
def is_peer_ok (e : Event) : Bool :=
  match e with
  | Event.recv src tag (Payload.chars _ v) =>
    decide (src ≠ TRACKER_RANK) && decide (tag = ACK_TAG) && decide (v = OK)
  | _ => false

/-- Every hash stored was contributed by a selected peer: the store comes
right after the request of a segment to a peer and the receive of `OK` from
that peer; the peer is in the table received for a wanted file whose id is
that of the manifest, it advertises the segment, and the hash stored is the
hash of the segment (its first `HASH_SIZE` characters). -/
def stores_justified (client : ClientFiles_t) (trace : List Event) : Prop :=
  ∀ (pre post : List Event) (fid : Int) (h : CStr),
    trace = pre ++ Event.store fid h :: post →
    ∃ (pre0 : List Event) (i : Nat) (w : FileName_t) (pl : PeersList_t)
        (peer : PeerInfo_t) (seg : FileSegment_t),
      pre = pre0 ++ [request_msg peer.peer_rank seg,
        Event.recv peer.peer_rank ACK_TAG (Payload.chars BUFF_SIZE OK)] ∧
      client.wanted_files[i]? = some w ∧ file_id_of_name w.file_name = fid ∧
      client.peers[i]? = some pl ∧ peer ∈ pl.peers_array ∧ seg ∈ peer.segments ∧
      h = strncpy seg.hash HASH_SIZE

/-- Every `OK` received from a peer is followed at once by the store of a
hash. -/
def acks_stored (trace : List Event) : Prop :=
  ∀ (pre post : List Event) (e : Event),
    trace = pre ++ e :: post → is_peer_ok e = true →
    ∃ (fid : Int) (h : CStr) (post1 : List Event), post = Event.store fid h :: post1

/-- What holds of the download loop of the client `c0` at the start of every
pass: the tables are those of `c0`, every manifest is the manifest `c0`
held followed by the hashes stored, and the stores and the acknowledgements
of the peers correspond. -/
def contrib_inv (c0 : ClientFiles_t) (s : DownloadState) : Prop :=
  wf_client s.client ∧ s.client.wanted_files = c0.wanted_files ∧
  s.client.peers = c0.peers ∧
  (∀ f : Int, manifest_or_nil s.client f = manifest_or_nil c0 f ++ stores_of f s.trace) ∧
  stores_justified c0 s.trace ∧ acks_stored s.trace

/-- A PEER of rank 3 that holds the first two of `hashes_abc` of `file1` and
wants `file1`; the peer of rank 2 advertises the three hashes. -/
def partial_owner_client : ClientFiles_t :=
  { client_rank := 3,
    owned_files := [{ file_name := "file1".toList, file_id := 1,
                      segments := segments_of (hashes_abc.take 2) }],
    wanted_files := [{ file_name := "file1".toList }],
    peers := [{ peers_array := [peer_of 2 hashes_abc], peers_count := 1 }],
    client_type := Client_Type_t.PEER }

/-! ## download.c: the swarm query of the client -/

/-- The function `send_wanted_files` (download.c 21-47): the number of wanted
files, then the array of their ids, each computed from the last character of
the name. -/
def send_wanted_files (client : ClientFiles_t) : List Event :=
  [Event.send TRACKER_RANK PEERS_SEEDERS_TRANSFER_TAG
     (Payload.int (client.wanted_files.length : Int)),
   Event.send TRACKER_RANK PEERS_SEEDERS_TRANSFER_TAG
     (Payload.ints (client.wanted_files.map (fun w => file_id_of_name w.file_name)))]

/-- The function `send_client_information` (download.c 63-70): the kind,
followed for a PEER and a LEECHER by the wanted files. -/
def send_client_information (client : ClientFiles_t) : List Event :=
  Event.send TRACKER_RANK PEERS_SEEDERS_TRANSFER_TAG
      (Payload.int (client_type_code client.client_type)) ::
    (if client.client_type = Client_Type_t.PEER ∨
        client.client_type = Client_Type_t.LEECHER then
      send_wanted_files client
    else [])

/-- A manifest of two hashes of `HASH_SIZE` characters. -/
def two_hash_manifest : FileData_t :=
  { file_name := "file1".toList, file_id := 1,
    segments := segments_of (hashes_abc.take 2) }

/-- The names of the files written among the actions, in order. -/
def written_names (trace : List Event) : List CStr :=
  trace.filterMap
    (fun e =>
      match e with
      | Event.write_file name _ => some name
      | _ => none)

/-- A LEECHER of rank 3 that wants the file `data7`; the peer of rank 2
advertises the first two of `hashes_abc` for it. -/
def data7_client : ClientFiles_t :=
  { client_rank := 3,
    owned_files := [],
    wanted_files := [{ file_name := "data7".toList }],
    peers := [{ peers_array :=
                  [{ file_id := 7, peer_rank := 2,
                     segments := segments_of (hashes_abc.take 2) }],
                peers_count := 1 }],
    client_type := Client_Type_t.LEECHER }

/-- A PEER of rank 1 that holds the first two of `hashes_abc` of `file1` and
wants `file1`, before it has asked for its peers. -/
def part_owner : ClientFiles_t :=
  { client_rank := 1,
    owned_files := [{ file_name := "file1".toList, file_id := 1,
                      segments := segments_of (hashes_abc.take 2) }],
    wanted_files := [{ file_name := "file1".toList }],
    peers := [{ peers_array := [], peers_count := 0 }],
    client_type := Client_Type_t.PEER }

/-- Two clients: rank 1 is `part_owner`, rank 2 is a SEEDER that holds
`file1`. -/
def self_listed_clients : List ClientFiles_t :=
  [part_owner, seeder_of 2 "file1"]

/-- The swarm query of a client, as the tracker takes it: the kind and the
ids `send_client_information` sends. -/
def query_of (rank : Int) (client : ClientFiles_t) : PeersQuery :=
  { source := rank,
    client_type := client_type_code client.client_type,
    files_id := client.wanted_files.map (fun w => file_id_of_name w.file_name) }

/-- The verb of a `DOWN_X` report as it is sent (tema2.c 82). -/
def down_x_msg : Event :=
  inform_msg 8 DOWN_X

/-- What holds at the start of every pass of a run, for the `DOWN_X`
reports: `download_inv`, and no more reports have been sent than wanted files
have been left. -/
def down_x_inv (s : DownloadState) : Prop :=
  download_inv s ∧ s.trace.count down_x_msg ≤ s.current_file_idx

/-- The client `nearly_full_client` with a second owned file after `file1`
in its manifest: `file2`, with three chunks. -/
def two_file_client : ClientFiles_t :=
  { nearly_full_client with
    owned_files := nearly_full_client.owned_files ++
      [{ file_name := "file2".toList, file_id := 2, segments := segments_of hashes_abc }] }

/-- Registry after the intake of `two_file_client` (rank 1) and of the
SEEDER of rank 2 that holds the 100 chunks of `file1`: in the array `files`
of rank 1 the entry of `file2` follows that of `file1`. -/
def two_file_registry : TrackerDataSet_t :=
  create_file_swarms
    { data :=
        [{ rank := 1,
           files := two_file_client.owned_files,
           client_type := Client_Type_t.PEER },
         { rank := 2,
           files := [{ file_name := "file1".toList, file_id := 1,
                       segments := segments_of (chunk_hashes 100) }],
           client_type := Client_Type_t.SEEDER }],
      swarms := [],
      swarm_size := 2 }
    3

/-! ## tema2.c and tracker.c: the tracker on the messages that wait on the INFORM tag -/

/-- One message that waits at the tracker on the INFORM tag: its sender and
its content. A list of them is in an order in which the receives can match
them: a receive from any sender takes the first of the list, a receive from
one rank the first of that rank. The list holds every message that is ever
sent, so that a receive that finds none never completes. -/
structure RawInform where
  source : Int
  payload : Payload
  deriving DecidableEq, Repr

/-- How the tracker loop stands on a list of waiting messages: the loop has
been left; its `MPI_Recv` finds no message; a receive of
`update_tracker_swarm` finds no message of the sender, so that the tracker
never goes on; or a step has no defined result (a receive takes a message of
another type or of more elements than it asks for, or the sender has no
inventory slot). -/
inductive ServeEnd where
  | left
  | waiting
  | blocked
  | undefined
  deriving DecidableEq, Repr

/-- The receive `MPI_Recv(.., rank, INFORM_TAG, ..)`: the first waiting
message of `rank` is taken and the others stay in their order; `none` when no
message of `rank` waits. -/
def recv_from (rank : Int) : List RawInform → Option (Payload × List RawInform)
  | [] => none
  | m :: rest =>
    if m.source = rank then some (m.payload, rest)
    else
      match recv_from rank rest with
      | none => none
      | some (p, rest1) => some (p, m :: rest1)

/-- The string that the receive of the tracker loop (tema2.c 199), of at most
`BUFF_SIZE` elements of type `MPI_CHAR`, leaves in `buffer`: the string sent
when its NUL is among the characters sent. When it is not, the string goes
on with what the buffer held before: for a message of at least 18
characters the result is these characters, which are more than any verb of
the tracker has, so that the comparisons of the loop come out as in C; for a
shorter one there is no result. -/
def verb_buffer_of : Payload → Option CStr
  | Payload.chars count s =>
    if count ≤ BUFF_SIZE ∧ (s.length < count ∨ 18 ≤ count) then some (s.take count)
    else none
  | _ => none

/-- The buffer after a receive of `update_tracker_swarm` (tracker.c 127), of
which `strncpy` then copies `HASH_SIZE - 1` characters: the string sent when
its NUL is among the characters sent, and the characters sent when they are
at least `HASH_SIZE - 1`; there is no result for another message. -/
def hash_buffer_of : Payload → Option CStr
  | Payload.chars count s =>
    if count ≤ BUFF_SIZE ∧ (s.length < count ∨ HASH_SIZE - 1 ≤ count) then
      some (s.take count)
    else none
  | _ => none

/-- What a sequence of receives delivers: a value and the messages that still
wait, or the way in which it does not complete. -/
inductive Intake (α : Type) where
  | got (a : α) (rest : List RawInform)
  | stop (e : ServeEnd)

/-- The receive loop of `update_tracker_swarm` (tracker.c 126-135), for `n`
passes: each pass takes the next waiting message of `rank` as a hash
buffer, whatever the sender meant it to be. -/
def recv_hashes : Nat → Int → List RawInform → Intake (List CStr)
  | 0, _, q => Intake.got [] q
  | n + 1, rank, q =>
    match recv_from rank q with
    | none => Intake.stop ServeEnd.blocked
    | some (p, q1) =>
      match hash_buffer_of p with
      | none => Intake.stop ServeEnd.undefined
      | some buff =>
        match recv_hashes n rank q1 with
        | Intake.got hs q2 => Intake.got (buff :: hs) q2
        | Intake.stop e => Intake.stop e

/-- The receives of `update_tracker_swarm` (tracker.c 107 and 126-135) for
the sender `rank`: the file id and the ten buffers. -/
def recv_update (rank : Int) (q : List RawInform) : Intake (Int × List CStr) :=
  match recv_from rank q with
  | none => Intake.stop ServeEnd.blocked
  | some (Payload.int file_id, q1) =>
    match recv_hashes 10 rank q1 with
    | Intake.got hs q2 => Intake.got (file_id, hs) q2
    | Intake.stop e => Intake.stop e
  | some (_, _) => Intake.stop ServeEnd.undefined

/-- The receive of the tracker loop (tema2.c 199), which takes the first
waiting message of any sender, followed, when the string received is
`DOWN_10` or `DOWN_X`, by the receives of `update_tracker_swarm` from that
sender. -/
def take_inform : List RawInform → Intake InformMsg
  | [] => Intake.stop ServeEnd.waiting
  | m :: rest =>
    match verb_buffer_of m.payload with
    | none => Intake.stop ServeEnd.undefined
    | some buffer =>
      if buffer = DOWN_10 ∨ buffer = DOWN_X then
        match recv_update m.source rest with
        | Intake.got p q2 =>
          Intake.got
            { source := m.source, buffer := buffer, file_id := p.1,
              hashes := fun i => p.2.getD i.val [] } q2
        | Intake.stop e => Intake.stop e
      else
        Intake.got
          { source := m.source, buffer := buffer, file_id := 0, hashes := fun _ => [] }
          rest

/-- Result of the tracker loop on a list of waiting messages: how it stands,
the local variables, and the messages the receive of the loop has taken and
handled, in order. -/
structure Served where
  how : ServeEnd
  state : TrackerState
  handled : List InformMsg

/-- The tracker loop (tema2.c 197-236) on the messages that wait on the
INFORM tag, for at most `n` passes. When a receive of `update_tracker_swarm`
does not complete, the local variables given are those before the pass (in
C the hashes received before it are stored by then, and nothing follows). -/
def tracker_serve_loop (total : Int) : Nat → TrackerState → List RawInform → Served
  | 0, st, _ =>
    { how := if st.continue_tracking then ServeEnd.undefined else ServeEnd.left,
      state := st, handled := [] }
  | n + 1, st, q =>
    if st.continue_tracking then
      match take_inform q with
      | Intake.stop e => { how := e, state := st, handled := [] }
      | Intake.got m rest =>
        match tracker_handle total st m with
        | none => { how := ServeEnd.undefined, state := st, handled := [] }
        | some st1 =>
          { how := (tracker_serve_loop total n st1 rest).how,
            state := (tracker_serve_loop total n st1 rest).state,
            handled := m :: (tracker_serve_loop total n st1 rest).handled }
    else { how := ServeEnd.left, state := st, handled := [] }

/-- The tracker loop of `tracker` (tema2.c 189-236) on the messages that wait
on the INFORM tag. Every pass takes at least one message, so that one pass
more than there are messages is never used up. -/
def tracker_serve (td : TrackerDataSet_t) (q : List RawInform) : Served :=
  tracker_serve_loop (total_downloading_clients td.data) (q.length + 1) (tracker_init td) q

/-- The messages the receive of the tracker loop takes from the waiting
messages, were the loop never left, for at most `n` passes, and the way in
which the receives stop. -/
def frame_loop : Nat → List RawInform → List InformMsg × ServeEnd
  | 0, _ => ([], ServeEnd.undefined)
  | n + 1, q =>
    match take_inform q with
    | Intake.stop e => ([], e)
    | Intake.got m rest => (m :: (frame_loop n rest).1, (frame_loop n rest).2)

/-- The messages the receive of the tracker loop takes from the waiting
messages, were the loop never left. -/
def inform_msgs (q : List RawInform) : List InformMsg :=
  (frame_loop (q.length + 1) q).1

/-- The way in which the receives stop on the waiting messages, were the
loop never left. -/
def inform_end (q : List RawInform) : ServeEnd :=
  (frame_loop (q.length + 1) q).2

/-- The messages of a client that reports three chunks with `DOWN_X` and
then ends: the verb, the file id, no hash, `FINISHED_DOWN_ALL`
(tema2.c 82-94 and 143). -/
def short_report_stream (rank : Int) : List RawInform :=
  [{ source := rank, payload := Payload.chars 8 "DOWN_X".toList },
   { source := rank, payload := Payload.int 1 },
   { source := rank, payload := Payload.chars 18 "FINISHED_DOWN_ALL".toList }]

/-- The messages of a client that reports ten chunks with `DOWN_10` and
then ends. -/
def full_report_stream (rank : Int) : List RawInform :=
  [{ source := rank, payload := Payload.chars 8 "DOWN_10".toList },
   { source := rank, payload := Payload.int 1 }]
    ++ (List.ofFn ten_hashes).map
        (fun h => { source := rank, payload := Payload.chars 32 h })
    ++ [{ source := rank, payload := Payload.chars 11 "GIVE_PEERS".toList },
        { source := rank, payload := Payload.chars 18 "FINISHED_DOWN_ALL".toList }]

/-! ## Theorems -/

theorem find_file_data_some (l : List FileData_t) (fid : Int) (di : Nat)
    (h : find_file_data l fid = some di) :
    ∃ fd, l[di]? = some fd ∧ fd.file_id = fid := by
  induction l generalizing di with
  | nil => simp [find_file_data] at h
  | cons a rest ih =>
    unfold find_file_data at h
    split at h
    · rename_i heq
      simp only [Option.some.injEq] at h
      subst h
      exact ⟨a, by simp, heq⟩
    · simp only [Option.map_eq_some'] at h
      obtain ⟨j, hj, hdi⟩ := h
      subst hdi
      obtain ⟨fd, h1, h2⟩ := ih j hj
      exact ⟨fd, by simpa using h1, h2⟩

theorem find_file_data_none_iff (l : List FileData_t) (fid : Int) :
    find_file_data l fid = none ↔ ∀ fd ∈ l, fd.file_id ≠ fid := by
  induction l with
  | nil => simp [find_file_data]
  | cons a rest ih =>
    unfold find_file_data
    split
    · rename_i heq
      simp [heq]
    · rename_i hne
      simp only [Option.map_eq_none', ih, List.mem_cons, forall_eq_or_imp]
      exact ⟨fun h => ⟨hne, h⟩, fun h => h.2⟩

theorem file_is_owned_eq_false_iff (client : ClientFiles_t) (fid : Int) :
    file_is_owned client fid = false ↔ find_file_data client.owned_files fid = none := by
  rw [find_file_data_none_iff]
  simp [file_is_owned]

theorem file_is_owned_of_find (client : ClientFiles_t) (fid : Int) (di : Nat)
    (h : find_file_data client.owned_files fid = some di) :
    file_is_owned client fid = true := by
  cases hown : file_is_owned client fid with
  | true => rfl
  | false =>
    rw [file_is_owned_eq_false_iff] at hown
    rw [hown] at h
    cases h

theorem find_file_data_append_new (l : List FileData_t) (fid : Int) (fd : FileData_t)
    (hnone : find_file_data l fid = none) (hfd : fd.file_id = fid) :
    find_file_data (l ++ [fd]) fid = some l.length := by
  induction l with
  | nil => simp [find_file_data, hfd]
  | cons a rest ih =>
    unfold find_file_data at hnone
    split at hnone
    · cases hnone
    · rename_i hne
      simp only [Option.map_eq_none'] at hnone
      have h2 := ih hnone
      show find_file_data (a :: (rest ++ [fd])) fid = some (rest.length + 1)
      simp only [find_file_data, hne, if_false, h2, Option.map_some']

theorem find_file_data_set (l : List FileData_t) (x : Int) (di : Nat)
    (fd fd1 : FileData_t) (hget : l[di]? = some fd) (hid : fd1.file_id = fd.file_id) :
    find_file_data (l.set di fd1) x = find_file_data l x := by
  induction l generalizing di with
  | nil => simp at hget
  | cons a rest ih =>
    cases di with
    | zero =>
      simp only [List.getElem?_cons_zero, Option.some.injEq] at hget
      subst hget
      simp only [List.set_cons_zero, find_file_data, hid]
    | succ j =>
      simp only [List.getElem?_cons_succ] at hget
      simp only [List.set_cons_succ, find_file_data, ih j hget]

theorem update_nth_length {α : Type} (f : α → α) (n : Nat) (l : List α) :
    (update_nth f n l).length = l.length := by
  induction l generalizing n with
  | nil => cases n <;> rfl
  | cons x xs ih =>
    cases n with
    | zero => rfl
    | succ k => simp [update_nth, ih]

theorem update_nth_getElem? {α : Type} (f : α → α) (n k : Nat) (l : List α) :
    (update_nth f n l)[k]? = if k = n then (l[k]?).map f else l[k]? := by
  induction l generalizing n k with
  | nil => cases n <;> simp [update_nth]
  | cons x xs ih =>
    cases n with
    | zero =>
      cases k with
      | zero => simp [update_nth]
      | succ j => simp [update_nth]
    | succ i =>
      cases k with
      | zero => simp [update_nth]
      | succ j => simp [update_nth, ih]

theorem swarm_add_length (S : Int) (sws : List Swarm_t) (fid rank : Int) :
    (swarm_add S sws fid rank).length = sws.length := by
  unfold swarm_add
  split
  · rfl
  · exact update_nth_length _ _ _

theorem swarm_add_members (S : Int) (sws : List Swarm_t) (fid rank f r : Int)
    (hlen : sws.length = S.toNat) (hf1 : 1 ≤ f) (hf2 : f ≤ S) :
    r ∈ swarm_members (swarm_add S sws fid rank) f ↔
      r ∈ swarm_members sws f ∨ (fid = f ∧ rank = r) := by
  have hlt : (f - 1).toNat < sws.length := by omega
  obtain ⟨sw, hsw⟩ : ∃ sw, sws[(f - 1).toNat]? = some sw :=
    ⟨sws[(f - 1).toNat], List.getElem?_eq_getElem hlt⟩
  unfold swarm_add
  split
  · rename_i hbad
    have : fid ≠ f := by omega
    simp [this]
  · rename_i hok
    simp only [swarm_members, update_nth_getElem?, hsw]
    by_cases hk : (f - 1).toNat = (fid - 1).toNat
    · have hfe : fid = f := by omega
      simp only [hk, if_true, Option.map_some']
      by_cases he : sw.clients_in_swarm = []
      · simp [he, hfe, eq_comm]
      · simp [he, hfe, eq_comm]
    · have hfe : fid ≠ f := by
        intro h
        exact hk (by rw [h])
      rw [if_neg hk]
      simp [hfe]

theorem swarm_add_client_length (S : Int) (rank : Int) (files : List FileData_t)
    (sws : List Swarm_t) :
    (swarm_add_client S sws rank files).length = sws.length := by
  induction files generalizing sws with
  | nil => rfl
  | cons fd rest ih =>
    simp only [swarm_add_client, List.foldl_cons] at ih ⊢
    rw [ih, swarm_add_length]

theorem swarm_add_client_members (S : Int) (rank f r : Int)
    (files : List FileData_t) (sws : List Swarm_t)
    (hlen : sws.length = S.toNat) (hf1 : 1 ≤ f) (hf2 : f ≤ S) :
    r ∈ swarm_members (swarm_add_client S sws rank files) f ↔
      r ∈ swarm_members sws f ∨ (rank = r ∧ ∃ fd ∈ files, fd.file_id = f) := by
  induction files generalizing sws with
  | nil => simp [swarm_add_client]
  | cons fd rest ih =>
    simp only [swarm_add_client, List.foldl_cons] at ih ⊢
    rw [ih _ (by rw [swarm_add_length]; exact hlen),
      swarm_add_members S sws fd.file_id rank f r hlen hf1 hf2]
    simp only [List.mem_cons, exists_eq_or_imp]
    tauto

theorem init_swarms_length (S : Int) : (init_swarms S).length = S.toNat := by
  simp [init_swarms]

theorem init_swarms_members (S : Int) (f r : Int) :
    ¬ r ∈ swarm_members (init_swarms S) f := by
  unfold swarm_members
  split
  · rename_i sw hsw
    simp only [init_swarms, List.getElem?_map, Option.map_eq_some'] at hsw
    obtain ⟨i, _, hi⟩ := hsw
    simp [← hi, fresh_swarm]
  · simp

theorem swarms_fold_length (m : TrackerDataSet_t) (n : Nat) :
    ((List.range n).foldl
      (fun sws i =>
        match m.data[i]? with
        | none => sws
        | some cd => swarm_add_client m.swarm_size sws ((i : Int) + 1) cd.files)
      (init_swarms m.swarm_size)).length = m.swarm_size.toNat := by
  induction n with
  | zero => simp [init_swarms_length]
  | succ k ih =>
    rw [List.range_succ, List.foldl_append]
    simp only [List.foldl_cons, List.foldl_nil]
    split
    · exact ih
    · rw [swarm_add_client_length]
      exact ih

theorem swarms_fold_members (m : TrackerDataSet_t) (n : Nat) (f r : Int)
    (hf1 : 1 ≤ f) (hf2 : f ≤ m.swarm_size) :
    r ∈ swarm_members
        ((List.range n).foldl
          (fun sws i =>
            match m.data[i]? with
            | none => sws
            | some cd => swarm_add_client m.swarm_size sws ((i : Int) + 1) cd.files)
          (init_swarms m.swarm_size)) f ↔
      ∃ i, i < n ∧ (i : Int) + 1 = r ∧
        ∃ cd, m.data[i]? = some cd ∧ ∃ fd ∈ cd.files, fd.file_id = f := by
  induction n with
  | zero => simp [init_swarms_members]
  | succ k ih =>
    rw [List.range_succ, List.foldl_append]
    simp only [List.foldl_cons, List.foldl_nil]
    split
    · rename_i hnone
      rw [ih]
      constructor
      · rintro ⟨i, hi, h⟩
        exact ⟨i, by omega, h⟩
      · rintro ⟨i, hi, hr, cd, hcd, h⟩
        have hik : i ≠ k := by
          intro h'
          rw [h', hnone] at hcd
          cases hcd
        exact ⟨i, by omega, hr, cd, hcd, h⟩
    · rename_i cd hcd
      rw [swarm_add_client_members _ _ _ _ _ _ (swarms_fold_length m k) hf1 hf2, ih]
      constructor
      · rintro (⟨i, hi, h⟩ | ⟨hr, h⟩)
        · exact ⟨i, by omega, h⟩
        · exact ⟨k, by omega, hr, cd, hcd, h⟩
      · rintro ⟨i, hi, hr, cd', hcd', h⟩
        by_cases hik : i = k
        · right
          rw [hik, hcd] at hcd'
          cases hcd'
          exact ⟨by rw [← hr, hik], h⟩
        · left
          exact ⟨i, by omega, hr, cd', hcd', h⟩

theorem create_file_swarms_members_iff (m : TrackerDataSet_t) (f r : Int)
    (hf1 : 1 ≤ f) (hf2 : f ≤ m.swarm_size)
    (hr1 : 1 ≤ r) (hr2 : r ≤ (m.data.length : Int)) :
    r ∈ swarm_members
        (create_file_swarms m ((m.data.length : Int) + 1)).swarms f ↔
      tracker_has_entry m r f = true := by
  have hn : ((m.data.length : Int) + 1 - 1).toNat = m.data.length := by omega
  simp only [create_file_swarms, hn]
  rw [swarms_fold_members m m.data.length f r hf1 hf2]
  have hlt : (r - 1).toNat < m.data.length := by omega
  have hget : m.data[(r - 1).toNat]? = some (m.data[(r - 1).toNat]) :=
    List.getElem?_eq_getElem hlt
  have hnot : ¬ r < 1 := by omega
  simp only [tracker_has_entry, hnot, if_false, hget, List.any_eq_true,
    decide_eq_true_eq]
  constructor
  · rintro ⟨i, _, hi, cd, hcd, fd, hfd, hid⟩
    have hie : i = (r - 1).toNat := by omega
    rw [hie, hget] at hcd
    cases hcd
    exact ⟨fd, hfd, hid⟩
  · rintro ⟨fd, hfd, hid⟩
    exact ⟨(r - 1).toNat, hlt, by omega, _, hget, fd, hfd, hid⟩

theorem tracker_client_has_file_false_iff (files : List FileData_t) (fid : Int) :
    tracker_client_has_file files fid = false ↔ find_file_data files fid = none := by
  induction files with
  | nil => simp [tracker_client_has_file, find_file_data]
  | cons a rest ih =>
    by_cases h : a.file_id = fid
    · simp [tracker_client_has_file, find_file_data, h]
    · have hr : find_file_data (a :: rest) fid = none ↔ find_file_data rest fid = none := by
        simp [find_file_data, h]
      rw [hr, ← ih]
      cases rest with
      | nil => simp [tracker_client_has_file, h]
      | cons b t => simp [tracker_client_has_file, h]

/-- An update of the registry ends with a call of `create_file_swarms` on
the updated inventories, with `numtasks = client_count + 1`: the swarms of
the result are those that `create_file_swarms` builds from its inventories. -/
theorem update_tracker_swarm_rebuilds (m m1 : TrackerDataSet_t) (rank fid : Int)
    (buffs : Fin 10 → CStr) (h : update_tracker_swarm m rank fid buffs = some m1) :
    m1.data.length = m.data.length ∧ m1.swarm_size = m.swarm_size ∧
      m1.swarms = (create_file_swarms m1 ((m1.data.length : Int) + 1)).swarms := by
  unfold update_tracker_swarm at h
  split at h
  · cases h
  · split at h
    · cases h
    · rename_i cd hcd
      simp only at h
      split at h
      · rename_i hnone
        exfalso
        split at hnone
        · rename_i hhas
          have hf : tracker_client_has_file cd.files fid = false := by simpa using hhas
          rw [tracker_client_has_file_false_iff] at hf
          have := find_file_data_append_new cd.files fid
            { file_name := snprintf_file MAX_FILENAME fid, file_id := fid, segments := [] }
            hf rfl
          simp only [tracker_add_file_to_owned] at hnone
          rw [this] at hnone
          cases hnone
        · rename_i hhas
          have hf : tracker_client_has_file cd.files fid = true := by simpa using hhas
          rw [← tracker_client_has_file_false_iff, hf] at hnone
          cases hnone
      · simp only [Option.some.injEq] at h
        subst h
        refine ⟨?_, rfl, ?_⟩
        · simp only [create_file_swarms, List.length_set]
        · simp only [create_file_swarms, List.length_set]

/-- C1 (as the code has it): after `create_file_swarms` has run with
`numtasks = client_count + 1`, at the end of intake and at the end of every
DOWN_10/DOWN_X update (`update_tracker_swarm`), for every file id `f` in
`1 .. swarm_size` and every client rank `r` in `1 .. N`, `r` is listed in
`swarms[f - 1]` if and only if the inventory of `r` has an entry for file
`f`, whatever its chunk count. -/
theorem create_file_swarms_membership (m : TrackerDataSet_t) (f r : Int)
    (hf1 : 1 ≤ f) (hf2 : f ≤ m.swarm_size)
    (hr1 : 1 ≤ r) (hr2 : r ≤ (m.data.length : Int)) :
    (r ∈ swarm_members
        (create_file_swarms m ((m.data.length : Int) + 1)).swarms f ↔
      tracker_has_entry m r f = true) ∧
    (∀ (rank fid : Int) (buffs : Fin 10 → CStr) (m1 : TrackerDataSet_t),
      update_tracker_swarm m rank fid buffs = some m1 →
      (r ∈ swarm_members m1.swarms f ↔ tracker_has_entry m1 r f = true)) := by
  refine ⟨create_file_swarms_members_iff m f r hf1 hf2 hr1 hr2, ?_⟩
  intro rank fid buffs m1 h
  obtain ⟨hlen, hsize, hsw⟩ := update_tracker_swarm_rebuilds m m1 rank fid buffs h
  rw [hsw]
  exact create_file_swarms_members_iff m1 f r hf1 (by rw [hsize]; exact hf2) hr1
    (by rw [hlen]; exact hr2)

/-- Witness of `create_file_swarms_membership`: one client owning `file1`
with zero chunks, file 1, rank 1. -/
theorem create_file_swarms_membership_witness :
    ((1 : Int) ∈ swarm_members
        (create_file_swarms zero_chunk_registry
          ((zero_chunk_registry.data.length : Int) + 1)).swarms 1 ↔
      tracker_has_entry zero_chunk_registry 1 1 = true) :=
  (create_file_swarms_membership zero_chunk_registry 1 1
    (by decide) (by decide) (by decide) (by decide)).1

/-- C1 fails as stated: a client whose input manifest declares `file1`
with zero chunks (and wants nothing, so that it is a SEEDER) is listed in
`swarms[0]` although its inventory holds no chunk of file 1. -/
theorem create_file_swarms_lists_zero_chunk_owner :
    (read_from_file (text_of_lines ["1", "file1 0", "0"]) 1).map
        (fun c => (c.client_type, c.owned_files)) =
      some (Client_Type_t.SEEDER, zero_chunk_registry.data.flatMap (fun cd => cd.files)) ∧
    (1 : Int) ∈ swarm_members
        (create_file_swarms zero_chunk_registry
          ((zero_chunk_registry.data.length : Int) + 1)).swarms 1 ∧
      tracker_has_chunk zero_chunk_registry 1 1 = false := by
  decide

/-! ### The tracker loop -/

theorem create_file_swarms_data (m : TrackerDataSet_t) (n : Int) :
    (create_file_swarms m n).data = m.data := rfl

theorem update_tracker_swarm_some (m : TrackerDataSet_t) (rank fid : Int)
    (buffs : Fin 10 → CStr) (h1 : 1 ≤ rank) (h2 : rank ≤ (m.data.length : Int)) :
    ∃ td, update_tracker_swarm m rank fid buffs = some td ∧
      td.data.length = m.data.length := by
  have hlt : (rank - 1).toNat < m.data.length := by omega
  have hget : m.data[(rank - 1).toNat]? = some (m.data[(rank - 1).toNat]) :=
    List.getElem?_eq_getElem hlt
  have hnot : ¬ rank < 1 := by omega
  simp only [update_tracker_swarm, hnot, if_false, hget]
  split
  · exact ⟨_, rfl, by simp⟩
  · exact ⟨_, rfl, by simp [create_file_swarms_data]⟩

/-- Effect of one pass of the tracker loop on the local variables, for a
sender with an inventory slot. -/
theorem tracker_handle_spec (total : Int) (st : TrackerState) (msg : InformMsg)
    (h1 : 1 ≤ msg.source) (h2 : msg.source ≤ (st.tracker_data.data.length : Int)) :
    ∃ st1, tracker_handle total st msg = some st1 ∧
      st1.tracker_data.data.length = st.tracker_data.data.length ∧
      st1.finished_clients = st.finished_clients +
        (if msg.buffer = FINISHED_DOWN_ALL then 1 else 0) ∧
      st1.continue_tracking =
        (st.continue_tracking && decide (st1.finished_clients ≠ total)) := by
  have hlt : (msg.source - 1).toNat < st.tracker_data.data.length := by omega
  have hget : st.tracker_data.data[(msg.source - 1).toNat]? =
      some (st.tracker_data.data[(msg.source - 1).toNat]) :=
    List.getElem?_eq_getElem hlt
  have hnot : ¬ msg.source < 1 := by omega
  unfold tracker_handle
  by_cases hF : msg.buffer = FINISHED_DOWN_ALL
  · simp only [hF, if_true, handle_finished, hnot, if_false, hget, Option.map_some']
    refine ⟨_, rfl, ?_, ?_, ?_⟩
    · split <;> simp
    · split <;> simp
    · split <;> simp_all
  · simp only [hF, if_false]
    by_cases hD : msg.buffer = DOWN_10 ∨ msg.buffer = DOWN_X
    · obtain ⟨td, htd, hlen⟩ :=
        update_tracker_swarm_some st.tracker_data msg.source msg.file_id msg.hashes h1 h2
      simp only [hD, if_true, handle_down, htd, Option.map_some']
      refine ⟨_, rfl, ?_, ?_, ?_⟩
      · split <;> simp [hlen]
      · split <;> simp
      · split <;> simp_all
    · simp only [hD, if_false, ite_self, Option.map_some']
      refine ⟨_, rfl, ?_, ?_, ?_⟩
      · split <;> simp
      · split <;> simp
      · split <;> simp_all

theorem tracker_loop_rest_length (total : Int) (msgs : List InformMsg) :
    ∀ (st st1 : TrackerState) (rest : List InformMsg),
      tracker_loop total st msgs = some (st1, rest) → rest.length ≤ msgs.length := by
  induction msgs with
  | nil =>
    intro st st1 rest h
    simp only [tracker_loop, Option.some.injEq, Prod.mk.injEq] at h
    simp [← h.2]
  | cons msg tl ih =>
    intro st st1 rest h
    unfold tracker_loop at h
    split at h
    · split at h
      · cases h
      · have := ih _ _ _ h
        simp only [List.length_cons]
        omega
    · simp only [Option.some.injEq, Prod.mk.injEq] at h
      simp [← h.2]

theorem finished_senders_cons (msg : InformMsg) (tl : List InformMsg) :
    finished_senders (msg :: tl) =
      if msg.buffer = FINISHED_DOWN_ALL then msg.source :: finished_senders tl
      else finished_senders tl := by
  unfold finished_senders
  by_cases h : msg.buffer = FINISHED_DOWN_ALL <;> simp [List.filter_cons, h]

/-- The loop is left at message number `k` exactly when `k` is the first
positive number of messages after which the count of `FINISHED_DOWN_ALL`
messages equals `total`. -/
theorem tracker_loop_ends_iff_count (total : Int) (msgs : List InformMsg) :
    ∀ (st : TrackerState) (k : Nat),
      (∀ msg ∈ msgs, 1 ≤ msg.source ∧
        msg.source ≤ (st.tracker_data.data.length : Int)) →
      st.continue_tracking = true → k ≤ msgs.length →
      ((∃ st1, tracker_loop total st msgs = some (st1, msgs.drop k) ∧
          st1.continue_tracking = false) ↔
        (1 ≤ k ∧
          st.finished_clients + ((finished_senders (msgs.take k)).length : Int) = total ∧
          ∀ j, 1 ≤ j → j < k →
            st.finished_clients + ((finished_senders (msgs.take j)).length : Int)
              ≠ total)) := by
  induction msgs with
  | nil =>
    intro st k _ hc hk
    have hk0 : k = 0 := by simpa using hk
    subst hk0
    simp [tracker_loop, hc]
  | cons msg tl ih =>
    intro st k hsrc hc hk
    obtain ⟨hs1, hs2⟩ := hsrc msg (List.mem_cons_self _ _)
    obtain ⟨st1, hst1, hlen, hfin, hcont⟩ := tracker_handle_spec total st msg hs1 hs2
    have hloop : tracker_loop total st (msg :: tl) = tracker_loop total st1 tl := by
      rw [tracker_loop, hc, if_pos rfl, hst1]
    have hsrc1 : ∀ m ∈ tl, 1 ≤ m.source ∧
        m.source ≤ (st1.tracker_data.data.length : Int) := by
      intro m hm
      rw [hlen]
      exact hsrc m (List.mem_cons_of_mem _ hm)
    have hone : ((finished_senders [msg]).length : Int) =
        (if msg.buffer = FINISHED_DOWN_ALL then 1 else 0) := by
      rw [finished_senders_cons]
      split <;> simp [finished_senders]
    have hstep : ∀ n : Nat,
        st.finished_clients + ((finished_senders (msg :: tl.take n)).length : Int) =
          st1.finished_clients + ((finished_senders (tl.take n)).length : Int) := by
      intro n
      rw [finished_senders_cons, hfin]
      split
      · simp only [List.length_cons, Nat.cast_add, Nat.cast_one]
        omega
      · simp
    rw [hloop]
    cases k with
    | zero =>
      constructor
      · rintro ⟨st2, h2, _⟩
        have := tracker_loop_rest_length total tl st1 st2 _ h2
        simp at this
      · rintro ⟨h, _⟩
        omega
    | succ k1 =>
      have hk1 : k1 ≤ tl.length := by simpa using hk
      simp only [List.drop_succ_cons, List.take_succ_cons]
      by_cases hc1 : st1.continue_tracking = true
      · have hne : st1.finished_clients ≠ total := by
          rw [hcont, hc] at hc1
          simpa using hc1
        rw [ih st1 k1 hsrc1 hc1 hk1, hstep]
        constructor
        · rintro ⟨hk1pos, heq, hfirst⟩
          refine ⟨by omega, heq, ?_⟩
          intro j hj1 hjk
          cases j with
          | zero => omega
          | succ j1 =>
            simp only [List.take_succ_cons]
            rw [hstep]
            cases j1 with
            | zero => simpa [finished_senders] using hne
            | succ j2 => exact hfirst (j2 + 1) (by omega) (by omega)
        · rintro ⟨_, heq, hfirst⟩
          have hk1pos : 1 ≤ k1 := by
            cases k1 with
            | zero =>
              exfalso
              apply hne
              simpa [finished_senders] using heq
            | succ _ => omega
          refine ⟨hk1pos, heq, ?_⟩
          intro j hj1 hjk
          have := hfirst (j + 1) (by omega) (by omega)
          simp only [List.take_succ_cons] at this
          rw [hstep] at this
          exact this
      · have hc1f : st1.continue_tracking = false := by simpa using hc1
        have heq1 : st1.finished_clients = total := by
          rw [hcont, hc] at hc1f
          simpa using hc1f
        have hstop : tracker_loop total st1 tl = some (st1, tl) := by
          cases tl with
          | nil => simp [tracker_loop]
          | cons a b => simp [tracker_loop, hc1f]
        rw [hstop, hstep]
        constructor
        · rintro ⟨st2, h2, _⟩
          simp only [Option.some.injEq, Prod.mk.injEq] at h2
          have hl : tl.length = (tl.drop k1).length := by rw [← h2.2]
          have hk0 : k1 = 0 := by
            simp only [List.length_drop] at hl
            omega
          subst hk0
          refine ⟨by omega, by simpa [finished_senders] using heq1, ?_⟩
          intro j hj1 hjk
          omega
        · rintro ⟨_, heq, hfirst⟩
          have hk0 : k1 = 0 := by
            by_contra hne
            have := hfirst 1 (by omega) (by omega)
            simp only [List.take_succ_cons, List.take_zero] at this
            apply this
            have h0 := hstep 0
            simp only [List.take_zero] at h0
            rw [h0]
            simpa [finished_senders] using heq1
          subst hk0
          exact ⟨st1, by simp, hc1f⟩

theorem total_downloading_clients_foldl (data : List TrackerData_t) (a r : Int) :
    data.foldl
        (fun total cd =>
          if cd.client_type = Client_Type_t.SEEDER then total else total + 1) a =
      a + ((downloading_ranks_from r data).length : Int) := by
  induction data generalizing a r with
  | nil => simp [downloading_ranks_from]
  | cons cd rest ih =>
    simp only [List.foldl_cons, downloading_ranks_from]
    split
    · exact ih a (r + 1)
    · rw [ih (a + 1) (r + 1)]
      simp only [List.length_cons, Nat.cast_add, Nat.cast_one]
      omega

theorem total_downloading_clients_eq (data : List TrackerData_t) :
    total_downloading_clients data = ((downloading_ranks_from 1 data).length : Int) := by
  unfold total_downloading_clients
  rw [total_downloading_clients_foldl data 0 1]
  simp

theorem mem_downloading_ranks_from (data : List TrackerData_t) (r x : Int) :
    x ∈ downloading_ranks_from r data ↔
      ∃ (i : Nat) (cd : TrackerData_t), data[i]? = some cd ∧ x = r + (i : Int) ∧
        cd.client_type ≠ Client_Type_t.SEEDER := by
  induction data generalizing r with
  | nil => simp [downloading_ranks_from]
  | cons cd rest ih =>
    unfold downloading_ranks_from
    have hrest : x ∈ downloading_ranks_from (r + 1) rest →
        ∃ (i : Nat) (cd1 : TrackerData_t), (cd :: rest)[i]? = some cd1 ∧
          x = r + (i : Int) ∧ cd1.client_type ≠ Client_Type_t.SEEDER := by
      intro h
      obtain ⟨i, cd1, h1, h2, h3⟩ := (ih (r + 1)).1 h
      exact ⟨i + 1, cd1, by simpa using h1, by push_cast; omega, h3⟩
    have hback : ∀ (i : Nat) (cd1 : TrackerData_t), (cd :: rest)[i]? = some cd1 →
        x = r + (i : Int) → cd1.client_type ≠ Client_Type_t.SEEDER →
        (i = 0 ∧ cd1 = cd ∧ x = r) ∨ x ∈ downloading_ranks_from (r + 1) rest := by
      intro i cd1 h1 h2 h3
      cases i with
      | zero =>
        left
        simp only [List.getElem?_cons_zero, Option.some.injEq] at h1
        exact ⟨rfl, h1.symm, by simpa using h2⟩
      | succ j =>
        right
        rw [ih (r + 1)]
        exact ⟨j, cd1, by simpa using h1, by push_cast at h2; omega, h3⟩
    split
    · rename_i hseed
      constructor
      · exact hrest
      · rintro ⟨i, cd1, h1, h2, h3⟩
        rcases hback i cd1 h1 h2 h3 with ⟨_, hcd, _⟩ | h
        · rw [hcd] at h3
          exact absurd hseed h3
        · exact h
    · rename_i hns
      rw [List.mem_cons]
      constructor
      · rintro (h | h)
        · exact ⟨0, cd, by simp, by simpa using h, hns⟩
        · exact hrest h
      · rintro ⟨i, cd1, h1, h2, h3⟩
        rcases hback i cd1 h1 h2 h3 with ⟨_, _, hx⟩ | h
        · exact Or.inl hx
        · exact Or.inr h

theorem downloading_ranks_from_nodup (data : List TrackerData_t) (r : Int) :
    (downloading_ranks_from r data).Nodup := by
  induction data generalizing r with
  | nil => simp [downloading_ranks_from]
  | cons cd rest ih =>
    unfold downloading_ranks_from
    split
    · exact ih (r + 1)
    · rw [List.nodup_cons]
      refine ⟨?_, ih (r + 1)⟩
      intro hmem
      obtain ⟨i, _, _, h2, _⟩ := (mem_downloading_ranks_from rest (r + 1) r).1 hmem
      omega

theorem mem_downloading_ranks_iff (td : TrackerDataSet_t) (x : Int) :
    x ∈ downloading_ranks_from 1 td.data ↔
      (1 ≤ x ∧ x ≤ (td.data.length : Int) ∧
        kind_of td x ≠ some Client_Type_t.SEEDER) := by
  rw [mem_downloading_ranks_from]
  constructor
  · rintro ⟨i, cd, h1, h2, h3⟩
    have hi : i < td.data.length := by
      by_contra hge
      rw [List.getElem?_eq_none (by omega)] at h1
      cases h1
    have hidx : (x - 1).toNat = i := by omega
    refine ⟨by omega, by omega, ?_⟩
    have hnot : ¬ x < 1 := by omega
    simp only [kind_of, hnot, if_false, hidx, h1, Option.map_some', ne_eq,
      Option.some.injEq]
    exact h3
  · rintro ⟨h1, h2, h3⟩
    have hlt : (x - 1).toNat < td.data.length := by omega
    have hget : td.data[(x - 1).toNat]? = some (td.data[(x - 1).toNat]) :=
      List.getElem?_eq_getElem hlt
    refine ⟨(x - 1).toNat, _, hget, by omega, ?_⟩
    have hnot : ¬ x < 1 := by omega
    simp only [kind_of, hnot, if_false, hget, Option.map_some', ne_eq,
      Option.some.injEq] at h3
    exact h3

/-- When no rank sends `FINISHED_DOWN_ALL` twice and only ranks that are not
SEEDER send it, the number of such messages equals the number of counted
clients exactly when every counted client has sent one. -/
theorem finished_count_eq_total_iff (td : TrackerDataSet_t) (msgs : List InformMsg)
    (hnodup : (finished_senders msgs).Nodup)
    (hns : ∀ r ∈ finished_senders msgs, 1 ≤ r ∧ r ≤ (td.data.length : Int) ∧
      kind_of td r ≠ some Client_Type_t.SEEDER) :
    (0 + ((finished_senders msgs).length : Int) = total_downloading_clients td.data) ↔
      all_finished td msgs := by
  rw [total_downloading_clients_eq]
  have hsub : finished_senders msgs ⊆ downloading_ranks_from 1 td.data := by
    intro r hr
    exact (mem_downloading_ranks_iff td r).2 (hns r hr)
  have hsp := List.subperm_of_subset hnodup hsub
  constructor
  · intro hlen r hr1 hr2 hk
    have hle : (downloading_ranks_from 1 td.data).length ≤
        (finished_senders msgs).length := by omega
    have hperm := hsp.perm_of_length_le hle
    exact hperm.mem_iff.2 ((mem_downloading_ranks_iff td r).2 ⟨hr1, hr2, hk⟩)
  · intro hall
    have hsub2 : downloading_ranks_from 1 td.data ⊆ finished_senders msgs := by
      intro r hr
      obtain ⟨h1, h2, h3⟩ := (mem_downloading_ranks_iff td r).1 hr
      exact hall r h1 h2 h3
    have hsp2 := List.subperm_of_subset (downloading_ranks_from_nodup td.data 1) hsub2
    have := hsp.length_le
    have := hsp2.length_le
    omega

theorem finished_senders_take_sublist (msgs : List InformMsg) (j : Nat) :
    List.Sublist (finished_senders (msgs.take j)) (finished_senders msgs) := by
  unfold finished_senders
  exact ((List.take_sublist j msgs).filter _).map _

theorem finished_senders_source (msgs : List InformMsg) (r : Int)
    (h : r ∈ finished_senders msgs) : ∃ msg ∈ msgs, msg.source = r := by
  simp only [finished_senders, List.mem_map, List.mem_filter] at h
  obtain ⟨msg, ⟨hmem, _⟩, hsrc⟩ := h
  exact ⟨msg, hmem, hsrc⟩

/-- The tracker loop on the messages its receive takes: when every
`FINISHED_DOWN_ALL` comes from a rank that is not a SEEDER in the registry at
the start of the loop and no rank sends it twice, the tracker loop is left
at message number `k` if and only if `k` is the first positive number of
messages after which every rank that is not a SEEDER has sent
`FINISHED_DOWN_ALL`. -/
theorem tracker_loop_ends_iff_all_finished (td : TrackerDataSet_t)
    (msgs : List InformMsg) (k : Nat)
    (hsrc : ∀ msg ∈ msgs, 1 ≤ msg.source ∧ msg.source ≤ (td.data.length : Int))
    (honce : (finished_senders msgs).Nodup)
    (hns : ∀ r ∈ finished_senders msgs, kind_of td r ≠ some Client_Type_t.SEEDER)
    (hk : k ≤ msgs.length) :
    (∃ st, tracker_loop (total_downloading_clients td.data) (tracker_init td) msgs =
          some (st, msgs.drop k) ∧ st.continue_tracking = false) ↔
      (1 ≤ k ∧ all_finished td (msgs.take k) ∧
        ∀ j, 1 ≤ j → j < k → ¬ all_finished td (msgs.take j)) := by
  have hcount : ∀ j : Nat,
      ((tracker_init td).finished_clients +
          ((finished_senders (msgs.take j)).length : Int) =
        total_downloading_clients td.data) ↔ all_finished td (msgs.take j) := by
    intro j
    have hsl := finished_senders_take_sublist msgs j
    apply finished_count_eq_total_iff td (msgs.take j) (honce.sublist hsl)
    intro r hr
    have hr2 := hsl.subset hr
    obtain ⟨msg, hmem, hms⟩ := finished_senders_source msgs r hr2
    have := hsrc msg hmem
    exact ⟨by omega, by omega, hns r hr2⟩
  rw [tracker_loop_ends_iff_count (total_downloading_clients td.data) msgs
    (tracker_init td) k hsrc rfl hk, hcount k]
  constructor
  · rintro ⟨h1, h2, h3⟩
    exact ⟨h1, h2, fun j hj1 hjk hall => h3 j hj1 hjk ((hcount j).2 hall)⟩
  · rintro ⟨h1, h2, h3⟩
    exact ⟨h1, h2, fun j hj1 hjk heq => h3 j hj1 hjk ((hcount j).1 heq)⟩

/-- An instance of `tracker_loop_ends_iff_all_finished`: kinds SEEDER, PEER,
LEECHER, PEER and one `FINISHED_DOWN_ALL` from each of the ranks 2, 3, 4;
the loop is left at the third message. -/
theorem tracker_loop_ends_iff_all_finished_example :
    (∃ st, tracker_loop
          (total_downloading_clients
            (registry_of_kinds [Client_Type_t.SEEDER, Client_Type_t.PEER,
              Client_Type_t.LEECHER, Client_Type_t.PEER]).data)
          (tracker_init
            (registry_of_kinds [Client_Type_t.SEEDER, Client_Type_t.PEER,
              Client_Type_t.LEECHER, Client_Type_t.PEER]))
          [finished_msg 2, finished_msg 3, finished_msg 4] =
          some (st, [finished_msg 2, finished_msg 3, finished_msg 4].drop 3) ∧
        st.continue_tracking = false) ↔
      (1 ≤ 3 ∧
        all_finished
          (registry_of_kinds [Client_Type_t.SEEDER, Client_Type_t.PEER,
            Client_Type_t.LEECHER, Client_Type_t.PEER])
          ([finished_msg 2, finished_msg 3, finished_msg 4].take 3) ∧
        ∀ j, 1 ≤ j → j < 3 →
          ¬ all_finished
            (registry_of_kinds [Client_Type_t.SEEDER, Client_Type_t.PEER,
              Client_Type_t.LEECHER, Client_Type_t.PEER])
            ([finished_msg 2, finished_msg 3, finished_msg 4].take j)) :=
  tracker_loop_ends_iff_all_finished
    (registry_of_kinds [Client_Type_t.SEEDER, Client_Type_t.PEER,
      Client_Type_t.LEECHER, Client_Type_t.PEER])
    [finished_msg 2, finished_msg 3, finished_msg 4] 3
    (by decide) (by decide) (by decide) (by decide)

/-- C3 fails as stated: with two PEER clients, two `FINISHED_DOWN_ALL`
messages from rank 1 end the loop although rank 2 has sent none, on the
messages that wait on the INFORM tag and on the messages the receive of the
loop takes from them. -/
theorem tracker_loop_ends_on_repeated_finished :
    (tracker_serve (registry_of_kinds [Client_Type_t.PEER, Client_Type_t.PEER])
        [{ source := 1, payload := Payload.chars 18 "FINISHED_DOWN_ALL".toList },
         { source := 1, payload := Payload.chars 18 "FINISHED_DOWN_ALL".toList }]).how =
      ServeEnd.left ∧
    (tracker_serve (registry_of_kinds [Client_Type_t.PEER, Client_Type_t.PEER])
        [{ source := 1, payload := Payload.chars 18 "FINISHED_DOWN_ALL".toList },
         { source := 1, payload := Payload.chars 18 "FINISHED_DOWN_ALL".toList }]
      ).handled.map (fun m => (m.source, m.buffer)) =
      [(1, "FINISHED_DOWN_ALL".toList), (1, "FINISHED_DOWN_ALL".toList)] ∧
    ((tracker_loop
        (total_downloading_clients
          (registry_of_kinds [Client_Type_t.PEER, Client_Type_t.PEER]).data)
        (tracker_init (registry_of_kinds [Client_Type_t.PEER, Client_Type_t.PEER]))
        [finished_msg 1, finished_msg 1]).map
        (fun p => (p.1.continue_tracking, p.2.length)) = some (false, 0)) ∧
      kind_of (registry_of_kinds [Client_Type_t.PEER, Client_Type_t.PEER]) 2 =
        some Client_Type_t.PEER ∧
      ¬ (2 : Int) ∈ finished_senders [finished_msg 1, finished_msg 1] ∧
      ¬ all_finished (registry_of_kinds [Client_Type_t.PEER, Client_Type_t.PEER])
          [finished_msg 1, finished_msg 1] := by
  refine ⟨by decide, by decide, by decide, by decide, by decide, ?_⟩
  intro h
  have h2 := h 2 (by decide) (by decide) (by decide)
  revert h2
  decide

/-- C2, the code at a failing input: rank 1, which owned nothing, reports
with `DOWN_10` the ten 32-character hashes of `file1` that it downloaded
from rank 2; the manifest the tracker then holds for rank 1 is made of the
first 31 characters of each hash, not of the hashes as received (the
manifest of rank 2, stored at intake, has them in full). -/
theorem update_tracker_swarm_drops_last_hash_char :
    ((update_tracker_swarm leecher_seeder_registry 1 1 ten_hashes).bind
        (fun m => tracker_manifest m 1 1) =
      some ((List.ofFn ten_hashes).map (fun h => h.take 31))) ∧
    ((update_tracker_swarm leecher_seeder_registry 1 1 ten_hashes).bind
        (fun m => tracker_manifest m 1 1) ≠
      some ([] ++ List.ofFn ten_hashes)) ∧
    ((update_tracker_swarm leecher_seeder_registry 1 1 ten_hashes).bind
        (fun m => tracker_manifest m 2 1) =
      some (List.ofFn ten_hashes)) := by
  decide

/-! ### Shutdown -/

/-- What one pass of the tracker loop can change in the flag and in the
messages sent, whoever the sender is. -/
theorem tracker_handle_some (total : Int) (st st1 : TrackerState) (msg : InformMsg)
    (h : tracker_handle total st msg = some st1) :
    (st1.continue_tracking = false →
      st1.finished_clients = total ∨ st.continue_tracking = false) ∧
    (∀ e ∈ st1.sent, e ∈ st.sent ∨
      e = Event.send msg.source ACK_TAG (Payload.chars 2 OK)) := by
  unfold tracker_handle at h
  simp only [Option.map_eq_some'] at h
  obtain ⟨st0, hst0, hmap⟩ := h
  have h0 : st0.continue_tracking = st.continue_tracking ∧
      (∀ e ∈ st0.sent, e ∈ st.sent ∨
        e = Event.send msg.source ACK_TAG (Payload.chars 2 OK)) := by
    split at hst0
    · unfold handle_finished at hst0
      split at hst0
      · cases hst0
      · split at hst0
        · cases hst0
        · simp only [Option.some.injEq] at hst0
          subst hst0
          exact ⟨rfl, fun e he => Or.inl he⟩
    · split at hst0
      · unfold handle_down at hst0
        split at hst0
        · cases hst0
        · simp only [Option.some.injEq] at hst0
          subst hst0
          refine ⟨rfl, fun e he => ?_⟩
          simp only [List.mem_append, List.mem_singleton] at he
          exact he
      · split at hst0 <;>
        · simp only [Option.some.injEq] at hst0
          subst hst0
          exact ⟨rfl, fun e he => Or.inl he⟩
  subst hmap
  split
  · rename_i heq
    exact ⟨fun _ => Or.inl heq, h0.2⟩
  · exact ⟨fun hc => Or.inr (h0.1 ▸ hc), h0.2⟩

/-- When the loop is left, the count of finished clients equals the number
of counted clients, and every message sent in the loop is an `OK` on the ACK
tag. -/
theorem tracker_loop_end_state (total : Int) (msgs : List InformMsg) :
    ∀ (st st1 : TrackerState) (rest : List InformMsg),
      tracker_loop total st msgs = some (st1, rest) →
      (st.continue_tracking = false → st.finished_clients = total) →
      (∀ e ∈ st.sent, ∃ d, e = Event.send d ACK_TAG (Payload.chars 2 OK)) →
      (st1.continue_tracking = false → st1.finished_clients = total) ∧
      (∀ e ∈ st1.sent, ∃ d, e = Event.send d ACK_TAG (Payload.chars 2 OK)) := by
  induction msgs with
  | nil =>
    intro st st1 rest h hfin hsent
    simp only [tracker_loop, Option.some.injEq, Prod.mk.injEq] at h
    rw [← h.1]
    exact ⟨hfin, hsent⟩
  | cons msg tl ih =>
    intro st st1 rest h hfin hsent
    unfold tracker_loop at h
    split at h
    · rename_i hc
      split at h
      · cases h
      · rename_i st2 hst2
        obtain ⟨ha, hb⟩ := tracker_handle_some total st st2 msg hst2
        apply ih st2 st1 rest h
        · intro hc2
          rcases ha hc2 with h3 | h3
          · exact h3
          · rw [hc] at h3
            cases h3
        · intro e he
          rcases hb e he with h3 | h3
          · exact hsent e h3
          · exact ⟨_, h3⟩
    · simp only [Option.some.injEq, Prod.mk.injEq] at h
      rw [← h.1]
      exact ⟨hfin, hsent⟩

/-- The final loop sends `STOP_UPLOADING` once to each rank whose kind is
not LEECHER and to no other rank. -/
theorem stop_uploading_from_count (data : List TrackerData_t) (start r : Int) :
    (stop_uploading_from start data).count (stop_msg r) =
      if start ≤ r ∧ r < start + (data.length : Int) ∧
          (data[(r - start).toNat]?).map (fun cd => cd.client_type) ≠
            some Client_Type_t.LEECHER
      then 1 else 0 := by
  induction data generalizing start with
  | nil =>
    have hn : ¬ (start ≤ r ∧ r < start + (([] : List TrackerData_t).length : Int) ∧
        (([] : List TrackerData_t)[(r - start).toNat]?).map (fun cd => cd.client_type) ≠
          some Client_Type_t.LEECHER) := by
      simp only [List.length_nil, Nat.cast_zero]
      omega
    rw [if_neg hn]
    rfl
  | cons cd rest ih =>
    unfold stop_uploading_from
    by_cases hr : r = start
    · subst hr
      have hrest : (stop_uploading_from (r + 1) rest).count (stop_msg r) = 0 := by
        rw [ih (r + 1)]
        simp
      split
      · rename_i hk
        rw [List.count_cons, hrest]
        simp [stop_msg, hk]
      · rename_i hk
        rw [hrest]
        simp only [ne_eq, Decidable.not_not] at hk
        simp [hk]
    · have hidx : r > start → (r - start).toNat = (r - (start + 1)).toNat + 1 := by
        intro hgt
        omega
      have hne : (stop_msg start == stop_msg r) = false := by
        simp [stop_msg]
        exact fun h => hr h.symm
      have hrest : (stop_uploading_from (start + 1) rest).count (stop_msg r) =
          if start ≤ r ∧ r < start + ((cd :: rest).length : Int) ∧
              ((cd :: rest)[(r - start).toNat]?).map (fun cd => cd.client_type) ≠
                some Client_Type_t.LEECHER
          then 1 else 0 := by
        rw [ih (start + 1)]
        by_cases hgt : r > start
        · rw [hidx hgt]
          simp only [List.length_cons, Nat.cast_add, Nat.cast_one, List.getElem?_cons_succ]
          refine if_congr ?_ rfl rfl
          constructor <;> rintro ⟨a, b, c⟩ <;> exact ⟨by omega, by omega, c⟩
        · have n1 : ¬ (start + 1 ≤ r) := by omega
          have n2 : ¬ (start ≤ r) := by omega
          simp [n1, n2]
      split
      · rw [List.count_cons, hrest]
        have : (stop_msg start == stop_msg r) = false := hne
        simp only [stop_msg] at this
        simp [stop_msg, this]
      · exact hrest

/-- A run of `tracker` whose loop has been left: the state is the state at
the end of the loop with the shutdown messages added. -/
theorem tracker_left_loop (td : TrackerDataSet_t) (msgs : List InformMsg)
    (st : TrackerState) (h : tracker td msgs = some st)
    (hend : st.continue_tracking = false) :
    ∃ st1 rest,
      tracker_loop (total_downloading_clients td.data) (tracker_init td) msgs =
        some (st1, rest) ∧
      st1.continue_tracking = false ∧
      st = { st1 with sent := st1.sent ++ stop_uploading_from 1 st1.tracker_data.data } := by
  simp only [tracker] at h
  split at h
  · cases h
  · rename_i st1 rest hloop
    split at h
    · rename_i hc
      simp only [Option.some.injEq] at h
      rw [← h, hc] at hend
      cases hend
    · rename_i hc
      simp only [Option.some.injEq] at h
      exact ⟨st1, rest, hloop, by simpa using hc, h.symm⟩

/-- C4: when `tracker` has left its loop, the finished count equals the
number of clients counted as downloading, and `STOP_UPLOADING` has been sent
exactly once to every rank in `1 .. N` whose kind in the tracker state is
not LEECHER and to no other rank. With kinds SEEDER, PEER, LEECHER, PEER and
one `FINISHED_DOWN_ALL` from each of the ranks 2, 3, 4 (in any order) the
loop ends with a finished count of 3, rank 1 is sent `STOP_UPLOADING` once
and rank 3 is sent none. -/
theorem tracker_stop_uploading_once (td : TrackerDataSet_t) (msgs : List InformMsg)
    (st : TrackerState) (h : tracker td msgs = some st)
    (hend : st.continue_tracking = false) :
    st.finished_clients = total_downloading_clients td.data ∧
    (∀ r : Int, st.sent.count (stop_msg r) =
      if 1 ≤ r ∧ r ≤ (st.tracker_data.data.length : Int) ∧
          kind_of st.tracker_data r ≠ some Client_Type_t.LEECHER
      then 1 else 0) ∧
    (∀ order ∈ report_orders,
      (tracker (registry_of_kinds mixed_kinds) (order.map finished_msg)).map
        (fun s => (s.finished_clients, s.continue_tracking,
          s.sent.count (stop_msg 1), s.sent.count (stop_msg 3))) =
        some (3, false, 1, 0)) := by
  obtain ⟨st1, rest, hloop, hc1, hst⟩ := tracker_left_loop td msgs st h hend
  obtain ⟨hfin, hsent⟩ := tracker_loop_end_state _ msgs _ st1 rest hloop
    (by intro hc; cases hc) (by intro e he; cases he)
  refine ⟨?_, ?_, by decide⟩
  · rw [hst]
    exact hfin hc1
  · intro r
    rw [hst]
    have hzero : st1.sent.count (stop_msg r) = 0 := by
      rw [List.count_eq_zero]
      intro hmem
      obtain ⟨d, hd⟩ := hsent _ hmem
      simp [stop_msg, REQUEST_TAG, ACK_TAG] at hd
    simp only [List.count_append, hzero, zero_add]
    rw [stop_uploading_from_count]
    refine if_congr ?_ rfl rfl
    constructor
    · rintro ⟨a, b, c⟩
      refine ⟨a, by omega, ?_⟩
      have hnot : ¬ r < 1 := by omega
      simpa [kind_of, hnot] using c
    · rintro ⟨a, b, c⟩
      refine ⟨a, by omega, ?_⟩
      have hnot : ¬ r < 1 := by omega
      simpa [kind_of, hnot] using c

/-- Witness of `tracker_stop_uploading_once`: the mixed scenario with the
reports in the order 2, 3, 4. -/
theorem tracker_stop_uploading_once_witness :
    ∃ st, tracker (registry_of_kinds mixed_kinds)
        [finished_msg 2, finished_msg 3, finished_msg 4] = some st ∧
      st.continue_tracking = false ∧
      st.finished_clients =
        total_downloading_clients (registry_of_kinds mixed_kinds).data ∧
      st.sent.count (stop_msg 1) = 1 ∧ st.sent.count (stop_msg 3) = 0 := by
  have hsome : (tracker (registry_of_kinds mixed_kinds)
      [finished_msg 2, finished_msg 3, finished_msg 4]).isSome = true := by decide
  obtain ⟨st, hst⟩ := Option.isSome_iff_exists.1 hsome
  have hend : st.continue_tracking = false := by
    have hc : (tracker (registry_of_kinds mixed_kinds)
        [finished_msg 2, finished_msg 3, finished_msg 4]).map
        (fun s => s.continue_tracking) = some false := by decide
    rw [hst] at hc
    simpa using hc
  have hkinds : (tracker (registry_of_kinds mixed_kinds)
      [finished_msg 2, finished_msg 3, finished_msg 4]).map
      (fun s => (s.tracker_data.data.length,
        kind_of s.tracker_data 1, kind_of s.tracker_data 3)) =
      some (4, some Client_Type_t.SEEDER, some Client_Type_t.LEECHER) := by decide
  rw [hst] at hkinds
  simp only [Option.map_some', Option.some.injEq, Prod.mk.injEq] at hkinds
  obtain ⟨hlen, hk1, hk3⟩ := hkinds
  obtain ⟨hfin, hcount, _⟩ :=
    tracker_stop_uploading_once (registry_of_kinds mixed_kinds)
      [finished_msg 2, finished_msg 3, finished_msg 4] st hst hend
  refine ⟨st, hst, hend, hfin, ?_, ?_⟩
  · rw [hcount 1, hlen, hk1]
    decide
  · rw [hcount 3, hlen, hk3]
    decide

/-! ### The manifest reader -/

theorem read_owned_files_length (n : Nat) :
    ∀ (inp : List Char) (files : List FileData_t) (rest : List Char),
      read_owned_files n inp = some (files, rest) → files.length = n := by
  induction n with
  | zero =>
    intro inp files rest h
    simp only [read_owned_files, Option.some.injEq, Prod.mk.injEq] at h
    simp [← h.1]
  | succ k ih =>
    intro inp files rest h
    unfold read_owned_files at h
    split at h
    · cases h
    · split at h
      · cases h
      · split at h
        · cases h
        · simp only at h
          split at h
          · cases h
          · split at h
            · cases h
            · split at h
              · cases h
              · rename_i fs rest2 hrec
                simp only [Option.some.injEq, Prod.mk.injEq] at h
                rw [← h.1, List.length_cons, ih _ _ _ hrec]

theorem read_wanted_files_length (n : Nat) :
    ∀ (inp : List Char) (names : List FileName_t) (rest : List Char),
      read_wanted_files n inp = some (names, rest) → names.length = n := by
  induction n with
  | zero =>
    intro inp names rest h
    simp only [read_wanted_files, Option.some.injEq, Prod.mk.injEq] at h
    simp [← h.1]
  | succ k ih =>
    intro inp names rest h
    unfold read_wanted_files at h
    split at h
    · cases h
    · split at h
      · cases h
      · rename_i ns rest1 hrec
        simp only [Option.some.injEq, Prod.mk.injEq] at h
        rw [← h.1, List.length_cons, ih _ _ _ hrec]

/-- C5: for every input manifest that `read_from_file` parses, the client
kind is SEEDER when the owned count is non-zero and the wanted count is
zero, LEECHER when the owned count is zero and the wanted count is non-zero,
PEER when both are non-zero, and LEECHER when both are zero. -/
theorem read_from_file_kind (content : List Char) (rank : Int) (c : ClientFiles_t)
    (h : read_from_file content rank = some c) :
    (c.owned_files.length ≠ 0 ∧ c.wanted_files.length = 0 →
      c.client_type = Client_Type_t.SEEDER) ∧
    (c.owned_files.length = 0 ∧ c.wanted_files.length ≠ 0 →
      c.client_type = Client_Type_t.LEECHER) ∧
    (c.owned_files.length ≠ 0 ∧ c.wanted_files.length ≠ 0 →
      c.client_type = Client_Type_t.PEER) ∧
    (c.owned_files.length = 0 ∧ c.wanted_files.length = 0 →
      c.client_type = Client_Type_t.LEECHER) := by
  unfold read_from_file at h
  split at h
  · cases h
  · rename_i line1 rest1 _
    simp only at h
    split at h
    · cases h
    · rename_i hneg1
      split at h
      · cases h
      · rename_i owned rest2 howned
        split at h
        · cases h
        · rename_i line2 rest3 _
          split at h
          · cases h
          · rename_i hneg2
            split at h
            · cases h
            · rename_i wanted rest4 hwanted
              have ho := read_owned_files_length _ _ _ _ howned
              have hw := read_wanted_files_length _ _ _ _ hwanted
              simp only [Option.some.injEq] at h
              subst h
              simp only [ho, hw]
              by_cases h1 : atoi line1 = 0 <;> by_cases h2 : atoi line2 = 0 <;>
                simp [h1, h2] <;> omega

/-- Witness of `read_from_file_kind`: a manifest with one owned and one
wanted file is parsed and gives the kind PEER. -/
theorem read_from_file_kind_witness :
    ∃ c, read_from_file sample_manifest 2 = some c ∧
      c.owned_files.length = 1 ∧ c.wanted_files.length = 1 ∧
      c.client_type = Client_Type_t.PEER := by
  have hsome : (read_from_file sample_manifest 2).isSome = true := by decide
  obtain ⟨c, hc⟩ := Option.isSome_iff_exists.1 hsome
  have hlen : (read_from_file sample_manifest 2).map
      (fun c => (c.owned_files.length, c.wanted_files.length)) = some (1, 1) := by
    decide
  rw [hc] at hlen
  simp only [Option.map_some', Option.some.injEq, Prod.mk.injEq] at hlen
  obtain ⟨_, _, hpeer, _⟩ := read_from_file_kind sample_manifest 2 c hc
  exact ⟨c, hc, hlen.1, hlen.2, hpeer ⟨by omega, by omega⟩⟩

/-! ### The downloader -/

theorem segments_of_length (hs : List CStr) : (segments_of hs).length = hs.length := by
  simp [segments_of]

theorem segments_of_append (a b : List CStr) :
    segments_of (a ++ b) = segments_of a ++ segments_of b := by
  simp [segments_of]

theorem segments_of_hashes (hs : List CStr) :
    (segments_of hs).map (fun s => s.hash) = hs := by
  induction hs with
  | nil => rfl
  | cons h t ih =>
    simp only [segments_of, List.map_cons, List.cons.injEq, true_and] at ih ⊢
    exact ih

theorem take_succ_eq_append (L : List CStr) (k : Nat) (hk : k < L.length) :
    L.take (k + 1) = L.take k ++ [L[k]] := by
  rw [List.take_succ, List.getElem?_eq_getElem hk]
  rfl

/-- A hash of a list without repetition is not among the hashes before
it. -/
theorem has_segment_take (L : List CStr) (hL : L.Nodup) (k : Nat) (hk : k < L.length)
    (name : CStr) (fid : Int) :
    has_segment { file_name := name, file_id := fid, segments := segments_of (L.take k) }
      { hash := L[k] } = false := by
  simp only [has_segment, segments_of, List.any_eq_false, decide_eq_true_eq]
  intro h hmem heq
  rw [List.mem_map] at hmem
  obtain ⟨h0, hmem0, hh0⟩ := hmem
  rw [← hh0] at heq
  simp only at heq
  rw [List.mem_take_iff_getElem] at hmem0
  obtain ⟨i, hi, hget⟩ := hmem0
  have hik : i = k := by
    apply (List.Nodup.getElem_inj_iff hL).1
    rw [hget, heq]
  omega

theorem drop_take_cons (L : List CStr) (k m : Nat) (hkm : k < m) (hm : m ≤ L.length)
    (hk : k < L.length) :
    (L.take m).drop k = L[k] :: (L.take m).drop (k + 1) := by
  have hk2 : k < (L.take m).length := by
    rw [List.length_take]
    omega
  rw [List.drop_eq_getElem_cons hk2]
  congr 1
  simp [List.getElem_take]

theorem holds_first_add_file (client : ClientFiles_t) (fid : Int) (L : List CStr)
    (hnot : file_is_owned client fid = false) :
    holds_first (add_file_to_owned client fid) fid L 0 := by
  rw [file_is_owned_eq_false_iff] at hnot
  refine ⟨client.owned_files.length,
    { file_name := snprintf_file MAX_FILENAME fid, file_id := fid, segments := [] },
    find_file_data_append_new _ _ _ hnot rfl, ?_, rfl, ?_⟩
  · simp [add_file_to_owned]
  · simp [segments_of]

theorem requests_of_append (a b : List Event) :
    requests_of (a ++ b) = requests_of a ++ requests_of b := by
  simp [requests_of]

theorem requests_of_report_msgs (verb : CStr) (data : FileData_t) :
    requests_of (report_msgs verb data) = [] := by
  simp only [requests_of, report_msgs, List.filter_eq_nil_iff, List.mem_append,
    List.mem_cons, List.mem_map]
  rintro e (h | h)
  · rcases h with h | h | h
    · subst h
      simp [inform_msg, INFORM_TAG, REQUEST_TAG]
    · subst h
      simp [INFORM_TAG, REQUEST_TAG]
    · simp at h
  · obtain ⟨x, _, hx⟩ := h
    subst hx
    simp [hash_msg, INFORM_TAG, REQUEST_TAG]

theorem report_progress_fields (env : DownloadEnv) (s : DownloadState) (data : FileData_t) :
    (report_progress env s data).client = s.client ∧
    (report_progress env s data).current_file_idx = s.current_file_idx ∧
    (report_progress env s data).continue_downloading = s.continue_downloading ∧
    requests_of (report_progress env s data).trace = requests_of s.trace := by
  unfold report_progress
  split
  · refine ⟨rfl, rfl, rfl, ?_⟩
    simp only [requests_of_append, requests_of_report_msgs, List.append_nil]
    simp [requests_of, inform_msg, INFORM_TAG, REQUEST_TAG]
  · exact ⟨rfl, rfl, rfl, rfl⟩

theorem complete_file_fields (s : DownloadState) (data : FileData_t) (fid : Int) :
    (complete_file s data fid).client = s.client ∧
    (complete_file s data fid).current_file_idx = s.current_file_idx + 1 ∧
    (complete_file s data fid).continue_downloading = s.continue_downloading ∧
    requests_of (complete_file s data fid).trace = requests_of s.trace := by
  unfold complete_file
  split
  · refine ⟨rfl, rfl, rfl, ?_⟩
    simp only [requests_of_append, requests_of_report_msgs, List.append_nil]
    simp [requests_of]
  · refine ⟨rfl, rfl, rfl, ?_⟩
    simp [requests_of]

theorem segment_loop_first_ok (env : DownloadEnv) (r : Int) (seg : FileSegment_t)
    (rest : List FileSegment_t) (s : SegmentLoopState)
    (hhas : has_segment s.data seg = false) (hack : env.peer_ack s.peer_acks = OK)
    (hroom : s.data.segments.length < MAX_CHUNKS) :
    segment_loop env r (seg :: rest) s =
      { data := { s.data with
          segments := s.data.segments ++ [{ hash := strncpy seg.hash HASH_SIZE }] },
        downloaded_segments := s.downloaded_segments + 1,
        segment_downloaded := true,
        peer_acks := s.peer_acks + 1,
        trace := s.trace ++
          [request_msg r seg,
           Event.recv r ACK_TAG (Payload.chars BUFF_SIZE OK),
           Event.store s.data.file_id (strncpy seg.hash HASH_SIZE)] } := by
  have hnot : ¬ s.data.segments.length ≥ MAX_CHUNKS := by omega
  simp [segment_loop, hhas, hack, add_segment_to_file_data, hnot]

theorem finish_pass_fields (env : DownloadEnv) (s : DownloadState) (di : Nat)
    (inner : SegmentLoopState) (fid : Int) :
    (finish_pass env s di inner fid).client =
      { s.client with owned_files := s.client.owned_files.set di inner.data } ∧
    (finish_pass env s di inner fid).current_file_idx =
      (if inner.segment_downloaded then s.current_file_idx else s.current_file_idx + 1) ∧
    (finish_pass env s di inner fid).continue_downloading = s.continue_downloading ∧
    requests_of (finish_pass env s di inner fid).trace = requests_of inner.trace := by
  unfold finish_pass
  cases hsd : inner.segment_downloaded
  · simp only [Bool.not_false, if_true]
    obtain ⟨h1, h2, h3, h4⟩ := report_progress_fields env
      (complete_file
        { s with
          client := { s.client with owned_files := s.client.owned_files.set di inner.data },
          downloaded_segments := inner.downloaded_segments,
          peer_acks := inner.peer_acks,
          trace := inner.trace } inner.data fid) inner.data
    obtain ⟨g1, g2, g3, g4⟩ := complete_file_fields
        { s with
          client := { s.client with owned_files := s.client.owned_files.set di inner.data },
          downloaded_segments := inner.downloaded_segments,
          peer_acks := inner.peer_acks,
          trace := inner.trace } inner.data fid
    rw [h1, h2, h3, h4, g1, g2, g3, g4]
    simp
  · simp only [Bool.not_true, Bool.false_eq_true, if_false]
    obtain ⟨h1, h2, h3, h4⟩ := report_progress_fields env
        { s with
          client := { s.client with owned_files := s.client.owned_files.set di inner.data },
          downloaded_segments := inner.downloaded_segments,
          peer_acks := inner.peer_acks,
          trace := inner.trace } inner.data
    rw [h1, h2, h3, h4]
    simp

theorem holds_first_set (client : ClientFiles_t) (fid : Int) (L : List CStr) (j : Nat)
    (di : Nat) (fd fd1 : FileData_t)
    (hfind : find_file_data client.owned_files fid = some di)
    (hget : client.owned_files[di]? = some fd) (hid : fd.file_id = fid)
    (hid1 : fd1.file_id = fid) (hsegs : fd1.segments = segments_of (L.take j)) :
    holds_first { client with owned_files := client.owned_files.set di fd1 } fid L j := by
  have hlt : di < client.owned_files.length := by
    by_contra hge
    rw [List.getElem?_eq_none (by omega)] at hget
    cases hget
  refine ⟨di, fd1, ?_, ?_, hid1, hsegs⟩
  · show find_file_data (client.owned_files.set di fd1) fid = some di
    rw [find_file_data_set _ _ _ fd fd1 hget (by rw [hid, hid1]), hfind]
  · show (client.owned_files.set di fd1)[di]? = some fd1
    simp [hlt]

/-- A pass on a peer that advertises the first `m` hashes of `L`, when the
client holds the first `k`: with `k < m` the hash number `k` is requested
and stored, otherwise nothing is requested and the file is completed. -/
theorem download_from_peer_first (env : DownloadEnv) (s : DownloadState)
    (peer : PeerInfo_t) (fid : Int) (L : List CStr) (k m : Nat)
    (hown : holds_first s.client fid L k)
    (hpeer : peer.segments = segments_of (L.take m))
    (hL : L.Nodup) (hlen : ∀ h ∈ L, h.length ≤ HASH_SIZE)
    (hk : k ≤ L.length) (hm : m ≤ L.length) (hmax : L.length ≤ MAX_CHUNKS)
    (hack : env.peer_ack s.peer_acks = OK) :
    ∃ s1, download_from_peer env s peer fid = some s1 ∧
      s1.client.wanted_files = s.client.wanted_files ∧
      s1.client.peers = s.client.peers ∧
      s1.continue_downloading = s.continue_downloading ∧
      (k < m → s1.current_file_idx = s.current_file_idx ∧
        holds_first s1.client fid L (k + 1) ∧
        requests_of s1.trace = requests_of s.trace ++
          ((L.take (k + 1)).drop k).map
            (fun h => request_msg peer.peer_rank { hash := h })) ∧
      (m ≤ k → s1.current_file_idx = s.current_file_idx + 1 ∧
        holds_first s1.client fid L k ∧
        requests_of s1.trace = requests_of s.trace) := by
  obtain ⟨di, fd, hfind, hget, hfid, hsegs⟩ := hown
  have hfl : fd.segments.length = k := by
    rw [hsegs, segments_of_length, List.length_take]
    omega
  simp only [download_from_peer, hfind, hget, hfl, hpeer]
  by_cases hkm : k < m
  · have hk2 : k < L.length := by omega
    have hcands : (segments_of (L.take m)).drop k =
        { hash := L[k] } :: (segments_of (L.take m)).drop (k + 1) := by
      simp only [segments_of, ← List.map_drop]
      rw [drop_take_cons L k m hkm hm hk2]
      rfl
    have hhas : has_segment fd { hash := L[k] } = false := by
      have := has_segment_take L hL k hk2 fd.file_name fd.file_id
      rw [← hsegs] at this
      exact this
    have hroom : fd.segments.length < MAX_CHUNKS := by omega
    have hcopy : strncpy L[k] HASH_SIZE = L[k] := by
      unfold strncpy
      exact List.take_of_length_le (hlen _ (List.getElem_mem _))
    rw [hcands, segment_loop_first_ok env peer.peer_rank _ _ _ hhas hack hroom]
    simp only [hcopy]
    refine ⟨_, rfl, ?_⟩
    obtain ⟨h1, h2, h3, h4⟩ := finish_pass_fields env s di
      { data := { fd with segments := fd.segments ++ [{ hash := L[k] }] },
        downloaded_segments := s.downloaded_segments + 1,
        segment_downloaded := true,
        peer_acks := s.peer_acks + 1,
        trace := s.trace ++
          [request_msg peer.peer_rank { hash := L[k] },
           Event.recv peer.peer_rank ACK_TAG (Payload.chars BUFF_SIZE OK),
           Event.store fd.file_id L[k]] } fid
    rw [h1, h2, h3, h4]
    refine ⟨rfl, rfl, rfl, ?_, ?_⟩
    · intro _
      refine ⟨by simp, ?_, ?_⟩
      · refine holds_first_set s.client fid L (k + 1) di fd
          { fd with segments := fd.segments ++ [{ hash := L[k] }] } hfind hget hfid hfid ?_
        show fd.segments ++ [{ hash := L[k] }] = segments_of (L.take (k + 1))
        rw [take_succ_eq_append L k hk2, segments_of_append, hsegs]
        rfl
      · rw [requests_of_append]
        congr 1
        have hd : (L.take (k + 1)).drop k = [L[k]] := by
          rw [drop_take_cons L k (k + 1) (by omega) (by omega) hk2]
          simp
        rw [hd]
        simp [requests_of, request_msg, REQUEST_TAG, ACK_TAG]
    · intro hmk
      omega
  · have hmk : m ≤ k := by omega
    have hcands : (segments_of (L.take m)).drop k = [] := by
      apply List.drop_eq_nil_of_le
      rw [segments_of_length, List.length_take]
      omega
    rw [hcands]
    simp only [segment_loop]
    refine ⟨_, rfl, ?_⟩
    obtain ⟨h1, h2, h3, h4⟩ := finish_pass_fields env s di
      { data := fd, downloaded_segments := s.downloaded_segments,
        segment_downloaded := false, peer_acks := s.peer_acks, trace := s.trace } fid
    rw [h1, h2, h3, h4]
    refine ⟨rfl, rfl, rfl, ?_, ?_⟩
    · intro h
      omega
    · intro _
      refine ⟨by simp, ?_, rfl⟩
      exact holds_first_set s.client fid L k di fd fd hfind hget hfid hfid hsegs

theorem ensure_owned_fields (client : ClientFiles_t) (fid : Int) :
    (ensure_owned client fid).wanted_files = client.wanted_files ∧
    (ensure_owned client fid).peers = client.peers := by
  unfold ensure_owned
  split <;> exact ⟨rfl, rfl⟩

theorem ensure_owned_of_holds (client : ClientFiles_t) (fid : Int) (L : List CStr)
    (k : Nat) (h : holds_first client fid L k) : ensure_owned client fid = client := by
  obtain ⟨di, _, hfind, _⟩ := h
  simp [ensure_owned, file_is_owned_of_find client fid di hfind]

theorem owned_manifest_of_holds (client : ClientFiles_t) (fid : Int) (L : List CStr)
    (k : Nat) (h : holds_first client fid L k) :
    owned_manifest client fid = some (L.take k) := by
  obtain ⟨di, fd, hfind, hget, _, hsegs⟩ := h
  simp only [owned_manifest, hfind, hget, Option.map_some', hsegs, segments_of_hashes]

/-- One pass of the download loop on a peer that advertises the first `m`
hashes of `L`, when the client holds the first `k` once the file has been
added to the owned files. -/
theorem download_iter_first (env : DownloadEnv) (s : DownloadState)
    (pl : PeersList_t) (peer : PeerInfo_t) (w : FileName_t) (L : List CStr) (k m : Nat)
    (hpl : s.client.peers[s.current_file_idx]? = some pl)
    (hpos : 0 < pl.peers_count)
    (hsel : pl.peers_array[(select_peer env s pl.peers_count).toNat]? = some peer)
    (hw : s.client.wanted_files[s.current_file_idx]? = some w)
    (hown : holds_first (ensure_owned s.client (file_id_of_name w.file_name))
      (file_id_of_name w.file_name) L k)
    (hpeer : peer.segments = segments_of (L.take m))
    (hL : L.Nodup) (hlen : ∀ h ∈ L, h.length ≤ HASH_SIZE)
    (hk : k ≤ L.length) (hm : m ≤ L.length) (hmax : L.length ≤ MAX_CHUNKS)
    (hack : env.peer_ack s.peer_acks = OK) :
    ∃ s1, download_iter env s = some s1 ∧
      s1.client.wanted_files = s.client.wanted_files ∧
      s1.client.peers = s.client.peers ∧
      s1.continue_downloading = s.continue_downloading ∧
      (k < m → s1.current_file_idx = s.current_file_idx ∧
        holds_first s1.client (file_id_of_name w.file_name) L (k + 1) ∧
        requests_of s1.trace = requests_of s.trace ++
          ((L.take (k + 1)).drop k).map
            (fun h => request_msg peer.peer_rank { hash := h })) ∧
      (m ≤ k → s1.current_file_idx = s.current_file_idx + 1 ∧
        holds_first s1.client (file_id_of_name w.file_name) L k ∧
        requests_of s1.trace = requests_of s.trace) := by
  have hnle : ¬ pl.peers_count ≤ 0 := by omega
  obtain ⟨e1, e2⟩ := ensure_owned_fields s.client (file_id_of_name w.file_name)
  obtain ⟨s1, hs1, h1, h2, h3, h4, h5⟩ := download_from_peer_first env
    { s with
      client := ensure_owned s.client (file_id_of_name w.file_name),
      rand_calls := if pl.peers_count > 1 then s.rand_calls + 1 else s.rand_calls }
    peer (file_id_of_name w.file_name) L k m hown hpeer hL hlen hk hm hmax hack
  refine ⟨s1, ?_, by rw [h1]; exact e1, by rw [h2]; exact e2, h3, h4, h5⟩
  simp only [download_iter, hpl, hnle, if_false, hsel, hw]
  exact hs1

/-- The download loop of a client with one wanted file and one peer that
advertises `L`, from a state in which the first `k` hashes are held. -/
theorem download_loop_single_peer (env : DownloadEnv) (w : FileName_t)
    (peer : PeerInfo_t) (L : List CStr)
    (hadv : peer.segments = segments_of L)
    (hL : L.Nodup) (hlen : ∀ h ∈ L, h.length ≤ HASH_SIZE) (hmax : L.length ≤ MAX_CHUNKS)
    (hack : ∀ i, env.peer_ack i = OK) (j : Nat) :
    ∀ (k fuel : Nat) (s : DownloadState), L.length - k = j → k ≤ L.length →
      L.length - k + 1 ≤ fuel →
      s.client.wanted_files = [w] →
      s.client.peers = [{ peers_array := [peer], peers_count := 1 }] →
      s.current_file_idx = 0 → s.continue_downloading = true →
      holds_first (ensure_owned s.client (file_id_of_name w.file_name))
        (file_id_of_name w.file_name) L k →
      ∃ s1, download_loop env fuel s = some s1 ∧
        requests_of s1.trace = requests_of s.trace ++
          (L.drop k).map (fun h => request_msg peer.peer_rank { hash := h }) ∧
        holds_first s1.client (file_id_of_name w.file_name) L L.length := by
  induction j with
  | zero =>
    intro k fuel s hj hk hfuel hw hp hidx hcont hown
    have hkn : k = L.length := by omega
    obtain ⟨f, hf⟩ : ∃ f, fuel = f + 1 := ⟨fuel - 1, by omega⟩
    subst hf
    have hcond : download_cond s = true := by simp [download_cond, hcont, hidx, hw]
    obtain ⟨s1, hs1, h1, h2, h3, _, h5⟩ := download_iter_first env s
      { peers_array := [peer], peers_count := 1 } peer w L k L.length
      (by simp [hp, hidx]) (by simp) (by simp [select_peer])
      (by simp [hw, hidx]) hown (by rw [List.take_length]; exact hadv)
      hL hlen hk (le_refl _) hmax (hack _)
    obtain ⟨hi, hh, hr⟩ := h5 (by omega)
    have hcond1 : download_cond s1 = false := by
      simp [download_cond, hi, hidx, h1, hw]
    refine ⟨s1, ?_, ?_, ?_⟩
    · rw [download_loop, hcond, if_pos rfl, hs1]
      cases f with
      | zero => simp [download_loop, hcond1]
      | succ g => simp [download_loop, hcond1]
    · rw [hr, hkn]
      simp
    · rw [← hkn]
      exact hh
  | succ i ih =>
    intro k fuel s hj hk hfuel hw hp hidx hcont hown
    have hkn : k < L.length := by omega
    obtain ⟨f, hf⟩ : ∃ f, fuel = f + 1 := ⟨fuel - 1, by omega⟩
    subst hf
    have hcond : download_cond s = true := by simp [download_cond, hcont, hidx, hw]
    obtain ⟨s1, hs1, h1, h2, h3, h4, _⟩ := download_iter_first env s
      { peers_array := [peer], peers_count := 1 } peer w L k L.length
      (by simp [hp, hidx]) (by simp) (by simp [select_peer])
      (by simp [hw, hidx]) hown (by rw [List.take_length]; exact hadv)
      hL hlen hk (le_refl _) hmax (hack _)
    obtain ⟨hi, hh, hr⟩ := h4 hkn
    have hown1 : holds_first (ensure_owned s1.client (file_id_of_name w.file_name))
        (file_id_of_name w.file_name) L (k + 1) := by
      rw [ensure_owned_of_holds _ _ _ _ hh]
      exact hh
    obtain ⟨s2, hs2, hr2, hh2⟩ := ih (k + 1) f s1 (by omega) (by omega) (by omega)
      (by rw [h1, hw]) (by rw [h2, hp]) (by rw [hi, hidx]) (by rw [h3, hcont]) hown1
    refine ⟨s2, ?_, ?_, hh2⟩
    · rw [download_loop, hcond, if_pos rfl, hs1]
      exact hs2
    · have hd : (L.take (k + 1)).drop k = [L[k]] := by
        rw [drop_take_cons L k (k + 1) (by omega) (by omega) hkn]
        simp
      have hd2 : L.drop k = L[k] :: L.drop (k + 1) := List.drop_eq_getElem_cons hkn
      rw [hr2, hr, hd, hd2]
      simp only [List.map_cons, List.map_nil, List.append_assoc, List.singleton_append]

/-- C6: a client that owns nothing of its wanted file and whose peer table
for it holds a single peer advertising the pairwise distinct hashes `L`
(at most `MAX_CHUNKS`, each of at most `HASH_SIZE` characters), with every
request answered `OK`: the download loop is left, the requests sent are
exactly one per advertised hash in advertised order (each is a message to
that peer on the REQUEST tag, which is 4, of 31 characters, the first 31 of
the hash), and the manifest of the file ends equal to the advertised
sequence. -/
theorem download_single_peer (env : DownloadEnv) (client : ClientFiles_t)
    (w : FileName_t) (peer : PeerInfo_t) (L : List CStr) (fuel : Nat)
    (hw : client.wanted_files = [w])
    (hp : client.peers = [{ peers_array := [peer], peers_count := 1 }])
    (hnot : file_is_owned client (file_id_of_name w.file_name) = false)
    (hadv : peer.segments = segments_of L)
    (hL : L.Nodup) (hlen : ∀ h ∈ L, h.length ≤ HASH_SIZE) (hmax : L.length ≤ MAX_CHUNKS)
    (hack : ∀ i, env.peer_ack i = OK)
    (hfuel : L.length + 1 ≤ fuel) :
    ∃ s, download_thread_func env fuel client = some s ∧
      requests_of s.trace =
        L.map (fun h => Event.send peer.peer_rank 4 (Payload.chars 31 (h.take 31))) ∧
      (requests_of s.trace).length = L.length ∧
      owned_manifest s.client (file_id_of_name w.file_name) = some L := by
  have hown : holds_first
      (ensure_owned (download_init client).client (file_id_of_name w.file_name))
      (file_id_of_name w.file_name) L 0 := by
    have : ensure_owned client (file_id_of_name w.file_name) =
        add_file_to_owned client (file_id_of_name w.file_name) := by
      simp [ensure_owned, hnot]
    show holds_first (ensure_owned client (file_id_of_name w.file_name)) _ L 0
    rw [this]
    exact holds_first_add_file client _ L hnot
  obtain ⟨s1, hs1, hr, hh⟩ := download_loop_single_peer env w peer L hadv hL hlen hmax
    hack (L.length - 0) 0 fuel (download_init client) rfl (Nat.zero_le _)
    (by omega) hw hp rfl rfl hown
  have hreq : requests_of (s1.trace ++ [finished_inform]) =
      L.map (fun h => request_msg peer.peer_rank { hash := h }) := by
    rw [requests_of_append, hr]
    simp [requests_of, download_init, finished_inform, inform_msg, INFORM_TAG, REQUEST_TAG]
  refine ⟨{ s1 with trace := s1.trace ++ [finished_inform] }, ?_, hreq, ?_, ?_⟩
  · simp [download_thread_func, hs1]
  · rw [hreq, List.length_map]
  · have := owned_manifest_of_holds s1.client _ L L.length hh
    rw [List.take_length] at this
    exact this

/-- Witness of `download_single_peer`: rank 2 wants `file1`, the only peer is
rank 1 with three hashes; three requests are sent, each with the first 31
characters of a hash, and the manifest ends with the three hashes. -/
theorem download_single_peer_witness :
    ∃ s, download_thread_func (env_ok (fun _ => 0)) 4
        (leecher_client 2 [peer_of 1 hashes_abc]) = some s ∧
      requests_of s.trace =
        [Event.send 1 4 (Payload.chars 31 (List.replicate 31 'A')),
         Event.send 1 4 (Payload.chars 31 (List.replicate 31 'B')),
         Event.send 1 4 (Payload.chars 31 (List.replicate 31 'C'))] ∧
      (requests_of s.trace).length = 3 ∧
      owned_manifest s.client 1 =
        some [List.replicate 32 'A', List.replicate 32 'B', List.replicate 32 'C'] :=
  download_single_peer (env_ok (fun _ => 0)) (leecher_client 2 [peer_of 1 hashes_abc])
    { file_name := "file1".toList } (peer_of 1 hashes_abc) hashes_abc 4
    rfl rfl (by decide) rfl (by decide) (by decide) (by decide) (fun _ => rfl) (by decide)

/-- C8, the code at a failing input: for a manifest of three chunks the
start index `segment_count - 10` wraps around in `size_t`, the loop that
sends the hashes is not entered, and the `DOWN_X` report of the run is the
verb and the file id with no hash after them. -/
theorem down_x_report_sends_no_hash_below_ten :
    report_start 3 = 2 ^ 64 - 7 ∧
    report_hashes
      { file_name := "file1".toList, file_id := 1, segments := segments_of hashes_abc } = [] ∧
    (download_thread_func (env_ok (fun _ => 0)) 4
        (leecher_client 2 [peer_of 1 hashes_abc])).map (fun s => informs_of s.trace) =
      some [inform_msg 8 DOWN_X,
            Event.send TRACKER_RANK INFORM_TAG (Payload.int 1),
            finished_inform] ∧
    (download_thread_func (env_ok (fun _ => 0)) 4
        (leecher_client 2 [peer_of 1 hashes_abc])).map
        (fun s => owned_manifest s.client 1) = some (some hashes_abc) := by
  decide

/-- C7 fails as stated: when the fourth selection picks the peer that
advertises three hashes, the file is completed with the first three hashes
only. -/
theorem download_two_peers_stops_at_three :
    (download_thread_func (env_ok (fun n => if n = 3 then 0 else 1)) 6
        (two_peer_client 3 1 2 hashes_abcde)).map
        (fun s => (owned_manifest s.client 1, s.current_file_idx)) =
      some (some (hashes_abcde.take 3), 1) := by
  decide

theorem finish_pass_rand_calls (env : DownloadEnv) (s : DownloadState) (di : Nat)
    (inner : SegmentLoopState) (fid : Int) :
    (finish_pass env s di inner fid).rand_calls = s.rand_calls := by
  unfold finish_pass report_progress complete_file
  simp only
  split <;> split <;> (try split) <;> rfl

theorem download_iter_rand_calls (env : DownloadEnv) (s s1 : DownloadState)
    (pl : PeersList_t) (h : download_iter env s = some s1)
    (hpl : s.client.peers[s.current_file_idx]? = some pl) (hpos : 0 < pl.peers_count) :
    s1.rand_calls = if pl.peers_count > 1 then s.rand_calls + 1 else s.rand_calls := by
  have hnle : ¬ pl.peers_count ≤ 0 := by omega
  simp only [download_iter, hpl, hnle, if_false] at h
  split at h
  · unfold download_from_peer at h
    split at h
    · cases h
    · split at h
      · cases h
      · simp only [Option.some.injEq] at h
        rw [← h, finish_pass_rand_calls]
  · cases h

theorem download_loop_step (env : DownloadEnv) (fuel : Nat) (s s1 : DownloadState)
    (hcond : download_cond s = true) (h : download_iter env s = some s1) :
    download_loop env (fuel + 1) s = download_loop env fuel s1 := by
  rw [download_loop, hcond, if_pos rfl, h]

theorem download_loop_done (env : DownloadEnv) (fuel : Nat) (s : DownloadState)
    (hcond : download_cond s = false) : download_loop env fuel s = some s := by
  cases fuel <;> simp [download_loop, hcond]

/-- One pass of the download loop of `two_peer_client`: the peer is the
one advertising three hashes when the random value is even and the one
advertising all of `L` when it is odd. -/
theorem two_peer_pass (env : DownloadEnv) (rank r1 r2 : Int) (L : List CStr)
    (hL : L.Nodup) (hlen : ∀ h ∈ L, h.length ≤ HASH_SIZE) (h5 : L.length = 5)
    (hack : ∀ i, env.peer_ack i = OK) (s : DownloadState) (k c : Nat) (hk : k ≤ 5)
    (hinv : two_peer_inv rank r1 r2 L s k c) :
    download_cond s = true ∧
    ∃ s1, download_iter env s = some s1 ∧
      (k < (if env.rand c % 2 = 1 then 5 else 3) →
        two_peer_inv rank r1 r2 L s1 (k + 1) (c + 1)) ∧
      ((if env.rand c % 2 = 1 then 5 else 3) ≤ k →
        download_cond s1 = false ∧ owned_manifest s1.client 1 = some (L.take k)) := by
  obtain ⟨hw, hp, hidx, hcont, hrc, hown⟩ := hinv
  have hcond : download_cond s = true := by
    simp [download_cond, hcont, hidx, hw, two_peer_client, leecher_client]
  refine ⟨hcond, ?_⟩
  have hfid : file_id_of_name ("file1".toList) = 1 := by decide
  have hpl : s.client.peers[s.current_file_idx]? =
      some { peers_array := [peer_of r1 (L.take 3), peer_of r2 L], peers_count := 2 } := by
    simp [hp, hidx, two_peer_client, leecher_client]
  have hwf : s.client.wanted_files[s.current_file_idx]? =
      some { file_name := "file1".toList } := by
    simp [hw, hidx, two_peer_client, leecher_client]
  have hmaxL : L.length ≤ MAX_CHUNKS := by
    rw [h5]
    decide
  have hmod : env.rand c % 2 = 0 ∨ env.rand c % 2 = 1 := by omega
  have key : ∀ (peer : PeerInfo_t) (m : Nat), m ≤ L.length →
      peer.segments = segments_of (L.take m) →
      ([peer_of r1 (L.take 3), peer_of r2 L] : List PeerInfo_t)[
        (select_peer env s 2).toNat]? = some peer →
      ∃ s1, download_iter env s = some s1 ∧
        (k < m → two_peer_inv rank r1 r2 L s1 (k + 1) (c + 1)) ∧
        (m ≤ k → download_cond s1 = false ∧
          owned_manifest s1.client 1 = some (L.take k)) := by
    intro peer m hm hsegs hsel
    obtain ⟨s1, hs1, g1, g2, g3, g4, g5⟩ := download_iter_first env s _ peer
      { file_name := "file1".toList } L k m hpl (by simp) hsel hwf
      (by rw [hfid]; exact hown) hsegs hL hlen (by omega) hm hmaxL (hack _)
    have hrand := download_iter_rand_calls env s s1 _ hs1 hpl (by simp)
    simp only [gt_iff_lt, Int.reduceLT, if_true] at hrand
    refine ⟨s1, hs1, ?_, ?_⟩
    · intro hkm
      obtain ⟨a1, a2, _⟩ := g4 hkm
      rw [hfid] at a2
      refine ⟨by rw [g1, hw], by rw [g2, hp], by rw [a1, hidx], by rw [g3, hcont],
        by rw [hrand, hrc], ?_⟩
      rw [ensure_owned_of_holds _ _ _ _ a2]
      exact a2
    · intro hmk
      obtain ⟨a1, a2, _⟩ := g5 hmk
      rw [hfid] at a2
      refine ⟨?_, owned_manifest_of_holds _ _ _ _ a2⟩
      simp [download_cond, a1, hidx, g1, hw, two_peer_client, leecher_client]
  rcases hmod with h0 | h1
  · have hne : ¬ env.rand c % 2 = 1 := by omega
    simp only [hne, if_false]
    apply key (peer_of r1 (L.take 3)) 3 (by omega) rfl
    have : (select_peer env s 2).toNat = 0 := by
      simp only [select_peer, gt_iff_lt, Int.reduceLT, if_true, hrc]
      omega
    rw [this]
    rfl
  · simp only [h1, if_true]
    apply key (peer_of r2 L) 5 (by omega)
    · show segments_of L = segments_of (L.take 5)
      rw [← h5, List.take_length]
    · have : (select_peer env s 2).toNat = 1 := by
        simp only [select_peer, gt_iff_lt, Int.reduceLT, if_true, hrc]
        omega
      rw [this]
      rfl

/-- C7 (as the code has it): with a peer table holding a peer that
advertises the first three of five pairwise distinct hashes `L` and a peer
that advertises all five, a client that owns nothing and receives `OK` to
every request ends, for every sequence of random values, with the first
three, four or five hashes of `L` as its manifest, each exactly once:
the fourth hash is obtained when the fourth selection picks the peer with
five hashes, the fifth when the fifth selection picks it as well, and the
file is completed as soon as the selected peer has nothing new. All five
hashes are obtained exactly when the fourth and the fifth selection pick
the peer with five hashes. -/
theorem download_two_peers (env : DownloadEnv) (rank r1 r2 : Int) (L : List CStr)
    (fuel : Nat)
    (hL : L.Nodup) (hlen : ∀ h ∈ L, h.length ≤ HASH_SIZE) (h5 : L.length = 5)
    (hack : ∀ i, env.peer_ack i = OK) (hfuel : 6 ≤ fuel) :
    ∃ s, download_thread_func env fuel (two_peer_client rank r1 r2 L) = some s ∧
      owned_manifest s.client 1 =
        some (L.take
          (if env.rand 3 % 2 = 1 then (if env.rand 4 % 2 = 1 then 5 else 4) else 3)) ∧
      (owned_manifest s.client 1 = some L ↔
        (env.rand 3 % 2 = 1 ∧ env.rand 4 % 2 = 1)) := by
  obtain ⟨f, hf⟩ : ∃ f, fuel = f + 6 := ⟨fuel - 6, by omega⟩
  subst hf
  have hinit : two_peer_inv rank r1 r2 L (download_init (two_peer_client rank r1 r2 L)) 0 0 := by
    refine ⟨rfl, rfl, rfl, rfl, rfl, ?_⟩
    have hnot : file_is_owned (two_peer_client rank r1 r2 L) 1 = false := by
      simp [file_is_owned, two_peer_client, leecher_client]
    have : ensure_owned (two_peer_client rank r1 r2 L) 1 =
        add_file_to_owned (two_peer_client rank r1 r2 L) 1 := by
      simp [ensure_owned, hnot]
    show holds_first (ensure_owned (two_peer_client rank r1 r2 L) 1) 1 L 0
    rw [this]
    exact holds_first_add_file _ 1 L hnot
  have hm : ∀ c, 3 ≤ (if env.rand c % 2 = 1 then 5 else 3) := by
    intro c
    split <;> omega
  have hfin : ∀ (n : Nat) (s : DownloadState),
      download_loop env (f + 6) (download_init (two_peer_client rank r1 r2 L)) =
        some s → owned_manifest s.client 1 = some (L.take n) →
      n = (if env.rand 3 % 2 = 1 then (if env.rand 4 % 2 = 1 then 5 else 4) else 3) →
      ∃ s, download_thread_func env (f + 6) (two_peer_client rank r1 r2 L) = some s ∧
        owned_manifest s.client 1 =
          some (L.take
            (if env.rand 3 % 2 = 1 then (if env.rand 4 % 2 = 1 then 5 else 4) else 3)) ∧
        (owned_manifest s.client 1 = some L ↔
          (env.rand 3 % 2 = 1 ∧ env.rand 4 % 2 = 1)) := by
    intro n s hs hman hn
    refine ⟨{ s with trace := s.trace ++ [finished_inform] }, ?_, ?_, ?_⟩
    · simp [download_thread_func, hs]
    · rw [← hn]
      exact hman
    · show owned_manifest s.client 1 = some L ↔ _
      rw [hman, Option.some.injEq]
      constructor
      · intro heq
        have hl : (L.take n).length = L.length := by rw [heq]
        rw [List.length_take, h5] at hl
        by_cases a : env.rand 3 % 2 = 1
        · by_cases b : env.rand 4 % 2 = 1
          · exact ⟨a, b⟩
          · simp only [a, b, if_true, if_false] at hn
            omega
        · simp only [a, if_false] at hn
          omega
      · rintro ⟨a, b⟩
        simp only [a, b, if_true] at hn
        rw [hn, ← h5, List.take_length]
  obtain ⟨c0, s1, i0, p0, _⟩ := two_peer_pass env rank r1 r2 L hL hlen h5 hack _ 0 0
    (by omega) hinit
  have inv1 := p0 (by have := hm 0; omega)
  obtain ⟨c1, s2, i1, p1, _⟩ := two_peer_pass env rank r1 r2 L hL hlen h5 hack s1 1 1
    (by omega) inv1
  have inv2 := p1 (by have := hm 1; omega)
  obtain ⟨c2, s3, i2, p2, _⟩ := two_peer_pass env rank r1 r2 L hL hlen h5 hack s2 2 2
    (by omega) inv2
  have inv3 := p2 (by have := hm 2; omega)
  obtain ⟨c3, s4, i3, p3, q3⟩ := two_peer_pass env rank r1 r2 L hL hlen h5 hack s3 3 3
    (by omega) inv3
  have hloop3 : download_loop env (f + 6) (download_init (two_peer_client rank r1 r2 L)) =
      download_loop env (f + 2) s4 := by
    rw [download_loop_step env (f + 5) _ s1 c0 i0, download_loop_step env (f + 4) _ s2 c1 i1,
      download_loop_step env (f + 3) _ s3 c2 i2, download_loop_step env (f + 2) _ s4 c3 i3]
  by_cases a : env.rand 3 % 2 = 1
  · simp only [a, if_true] at p3 q3
    have inv4 := p3 (by omega)
    obtain ⟨c4, s5, i4, p4, q4⟩ := two_peer_pass env rank r1 r2 L hL hlen h5 hack s4 4 4
      (by omega) inv4
    by_cases b : env.rand 4 % 2 = 1
    · simp only [b, if_true] at p4 q4
      have inv5 := p4 (by omega)
      obtain ⟨c5, s6, i5, _, q5⟩ := two_peer_pass env rank r1 r2 L hL hlen h5 hack s5 5 5
        (by omega) inv5
      obtain ⟨d6, m6⟩ := q5 (by split <;> omega)
      apply hfin 5 s6 _ m6 (by simp [a, b])
      rw [hloop3, download_loop_step env (f + 1) _ s5 c4 i4,
        download_loop_step env f _ s6 c5 i5, download_loop_done env f s6 d6]
    · simp only [b, if_false] at p4 q4
      obtain ⟨d5, m5⟩ := q4 (by omega)
      apply hfin 4 s5 _ m5 (by simp [a, b])
      rw [hloop3, download_loop_step env (f + 1) _ s5 c4 i4,
        download_loop_done env (f + 1) s5 d5]
  · simp only [a, if_false] at p3 q3
    obtain ⟨d4, m4⟩ := q3 (by omega)
    apply hfin 3 s4 _ m4 (by simp [a])
    rw [hloop3, download_loop_done env (f + 2) s4 d4]

/-- Witness of `download_two_peers`: the five hashes made of `A` to `E`,
peers of rank 1 and 2, every selection picking the peer with five hashes. -/
theorem download_two_peers_witness :
    ∃ s, download_thread_func (env_ok (fun _ => 1)) 6
        (two_peer_client 3 1 2 hashes_abcde) = some s ∧
      owned_manifest s.client 1 =
        some (hashes_abcde.take
          (if (env_ok (fun _ => 1)).rand 3 % 2 = 1 then
            (if (env_ok (fun _ => 1)).rand 4 % 2 = 1 then 5 else 4) else 3)) ∧
      (owned_manifest s.client 1 = some hashes_abcde ↔
        ((env_ok (fun _ => 1)).rand 3 % 2 = 1 ∧ (env_ok (fun _ => 1)).rand 4 % 2 = 1)) :=
  download_two_peers (env_ok (fun _ => 1)) 3 1 2 hashes_abcde 6
    (by decide) (by decide) (by decide) (fun _ => rfl) (by decide)

/-! ### Reports of the downloader -/

theorem pending_append (a b : List Event) :
    pending (a ++ b) = b.foldl pending_step (pending a) := by
  simp [pending, List.foldl_append]

theorem pending_step_exchange (acc : List CStr) (e : Event) (h : is_exchange e = true) :
    pending_step acc e = acc := by
  cases e with
  | send d tag p =>
    simp only [is_exchange, decide_eq_true_eq] at h
    cases p with
    | chars c v => simp [pending_step, h, REQUEST_TAG, INFORM_TAG]
    | int v => rfl
    | ints vs => rfl
  | recv _ _ _ => rfl
  | write_file _ _ => simp [is_exchange] at h
  | store _ _ => simp [is_exchange] at h

theorem foldl_pending_exchange (ev : List Event) (acc : List CStr)
    (h : ∀ e ∈ ev, is_exchange e = true) : ev.foldl pending_step acc = acc := by
  induction ev generalizing acc with
  | nil => rfl
  | cons e rest ih =>
    rw [List.foldl_cons, pending_step_exchange acc e (h e (List.mem_cons_self _ _))]
    exact ih acc (fun x hx => h x (List.mem_cons_of_mem _ hx))

theorem foldl_pending_hash_msgs (hs : List CStr) (acc : List CStr) :
    (hs.map hash_msg).foldl pending_step acc = acc := by
  induction hs generalizing acc with
  | nil => rfl
  | cons h rest ih =>
    rw [List.map_cons, List.foldl_cons]
    have : pending_step acc (hash_msg h) = acc := by
      simp [pending_step, hash_msg, HASH_SIZE]
    rw [this]
    exact ih acc

theorem foldl_pending_report (verb : CStr) (data : FileData_t) (acc : List CStr)
    (hv : verb = DOWN_10 ∨ verb = DOWN_X) :
    (report_msgs verb data).foldl pending_step acc = [] := by
  unfold report_msgs
  rw [List.foldl_append, foldl_pending_hash_msgs]
  simp [pending_step, inform_msg, hv]

/-- The loop over the segments of the selected peer either downloads nothing
and leaves the manifest as it is, or downloads one of the segments and
appends it; what it adds to the actions are requests and receives, followed
by the stored hash in the second case. -/
theorem segment_loop_spec (env : DownloadEnv) (r : Int) (cands : List FileSegment_t) :
    ∀ s : SegmentLoopState,
      (∃ ev, (segment_loop env r cands s).trace = s.trace ++ ev ∧
        (∀ e ∈ ev, is_exchange e = true) ∧
        (segment_loop env r cands s).data = s.data ∧
        (segment_loop env r cands s).downloaded_segments = s.downloaded_segments ∧
        (segment_loop env r cands s).segment_downloaded = s.segment_downloaded) ∨
      (∃ ev seg, seg ∈ cands ∧ (∀ e ∈ ev, is_exchange e = true) ∧
        (segment_loop env r cands s).segment_downloaded = true ∧
        (segment_loop env r cands s).downloaded_segments = s.downloaded_segments + 1 ∧
        (segment_loop env r cands s).data = (add_segment_to_file_data s.data seg).2 ∧
        (segment_loop env r cands s).trace = s.trace ++ ev ++
          (if (add_segment_to_file_data s.data seg).1 then
            [Event.store s.data.file_id (strncpy seg.hash HASH_SIZE)] else [])) := by
  induction cands with
  | nil =>
    intro s
    left
    exact ⟨[], by simp [segment_loop], by simp, rfl, rfl, rfl⟩
  | cons seg rest ih =>
    intro s
    have hex : ∀ e ∈ [request_msg r seg,
        Event.recv r ACK_TAG (Payload.chars BUFF_SIZE (env.peer_ack s.peer_acks))],
        is_exchange e = true := by
      intro e he
      simp only [List.mem_cons, List.mem_singleton, List.not_mem_nil, or_false] at he
      rcases he with he | he <;> subst he <;> simp [is_exchange, request_msg]
    unfold segment_loop
    by_cases hhas : has_segment s.data seg = true
    · simp only [hhas, Bool.not_true, Bool.false_eq_true, if_false]
      rcases ih s with ⟨ev, h1, h2, h3, h4, h5⟩ | ⟨ev, sg, hm, h1, h2, h3, h4, h5⟩
      · left
        exact ⟨ev, h1, h2, h3, h4, h5⟩
      · right
        exact ⟨ev, sg, List.mem_cons_of_mem _ hm, h1, h2, h3, h4, h5⟩
    · have hf : has_segment s.data seg = false := by simpa using hhas
      simp only [hf, Bool.not_false, if_true]
      by_cases hok : env.peer_ack s.peer_acks = OK
      · simp only [hok, if_true]
        right
        refine ⟨[request_msg r seg, Event.recv r ACK_TAG (Payload.chars BUFF_SIZE OK)],
          seg, List.mem_cons_self _ _, ?_, ?_, ?_, ?_, ?_⟩
        · rw [← hok]
          exact hex
        · trivial
        · trivial
        · trivial
        · split <;> simp
      · simp only [hok, if_false]
        rcases ih { s with
            peer_acks := s.peer_acks + 1,
            trace := s.trace ++
              [request_msg r seg,
               Event.recv r ACK_TAG (Payload.chars BUFF_SIZE (env.peer_ack s.peer_acks))] }
          with ⟨ev, h1, h2, h3, h4, h5⟩ | ⟨ev, sg, hm, h1, h2, h3, h4, h5⟩
        · left
          refine ⟨([request_msg r seg,
            Event.recv r ACK_TAG (Payload.chars BUFF_SIZE (env.peer_ack s.peer_acks))] ++ ev), ?_, ?_, h3, h4, h5⟩
          · rw [h1, List.append_assoc]
          · intro e he
            rcases List.mem_append.1 he with he | he
            · exact hex e he
            · exact h2 e he
        · right
          refine ⟨([request_msg r seg,
            Event.recv r ACK_TAG (Payload.chars BUFF_SIZE (env.peer_ack s.peer_acks))] ++ ev), sg, List.mem_cons_of_mem _ hm, ?_, h2, h3, h4, ?_⟩
          · intro e he
            rcases List.mem_append.1 he with he | he
            · exact hex e he
            · exact h1 e he
          · rw [h5]
            simp only [List.append_assoc]

theorem wf_client_congr (c c1 : ClientFiles_t) (hp : c1.peers = c.peers)
    (hw : c1.wanted_files = c.wanted_files) (h : wf_client c) : wf_client c1 := by
  unfold wf_client at h ⊢
  rw [hp, hw]
  exact h

/-- After tema2.c 42-44 the lookup of the file succeeds: the entry found is
the one that was owned before, or the new entry with no segment. -/
theorem ensure_owned_find (c : ClientFiles_t) (fid : Int) :
    ∃ di fd, find_file_data (ensure_owned c fid).owned_files fid = some di ∧
      (ensure_owned c fid).owned_files[di]? = some fd ∧ fd.file_id = fid ∧
      ((find_file_data c.owned_files fid = some di ∧ c.owned_files[di]? = some fd ∧
          ensure_owned c fid = c) ∨
        (find_file_data c.owned_files fid = none ∧ fd.segments = [])) := by
  cases hfind : find_file_data c.owned_files fid with
  | none =>
    have hnot : file_is_owned c fid = false := (file_is_owned_eq_false_iff c fid).2 hfind
    have he : ensure_owned c fid = add_file_to_owned c fid := by
      simp [ensure_owned, hnot]
    rw [he]
    refine ⟨c.owned_files.length,
      { file_name := snprintf_file MAX_FILENAME fid, file_id := fid, segments := [] },
      find_file_data_append_new _ _ _ hfind rfl, ?_, rfl, Or.inr ⟨rfl, rfl⟩⟩
    simp [add_file_to_owned]
  | some di =>
    obtain ⟨fd, hget, hid⟩ := find_file_data_some _ _ _ hfind
    have he : ensure_owned c fid = c := by
      simp [ensure_owned, file_is_owned_of_find c fid di hfind]
    rw [he]
    exact ⟨di, fd, hfind, hget, hid, Or.inl ⟨rfl, hget, rfl⟩⟩

/-- The shape of one pass of the download loop for a client with well
formed peer tables: a file without peers is skipped, otherwise the pass ends
with `finish_pass` on the result of the loop over the segments of a peer of
the table, started on the entry of the file. -/
theorem download_iter_shape (env : DownloadEnv) (s : DownloadState)
    (hwf : wf_client s.client) (hcond : download_cond s = true) :
    ∃ pl w, s.client.peers[s.current_file_idx]? = some pl ∧
      s.client.wanted_files[s.current_file_idx]? = some w ∧
      (pl.peers_count ≤ 0 →
        download_iter env s = some { s with current_file_idx := s.current_file_idx + 1 }) ∧
      (0 < pl.peers_count →
        ∃ peer di fd, peer ∈ pl.peers_array ∧ peer.segments.length ≤ MAX_CHUNKS ∧
          find_file_data (ensure_owned s.client (file_id_of_name w.file_name)).owned_files
            (file_id_of_name w.file_name) = some di ∧
          (ensure_owned s.client (file_id_of_name w.file_name)).owned_files[di]? = some fd ∧
          fd.file_id = file_id_of_name w.file_name ∧
          ((find_file_data s.client.owned_files (file_id_of_name w.file_name) = some di ∧
              s.client.owned_files[di]? = some fd ∧
              ensure_owned s.client (file_id_of_name w.file_name) = s.client) ∨
            (find_file_data s.client.owned_files (file_id_of_name w.file_name) = none ∧
              fd.segments = [])) ∧
          download_iter env s =
            some (finish_pass env
              { s with
                client := ensure_owned s.client (file_id_of_name w.file_name),
                rand_calls :=
                  if pl.peers_count > 1 then s.rand_calls + 1 else s.rand_calls }
              di
              (segment_loop env peer.peer_rank (peer.segments.drop fd.segments.length)
                { data := fd,
                  downloaded_segments := s.downloaded_segments,
                  segment_downloaded := false,
                  peer_acks := s.peer_acks,
                  trace := s.trace })
              (file_id_of_name w.file_name))) := by
  obtain ⟨hlen, hpls⟩ := hwf
  simp only [download_cond, Bool.and_eq_true, decide_eq_true_eq] at hcond
  have hidx := hcond.2
  have hidx2 : s.current_file_idx < s.client.peers.length := by omega
  have hpl := List.getElem?_eq_getElem hidx2
  have hw := List.getElem?_eq_getElem hidx
  refine ⟨_, _, hpl, hw, ?_, ?_⟩
  · intro hle
    simp only [download_iter, hpl, hle, if_true]
  · intro hpos
    have hnle : ¬ (s.client.peers[s.current_file_idx]).peers_count ≤ 0 := by omega
    obtain ⟨hcnt, hsegs⟩ := hpls _ (List.getElem_mem hidx2)
    have hcnt2 : (s.client.peers[s.current_file_idx]).peers_count =
        ((s.client.peers[s.current_file_idx]).peers_array.length : Int) := by
      rcases hcnt with h | h
      · omega
      · exact h
    have hsel : (select_peer env s (s.client.peers[s.current_file_idx]).peers_count).toNat <
        (s.client.peers[s.current_file_idx]).peers_array.length := by
      unfold select_peer
      split
      · have := Int.emod_lt_of_pos (env.rand s.rand_calls : Int) hpos
        have := Int.emod_nonneg (env.rand s.rand_calls : Int) (by omega :
          (s.client.peers[s.current_file_idx]).peers_count ≠ 0)
        omega
      · omega
    have hpeer := List.getElem?_eq_getElem hsel
    obtain ⟨di, fd, h1, h2, h3, h4⟩ :=
      ensure_owned_find s.client (file_id_of_name (s.client.wanted_files[s.current_file_idx]).file_name)
    refine ⟨_, di, fd, List.getElem_mem hsel, hsegs _ (List.getElem_mem hsel), h1, h2, h3, h4, ?_⟩
    simp only [download_iter, hpl, hnle, if_false, hpeer, hw, download_from_peer, h1, h2]

theorem cur_entry_set (s1 : DownloadState) (c : ClientFiles_t) (w : FileName_t)
    (di : Nat) (fd data1 : FileData_t)
    (hw : s1.client.wanted_files[s1.current_file_idx]? = some w)
    (ho : s1.client.owned_files = c.owned_files.set di data1)
    (hfind : find_file_data c.owned_files (file_id_of_name w.file_name) = some di)
    (hget : c.owned_files[di]? = some fd) (hid : data1.file_id = fd.file_id) :
    cur_entry s1 = some data1 := by
  have hlt : di < c.owned_files.length := by
    by_contra hge
    rw [List.getElem?_eq_none (by omega)] at hget
    cases hget
  simp only [cur_entry, hw, ho, find_file_data_set _ _ _ fd data1 hget hid, hfind]
  simp [hlt]

theorem cur_entry_of_ensure (s : DownloadState) (w : FileName_t) (di : Nat)
    (fd : FileData_t)
    (hw : s.client.wanted_files[s.current_file_idx]? = some w)
    (h4 : (find_file_data s.client.owned_files (file_id_of_name w.file_name) = some di ∧
        s.client.owned_files[di]? = some fd ∧
        ensure_owned s.client (file_id_of_name w.file_name) = s.client) ∨
      (find_file_data s.client.owned_files (file_id_of_name w.file_name) = none ∧
        fd.segments = [])) :
    cur_len s = fd.segments.length ∧ ∀ fd0, cur_entry s = some fd0 → fd0 = fd := by
  rcases h4 with ⟨a, b, _⟩ | ⟨a, b⟩
  · have : cur_entry s = some fd := by simp only [cur_entry, hw, a, b]
    refine ⟨by simp only [cur_len, this], ?_⟩
    intro fd0 h0
    rw [this] at h0
    exact (Option.some.inj h0).symm
  · have : cur_entry s = none := by simp only [cur_entry, hw, a]
    refine ⟨by simp only [cur_len, this, b, List.length_nil], ?_⟩
    intro fd0 h0
    rw [this] at h0
    cases h0

theorem download_measure_advance (s s1 : DownloadState)
    (hw : s1.client.wanted_files = s.client.wanted_files)
    (hidx : s1.current_file_idx = s.current_file_idx + 1)
    (hlt : s.current_file_idx < s.client.wanted_files.length) :
    download_measure s1 < download_measure s := by
  unfold download_measure
  rw [hw, hidx, if_pos hlt]
  unfold MAX_CHUNKS
  split <;> omega

theorem download_measure_grow (s s1 : DownloadState)
    (hw : s1.client.wanted_files = s.client.wanted_files)
    (hidx : s1.current_file_idx = s.current_file_idx)
    (hlt : s.current_file_idx < s.client.wanted_files.length)
    (hlen : cur_len s1 = cur_len s + 1) (hroom : cur_len s < MAX_CHUNKS) :
    download_measure s1 < download_measure s := by
  unfold download_measure
  rw [hw, hidx, hlen]
  simp only [if_pos hlt]
  unfold MAX_CHUNKS at hroom ⊢
  omega

theorem report_hashes_last_ten (data : FileData_t) (base p : List CStr)
    (hman : data.segments.map (fun x => x.hash) = base ++ p) (hp : p.length = 10)
    (hmax : data.segments.length ≤ MAX_CHUNKS) :
    report_hashes data = p ∧
      (data.segments.map (fun x => x.hash)).drop (data.segments.length - 10) = p := by
  have hlen : data.segments.length = base.length + 10 := by
    have := congrArg List.length hman
    simp only [List.length_map, List.length_append, hp] at this
    exact this
  have hstart : report_start data.segments.length = base.length := by
    unfold report_start SIZE_T_MOD
    unfold MAX_CHUNKS at hmax
    omega
  have hdrop : (base ++ p).drop base.length = p := by simp
  constructor
  · unfold report_hashes
    rw [hstart, List.map_drop, hman, hdrop]
  · rw [hman, hlen]
    simp

theorem add_segment_room (fd : FileData_t) (seg : FileSegment_t)
    (hroom : fd.segments.length < MAX_CHUNKS) :
    (add_segment_to_file_data fd seg).1 = true ∧
      (add_segment_to_file_data fd seg).2 =
        { fd with segments := fd.segments ++ [{ hash := strncpy seg.hash HASH_SIZE }] } := by
  have hnot : ¬ fd.segments.length ≥ MAX_CHUNKS := by omega
  simp [add_segment_to_file_data, hnot]

theorem exchange_not_inform (e : Event) (h : is_exchange e = true) :
    e ≠ inform_msg 8 DOWN_10 ∧ e ≠ finished_inform := by
  constructor <;>
  · intro he
    subst he
    simp [is_exchange, inform_msg, finished_inform, INFORM_TAG, REQUEST_TAG] at h

theorem report_down_x_not_down_10 (data : FileData_t) :
    ∀ e ∈ report_msgs DOWN_X data, e ≠ inform_msg 8 DOWN_10 ∧ e ≠ finished_inform := by
  intro e he
  simp only [report_msgs, List.mem_append, List.mem_cons, List.mem_singleton,
    List.not_mem_nil, or_false, List.mem_map] at he
  rcases he with (he | he) | ⟨h, _, he⟩
  · subst he
    constructor
    · simp [inform_msg]
      decide
    · simp [inform_msg, finished_inform]
  · subst he
    constructor <;> simp [inform_msg, finished_inform]
  · subst he
    constructor <;> simp [hash_msg, inform_msg, finished_inform, HASH_SIZE]

/-- The end of a pass in which no segment was downloaded. -/
theorem finish_pass_no_download (env : DownloadEnv) (s : DownloadState) (di : Nat)
    (inner : SegmentLoopState) (fid : Int) (fd : FileData_t) (ev : List Event)
    (tr : List Event)
    (hsd : inner.segment_downloaded = false) (hdata : inner.data = fd)
    (hdl : inner.downloaded_segments = s.downloaded_segments)
    (ht : inner.trace = tr ++ ev) (hex : ∀ e ∈ ev, is_exchange e = true)
    (hI1 : s.downloaded_segments = ((pending tr).length : Int)) :
    ∃ pre, (finish_pass env s di inner fid).trace = tr ++ pre ∧
      pending (tr ++ pre) = [] ∧
      (∀ e ∈ pre, e ≠ inform_msg 8 DOWN_10 ∧ e ≠ finished_inform) ∧
      (finish_pass env s di inner fid).downloaded_segments = 0 ∧
      (finish_pass env s di inner fid).current_file_idx = s.current_file_idx + 1 ∧
      (finish_pass env s di inner fid).continue_downloading = s.continue_downloading ∧
      (finish_pass env s di inner fid).client =
        { s.client with owned_files := s.client.owned_files.set di fd } := by
  obtain ⟨c1, c2, c3, _⟩ := finish_pass_fields env s di inner fid
  rw [hsd] at c2
  rw [hdata] at c1
  by_cases hd : s.downloaded_segments > 0
  · refine ⟨ev ++ report_msgs DOWN_X fd ++
      [Event.write_file (output_file_name s.client.client_rank fid) (write_to_file fd)],
      ?_, ?_, ?_, ?_, by simpa using c2, c3, c1⟩
    · simp [finish_pass, complete_file, report_progress, hsd, hdata, hdl, ht, hd]
    · rw [pending_append, List.foldl_append, List.foldl_append,
        foldl_pending_exchange ev _ hex, foldl_pending_report DOWN_X fd _ (Or.inr rfl)]
      rfl
    · intro e he
      simp only [List.mem_append, List.mem_singleton] at he
      rcases he with (he | he) | he
      · exact exchange_not_inform e (hex e he)
      · exact report_down_x_not_down_10 fd e he
      · subst he
        constructor <;> simp [inform_msg, finished_inform]
    · simp [finish_pass, complete_file, report_progress, hsd, hdata, hdl, ht, hd]
  · have hd0 : s.downloaded_segments = 0 := by omega
    have hp0 : pending tr = [] := by
      apply List.eq_nil_of_length_eq_zero
      omega
    refine ⟨ev ++
      [Event.write_file (output_file_name s.client.client_rank fid) (write_to_file fd)],
      ?_, ?_, ?_, ?_, by simpa using c2, c3, c1⟩
    · simp [finish_pass, complete_file, report_progress, hsd, hdata, hdl, ht, hd0]
    · rw [pending_append, List.foldl_append, foldl_pending_exchange ev _ hex, hp0]
      rfl
    · intro e he
      simp only [List.mem_append, List.mem_singleton] at he
      rcases he with he | he
      · exact exchange_not_inform e (hex e he)
      · subst he
        constructor <;> simp [inform_msg, finished_inform]
    · simp [finish_pass, complete_file, report_progress, hsd, hdata, hdl, ht, hd0]

theorem report_progress_skip (env : DownloadEnv) (s : DownloadState) (data : FileData_t)
    (h : ¬ (s.downloaded_segments > 0 ∧ s.downloaded_segments % 10 = 0)) :
    report_progress env s data = s := by
  unfold report_progress
  rw [if_neg h]

theorem report_progress_fire (env : DownloadEnv) (s : DownloadState) (data : FileData_t)
    (h : s.downloaded_segments > 0 ∧ s.downloaded_segments % 10 = 0) :
    report_progress env s data =
      { s with
        trace := s.trace ++ report_msgs DOWN_10 data ++
          [inform_msg 11 GIVE_PEERS,
           Event.recv TRACKER_RANK ACK_TAG
             (Payload.chars BUFF_SIZE (env.tracker_ack s.tracker_acks))],
        downloaded_segments := 0,
        tracker_acks := s.tracker_acks + 1 } := by
  unfold report_progress
  rw [if_pos h]

theorem finish_pass_downloaded (env : DownloadEnv) (s : DownloadState) (di : Nat)
    (inner : SegmentLoopState) (fid : Int) (hsd : inner.segment_downloaded = true) :
    finish_pass env s di inner fid =
      report_progress env
        { s with
          client := { s.client with owned_files := s.client.owned_files.set di inner.data },
          downloaded_segments := inner.downloaded_segments,
          peer_acks := inner.peer_acks,
          trace := inner.trace }
        inner.data := by
  simp only [finish_pass, hsd, Bool.not_true, Bool.false_eq_true, if_false]

/-- The end of a pass in which a segment was downloaded and stored. -/
theorem finish_pass_download (env : DownloadEnv) (s : DownloadState) (di : Nat)
    (inner : SegmentLoopState) (fid : Int) (fd : FileData_t) (h : CStr)
    (ev tr : List Event)
    (hsd : inner.segment_downloaded = true)
    (hdata : inner.data = { fd with segments := fd.segments ++ [{ hash := h }] })
    (hdl : inner.downloaded_segments = s.downloaded_segments + 1)
    (ht : inner.trace = tr ++ ev ++ [Event.store fd.file_id h])
    (hex : ∀ e ∈ ev, is_exchange e = true)
    (hI1 : s.downloaded_segments = ((pending tr).length : Int))
    (hI2 : (pending tr).length ≤ 9) :
    pending (tr ++ (ev ++ [Event.store fd.file_id h])) = pending tr ++ [h] ∧
    (∀ e ∈ ev ++ [Event.store fd.file_id h],
      e ≠ inform_msg 8 DOWN_10 ∧ e ≠ finished_inform) ∧
    (finish_pass env s di inner fid).current_file_idx = s.current_file_idx ∧
    (finish_pass env s di inner fid).continue_downloading = s.continue_downloading ∧
    (finish_pass env s di inner fid).client =
      { s.client with
        owned_files := s.client.owned_files.set di
          { fd with segments := fd.segments ++ [{ hash := h }] } } ∧
    ((pending tr).length + 1 ≠ 10 →
      (finish_pass env s di inner fid).trace = tr ++ (ev ++ [Event.store fd.file_id h]) ∧
      (finish_pass env s di inner fid).downloaded_segments =
        (((pending tr).length + 1 : Nat) : Int)) ∧
    ((pending tr).length + 1 = 10 →
      (finish_pass env s di inner fid).trace =
        tr ++ (ev ++ [Event.store fd.file_id h]) ++
          down_10_block fd.file_id
            (report_hashes { fd with segments := fd.segments ++ [{ hash := h }] })
            (env.tracker_ack s.tracker_acks) ∧
      (finish_pass env s di inner fid).downloaded_segments = 0 ∧
      pending (finish_pass env s di inner fid).trace = []) := by
  obtain ⟨c1, c2, c3, _⟩ := finish_pass_fields env s di inner fid
  rw [hsd] at c2
  rw [hdata] at c1
  refine ⟨?_, ?_, by simpa using c2, c3, c1, ?_, ?_⟩
  · rw [pending_append, List.foldl_append, foldl_pending_exchange ev _ hex]
    rfl
  · intro e he
    simp only [List.mem_append, List.mem_singleton] at he
    rcases he with he | he
    · exact exchange_not_inform e (hex e he)
    · subst he
      constructor <;> simp [inform_msg, finished_inform]
  · intro hne
    have hcond : ¬ (inner.downloaded_segments > 0 ∧ inner.downloaded_segments % 10 = 0) := by
      rw [hdl, hI1]
      omega
    rw [finish_pass_downloaded env s di inner fid hsd, report_progress_skip _ _ _ hcond]
    constructor
    · show inner.trace = _
      rw [ht, List.append_assoc]
    · show inner.downloaded_segments = _
      rw [hdl, hI1]
      push_cast
      rfl
  · intro heq
    have hcond : inner.downloaded_segments > 0 ∧ inner.downloaded_segments % 10 = 0 := by
      rw [hdl, hI1]
      omega
    rw [finish_pass_downloaded env s di inner fid hsd, report_progress_fire _ _ _ hcond]
    have htr : inner.trace ++ report_msgs DOWN_10 inner.data ++
          [inform_msg 11 GIVE_PEERS,
           Event.recv TRACKER_RANK ACK_TAG
             (Payload.chars BUFF_SIZE (env.tracker_ack s.tracker_acks))] =
        tr ++ (ev ++ [Event.store fd.file_id h]) ++
          down_10_block fd.file_id
            (report_hashes { fd with segments := fd.segments ++ [{ hash := h }] })
            (env.tracker_ack s.tracker_acks) := by
      rw [ht, hdata]
      simp only [down_10_block, report_msgs, List.append_assoc]
    refine ⟨htr, rfl, ?_⟩
    show pending (inner.trace ++ report_msgs DOWN_10 inner.data ++ _) = []
    rw [List.append_assoc, pending_append, List.foldl_append,
      foldl_pending_report DOWN_10 inner.data _ (Or.inl rfl)]
    rfl

/-- One pass of the download loop from a state in which `download_inv`
holds and the loop condition is true: the pass has a result and `pass_ok`
holds for it. -/
theorem download_pass_spec (env : DownloadEnv) (s : DownloadState)
    (hinv : download_inv s) (hcond : download_cond s = true) :
    ∃ s1 pre, download_iter env s = some s1 ∧ pass_ok env s s1 pre := by
  obtain ⟨hwf, hcont, hI1, hI2, hI3⟩ := hinv
  have hidx : s.current_file_idx < s.client.wanted_files.length := by
    simp only [download_cond, Bool.and_eq_true, decide_eq_true_eq] at hcond
    exact hcond.2
  obtain ⟨pl, w, hpl, hw, hA, hB⟩ := download_iter_shape env s hwf hcond
  by_cases hle : pl.peers_count ≤ 0
  · -- the file has no peer
    have hp0 : pending s.trace = [] := by
      by_contra hne
      obtain ⟨⟨pl1, hpl1, hpos⟩, _⟩ := hI3 hne
      rw [hpl] at hpl1
      cases hpl1
      omega
    refine ⟨_, [], hA hle, ?_, rfl, download_measure_advance s _ rfl rfl hidx, ?_, ?_, ?_, ?_⟩
    · exact ⟨hwf, hcont, hI1, hI2, fun hne => absurd hp0 hne⟩
    · intro e he
      cases he
    · simp [hp0]
    · intro _
      simp
    · intro h10
      simp [hp0] at h10
  · have hpos : 0 < pl.peers_count := by omega
    obtain ⟨peer, di, fd, _, hpmax, hfind, hget, hfid, h4, hiter⟩ := hB hpos
    obtain ⟨hclen, hcent⟩ := cur_entry_of_ensure s w di fd hw h4
    obtain ⟨e1, e2⟩ := ensure_owned_fields s.client (file_id_of_name w.file_name)
    rw [hiter]
    generalize hinner : segment_loop env peer.peer_rank
      (peer.segments.drop fd.segments.length)
      { data := fd, downloaded_segments := s.downloaded_segments,
        segment_downloaded := false, peer_acks := s.peer_acks, trace := s.trace } = inner
    have hspec := segment_loop_spec env peer.peer_rank
      (peer.segments.drop fd.segments.length)
      { data := fd, downloaded_segments := s.downloaded_segments,
        segment_downloaded := false, peer_acks := s.peer_acks, trace := s.trace }
    rw [hinner] at hspec
    rcases hspec with ⟨ev, ht, hex, hdata, hdl, hsd⟩ | ⟨ev, seg, hmem, hex, hsd, hdl, hdata, ht⟩
    · -- no segment was downloaded
      obtain ⟨pre, p1, p2, p3, p4, p5, p6, p7⟩ := finish_pass_no_download env
        { s with
          client := ensure_owned s.client (file_id_of_name w.file_name),
          rand_calls := if pl.peers_count > 1 then s.rand_calls + 1 else s.rand_calls }
        di inner (file_id_of_name w.file_name) fd ev s.trace hsd hdata hdl ht hex hI1
      have hw1 : (finish_pass env
          { s with
            client := ensure_owned s.client (file_id_of_name w.file_name),
            rand_calls := if pl.peers_count > 1 then s.rand_calls + 1 else s.rand_calls }
          di inner (file_id_of_name w.file_name)).client.wanted_files =
          s.client.wanted_files := by
        rw [p7]
        exact e1
      refine ⟨_, pre, rfl, ?_, hw1, download_measure_advance s _ hw1 p5 hidx, p3, ?_, ?_, ?_⟩
      · refine ⟨?_, ?_, ?_, ?_, ?_⟩
        · apply wf_client_congr s.client _ _ hw1 hwf
          rw [p7]
          exact e2
        · rw [p6]
          exact hcont
        · rw [p4, p1, p2]
          rfl
        · rw [p1, p2]
          simp
        · intro hne
          rw [p1, p2] at hne
          exact absurd rfl hne
      · rw [p2]
        simp
      · intro _
        exact p1
      · intro h10
        rw [p2] at h10
        simp at h10
    · -- a segment was downloaded
      have hlt : fd.segments.length < peer.segments.length := by
        by_contra hge
        rw [List.drop_eq_nil_of_le (by omega)] at hmem
        cases hmem
      have hroom : fd.segments.length < MAX_CHUNKS := by omega
      obtain ⟨a1, a2⟩ := add_segment_room fd seg hroom
      simp only [a1, if_true] at ht
      simp only [a2] at hdata
      obtain ⟨q1, q2, q3, q4, q5, q6, q7⟩ := finish_pass_download env
        { s with
          client := ensure_owned s.client (file_id_of_name w.file_name),
          rand_calls := if pl.peers_count > 1 then s.rand_calls + 1 else s.rand_calls }
        di inner (file_id_of_name w.file_name) fd (strncpy seg.hash HASH_SIZE) ev s.trace
        hsd hdata hdl ht hex hI1 hI2
      have hw1 : (finish_pass env
          { s with
            client := ensure_owned s.client (file_id_of_name w.file_name),
            rand_calls := if pl.peers_count > 1 then s.rand_calls + 1 else s.rand_calls }
          di inner (file_id_of_name w.file_name)).client.wanted_files =
          s.client.wanted_files := by
        rw [q5]
        exact e1
      have hp1 : (finish_pass env
          { s with
            client := ensure_owned s.client (file_id_of_name w.file_name),
            rand_calls := if pl.peers_count > 1 then s.rand_calls + 1 else s.rand_calls }
          di inner (file_id_of_name w.file_name)).client.peers = s.client.peers := by
        rw [q5]
        exact e2
      have hcur : cur_entry (finish_pass env
          { s with
            client := ensure_owned s.client (file_id_of_name w.file_name),
            rand_calls := if pl.peers_count > 1 then s.rand_calls + 1 else s.rand_calls }
          di inner (file_id_of_name w.file_name)) =
          some { fd with
            segments := fd.segments ++ [{ hash := strncpy seg.hash HASH_SIZE }] } := by
        apply cur_entry_set _ (ensure_owned s.client (file_id_of_name w.file_name)) w di fd
        · rw [hw1, q3]
          exact hw
        · rw [q5]
        · exact hfind
        · exact hget
        · rfl
      have hman : ∃ base,
          (fd.segments ++ [({ hash := strncpy seg.hash HASH_SIZE } : FileSegment_t)]).map
            (fun x => x.hash) =
          base ++ (pending s.trace ++ [strncpy seg.hash HASH_SIZE]) := by
        by_cases hp0 : pending s.trace = []
        · exact ⟨fd.segments.map (fun x => x.hash), by simp [hp0]⟩
        · obtain ⟨_, fd0, base, hc0, hb0⟩ := hI3 hp0
          have := hcent fd0 hc0
          subst this
          exact ⟨base, by simp [hb0]⟩
      have hmeas : download_measure (finish_pass env
          { s with
            client := ensure_owned s.client (file_id_of_name w.file_name),
            rand_calls := if pl.peers_count > 1 then s.rand_calls + 1 else s.rand_calls }
          di inner (file_id_of_name w.file_name)) < download_measure s := by
        apply download_measure_grow s _ hw1 q3 hidx _ (by rw [hclen]; exact hroom)
        rw [hclen]
        simp only [cur_len, hcur, List.length_append, List.length_singleton]
      refine ⟨_, ev ++ [Event.store fd.file_id (strncpy seg.hash HASH_SIZE)], rfl, ?_, hw1,
        hmeas, q2, ?_, ?_, ?_⟩
      · by_cases h10 : (pending s.trace).length + 1 = 10
        · obtain ⟨r1, r2, r3⟩ := q7 h10
          refine ⟨wf_client_congr s.client _ hp1 hw1 hwf, by rw [q4]; exact hcont, ?_, ?_, ?_⟩
          · rw [r2, r3]
            rfl
          · rw [r3]
            simp
          · intro hne
            exact absurd r3 hne
        · obtain ⟨r1, r2⟩ := q6 h10
          refine ⟨wf_client_congr s.client _ hp1 hw1 hwf, by rw [q4]; exact hcont, ?_, ?_, ?_⟩
          · rw [r2, r1, q1]
            simp
          · rw [r1, q1]
            simp only [List.length_append, List.length_singleton]
            omega
          · intro _
            refine ⟨⟨pl, by rw [hp1, q3]; exact hpl, hpos⟩, ?_⟩
            obtain ⟨base, hb⟩ := hman
            exact ⟨_, base, hcur, by rw [r1, q1]; exact hb⟩
      · rw [q1]
        simp only [List.length_append, List.length_singleton]
        omega
      · intro hne
        rw [q1] at hne
        simp only [List.length_append, List.length_singleton] at hne
        exact (q6 hne).1
      · intro h10
        rw [q1] at h10 ⊢
        simp only [List.length_append, List.length_singleton] at h10
        obtain ⟨r1, _, _⟩ := q7 h10
        obtain ⟨base, hb⟩ := hman
        have hmaxlen : (fd.segments ++ [{ hash := strncpy seg.hash HASH_SIZE }] :
            List FileSegment_t).length ≤ MAX_CHUNKS := by
          simp only [List.length_append, List.length_singleton]
          omega
        obtain ⟨rh1, rh2⟩ := report_hashes_last_ten
          { fd with segments := fd.segments ++ [{ hash := strncpy seg.hash HASH_SIZE }] }
          base (pending s.trace ++ [strncpy seg.hash HASH_SIZE]) hb
          (by simp only [List.length_append, List.length_singleton]; exact h10) hmaxlen
        refine ⟨_, w, hcur, q3, hw, hfid, rh2, ?_⟩
        rw [r1, rh1]

/-! ### Termination of the download loop -/

theorem download_inv_init (client : ClientFiles_t) (hwf : wf_client client) :
    download_inv (download_init client) :=
  ⟨hwf, rfl, rfl, by simp [download_init, pending], fun hne => absurd rfl hne⟩

theorem down_10_block_no_finished (fid : Int) (hs : List CStr) (ack : CStr) :
    finished_inform ∉ down_10_block fid hs ack := by
  intro hmem
  simp only [down_10_block, List.mem_append, List.mem_cons, List.mem_singleton,
    List.not_mem_nil, or_false, List.mem_map] at hmem
  rcases hmem with ((h | h) | ⟨x, _, h⟩) | (h | h)
  · simp [finished_inform, inform_msg] at h
  · simp [finished_inform, inform_msg] at h
  · simp [finished_inform, inform_msg, hash_msg, HASH_SIZE] at h
  · simp [finished_inform, inform_msg] at h
  · simp [finished_inform, inform_msg] at h

/-- What a pass adds to the actions does not hold the final message. -/
theorem pass_ok_trace (env : DownloadEnv) (s s1 : DownloadState) (pre : List Event)
    (h : pass_ok env s s1 pre) :
    ∃ ev, s1.trace = s.trace ++ ev ∧ finished_inform ∉ ev := by
  obtain ⟨_, _, _, hpre, _, hne, heq⟩ := h
  by_cases h10 : (pending (s.trace ++ pre)).length = 10
  · obtain ⟨fd, w, _, _, _, _, _, htr⟩ := heq h10
    refine ⟨pre ++ down_10_block fd.file_id (pending (s.trace ++ pre))
      (env.tracker_ack s.tracker_acks), by rw [htr, List.append_assoc], ?_⟩
    intro hmem
    rcases List.mem_append.1 hmem with hm | hm
    · exact (hpre _ hm).2 rfl
    · exact down_10_block_no_finished _ _ _ hm
  · exact ⟨pre, hne h10, fun hm => (hpre _ hm).2 rfl⟩

/-- With fuel for the passes still to come the download loop is left, and
it has not sent the final message. -/
theorem download_loop_terminates (env : DownloadEnv) (fuel : Nat) :
    ∀ s : DownloadState, download_inv s → download_measure s ≤ fuel →
      ∃ s1 ev, download_loop env fuel s = some s1 ∧ download_cond s1 = false ∧
        s1.trace = s.trace ++ ev ∧ finished_inform ∉ ev := by
  induction fuel with
  | zero =>
    intro s hinv hm
    have hcond : download_cond s = false := by
      cases hc : download_cond s with
      | false => rfl
      | true =>
        simp only [download_cond, Bool.and_eq_true, decide_eq_true_eq] at hc
        simp only [download_measure, if_pos hc.2] at hm
        omega
    exact ⟨s, [], download_loop_done env 0 s hcond, hcond, by simp, by simp⟩
  | succ f ih =>
    intro s hinv hm
    cases hc : download_cond s with
    | false => exact ⟨s, [], download_loop_done env _ s hc, hc, by simp, by simp⟩
    | true =>
      obtain ⟨s1, pre, hiter, hok⟩ := download_pass_spec env s hinv hc
      obtain ⟨ev1, htr1, hno1⟩ := pass_ok_trace env s s1 pre hok
      obtain ⟨hinv1, _, hlt, _⟩ := hok
      obtain ⟨s2, ev2, hloop, hc2, htr2, hno2⟩ := ih s1 hinv1 (by omega)
      refine ⟨s2, ev1 ++ ev2, ?_, hc2, by rw [htr2, htr1, List.append_assoc], ?_⟩
      · rw [download_loop_step env f s s1 hc hiter]
        exact hloop
      · intro hmem
        rcases List.mem_append.1 hmem with hm1 | hm2
        · exact hno1 hm1
        · exact hno2 hm2

/-- C10: for every client whose peer tables are well formed, with no peer
advertising more than `MAX_CHUNKS` segments, for every sequence of random
values and every sequence of ACK payloads, the download loop is left within
`wanted_files_count * (MAX_CHUNKS + 1)` passes, and the downloader then sends
`FINISHED_DOWN_ALL` (18 characters to rank 0 on the INFORM tag, which is 5)
exactly once, as the last of its actions and so as its last message on the
INFORM tag. -/
theorem download_thread_terminates (env : DownloadEnv) (client : ClientFiles_t)
    (fuel : Nat) (hwf : wf_client client)
    (hfuel : client.wanted_files.length * (MAX_CHUNKS + 1) ≤ fuel) :
    ∃ s pre, download_thread_func env fuel client = some s ∧
      download_cond s = false ∧
      s.trace = pre ++ [Event.send 0 5 (Payload.chars 18 "FINISHED_DOWN_ALL".toList)] ∧
      Event.send 0 5 (Payload.chars 18 "FINISHED_DOWN_ALL".toList) ∉ pre ∧
      s.trace.count (Event.send 0 5 (Payload.chars 18 "FINISHED_DOWN_ALL".toList)) = 1 ∧
      (informs_of s.trace).getLast? =
        some (Event.send 0 5 (Payload.chars 18 "FINISHED_DOWN_ALL".toList)) := by
  show ∃ s pre, download_thread_func env fuel client = some s ∧
      download_cond s = false ∧
      s.trace = pre ++ [finished_inform] ∧ finished_inform ∉ pre ∧
      s.trace.count finished_inform = 1 ∧
      (informs_of s.trace).getLast? = some finished_inform
  have hm : download_measure (download_init client) ≤ fuel := by
    have : download_measure (download_init client) ≤
        client.wanted_files.length * (MAX_CHUNKS + 1) := by
      unfold download_measure
      simp only [download_init]
      unfold MAX_CHUNKS
      split <;> omega
    omega
  obtain ⟨s1, ev, hloop, hc, htr, hno⟩ :=
    download_loop_terminates env fuel _ (download_inv_init client hwf) hm
  have htr1 : s1.trace = ev := by simpa [download_init] using htr
  refine ⟨{ s1 with trace := s1.trace ++ [finished_inform] }, ev, ?_, ?_, ?_, hno, ?_, ?_⟩
  · simp [download_thread_func, hloop]
  · simpa [download_cond] using hc
  · simp [htr1]
  · simp only [htr1, List.count_append, List.count_eq_zero.2 hno]
    simp
  · simp only [htr1, informs_of, List.filter_append]
    simp [finished_inform, inform_msg, TRACKER_RANK, INFORM_TAG]

/-- Witness of `download_thread_terminates`: a client that wants `file1`
with two peers, requests being refused. -/
theorem download_thread_terminates_witness :
    ∃ s pre, download_thread_func
        { rand := fun n => n, peer_ack := fun _ => "NO".toList, tracker_ack := fun _ => OK }
        101 (two_peer_client 3 1 2 hashes_abcde) = some s ∧
      download_cond s = false ∧
      s.trace = pre ++ [Event.send 0 5 (Payload.chars 18 "FINISHED_DOWN_ALL".toList)] ∧
      Event.send 0 5 (Payload.chars 18 "FINISHED_DOWN_ALL".toList) ∉ pre ∧
      s.trace.count (Event.send 0 5 (Payload.chars 18 "FINISHED_DOWN_ALL".toList)) = 1 ∧
      (informs_of s.trace).getLast? =
        some (Event.send 0 5 (Payload.chars 18 "FINISHED_DOWN_ALL".toList)) :=
  download_thread_terminates
    { rand := fun n => n, peer_ack := fun _ => "NO".toList, tracker_ack := fun _ => OK }
    (two_peer_client 3 1 2 hashes_abcde) 101
    (by unfold wf_client; decide) (by decide)

/-- The property `download_inv` holds at the start of every pass of a run. -/
theorem download_steps_inv (env : DownloadEnv) (n : Nat) :
    ∀ s0 s : DownloadState, download_inv s0 → download_steps env n s0 = some s →
      download_inv s := by
  induction n with
  | zero =>
    intro s0 s hinv h
    simp only [download_steps, Option.some.injEq] at h
    rw [← h]
    exact hinv
  | succ k ih =>
    intro s0 s hinv h
    unfold download_steps at h
    split at h
    · rename_i hc
      obtain ⟨s1, pre, hiter, hok⟩ := download_pass_spec env s0 hinv hc
      rw [hiter] at h
      exact ih s1 s hok.1 h
    · cases h

/-- C9: at the start of every pass of every run of the downloader (with
well formed peer tables) the counter `downloaded_segments` is the number of
hashes stored since the last report and is at most 9. In the pass, whose
actions before the periodic report are `pre`, no `DOWN_10` is sent unless
the hashes stored since the last report have become ten; then, and only
then, the pass ends with the verb `DOWN_10` (8 characters), the id of the
current file, exactly these ten hashes in the order in which they were
stored (one message of 32 characters each), which are the last ten of the
manifest of the file, `GIVE_PEERS` (11 characters), all sent to rank 0 on the
INFORM tag, which is 5, and the receive of the ACK of the tracker (from rank
0 on the ACK tag, which is 2), which comes before any further action. -/
theorem down_10_report (env : DownloadEnv) (client : ClientFiles_t) (n : Nat)
    (s : DownloadState) (hwf : wf_client client)
    (hsteps : download_steps env n (download_init client) = some s)
    (hcond : download_cond s = true) :
    s.downloaded_segments = ((pending s.trace).length : Int) ∧
    (pending s.trace).length ≤ 9 ∧
    ∃ s1 pre, download_iter env s = some s1 ∧
      (∀ e ∈ pre, e ≠ Event.send 0 5 (Payload.chars 8 "DOWN_10".toList)) ∧
      (pending (s.trace ++ pre)).length ≤ 10 ∧
      ((pending (s.trace ++ pre)).length ≠ 10 → s1.trace = s.trace ++ pre) ∧
      ((pending (s.trace ++ pre)).length = 10 →
        ∃ fd w, cur_entry s1 = some fd ∧
          s.client.wanted_files[s.current_file_idx]? = some w ∧
          fd.file_id = file_id_of_name w.file_name ∧
          (fd.segments.map (fun x => x.hash)).drop (fd.segments.length - 10) =
            pending (s.trace ++ pre) ∧
          s1.trace = s.trace ++ pre ++
            ([Event.send 0 5 (Payload.chars 8 "DOWN_10".toList),
              Event.send 0 5 (Payload.int fd.file_id)]
              ++ (pending (s.trace ++ pre)).map
                  (fun h => Event.send 0 5 (Payload.chars 32 h))
              ++ [Event.send 0 5 (Payload.chars 11 "GIVE_PEERS".toList),
                  Event.recv 0 2 (Payload.chars 64 (env.tracker_ack s.tracker_acks))])) := by
  show s.downloaded_segments = ((pending s.trace).length : Int) ∧
    (pending s.trace).length ≤ 9 ∧
    ∃ s1 pre, download_iter env s = some s1 ∧
      (∀ e ∈ pre, e ≠ inform_msg 8 DOWN_10) ∧
      (pending (s.trace ++ pre)).length ≤ 10 ∧
      ((pending (s.trace ++ pre)).length ≠ 10 → s1.trace = s.trace ++ pre) ∧
      ((pending (s.trace ++ pre)).length = 10 →
        ∃ fd w, cur_entry s1 = some fd ∧
          s.client.wanted_files[s.current_file_idx]? = some w ∧
          fd.file_id = file_id_of_name w.file_name ∧
          (fd.segments.map (fun x => x.hash)).drop (fd.segments.length - 10) =
            pending (s.trace ++ pre) ∧
          s1.trace = s.trace ++ pre ++
            down_10_block fd.file_id (pending (s.trace ++ pre))
              (env.tracker_ack s.tracker_acks))
  have hinv := download_steps_inv env n _ s (download_inv_init client hwf) hsteps
  obtain ⟨s1, pre, hiter, _, _, _, hpre, hle, hne, heq⟩ :=
    download_pass_spec env s hinv hcond
  refine ⟨hinv.2.2.1, hinv.2.2.2.1, s1, pre, hiter, fun e he => (hpre e he).1, hle, hne, ?_⟩
  intro h10
  obtain ⟨fd, w, h1, _, h3, h4, h5, h6⟩ := heq h10
  exact ⟨fd, w, h1, h3, h4, h5, h6⟩

/-- Witness of `down_10_report`: rank 3 wants `file1`, its only peer
advertises twelve hashes and every request is answered `OK`; the tenth pass
starts with nine hashes stored since the start, and after it the messages
sent to the tracker are `DOWN_10`, the file id 1, the first ten hashes and
`GIVE_PEERS`. -/
theorem down_10_report_witness :
    ∃ s, download_steps (env_ok (fun _ => 0)) 9
        (download_init (leecher_client 3 [peer_of 1 hashes_twelve])) = some s ∧
      s.downloaded_segments = ((pending s.trace).length : Int) ∧
      (pending s.trace).length ≤ 9 ∧
      (download_steps (env_ok (fun _ => 0)) 10
        (download_init (leecher_client 3 [peer_of 1 hashes_twelve]))).map
        (fun t => informs_of t.trace) =
      some ([Event.send 0 5 (Payload.chars 8 "DOWN_10".toList),
              Event.send 0 5 (Payload.int 1)]
        ++ ["A", "B", "C", "D", "E", "F", "G", "H", "I", "J"].map
            (fun h => Event.send 0 5 (Payload.chars 32 h.toList))
        ++ [Event.send 0 5 (Payload.chars 11 "GIVE_PEERS".toList)]) := by
  have hsome : (download_steps (env_ok (fun _ => 0)) 9
      (download_init (leecher_client 3 [peer_of 1 hashes_twelve]))).isSome = true := by
    decide
  obtain ⟨s, hs⟩ := Option.isSome_iff_exists.1 hsome
  have hcond : download_cond s = true := by
    have hc : (download_steps (env_ok (fun _ => 0)) 9
        (download_init (leecher_client 3 [peer_of 1 hashes_twelve]))).map download_cond =
        some true := by decide
    rw [hs] at hc
    simpa using hc
  obtain ⟨h1, h2, _⟩ := down_10_report (env_ok (fun _ => 0))
    (leecher_client 3 [peer_of 1 hashes_twelve]) 9 s (by unfold wf_client; decide) hs hcond
  exact ⟨s, hs, h1, h2, by decide⟩

theorem kind_of_set_same (td : TrackerDataSet_t) (r : Int) (cd cd1 : TrackerData_t)
    (h1 : 1 ≤ r) (hget : td.data[(r - 1).toNat]? = some cd) :
    kind_of { td with data := td.data.set (r - 1).toNat cd1 } r = some cd1.client_type := by
  have hlt : (r - 1).toNat < td.data.length := by
    rcases List.getElem?_eq_some_iff.mp hget with ⟨h, _⟩
    exact h
  unfold kind_of
  rw [if_neg (by omega)]
  show Option.map _ ((td.data.set (r - 1).toNat cd1)[(r - 1).toNat]?) = _
  rw [List.getElem?_set, if_pos rfl, if_pos hlt]
  rfl

theorem kind_of_set_other (td : TrackerDataSet_t) (r q : Int) (cd1 : TrackerData_t)
    (h1 : 1 ≤ r) (hne : q ≠ r) :
    kind_of { td with data := td.data.set (r - 1).toNat cd1 } q = kind_of td q := by
  unfold kind_of
  by_cases hq : q < 1
  · rw [if_pos hq, if_pos hq]
  · rw [if_neg hq, if_neg hq]
    have hidx : (r - 1).toNat ≠ (q - 1).toNat := by omega
    show Option.map _ ((td.data.set (r - 1).toNat cd1)[(q - 1).toNat]?) = _
    rw [List.getElem?_set_ne hidx]

/-- C11: handling `FINISHED_DOWN_ALL` from a client rank `r` (a rank with an
inventory slot) makes the kind of `r` SEEDER when it was PEER and leaves it
as it was otherwise, adds exactly one to the finished count, and changes no
other rank's kind, no rank or file list of an inventory, no swarm, and sends
nothing. -/
theorem finished_down_all_effect (total : Int) (st : TrackerState) (msg : InformMsg)
    (hbuf : msg.buffer = FINISHED_DOWN_ALL)
    (h1 : 1 ≤ msg.source) (h2 : msg.source ≤ (st.tracker_data.data.length : Int)) :
    ∃ st1, tracker_handle total st msg = some st1 ∧
      kind_of st1.tracker_data msg.source =
        (if kind_of st.tracker_data msg.source = some Client_Type_t.PEER
          then some Client_Type_t.SEEDER
          else kind_of st.tracker_data msg.source) ∧
      st1.finished_clients = st.finished_clients + 1 ∧
      (∀ q, q ≠ msg.source → kind_of st1.tracker_data q = kind_of st.tracker_data q) ∧
      st1.tracker_data.data.map (fun cd => (cd.rank, cd.files)) =
        st.tracker_data.data.map (fun cd => (cd.rank, cd.files)) ∧
      st1.tracker_data.swarms = st.tracker_data.swarms ∧
      st1.tracker_data.swarm_size = st.tracker_data.swarm_size ∧
      st1.sent = st.sent := by
  have hlt : (msg.source - 1).toNat < st.tracker_data.data.length := by omega
  have hget : st.tracker_data.data[(msg.source - 1).toNat]? =
      some (st.tracker_data.data[(msg.source - 1).toNat]) := List.getElem?_eq_getElem hlt
  generalize st.tracker_data.data[(msg.source - 1).toNat] = cd at hget
  have hk : kind_of st.tracker_data msg.source = some cd.client_type := by
    unfold kind_of
    rw [if_neg (by omega), hget]
    rfl
  have hh : handle_finished st msg.source = some
      { st with
        tracker_data :=
          { st.tracker_data with
            data := st.tracker_data.data.set (msg.source - 1).toNat
              (if cd.client_type = Client_Type_t.PEER then
                { cd with client_type := Client_Type_t.SEEDER } else cd) },
        finished_clients := st.finished_clients + 1 } := by
    unfold handle_finished
    rw [if_neg (by omega), hget]
  have hmap : (st.tracker_data.data.set (msg.source - 1).toNat
      (if cd.client_type = Client_Type_t.PEER then
        { cd with client_type := Client_Type_t.SEEDER } else cd)).map
        (fun cd => (cd.rank, cd.files)) =
      st.tracker_data.data.map (fun cd => (cd.rank, cd.files)) := by
    apply List.ext_getElem?
    intro i
    rw [List.getElem?_map, List.getElem?_map, List.getElem?_set]
    by_cases hi : (msg.source - 1).toNat = i
    · subst hi
      rw [if_pos rfl, if_pos hlt, hget]
      by_cases hp : cd.client_type = Client_Type_t.PEER
      · rw [if_pos hp]; rfl
      · rw [if_neg hp]
    · rw [if_neg hi]
  have hkind := kind_of_set_same st.tracker_data msg.source cd
    (if cd.client_type = Client_Type_t.PEER then
      { cd with client_type := Client_Type_t.SEEDER } else cd) h1 hget
  have hother := fun q (hq : q ≠ msg.source) =>
    kind_of_set_other st.tracker_data msg.source q
      (if cd.client_type = Client_Type_t.PEER then
        { cd with client_type := Client_Type_t.SEEDER } else cd) h1 hq
  have hval : (if cd.client_type = Client_Type_t.PEER then
      ({ cd with client_type := Client_Type_t.SEEDER } : TrackerData_t) else cd).client_type =
      (if cd.client_type = Client_Type_t.PEER then Client_Type_t.SEEDER
        else cd.client_type) := by
    by_cases hp : cd.client_type = Client_Type_t.PEER
    · rw [if_pos hp, if_pos hp]
    · rw [if_neg hp, if_neg hp]
  unfold tracker_handle
  rw [if_pos hbuf, hh]
  simp only [Option.map_some']
  split
  · refine ⟨_, rfl, ?_, rfl, hother, hmap, rfl, rfl, rfl⟩
    show kind_of { st.tracker_data with data := _ } msg.source = _
    rw [hkind, hk, hval]
    by_cases hp : cd.client_type = Client_Type_t.PEER
    · simp [hp]
    · simp [hp]
  · refine ⟨_, rfl, ?_, rfl, hother, hmap, rfl, rfl, rfl⟩
    show kind_of { st.tracker_data with data := _ } msg.source = _
    rw [hkind, hk, hval]
    by_cases hp : cd.client_type = Client_Type_t.PEER
    · simp [hp]
    · simp [hp]

/-- Witness for C11: the PEER of rank 1 of `three_kinds_registry` reports
`FINISHED_DOWN_ALL`. -/
theorem finished_down_all_effect_witness :
    ∃ st1, tracker_handle 2 (tracker_init three_kinds_registry) (finished_msg 1) = some st1 ∧
      kind_of st1.tracker_data (finished_msg 1).source =
        (if kind_of (tracker_init three_kinds_registry).tracker_data (finished_msg 1).source
            = some Client_Type_t.PEER
          then some Client_Type_t.SEEDER
          else kind_of (tracker_init three_kinds_registry).tracker_data
            (finished_msg 1).source) ∧
      st1.finished_clients = (tracker_init three_kinds_registry).finished_clients + 1 ∧
      (∀ q, q ≠ (finished_msg 1).source →
        kind_of st1.tracker_data q =
          kind_of (tracker_init three_kinds_registry).tracker_data q) ∧
      st1.tracker_data.data.map (fun cd => (cd.rank, cd.files)) =
        (tracker_init three_kinds_registry).tracker_data.data.map
          (fun cd => (cd.rank, cd.files)) ∧
      st1.tracker_data.swarms = (tracker_init three_kinds_registry).tracker_data.swarms ∧
      st1.tracker_data.swarm_size =
        (tracker_init three_kinds_registry).tracker_data.swarm_size ∧
      st1.sent = (tracker_init three_kinds_registry).sent :=
  finished_down_all_effect 2 (tracker_init three_kinds_registry) (finished_msg 1) rfl
    (by decide) (by decide)

/-- Counterexample for C12: in a run where every client is a SEEDER the
number of downloading clients is zero, and the first message the tracker
takes, here one with an unknown verb, ends the serving loop: the tracker
leaves the loop and sends `STOP_UPLOADING`. -/
theorem unknown_verb_ends_all_seeder_tracker :
    (tracker (registry_of_kinds [Client_Type_t.SEEDER]) [unknown_msg 1]).map
        (fun st => (st.continue_tracking, st.sent)) =
      some (false, [stop_msg 1]) ∧
    (unknown_msg 1).buffer ≠ FINISHED_DOWN_ALL ∧ (unknown_msg 1).buffer ≠ DOWN_10 ∧
    (unknown_msg 1).buffer ≠ DOWN_X ∧ (unknown_msg 1).buffer ≠ GIVE_PEERS := by
  decide

/-- C12 (amended): a message whose verb is none of `FINISHED_DOWN_ALL`,
`DOWN_10`, `DOWN_X` and `GIVE_PEERS` leaves the registry (inventories,
swarms, kinds), the finished count and the messages sent as they are; the
tracker keeps serving when the finished count differs from the number of
downloading clients, and leaves the loop when they are equal. -/
theorem unknown_verb_ignored (total : Int) (st : TrackerState) (msg : InformMsg)
    (hf : msg.buffer ≠ FINISHED_DOWN_ALL) (h10 : msg.buffer ≠ DOWN_10)
    (hx : msg.buffer ≠ DOWN_X) (hg : msg.buffer ≠ GIVE_PEERS) :
    ∃ st1, tracker_handle total st msg = some st1 ∧
      st1.tracker_data = st.tracker_data ∧
      st1.finished_clients = st.finished_clients ∧
      st1.sent = st.sent ∧
      (st.finished_clients ≠ total → st1.continue_tracking = st.continue_tracking) ∧
      (st.finished_clients = total → st1.continue_tracking = false) := by
  unfold tracker_handle
  rw [if_neg hf, if_neg (by simp [h10, hx]), if_neg hg]
  simp only [Option.map_some']
  by_cases hc : st.finished_clients = total
  · rw [if_pos hc]
    exact ⟨_, rfl, rfl, rfl, rfl, fun h => absurd hc h, fun _ => rfl⟩
  · rw [if_neg hc]
    exact ⟨_, rfl, rfl, rfl, rfl, fun _ => rfl, fun h => absurd h hc⟩

/-- Witness for C12: an unknown verb arrives at the tracker of
`three_kinds_registry`, where two clients are downloading. -/
theorem unknown_verb_ignored_witness :
    ∃ st1, tracker_handle 2 (tracker_init three_kinds_registry) (unknown_msg 1) = some st1 ∧
      st1.tracker_data = (tracker_init three_kinds_registry).tracker_data ∧
      st1.finished_clients = (tracker_init three_kinds_registry).finished_clients ∧
      st1.sent = (tracker_init three_kinds_registry).sent ∧
      ((tracker_init three_kinds_registry).finished_clients ≠ 2 →
        st1.continue_tracking = (tracker_init three_kinds_registry).continue_tracking) ∧
      ((tracker_init three_kinds_registry).finished_clients = 2 →
        st1.continue_tracking = false) :=
  unknown_verb_ignored 2 (tracker_init three_kinds_registry) (unknown_msg 1)
    (by decide) (by decide) (by decide) (by decide)

/-- C18: one pass of the upload loop on a message from `msg.source`. When
the string received is `STOP_UPLOADING` the loop is left and nothing is
sent; for every other string, which is never compared with a hash the
client holds, exactly one `OK` of two characters is sent to the source on
the ACK tag and the loop goes on with the messages that follow. -/
theorem upload_step_spec (msg : RequestMsg) (rest : List RequestMsg) :
    (msg.buffer = STOP_UPLOADING →
      upload_step msg = (false, []) ∧ upload_thread_func (msg :: rest) = (true, [])) ∧
    (msg.buffer ≠ STOP_UPLOADING →
      upload_step msg = (true, [Event.send msg.source ACK_TAG (Payload.chars 2 OK)]) ∧
      upload_thread_func (msg :: rest) =
        ((upload_thread_func rest).1,
          Event.send msg.source ACK_TAG (Payload.chars 2 OK) ::
            (upload_thread_func rest).2)) := by
  constructor
  · intro h
    have hs : upload_step msg = (false, []) := by
      unfold upload_step
      rw [if_pos h]
    refine ⟨hs, ?_⟩
    rw [upload_thread_func, hs]
    rfl
  · intro h
    have hs : upload_step msg =
        (true, [Event.send msg.source ACK_TAG (Payload.chars 2 OK)]) := by
      unfold upload_step
      rw [if_neg h]
    refine ⟨hs, ?_⟩
    rw [upload_thread_func, hs]
    rfl

/-- Witness for C18: a request for a hash from rank 2, followed by the
shutdown message of the tracker. -/
theorem upload_step_spec_witness :
    upload_thread_func
      [{ source := 2, buffer := List.replicate 31 'a' },
       { source := 0, buffer := STOP_UPLOADING }] =
      (true, [Event.send 2 ACK_TAG (Payload.chars 2 OK)]) := by
  have h1 := (upload_step_spec { source := 2, buffer := List.replicate 31 'a' }
    [{ source := 0, buffer := STOP_UPLOADING }]).2 (by decide)
  have h2 := (upload_step_spec { source := 0, buffer := STOP_UPLOADING } []).1 rfl
  rw [h1.2, h2.2]

/-- C20: a pass of the download loop on a wanted file whose peer count is
zero or negative sends and receives nothing, leaves the client structure
(every owned manifest) and the counters as they are, and adds exactly one to
the index of the wanted file; the loop goes on from the next file. -/
theorem download_iter_no_peers (env : DownloadEnv) (s : DownloadState) (pl : PeersList_t)
    (fuel : Nat)
    (hpl : s.client.peers[s.current_file_idx]? = some pl) (hle : pl.peers_count ≤ 0) :
    ∃ s1, download_iter env s = some s1 ∧
      s1.trace = s.trace ∧ s1.client = s.client ∧
      s1.current_file_idx = s.current_file_idx + 1 ∧
      s1.downloaded_segments = s.downloaded_segments ∧
      s1.continue_downloading = s.continue_downloading ∧
      (download_cond s = true →
        download_loop env (fuel + 1) s = download_loop env fuel s1) := by
  have h : download_iter env s =
      some { s with current_file_idx := s.current_file_idx + 1 } := by
    unfold download_iter
    rw [hpl]
    simp only [if_pos hle]
  exact ⟨_, h, rfl, rfl, rfl, rfl, rfl, fun hc => download_loop_step env fuel s _ hc h⟩

/-- Witness for C20: the only wanted file of `no_peer_client` has an empty
peer table. -/
theorem download_iter_no_peers_witness :
    ∃ s1, download_iter (env_ok (fun _ => 0)) (download_init no_peer_client) = some s1 ∧
      s1.trace = (download_init no_peer_client).trace ∧
      s1.client = (download_init no_peer_client).client ∧
      s1.current_file_idx = (download_init no_peer_client).current_file_idx + 1 ∧
      s1.downloaded_segments = (download_init no_peer_client).downloaded_segments ∧
      s1.continue_downloading = (download_init no_peer_client).continue_downloading ∧
      (download_cond (download_init no_peer_client) = true →
        download_loop (env_ok (fun _ => 0)) (0 + 1) (download_init no_peer_client) =
          download_loop (env_ok (fun _ => 0)) 0 s1) :=
  download_iter_no_peers (env_ok (fun _ => 0)) (download_init no_peer_client)
    { peers_array := [], peers_count := 0 } 0 rfl (by decide)

theorem segment_loop_all_owned (env : DownloadEnv) (r : Int) (cands : List FileSegment_t) :
    ∀ s : SegmentLoopState, (∀ seg ∈ cands, has_segment s.data seg = true) →
      segment_loop env r cands s = s := by
  induction cands with
  | nil => intro s _; rfl
  | cons seg rest ih =>
    intro s h
    have hseg : has_segment s.data seg = true := h seg (List.mem_cons_self _ _)
    rw [segment_loop]
    simp only [hseg, Bool.not_true, Bool.false_eq_true, if_false]
    exact ih s (fun x hx => h x (List.mem_cons_of_mem _ hx))

theorem complete_file_no_report (env : DownloadEnv) (s : DownloadState) (data : FileData_t)
    (fid : Int) :
    report_progress env (complete_file s data fid) data = complete_file s data fid := by
  apply report_progress_skip
  unfold complete_file
  by_cases h : s.downloaded_segments > 0
  · simp only [if_pos h]
    intro hc
    exact absurd hc.1 (by decide)
  · simp only [if_neg h]
    intro hc
    exact h hc.1

theorem finish_pass_idle (env : DownloadEnv) (s : DownloadState) (di : Nat)
    (inner : SegmentLoopState) (fid : Int) (hsd : inner.segment_downloaded = false) :
    finish_pass env s di inner fid =
      complete_file
        { s with
          client := { s.client with owned_files := s.client.owned_files.set di inner.data },
          downloaded_segments := inner.downloaded_segments,
          peer_acks := inner.peer_acks,
          trace := inner.trace }
        inner.data fid := by
  unfold finish_pass
  simp only [hsd, Bool.not_false, if_true]
  exact complete_file_no_report env _ _ _

theorem has_segment_iff_mem (fd : FileData_t) (seg : FileSegment_t) :
    has_segment fd seg = true ↔ seg.hash ∈ fd.segments.map (fun x => x.hash) := by
  unfold has_segment
  simp only [List.any_eq_true, decide_eq_true_eq, List.mem_map]

theorem find_file_data_append_some (l : List FileData_t) (fid : Int) (fd : FileData_t)
    (di : Nat) (h : find_file_data l fid = some di) :
    find_file_data (l ++ [fd]) fid = some di := by
  induction l generalizing di with
  | nil => simp [find_file_data] at h
  | cons x xs ih =>
    simp only [List.cons_append, find_file_data] at h ⊢
    by_cases hx : x.file_id = fid
    · rw [if_pos hx] at h ⊢
      exact h
    · rw [if_neg hx] at h ⊢
      cases hf : find_file_data xs fid with
      | none => rw [hf] at h; simp at h
      | some j =>
        rw [hf] at h
        have hj := ih j hf
        show Option.map (fun i => i + 1) (find_file_data (xs ++ [fd]) fid) = some di
        rw [hj]
        exact h

theorem find_file_data_append_other (l : List FileData_t) (fid : Int) (fd : FileData_t)
    (hne : fd.file_id ≠ fid) (h : find_file_data l fid = none) :
    find_file_data (l ++ [fd]) fid = none := by
  rw [find_file_data_none_iff] at h ⊢
  intro x hx
  rcases List.mem_append.mp hx with hx | hx
  · exact h x hx
  · rw [List.mem_singleton] at hx
    rw [hx]
    exact hne

theorem manifest_or_nil_ensure_owned (c : ClientFiles_t) (fid f : Int) :
    manifest_or_nil (ensure_owned c fid) f = manifest_or_nil c f := by
  unfold ensure_owned
  by_cases ho : file_is_owned c fid = true
  · simp [ho]
  · have ho1 : file_is_owned c fid = false := by simpa using ho
    have hnone := (file_is_owned_eq_false_iff c fid).mp ho1
    simp only [ho1, Bool.not_false, if_true]
    unfold manifest_or_nil owned_manifest add_file_to_owned
    cases hf : find_file_data c.owned_files f with
    | some di =>
      simp only
      rw [find_file_data_append_some _ _ _ _ hf]
      rcases find_file_data_some _ _ _ hf with ⟨fd, hget, _⟩
      have hlt : di < c.owned_files.length := by
        rcases List.getElem?_eq_some_iff.mp hget with ⟨hh, _⟩
        exact hh
      simp only
      rw [List.getElem?_append_left hlt]
    | none =>
      simp only
      by_cases hfe : f = fid
      · subst hfe
        rw [find_file_data_append_new _ _ _ hf rfl]
        simp
      · rw [find_file_data_append_other _ _ _ (fun h => hfe h.symm) hf]

/-- C19: a pass of the download loop in which every segment the selected
peer advertises at an index from the number of hashes held of the wanted
file on is already in the manifest of that file. No request is sent (the
only actions are the `DOWN_X` report to the tracker when hashes were stored
since the last report, and the writing of the file), the manifest of every
file is unchanged, the file is written with the hashes held, and the index of
the wanted file advances by one. -/
theorem download_iter_nothing_new (env : DownloadEnv) (s : DownloadState)
    (pl : PeersList_t) (peer : PeerInfo_t) (w : FileName_t)
    (hpl : s.client.peers[s.current_file_idx]? = some pl)
    (hpos : 0 < pl.peers_count)
    (hsel : pl.peers_array[(select_peer env s pl.peers_count).toNat]? = some peer)
    (hw : s.client.wanted_files[s.current_file_idx]? = some w)
    (hnone : ∀ seg ∈ peer.segments.drop
        (manifest_or_nil s.client (file_id_of_name w.file_name)).length,
      seg.hash ∈ manifest_or_nil s.client (file_id_of_name w.file_name)) :
    ∃ s1 fd, download_iter env s = some s1 ∧
      requests_of s1.trace = requests_of s.trace ∧
      (∀ f, manifest_or_nil s1.client f = manifest_or_nil s.client f) ∧
      s1.current_file_idx = s.current_file_idx + 1 ∧
      fd.segments.map (fun x => x.hash) =
        manifest_or_nil s.client (file_id_of_name w.file_name) ∧
      s1.trace = s.trace ++
        (if s.downloaded_segments > 0 then report_msgs DOWN_X fd else []) ++
        [Event.write_file
          (output_file_name s.client.client_rank (file_id_of_name w.file_name))
          (write_to_file fd)] := by
  rcases ensure_owned_find s.client (file_id_of_name w.file_name) with
    ⟨di, fd, hfind, hget, hid, hcase⟩
  have hman : fd.segments.map (fun x => x.hash) =
      manifest_or_nil s.client (file_id_of_name w.file_name) := by
    rw [← manifest_or_nil_ensure_owned s.client (file_id_of_name w.file_name)]
    unfold manifest_or_nil owned_manifest
    rw [hfind]
    simp only
    rw [hget]
    rfl
  have hlen : (manifest_or_nil s.client (file_id_of_name w.file_name)).length =
      fd.segments.length := by
    rw [← hman, List.length_map]
  have hall : ∀ seg ∈ peer.segments.drop fd.segments.length, has_segment fd seg = true := by
    intro seg hseg
    rw [has_segment_iff_mem, hman]
    rw [hlen] at hnone
    exact hnone seg hseg
  have hset : (ensure_owned s.client (file_id_of_name w.file_name)).owned_files.set di fd =
      (ensure_owned s.client (file_id_of_name w.file_name)).owned_files := by
    apply List.ext_getElem?
    intro i
    rw [List.getElem?_set]
    by_cases hi : di = i
    · subst hi
      rw [if_pos rfl]
      have hlt : di < (ensure_owned s.client (file_id_of_name w.file_name)).owned_files.length := by
        rcases List.getElem?_eq_some_iff.mp hget with ⟨hh, _⟩
        exact hh
      rw [if_pos hlt, hget]
    · rw [if_neg hi]
  have hrank : (ensure_owned s.client (file_id_of_name w.file_name)).client_rank =
      s.client.client_rank := by
    unfold ensure_owned
    split
    · rfl
    · rfl
  have hiter : download_iter env s = some
      (complete_file
        { s with
          client := ensure_owned s.client (file_id_of_name w.file_name),
          rand_calls := if pl.peers_count > 1 then s.rand_calls + 1 else s.rand_calls }
        fd (file_id_of_name w.file_name)) := by
    unfold download_iter
    rw [hpl]
    simp only [if_neg (not_le.mpr hpos), hsel, hw]
    unfold download_from_peer
    simp only [hfind, hget]
    rw [segment_loop_all_owned env peer.peer_rank _ _ hall]
    rw [finish_pass_idle _ _ _ _ _ rfl]
    simp only [hset]
  refine ⟨_, fd, hiter, ?_, ?_, ?_, hman, ?_⟩
  · exact (complete_file_fields _ _ _).2.2.2
  · intro f
    rw [(complete_file_fields _ _ _).1]
    exact manifest_or_nil_ensure_owned s.client _ f
  · exact (complete_file_fields _ _ _).2.1
  · unfold complete_file
    by_cases hd : s.downloaded_segments > 0
    · simp only [if_pos hd, hrank]
    · simp only [if_neg hd, hrank, List.append_nil]

/-- Witness for C19: `idle_peer_client` holds the two hashes its only peer
advertises. -/
theorem download_iter_nothing_new_witness :
    ∃ s1 fd, download_iter (env_ok (fun _ => 0)) (download_init idle_peer_client) = some s1 ∧
      requests_of s1.trace = requests_of (download_init idle_peer_client).trace ∧
      (∀ f, manifest_or_nil s1.client f =
        manifest_or_nil (download_init idle_peer_client).client f) ∧
      s1.current_file_idx = (download_init idle_peer_client).current_file_idx + 1 ∧
      fd.segments.map (fun x => x.hash) =
        manifest_or_nil (download_init idle_peer_client).client
          (file_id_of_name "file1".toList) ∧
      s1.trace = (download_init idle_peer_client).trace ++
        (if (download_init idle_peer_client).downloaded_segments > 0
          then report_msgs DOWN_X fd else []) ++
        [Event.write_file
          (output_file_name (download_init idle_peer_client).client.client_rank
            (file_id_of_name "file1".toList))
          (write_to_file fd)] :=
  download_iter_nothing_new (env_ok (fun _ => 0)) (download_init idle_peer_client)
    { peers_array := [peer_of 2 (hashes_abc.take 2)], peers_count := 1 }
    (peer_of 2 (hashes_abc.take 2)) { file_name := "file1".toList }
    rfl (by decide) rfl rfl (by decide)

theorem owned_manifest_eq_files (c : ClientFiles_t) (f : Int) :
    owned_manifest c f = files_manifest c.owned_files f := rfl

theorem tracker_manifest_eq_files (m : TrackerDataSet_t) (r f : Int) (cd : TrackerData_t)
    (h1 : 1 ≤ r) (hget : m.data[(r - 1).toNat]? = some cd) :
    tracker_manifest m r f = files_manifest cd.files f := by
  unfold tracker_manifest
  rw [if_neg (by omega), hget]
  rfl

theorem files_manifest_append (l : List FileData_t) (fd : FileData_t) (f : Int)
    (old : List CStr) (h : files_manifest l f = some old) :
    files_manifest (l ++ [fd]) f = some old := by
  unfold files_manifest at h ⊢
  cases hf : find_file_data l f with
  | none => rw [hf] at h; cases h
  | some di =>
    rw [hf] at h
    rw [find_file_data_append_some _ _ _ _ hf]
    rcases find_file_data_some _ _ _ hf with ⟨x, hget, _⟩
    have hlt : di < l.length := by
      rcases List.getElem?_eq_some_iff.mp hget with ⟨hh, _⟩
      exact hh
    simp only at h ⊢
    rw [List.getElem?_append_left hlt]
    exact h

theorem find_file_data_update_nth (g : FileData_t → FileData_t)
    (hg : ∀ fd, (g fd).file_id = fd.file_id) (idx : Nat) (f : Int) :
    ∀ l : List FileData_t, find_file_data (update_nth g idx l) f = find_file_data l f := by
  induction idx with
  | zero =>
    intro l
    cases l with
    | nil => rfl
    | cons x xs => simp only [update_nth, find_file_data, hg]
  | succ n ih =>
    intro l
    cases l with
    | nil => rfl
    | cons x xs => simp only [update_nth, find_file_data, ih xs]

theorem files_manifest_update_nth (g : FileData_t → FileData_t)
    (hg : ∀ fd, (g fd).file_id = fd.file_id)
    (hs : ∀ fd, ∃ t, (g fd).segments = fd.segments ++ t)
    (idx : Nat) (l : List FileData_t) (f : Int) (old : List CStr)
    (h : files_manifest l f = some old) :
    ∃ t, files_manifest (update_nth g idx l) f = some (old ++ t) := by
  unfold files_manifest at h ⊢
  rw [find_file_data_update_nth g hg]
  cases hf : find_file_data l f with
  | none => rw [hf] at h; cases h
  | some di =>
    rw [hf] at h
    simp only at h ⊢
    rw [update_nth_getElem?]
    cases hget : l[di]? with
    | none => rw [hget] at h; cases h
    | some fd =>
      rw [hget] at h
      simp only [Option.map_some', Option.some.injEq] at h
      by_cases hi : di = idx
      · rw [if_pos hi]
        rcases hs fd with ⟨t, ht⟩
        refine ⟨t.map (fun s => s.hash), ?_⟩
        simp only [Option.map_some', ht, List.map_append, h]
      · rw [if_neg hi]
        exact ⟨[], by simp [h]⟩

theorem foldl_store_received_hash (bs : List CStr) :
    ∀ fd : FileData_t,
      (bs.foldl store_received_hash fd).file_id = fd.file_id ∧
      (bs.foldl store_received_hash fd).segments =
        fd.segments ++ bs.map (fun b => ({ hash := strncpy b (HASH_SIZE - 1) } : FileSegment_t)) := by
  induction bs with
  | nil => intro fd; simp
  | cons b rest ih =>
    intro fd
    rw [List.foldl_cons]
    rcases ih (store_received_hash fd b) with ⟨h1, h2⟩
    refine ⟨h1, ?_⟩
    rw [h2]
    simp [store_received_hash]

/-- The inventories after an update: the slot of the sender holds its file
list, with an empty entry added when the file was not there, and the ten
received hashes appended to the entry of the file. -/
theorem update_tracker_swarm_data (m m1 : TrackerDataSet_t) (rank fid : Int)
    (buffs : Fin 10 → CStr) (h : update_tracker_swarm m rank fid buffs = some m1) :
    1 ≤ rank ∧ m1.swarm_size = m.swarm_size ∧
    ∃ cd cd1 idx, m.data[(rank - 1).toNat]? = some cd ∧
      (cd1 = cd ∨ (find_file_data cd.files fid = none ∧
        cd1 = tracker_add_file_to_owned cd fid)) ∧
      find_file_data cd1.files fid = some idx ∧
      m1.data = m.data.set (rank - 1).toNat
        { cd1 with
          files := update_nth
            (fun fd => (List.ofFn buffs).foldl store_received_hash fd) idx cd1.files } := by
  unfold update_tracker_swarm at h
  split at h
  · cases h
  · rename_i hr
    split at h
    · cases h
    · rename_i cd hcd
      have hcase : ∃ cd1, cd1 = (if !tracker_client_has_file cd.files fid then
            tracker_add_file_to_owned cd fid else cd) ∧
          (cd1 = cd ∨ (find_file_data cd.files fid = none ∧
            cd1 = tracker_add_file_to_owned cd fid)) ∧
          ∃ idx, find_file_data cd1.files fid = some idx := by
        refine ⟨_, rfl, ?_, ?_⟩
        · by_cases hhas : tracker_client_has_file cd.files fid = true
          · left
            simp [hhas]
          · right
            have hf : tracker_client_has_file cd.files fid = false := by simpa using hhas
            refine ⟨(tracker_client_has_file_false_iff _ _).mp hf, ?_⟩
            simp [hf]
        · by_cases hhas : tracker_client_has_file cd.files fid = true
          · simp only [hhas, Bool.not_true, Bool.false_eq_true, if_false]
            cases hf : find_file_data cd.files fid with
            | none =>
              rw [← tracker_client_has_file_false_iff, hhas] at hf
              cases hf
            | some idx => exact ⟨idx, rfl⟩
          · have hf : tracker_client_has_file cd.files fid = false := by simpa using hhas
            simp only [hf, Bool.not_false, if_true]
            exact ⟨_, find_file_data_append_new cd.files fid _
              ((tracker_client_has_file_false_iff _ _).mp hf) rfl⟩
      rcases hcase with ⟨cd1, hcd1, hor, idx, hidx⟩
      simp only [← hcd1, hidx] at h
      cases h
      exact ⟨by omega, rfl, cd, cd1, idx, hcd, hor, hidx, rfl⟩

theorem update_tracker_swarm_manifest (m m1 : TrackerDataSet_t) (rank fid : Int)
    (buffs : Fin 10 → CStr) (r f : Int) (old : List CStr)
    (h : update_tracker_swarm m rank fid buffs = some m1)
    (hold : tracker_manifest m r f = some old) :
    ∃ t, tracker_manifest m1 r f = some (old ++ t) := by
  rcases update_tracker_swarm_data m m1 rank fid buffs h with
    ⟨hr, _, cd, cd1, idx, hcd, hor, hidx, hdata⟩
  have hr1 : 1 ≤ r := by
    by_contra hlt
    unfold tracker_manifest at hold
    rw [if_pos (by omega)] at hold
    cases hold
  have hlt : (rank - 1).toNat < m.data.length := by
    rcases List.getElem?_eq_some_iff.mp hcd with ⟨hh, _⟩
    exact hh
  by_cases hrr : r = rank
  · subst hrr
    rw [tracker_manifest_eq_files m r f cd hr1 hcd] at hold
    have hget1 : m1.data[(r - 1).toNat]? = some
        { cd1 with
          files := update_nth
            (fun fd => (List.ofFn buffs).foldl store_received_hash fd) idx cd1.files } := by
      rw [hdata, List.getElem?_set, if_pos rfl, if_pos hlt]
    rw [tracker_manifest_eq_files m1 r f _ hr1 hget1]
    have hold1 : files_manifest cd1.files f = some old := by
      rcases hor with hc | ⟨_, hc⟩
      · rw [hc]; exact hold
      · rw [hc]
        exact files_manifest_append _ _ _ _ hold
    exact files_manifest_update_nth _
      (fun fd => (foldl_store_received_hash (List.ofFn buffs) fd).1)
      (fun fd => ⟨_, (foldl_store_received_hash (List.ofFn buffs) fd).2⟩)
      idx cd1.files f old hold1
  · refine ⟨[], ?_⟩
    rw [List.append_nil, ← hold]
    unfold tracker_manifest
    rw [if_neg (by omega), if_neg (by omega), hdata]
    have hidx2 : (rank - 1).toNat ≠ (r - 1).toNat := by omega
    rw [List.getElem?_set_ne hidx2]

set_option maxRecDepth 100000 in
/-- C16: every operation that changes a manifest keeps what it held as the
start of what it holds afterwards. `add_file_to_owned` and
`tracker_add_file_to_owned` leave the manifest of every file that has one as
it is; `add_segment_to_file_data` keeps the name and the id and only adds
segments at the end; after `update_tracker_swarm` the manifest of every
(rank, file) pair that had one is the old manifest followed by the hashes
added, provided the ten hashes fit the array `segments[MAX_CHUNKS]` of the
entry that receives them. The code at a failing input, where they do not
fit: the tracker holds for rank 1 the entry of `file1` with 95 chunks,
followed in the same array by the entry of `file2`; the client reports with
`DOWN_X` the ten hashes at the indexes 90 to 99 of its manifest of `file1`,
and `update_tracker_swarm` stores them at the indexes 95 to 104 of an array
of `MAX_CHUNKS` segments, the last five in the storage of the next entry. -/
theorem manifests_append_only :
    (∀ (c : ClientFiles_t) (fid f : Int) (old : List CStr),
      owned_manifest c f = some old →
        owned_manifest (add_file_to_owned c fid) f = some old) ∧
    (∀ (d : FileData_t) (seg : FileSegment_t),
      (add_segment_to_file_data d seg).2.file_id = d.file_id ∧
      ∃ t, (add_segment_to_file_data d seg).2.segments = d.segments ++ t) ∧
    (∀ (cd : TrackerData_t) (fid f : Int) (old : List CStr),
      files_manifest cd.files f = some old →
        files_manifest (tracker_add_file_to_owned cd fid).files f = some old) ∧
    (∀ (m m1 : TrackerDataSet_t) (rank fid : Int) (buffs : Fin 10 → CStr) (r f : Int)
        (old : List CStr),
      update_tracker_swarm m rank fid buffs = some m1 →
      (∀ cur, tracker_manifest m rank fid = some cur → cur.length + 10 ≤ MAX_CHUNKS) →
      tracker_manifest m r f = some old →
        ∃ t, tracker_manifest m1 r f = some (old ++ t)) ∧
    ((tracker_manifest two_file_registry 1 1).map List.length = some 95 ∧
      two_file_registry.data[0]?.map (fun cd => cd.files.map (fun fd => fd.file_id)) =
        some [1, 2] ∧
      (download_thread_func (env_ok (fun _ => 0)) 10 two_file_client).map
          (fun s => informs_of s.trace) =
        some ([Event.send 0 5 (Payload.chars 8 "DOWN_X".toList),
               Event.send 0 5 (Payload.int 1)]
          ++ (List.ofFn last_ten_buffers).map
              (fun h => Event.send 0 5 (Payload.chars 32 h))
          ++ [Event.send 0 5 (Payload.chars 18 "FINISHED_DOWN_ALL".toList)]) ∧
      ((update_tracker_swarm two_file_registry 1 1 last_ten_buffers).bind
          (fun td => tracker_manifest td 1 1)).map List.length = some 105 ∧
      MAX_CHUNKS < 105) := by
  refine ⟨?_, ?_, ?_, ?_, by decide⟩
  · intro c fid f old h
    exact files_manifest_append c.owned_files _ f old h
  · intro d seg
    unfold add_segment_to_file_data
    split
    · exact ⟨rfl, [], by simp⟩
    · exact ⟨rfl, _, rfl⟩
  · intro cd fid f old h
    exact files_manifest_append cd.files _ f old h
  · intro m m1 rank fid buffs r f old h _ hold
    exact update_tracker_swarm_manifest m m1 rank fid buffs r f old h hold

/-- Witness for C16: rank 2 of `leecher_seeder_registry`, which holds the
ten hashes `ten_hashes` of file 1, reports ten hashes of that file; they fit
the array. -/
theorem manifests_append_only_witness :
    ∃ t, tracker_manifest
        ((update_tracker_swarm leecher_seeder_registry 2 1 ten_hashes).getD
          leecher_seeder_registry) 2 1 =
      some (List.ofFn ten_hashes ++ t) :=
  manifests_append_only.2.2.2.1 leecher_seeder_registry
    ((update_tracker_swarm leecher_seeder_registry 2 1 ten_hashes).getD
      leecher_seeder_registry)
    2 1 ten_hashes 2 1 (List.ofFn ten_hashes) (by decide)
    (fun cur h => by
      have h2 : tracker_manifest leecher_seeder_registry 2 1 =
          some (List.ofFn ten_hashes) := by decide
      rw [h2] at h
      cases h
      decide)
    (by decide)

/-- The client side of the bound on manifests: `add_segment_to_file_data`
never makes a manifest of at most `MAX_CHUNKS` segments longer than
`MAX_CHUNKS`. -/
theorem add_segment_to_file_data_bound (d : FileData_t) (seg : FileSegment_t)
    (h : d.segments.length ≤ MAX_CHUNKS) :
    (add_segment_to_file_data d seg).2.segments.length ≤ MAX_CHUNKS := by
  unfold add_segment_to_file_data
  split
  · exact h
  · rename_i hlt
    simp only [List.length_append, List.length_singleton]
    omega

set_option maxRecDepth 100000 in
/-- C17: `update_tracker_swarm` appends the ten received hashes without
comparing the count with `MAX_CHUNKS`. The tracker holds 95 chunks of
`file1` for rank 1; the client of rank 1 downloads the five chunks it
lacks and, the file being complete, reports with `DOWN_X` the hashes at the
indexes 90 to 99 of its manifest; after `update_tracker_swarm` the manifest
the tracker holds for rank 1 has 105 entries, five of them past the end of
the array of `MAX_CHUNKS` segments. -/
theorem update_tracker_swarm_exceeds_max_chunks :
    (tracker_manifest nearly_full_registry 1 1).map List.length = some 95 ∧
    (download_thread_func (env_ok (fun _ => 0)) 10 nearly_full_client).map
        (fun s => informs_of s.trace) =
      some ([inform_msg 8 DOWN_X, Event.send TRACKER_RANK INFORM_TAG (Payload.int 1)]
        ++ (List.ofFn last_ten_buffers).map hash_msg ++ [finished_inform]) ∧
    ((update_tracker_swarm nearly_full_registry 1 1 last_ten_buffers).bind
        (fun td => tracker_manifest td 1 1)).map List.length = some 105 ∧
    MAX_CHUNKS < 105 := by
  decide

/-- The messages `receive_data_from_clients` sends: none when no file with
a positive id was received, otherwise one `OK` to each rank. -/
theorem receive_data_from_clients_sent (numtasks : Int) (inbox : Int → Inbox)
    (td : TrackerDataSet_t) (sent : List Event)
    (h : receive_data_from_clients numtasks inbox = some (td, sent)) :
    sent = if td.swarm_size = 0 then [] else ok_broadcast numtasks := by
  unfold receive_data_from_clients at h
  split at h
  · cases h
  · rename_i data mx _
    by_cases hz : mx = 0
    · rw [if_pos hz] at h
      cases h
      simp [hz]
    · rw [if_neg hz] at h
      cases h
      have : (create_file_swarms { data := data, swarms := [], swarm_size := mx }
          numtasks).swarm_size = mx := rfl
      rw [this, if_neg hz]

/-- C13: the intake returns before the loop that sends `OK` when no file
with a positive id was received. With two clients that own nothing, and
with a SEEDER whose only file is `file10` (the id is taken from the last
character, `0`), `swarm_size` is 0 and no `OK` is sent, so every client
waits for the ACK for ever; with a SEEDER that owns `file1` the two ranks
get one `OK` each. -/
theorem intake_without_valid_file_sends_no_ok :
    (receive_data_from_clients 3 (intake_inbox [bare_leecher 1, bare_leecher 2])).map
        (fun p => (p.1.swarm_size, p.2)) = some (0, []) ∧
    (receive_data_from_clients 3
        (intake_inbox [seeder_of 1 "file10", bare_leecher 2])).map
        (fun p => (p.1.swarm_size, p.2)) = some (0, []) ∧
    (receive_data_from_clients 3
        (intake_inbox [seeder_of 1 "file1", bare_leecher 2])).map
        (fun p => (p.1.swarm_size, p.2)) =
      some (1, [Event.send 1 ACK_TAG (Payload.chars 2 OK),
                Event.send 2 ACK_TAG (Payload.chars 2 OK)]) := by
  decide

theorem client_type_of_code_code (t : Client_Type_t) :
    client_type_of_code (client_type_code t) = some t := by
  cases t <;> rfl

theorem payloads_on_append (tag : Nat) (a b : List Event) :
    payloads_on tag (a ++ b) = payloads_on tag a ++ payloads_on tag b := by
  unfold payloads_on
  rw [List.filterMap_append]

theorem payloads_on_hash_file (fd : FileData_t) :
    payloads_on HASH_TAG (send_file_data fd) = file_payloads fd := by
  unfold send_file_data file_payloads payloads_on
  simp only [List.cons_append, List.nil_append, List.filterMap_cons]
  have h : ∀ segs : List FileSegment_t,
      List.filterMap
        (fun e =>
          match e with
          | Event.send dest t p =>
            if dest = TRACKER_RANK ∧ t = HASH_TAG then some p else none
          | _ => none)
        (segs.map send_hash) = segs.map (fun s => Payload.chars HASH_SIZE s.hash) := by
    intro segs
    induction segs with
    | nil => rfl
    | cons s rest ih =>
      simp only [List.map_cons, List.filterMap_cons, send_hash]
      simp only [and_self, if_true]
      rw [← ih]
  simp only [and_self, if_true, h]

theorem payloads_on_type_file (fd : FileData_t) :
    payloads_on CLIENT_TYPE_TAG (send_file_data fd) = [] := by
  unfold send_file_data payloads_on
  rw [List.filterMap_eq_nil_iff]
  intro e he
  simp only [List.cons_append, List.nil_append, List.mem_cons, List.mem_map] at he
  rcases he with he | he | ⟨s, _, he⟩
  · rw [he]; simp [HASH_TAG, CLIENT_TYPE_TAG]
  · rw [he]; simp [HASH_TAG, CLIENT_TYPE_TAG]
  · rw [← he]; simp [send_hash, HASH_TAG, CLIENT_TYPE_TAG]

theorem payloads_on_hash_files (files : List FileData_t) :
    payloads_on HASH_TAG (files.flatMap send_file_data) = files.flatMap file_payloads := by
  induction files with
  | nil => rfl
  | cons fd rest ih =>
    rw [List.flatMap_cons, List.flatMap_cons, payloads_on_append, payloads_on_hash_file, ih]

theorem payloads_on_type_files (files : List FileData_t) :
    payloads_on CLIENT_TYPE_TAG (files.flatMap send_file_data) = [] := by
  induction files with
  | nil => rfl
  | cons fd rest ih =>
    rw [List.flatMap_cons, payloads_on_append, payloads_on_type_file, ih]
    rfl

theorem inbox_of_send_data (c : ClientFiles_t) :
    (inbox_of (send_data_to_tracker c)).hash_tag =
      Payload.int (c.owned_files.length : Int) :: c.owned_files.flatMap file_payloads ∧
    (inbox_of (send_data_to_tracker c)).type_tag =
      [Payload.int (client_type_code c.client_type)] := by
  unfold inbox_of send_data_to_tracker
  constructor
  · show payloads_on HASH_TAG _ = _
    rw [payloads_on_append, payloads_on_hash_files]
    rfl
  · show payloads_on CLIENT_TYPE_TAG _ = _
    rw [payloads_on_append, payloads_on_type_files]
    rfl

theorem recv_segments_spec (segs : List FileSegment_t) (rest : List Payload)
    (h : ∀ s ∈ segs, s.hash.length ≤ HASH_SIZE) :
    recv_segments segs.length
        (segs.map (fun s => Payload.chars HASH_SIZE s.hash) ++ rest) =
      some (segs, rest) := by
  induction segs with
  | nil => rfl
  | cons s tl ih =>
    have hs : s.hash.length ≤ HASH_SIZE := h s (List.mem_cons_self _ _)
    have htl := ih (fun x hx => h x (List.mem_cons_of_mem _ hx))
    simp only [List.length_cons, List.map_cons, List.cons_append, recv_segments, recv_chars,
      le_refl, if_true, htl, List.take_of_length_le hs]

theorem max_id_fold_cons (mx : Int) (fd : FileData_t) (files : List FileData_t) :
    max_id_fold mx (fd :: files) =
      max_id_fold (if mx > fd.file_id then mx else fd.file_id) files := rfl

theorem recv_files_spec (files : List FileData_t) :
    ∀ (mx : Int) (rest : List Payload),
      (∀ fd ∈ files,
        fd.file_name.length < MAX_FILENAME ∧ fd.file_id = file_id_of_name fd.file_name ∧
        fd.segments.length ≤ MAX_CHUNKS ∧ ∀ s ∈ fd.segments, s.hash.length ≤ HASH_SIZE) →
      recv_files files.length mx (files.flatMap file_payloads ++ rest) =
        some (files, max_id_fold mx files, rest) := by
  induction files with
  | nil => intro mx rest _; rfl
  | cons fd tl ih =>
    intro mx rest h
    rcases h fd (List.mem_cons_self _ _) with ⟨hname, hid, hlen, hhash⟩
    have htl := ih (if mx > fd.file_id then mx else fd.file_id) rest
      (fun x hx => h x (List.mem_cons_of_mem _ hx))
    have hn15 : fd.file_name.take MAX_FILENAME = fd.file_name :=
      List.take_of_length_le (le_of_lt hname)
    have hn14 : strncpy fd.file_name (MAX_FILENAME - 1) = fd.file_name := by
      unfold strncpy
      exact List.take_of_length_le (Nat.le_sub_one_of_lt hname)
    have hcnt : ¬ (((fd.segments.length : Nat) : Int) < 0 ∨
        ((fd.segments.length : Nat) : Int) > (MAX_CHUNKS : Int)) := by
      omega
    have hseg := recv_segments_spec fd.segments (tl.flatMap file_payloads ++ rest) hhash
    have hfp : file_payloads fd =
        Payload.chars MAX_FILENAME fd.file_name :: Payload.int (fd.segments.length : Int) ::
          fd.segments.map (fun s => Payload.chars HASH_SIZE s.hash) := rfl
    rw [List.flatMap_cons, List.length_cons, max_id_fold_cons, hfp]
    simp only [List.cons_append, List.append_assoc, recv_files, recv_chars, le_refl,
      if_true, recv_int, hn15, if_neg hcnt, Int.toNat_ofNat, hseg, ← hid, htl, hn14]

theorem recv_client_spec (rank : Int) (c : ClientFiles_t) (mx : Int) (h : owned_ok c) :
    recv_client rank (inbox_of (send_data_to_tracker c)) mx =
      some (slot_of rank c, max_id_fold mx c.owned_files) := by
  rcases inbox_of_send_data c with ⟨hh, ht⟩
  unfold recv_client
  rw [hh, ht]
  simp only [recv_int, client_type_of_code_code]
  by_cases hz : c.owned_files = []
  · simp [hz, slot_of, max_id_fold]
  · have hpos : ¬ ((c.owned_files.length : Int) ≤ 0) := by
      have : 0 < c.owned_files.length := List.length_pos.mpr hz
      omega
    rw [if_neg hpos, Int.toNat_ofNat]
    have := recv_files_spec c.owned_files mx [] h
    rw [List.append_nil] at this
    rw [this]
    rfl

theorem max_id_fold_ge (files : List FileData_t) :
    ∀ mx : Int, mx ≤ max_id_fold mx files ∧ ∀ fd ∈ files, fd.file_id ≤ max_id_fold mx files := by
  induction files with
  | nil =>
    intro mx
    exact ⟨le_refl _, fun fd hfd => absurd hfd (List.not_mem_nil _)⟩
  | cons x tl ih =>
    intro mx
    rw [max_id_fold_cons]
    rcases ih (if mx > x.file_id then mx else x.file_id) with ⟨h1, h2⟩
    have hmx : mx ≤ (if mx > x.file_id then mx else x.file_id) := by
      split <;> omega
    have hx : x.file_id ≤ (if mx > x.file_id then mx else x.file_id) := by
      split <;> omega
    refine ⟨le_trans hmx h1, ?_⟩
    intro fd hfd
    rcases List.mem_cons.mp hfd with hfd | hfd
    · rw [hfd]
      exact le_trans hx h1
    · exact h2 fd hfd

theorem intake_inbox_at (clients : List ClientFiles_t) (k : Nat) (c : ClientFiles_t)
    (h : clients[k]? = some c) :
    intake_inbox clients ((k : Int) + 1) = inbox_of (send_data_to_tracker c) := by
  unfold intake_inbox
  have hk : ((k : Int) + 1 - 1).toNat = k := by omega
  rw [if_neg (by omega), hk, h]

theorem recv_clients_from_spec (clients : List ClientFiles_t)
    (hok : ∀ c ∈ clients, owned_ok c) :
    ∀ (n k : Nat) (mx : Int), k + n ≤ clients.length →
      ∃ data mx1,
        recv_clients_from (intake_inbox clients) ((k : Int) + 1) n mx = some (data, mx1) ∧
        data.length = n ∧
        (∀ i c, i < n → clients[k + i]? = some c →
          data[i]? = some (slot_of (((k + i : Nat) : Int) + 1) c)) ∧
        mx ≤ mx1 ∧
        (∀ i c, i < n → clients[k + i]? = some c → ∀ fd ∈ c.owned_files, fd.file_id ≤ mx1) := by
  intro n
  induction n with
  | zero =>
    intro k mx _
    exact ⟨[], mx, rfl, rfl, fun i c hi => absurd hi (Nat.not_lt_zero _), le_refl _,
      fun i c hi => absurd hi (Nat.not_lt_zero _)⟩
  | succ n ih =>
    intro k mx hk
    have hlt : k < clients.length := by omega
    have hget : clients[k]? = some clients[k] := List.getElem?_eq_getElem hlt
    generalize clients[k] = c0 at hget
    have hc0 : c0 ∈ clients := by
      rw [List.mem_iff_getElem?]
      exact ⟨k, hget⟩
    have hcl := recv_client_spec ((k : Int) + 1) c0 mx (hok c0 hc0)
    rcases ih (k + 1) (max_id_fold mx c0.owned_files) (by omega) with
      ⟨data, mx1, hrec, hlen, hslots, hmx, hids⟩
    have hcast : (((k + 1 : Nat) : Int) + 1) = (k : Int) + 1 + 1 := by push_cast; ring
    rw [hcast] at hrec
    refine ⟨slot_of ((k : Int) + 1) c0 :: data, mx1, ?_, ?_, ?_, ?_, ?_⟩
    · rw [recv_clients_from, intake_inbox_at clients k c0 hget, hcl]
      simp only [hrec]
    · rw [List.length_cons, hlen]
    · intro i c hi hc
      cases i with
      | zero =>
        rw [Nat.add_zero, hget] at hc
        cases hc
        simp only [Nat.add_zero, List.getElem?_cons_zero]
      | succ j =>
        have hc2 : clients[k + 1 + j]? = some c := by
          have : k + 1 + j = k + (j + 1) := by omega
          rw [this]
          exact hc
        have := hslots j c (by omega) hc2
        rw [List.getElem?_cons_succ, this]
        have hidx : k + 1 + j = k + (j + 1) := by omega
        rw [hidx]
    · exact le_trans (max_id_fold_ge c0.owned_files mx).1 hmx
    · intro i c hi hc fd hfd
      cases i with
      | zero =>
        rw [Nat.add_zero, hget] at hc
        cases hc
        exact le_trans ((max_id_fold_ge c0.owned_files mx).2 fd hfd) hmx
      | succ j =>
        have hc2 : clients[k + 1 + j]? = some c := by
          have : k + 1 + j = k + (j + 1) := by omega
          rw [this]
          exact hc
        exact hids j c (by omega) hc2 fd hfd

/-- The registry after the intake of clients whose owned files are as
`read_from_file` leaves them: the slot of each rank holds the files and the
kind of the client, and the swarms are built when a file has a positive
id. -/
theorem receive_data_from_clients_spec (clients : List ClientFiles_t)
    (hok : ∀ c ∈ clients, owned_ok c) :
    ∃ td sent,
      receive_data_from_clients ((clients.length : Int) + 1) (intake_inbox clients) =
        some (td, sent) ∧
      td.data.length = clients.length ∧
      (∀ (i : Nat) (c : ClientFiles_t), clients[i]? = some c →
        td.data[i]? = some (slot_of ((i : Int) + 1) c)) ∧
      0 ≤ td.swarm_size ∧
      (∀ c ∈ clients, ∀ fd ∈ c.owned_files, fd.file_id ≤ td.swarm_size) ∧
      (td.swarm_size ≠ 0 →
        td.swarms = (create_file_swarms td ((td.data.length : Int) + 1)).swarms ∧
        sent = ok_broadcast ((clients.length : Int) + 1)) := by
  rcases recv_clients_from_spec clients hok clients.length 0 0 (by omega) with
    ⟨data, mx1, hrec, hlen, hslots, hmx, hids⟩
  have hslots2 : ∀ (i : Nat) (c : ClientFiles_t), clients[i]? = some c →
      data[i]? = some (slot_of ((i : Int) + 1) c) := by
    intro i c hc
    have hi : i < clients.length := by
      rcases List.getElem?_eq_some_iff.mp hc with ⟨hh, _⟩
      exact hh
    have := hslots i c hi (by rw [Nat.zero_add]; exact hc)
    rw [Nat.zero_add] at this
    exact this
  have hids2 : ∀ c ∈ clients, ∀ fd ∈ c.owned_files, fd.file_id ≤ mx1 := by
    intro c hc fd hfd
    rcases List.getElem?_of_mem hc with ⟨i, hi⟩
    have hil : i < clients.length := by
      rcases List.getElem?_eq_some_iff.mp hi with ⟨hh, _⟩
      exact hh
    exact hids i c hil (by rw [Nat.zero_add]; exact hi) fd hfd
  have hn : ((clients.length : Int) + 1 - 1).toNat = clients.length := by omega
  have hrec2 : recv_clients_from (intake_inbox clients) 1 clients.length 0 =
      some (data, mx1) := by
    have h01 : ((0 : Nat) : Int) + 1 = 1 := by norm_num
    rw [h01] at hrec
    exact hrec
  unfold receive_data_from_clients
  rw [hn, hrec2]
  simp only
  by_cases hz : mx1 = 0
  · rw [if_pos hz]
    exact ⟨_, _, rfl, hlen, hslots2, by simp [hz], by simpa [hz] using hids2,
      fun h => absurd hz h⟩
  · rw [if_neg hz]
    refine ⟨_, _, rfl, hlen, hslots2, hmx, hids2, fun _ => ⟨?_, rfl⟩⟩
    show (create_file_swarms _ _).swarms = (create_file_swarms _ _).swarms
    simp only [create_file_swarms, hlen]

theorem peer_entry_eq (m : TrackerDataSet_t) (q f r : Int) (hs : List CStr)
    (h : tracker_manifest m r f = some hs) :
    peer_entry m q f r = peer_block q r hs := by
  unfold tracker_manifest at h
  unfold peer_entry
  by_cases hr : r < 1
  · rw [if_pos hr] at h
    cases h
  · rw [if_neg hr] at h ⊢
    cases hd : m.data[(r - 1).toNat]? with
    | none => rw [hd] at h; cases h
    | some cd =>
      rw [hd] at h
      simp only at h ⊢
      cases hf : find_file_data cd.files f with
      | none => rw [hf] at h; cases h
      | some idx =>
        rw [hf] at h
        simp only at h ⊢
        cases hg : cd.files[idx]? with
        | none => rw [hg] at h; cases h
        | some fd =>
          rw [hg] at h
          simp only [Option.map_some', Option.some.injEq] at h
          simp only
          unfold peer_block
          rw [← h, List.length_map, List.map_map]
          rfl

theorem flatMap_contains {α β : Type} (g : α → List β) (l : List α) (x : α)
    (hx : x ∈ l) : ∃ pre post, l.flatMap g = pre ++ g x ++ post := by
  rcases List.append_of_mem hx with ⟨s, t, hst⟩
  refine ⟨s.flatMap g, t.flatMap g, ?_⟩
  rw [hst, List.flatMap_append, List.flatMap_cons, List.append_assoc]

theorem swarm_reply_contains (m : TrackerDataSet_t) (q f r : Int) (hs : List CStr)
    (hf1 : 1 ≤ f) (hf2 : f ≤ m.swarm_size)
    (hmem : r ∈ swarm_members m.swarms f)
    (h : tracker_manifest m r f = some hs) :
    ∃ pre post, swarm_reply m q f = pre ++ peer_block q r hs ++ post := by
  unfold swarm_members at hmem
  unfold swarm_reply
  rw [if_neg (by omega)]
  cases hsw : m.swarms[(f - 1).toNat]? with
  | none =>
    rw [hsw] at hmem
    exact absurd hmem (List.not_mem_nil _)
  | some sw =>
    rw [hsw] at hmem
    simp only at hmem ⊢
    rcases flatMap_contains (peer_entry m q f) sw.clients_in_swarm r hmem with
      ⟨pre, post, hpp⟩
    rw [hpp, peer_entry_eq m q f r hs h]
    exact ⟨[Event.send q PEERS_SEEDERS_TRANSFER_TAG
          (Payload.int (sw.clients_in_swarm.length : Int)),
        Event.send q PEERS_SEEDERS_TRANSFER_TAG (Payload.ints sw.clients_in_swarm)] ++ pre,
      post, by simp only [List.append_assoc]⟩

theorem same_inventory_refl (m : TrackerDataSet_t) : same_inventory m m :=
  ⟨rfl, rfl, rfl⟩

theorem same_inventory_trans (a b c : TrackerDataSet_t) (h1 : same_inventory a b)
    (h2 : same_inventory b c) : same_inventory a c :=
  ⟨h2.1.trans h1.1, h2.2.1.trans h1.2.1, h2.2.2.trans h1.2.2⟩

theorem same_inventory_files (m m1 : TrackerDataSet_t) (h : same_inventory m m1) (i : Nat) :
    (m1.data[i]?).map (fun cd => cd.files) = (m.data[i]?).map (fun cd => cd.files) := by
  rw [← List.getElem?_map, ← List.getElem?_map, h.1]

theorem peer_entry_congr (m m1 : TrackerDataSet_t) (h : same_inventory m m1)
    (q f r : Int) : peer_entry m1 q f r = peer_entry m q f r := by
  unfold peer_entry
  by_cases hr : r < 1
  · rw [if_pos hr, if_pos hr]
  · rw [if_neg hr, if_neg hr]
    have hfiles := same_inventory_files m m1 h (r - 1).toNat
    cases h1 : m1.data[(r - 1).toNat]? with
    | none =>
      rw [h1] at hfiles
      cases h0 : m.data[(r - 1).toNat]? with
      | none => rfl
      | some cd => rw [h0] at hfiles; cases hfiles
    | some cd1 =>
      rw [h1] at hfiles
      cases h0 : m.data[(r - 1).toNat]? with
      | none => rw [h0] at hfiles; cases hfiles
      | some cd =>
        rw [h0] at hfiles
        simp only [Option.map_some', Option.some.injEq] at hfiles
        simp only [hfiles]

theorem swarm_reply_congr (m m1 : TrackerDataSet_t) (h : same_inventory m m1)
    (q f : Int) : swarm_reply m1 q f = swarm_reply m q f := by
  unfold swarm_reply
  rw [h.2.1, h.2.2]
  have : peer_entry m1 q f = peer_entry m q f := by
    funext r
    exact peer_entry_congr m m1 h q f r
  rw [this]

theorem same_inventory_set_kind (m : TrackerDataSet_t) (i : Nat) (slot : TrackerData_t)
    (ct : Client_Type_t) (h : m.data[i]? = some slot) :
    same_inventory m { m with data := m.data.set i { slot with client_type := ct } } := by
  refine ⟨?_, rfl, rfl⟩
  apply List.ext_getElem?
  intro j
  simp only [List.getElem?_map, List.getElem?_set]
  by_cases hj : i = j
  · subst hj
    have hlt : i < m.data.length := by
      rcases List.getElem?_eq_some_iff.mp h with ⟨hh, _⟩
      exact hh
    rw [if_pos rfl, if_pos hlt, h]
    rfl
  · rw [if_neg hj]

theorem answer_query_spec (m m1 : TrackerDataSet_t) (q : PeersQuery) (reply : List Event)
    (h : answer_query m q = some (m1, reply)) :
    same_inventory m m1 ∧ reply = q.files_id.flatMap (swarm_reply m q.source) := by
  unfold answer_query at h
  by_cases hsrc : q.source < 1
  · rw [if_pos hsrc] at h
    cases h
  · rw [if_neg hsrc] at h
    cases hslot : m.data[(q.source - 1).toNat]? with
    | none => rw [hslot] at h; cases h
    | some slot =>
      cases hct : client_type_of_code q.client_type with
      | none => rw [hslot, hct] at h; cases h
      | some ct =>
        rw [hslot, hct] at h
        simp only [Option.some.injEq, Prod.mk.injEq] at h
        rcases h with ⟨h1, h2⟩
        have hsame := same_inventory_set_kind m (q.source - 1).toNat slot ct hslot
        rw [h1] at hsame h2
        refine ⟨hsame, ?_⟩
        rw [← h2]
        have hfun : swarm_reply m1 q.source = swarm_reply m q.source := by
          funext f
          exact swarm_reply_congr m m1 hsame q.source f
        rw [hfun]

theorem send_peers_step_spec (i : Nat) (m : TrackerDataSet_t) (qs : List PeersQuery)
    (sent : List Event) (m1 : TrackerDataSet_t) (sent1 : List Event)
    (rest : List PeersQuery) (h : send_peers_step i m qs sent = some (m1, sent1, rest)) :
    same_inventory m m1 ∧
    ∃ taken, qs = taken ++ rest ∧
      sent1 = sent ++
        taken.flatMap (fun q => q.files_id.flatMap (swarm_reply m q.source)) := by
  unfold send_peers_step at h
  cases hd : m.data[i]? with
  | none => rw [hd] at h; cases h
  | some cd =>
    rw [hd] at h
    simp only at h
    by_cases hseed : cd.client_type = Client_Type_t.SEEDER
    · rw [if_pos hseed] at h
      simp only [Option.some.injEq, Prod.mk.injEq] at h
      rcases h with ⟨h1, h2, h3⟩
      subst h1 h2 h3
      exact ⟨same_inventory_refl _, [], rfl, by simp⟩
    · rw [if_neg hseed] at h
      cases qs with
      | nil => cases h
      | cons q tl =>
        simp only at h
        cases ha : answer_query m q with
        | none => rw [ha] at h; cases h
        | some res =>
          rcases res with ⟨m2, reply⟩
          rw [ha] at h
          simp only [Option.some.injEq, Prod.mk.injEq] at h
          rcases h with ⟨h1, h2, h3⟩
          subst h1 h2 h3
          rcases answer_query_spec m m2 q reply ha with ⟨hsame, hreply⟩
          refine ⟨hsame, [q], rfl, ?_⟩
          rw [hreply]
          simp

/-- The queries `send_peers_to_clients` takes, and what it sends: the
replies to the wanted ids of each query taken, in order; the file lists and
the swarms are not changed. -/
theorem send_peers_loop_spec :
    ∀ (n i : Nat) (m : TrackerDataSet_t) (qs : List PeersQuery) (sent : List Event)
      (m1 : TrackerDataSet_t) (sent1 : List Event) (rest : List PeersQuery),
      send_peers_loop n i m qs sent = some (m1, sent1, rest) →
      same_inventory m m1 ∧
      ∃ taken, qs = taken ++ rest ∧
        sent1 = sent ++
          taken.flatMap (fun q => q.files_id.flatMap (swarm_reply m q.source)) := by
  intro n
  induction n with
  | zero =>
    intro i m qs sent m1 sent1 rest h
    simp only [send_peers_loop, Option.some.injEq, Prod.mk.injEq] at h
    rcases h with ⟨h1, h2, h3⟩
    subst h1 h2 h3
    exact ⟨same_inventory_refl _, [], rfl, by simp⟩
  | succ n ih =>
    intro i m qs sent m1 sent1 rest h
    rw [send_peers_loop] at h
    cases hstep : send_peers_step i m qs sent with
    | none => rw [hstep] at h; cases h
    | some res =>
      rcases res with ⟨m2, sent2, rest2⟩
      rw [hstep] at h
      simp only at h
      rcases send_peers_step_spec i m qs sent m2 sent2 rest2 hstep with
        ⟨hsame, taken1, hq1, hs1⟩
      rcases ih (i + 1) m2 rest2 sent2 m1 sent1 rest h with ⟨hsame2, taken2, hq2, hs2⟩
      refine ⟨same_inventory_trans _ _ _ hsame hsame2, taken1 ++ taken2, ?_, ?_⟩
      · rw [hq1, hq2, List.append_assoc]
      · have hfun : ∀ src : Int, swarm_reply m2 src = swarm_reply m src := by
          intro src
          funext f
          exact swarm_reply_congr m m2 hsame src f
        rw [hs2, hs1, List.flatMap_append, List.append_assoc]
        simp only [hfun]

theorem append_block_trans {α : Type} (l mid x pre post pre1 post1 : List α)
    (h1 : l = pre ++ mid ++ post) (h2 : mid = pre1 ++ x ++ post1) :
    ∃ a b, l = a ++ x ++ b := by
  refine ⟨pre ++ pre1, post1 ++ post, ?_⟩
  rw [h1, h2]
  simp only [List.append_assoc]

theorem append_eq_split {α : Type} (a b pre post : List α) (e : α)
    (h : a ++ b = pre ++ e :: post) :
    (∃ post0, a = pre ++ e :: post0 ∧ post = post0 ++ b) ∨
    (∃ pre1, pre = a ++ pre1 ∧ b = pre1 ++ e :: post) := by
  rcases List.append_eq_append_iff.mp h with ⟨a1, h1, h2⟩ | ⟨c1, h1, h2⟩
  · right
    exact ⟨a1, h1, h2⟩
  · cases c1 with
    | nil =>
      right
      refine ⟨[], ?_, ?_⟩
      · rw [List.append_nil] at h1 ⊢
        exact h1.symm
      · rw [List.nil_append] at h2 ⊢
        exact h2.symm
    | cons x c2 =>
      left
      simp only [List.cons_append, List.cons.injEq] at h2
      rcases h2 with ⟨hx, hp⟩
      refine ⟨c2, ?_, hp⟩
      rw [h1, hx]

theorem stores_of_append (f : Int) (a b : List Event) :
    stores_of f (a ++ b) = stores_of f a ++ stores_of f b := by
  unfold stores_of
  rw [List.filterMap_append]

theorem stores_of_quiet (f : Int) (ev : List Event) (h : ∀ e ∈ ev, is_store e = false) :
    stores_of f ev = [] := by
  unfold stores_of
  rw [List.filterMap_eq_nil_iff]
  intro e he
  have := h e he
  cases e with
  | store fid x => simp [is_store] at this
  | send _ _ _ => rfl
  | recv _ _ _ => rfl
  | write_file _ _ => rfl

theorem stores_justified_append_quiet (c : ClientFiles_t) (tr ev : List Event)
    (h : stores_justified c tr) (hq : ∀ e ∈ ev, is_store e = false) :
    stores_justified c (tr ++ ev) := by
  intro pre post fid x heq
  rcases append_eq_split tr ev pre post _ heq with ⟨post0, h1, _⟩ | ⟨pre1, _, h2⟩
  · exact h pre post0 fid x h1
  · have hm : Event.store fid x ∈ ev := by
      rw [h2]
      exact List.mem_append_right _ (List.mem_cons_self _ _)
    have := hq _ hm
    simp [is_store] at this

theorem stores_justified_append_store (c : ClientFiles_t) (t : List Event) (fid : Int)
    (x : CStr) (h : stores_justified c t)
    (hw : ∃ (pre0 : List Event) (i : Nat) (w : FileName_t) (pl : PeersList_t)
        (peer : PeerInfo_t) (seg : FileSegment_t),
      t = pre0 ++ [request_msg peer.peer_rank seg,
        Event.recv peer.peer_rank ACK_TAG (Payload.chars BUFF_SIZE OK)] ∧
      c.wanted_files[i]? = some w ∧ file_id_of_name w.file_name = fid ∧
      c.peers[i]? = some pl ∧ peer ∈ pl.peers_array ∧ seg ∈ peer.segments ∧
      x = strncpy seg.hash HASH_SIZE) :
    stores_justified c (t ++ [Event.store fid x]) := by
  intro pre post fid1 x1 heq
  rcases append_eq_split t _ pre post _ heq with ⟨post0, h1, _⟩ | ⟨pre1, h1, h2⟩
  · exact h pre post0 fid1 x1 h1
  · cases pre1 with
    | nil =>
      simp only [List.nil_append, List.cons.injEq, Event.store.injEq] at h2
      rcases h2 with ⟨⟨hf, hx⟩, _⟩
      rw [List.append_nil] at h1
      rw [h1, ← hf, ← hx]
      exact hw
    | cons y ys =>
      simp only [List.cons_append, List.cons.injEq] at h2
      rcases h2 with ⟨_, h3⟩
      have := congrArg List.length h3
      simp at this
      omega

theorem acks_stored_append_quiet (tr ev : List Event) (h : acks_stored tr)
    (hq : ∀ e ∈ ev, is_peer_ok e = false) : acks_stored (tr ++ ev) := by
  intro pre post e heq hok
  rcases append_eq_split tr ev pre post _ heq with ⟨post0, h1, h2⟩ | ⟨pre1, _, h2⟩
  · rcases h pre post0 e h1 hok with ⟨fid, x, p1, hp⟩
    exact ⟨fid, x, p1 ++ ev, by rw [h2, hp]; rfl⟩
  · have hm : e ∈ ev := by
      rw [h2]
      exact List.mem_append_right _ (List.mem_cons_self _ _)
    rw [hq e hm] at hok
    cases hok

theorem acks_stored_append_ok (t : List Event) (e0 : Event) (fid : Int) (x : CStr)
    (h : acks_stored t) : acks_stored (t ++ [e0, Event.store fid x]) := by
  intro pre post e heq hok
  rcases append_eq_split t _ pre post _ heq with ⟨post0, h1, h2⟩ | ⟨pre1, _, h2⟩
  · rcases h pre post0 e h1 hok with ⟨fid1, x1, p1, hp⟩
    exact ⟨fid1, x1, p1 ++ [e0, Event.store fid x], by rw [h2, hp]; rfl⟩
  · cases pre1 with
    | nil =>
      simp only [List.nil_append, List.cons.injEq] at h2
      exact ⟨fid, x, [], h2.2.symm⟩
    | cons y ys =>
      cases ys with
      | nil =>
        simp only [List.cons_append, List.nil_append, List.cons.injEq] at h2
        rcases h2 with ⟨_, h3, _⟩
        rw [← h3] at hok
        simp [is_peer_ok] at hok
      | cons z zs =>
        simp only [List.cons_append, List.cons.injEq] at h2
        rcases h2 with ⟨_, _, h3⟩
        have := congrArg List.length h3
        simp at this
        omega

/-- The loop over the segments of the selected peer either stores nothing,
and then only sends requests and receives answers other than `OK`, or ends
with the request of a candidate, the receive of `OK`, and the store of its
hash when there is room. -/
theorem segment_loop_blocks (env : DownloadEnv) (r : Int) (cands : List FileSegment_t) :
    ∀ s : SegmentLoopState,
      (∃ ev, (segment_loop env r cands s).trace = s.trace ++ ev ∧
        (∀ e ∈ ev, is_store e = false ∧ is_peer_ok e = false) ∧
        (segment_loop env r cands s).data = s.data ∧
        (segment_loop env r cands s).segment_downloaded = s.segment_downloaded) ∨
      (∃ ev seg, seg ∈ cands ∧
        (∀ e ∈ ev, is_store e = false ∧ is_peer_ok e = false) ∧
        (segment_loop env r cands s).segment_downloaded = true ∧
        (segment_loop env r cands s).data = (add_segment_to_file_data s.data seg).2 ∧
        (segment_loop env r cands s).trace = s.trace ++ ev ++
          [request_msg r seg, Event.recv r ACK_TAG (Payload.chars BUFF_SIZE OK)] ++
          (if (add_segment_to_file_data s.data seg).1 then
            [Event.store s.data.file_id (strncpy seg.hash HASH_SIZE)] else [])) := by
  induction cands with
  | nil =>
    intro s
    left
    exact ⟨[], by simp [segment_loop], by simp, rfl, rfl⟩
  | cons seg rest ih =>
    intro s
    unfold segment_loop
    by_cases hhas : has_segment s.data seg = true
    · simp only [hhas, Bool.not_true, Bool.false_eq_true, if_false]
      rcases ih s with ⟨ev, h1, h2, h3, h4⟩ | ⟨ev, sg, hm, h1, h2, h3, h4⟩
      · left
        exact ⟨ev, h1, h2, h3, h4⟩
      · right
        exact ⟨ev, sg, List.mem_cons_of_mem _ hm, h1, h2, h3, h4⟩
    · have hf : has_segment s.data seg = false := by simpa using hhas
      simp only [hf, Bool.not_false, if_true]
      by_cases hok : env.peer_ack s.peer_acks = OK
      · simp only [hok, if_true]
        right
        refine ⟨[], seg, List.mem_cons_self _ _, ?_, ?_, ?_, ?_⟩
        · intro e he
          cases he
        · trivial
        · trivial
        · split <;> simp
      · simp only [hok, if_false]
        have hq : ∀ e ∈ [request_msg r seg,
            Event.recv r ACK_TAG (Payload.chars BUFF_SIZE (env.peer_ack s.peer_acks))],
            is_store e = false ∧ is_peer_ok e = false := by
          intro e he
          simp only [List.mem_cons, List.mem_singleton, List.not_mem_nil, or_false] at he
          rcases he with he | he
          · subst he
            exact ⟨rfl, rfl⟩
          · subst he
            refine ⟨rfl, ?_⟩
            simp [is_peer_ok, hok]
        rcases ih { s with
            peer_acks := s.peer_acks + 1,
            trace := s.trace ++
              [request_msg r seg,
               Event.recv r ACK_TAG (Payload.chars BUFF_SIZE (env.peer_ack s.peer_acks))] }
          with ⟨ev, h1, h2, h3, h4⟩ | ⟨ev, sg, hm, h1, h2, h3, h4⟩
        · left
          refine ⟨([request_msg r seg,
            Event.recv r ACK_TAG (Payload.chars BUFF_SIZE (env.peer_ack s.peer_acks))] ++ ev),
            ?_, ?_, h3, h4⟩
          · rw [h1, List.append_assoc]
          · intro e he
            rcases List.mem_append.1 he with he | he
            · exact hq e he
            · exact h2 e he
        · right
          refine ⟨([request_msg r seg,
            Event.recv r ACK_TAG (Payload.chars BUFF_SIZE (env.peer_ack s.peer_acks))] ++ ev),
            sg, List.mem_cons_of_mem _ hm, ?_, h2, h3, ?_⟩
          · intro e he
            rcases List.mem_append.1 he with he | he
            · exact hq e he
            · exact h1 e he
          · rw [h4]
            simp only [List.append_assoc]

theorem report_msgs_quiet (verb : CStr) (data : FileData_t) :
    ∀ e ∈ report_msgs verb data, is_store e = false ∧ is_peer_ok e = false := by
  intro e he
  unfold report_msgs at he
  rcases List.mem_append.1 he with he | he
  · rcases List.mem_cons.1 he with he | he
    · subst he
      exact ⟨rfl, rfl⟩
    · rcases List.mem_cons.1 he with he | he
      · subst he
        exact ⟨rfl, rfl⟩
      · cases he
  · rcases List.mem_map.1 he with ⟨x, _, hx⟩
    subst hx
    exact ⟨rfl, rfl⟩

theorem report_progress_quiet (env : DownloadEnv) (s : DownloadState) (data : FileData_t) :
    ∃ ev, (report_progress env s data).trace = s.trace ++ ev ∧
      ∀ e ∈ ev, is_store e = false ∧ is_peer_ok e = false := by
  unfold report_progress
  split
  · refine ⟨report_msgs DOWN_10 data ++
      [inform_msg 11 GIVE_PEERS,
       Event.recv TRACKER_RANK ACK_TAG
         (Payload.chars BUFF_SIZE (env.tracker_ack s.tracker_acks))], ?_, ?_⟩
    · simp only [List.append_assoc]
    · intro e he
      rcases List.mem_append.1 he with he | he
      · exact report_msgs_quiet _ _ e he
      · simp only [List.mem_cons, List.mem_singleton, List.not_mem_nil, or_false] at he
        rcases he with he | he
        · subst he
          exact ⟨rfl, rfl⟩
        · subst he
          refine ⟨rfl, ?_⟩
          simp [is_peer_ok]
  · exact ⟨[], by simp, by simp⟩

theorem complete_file_quiet (s : DownloadState) (data : FileData_t) (fid : Int) :
    ∃ ev, (complete_file s data fid).trace = s.trace ++ ev ∧
      ∀ e ∈ ev, is_store e = false ∧ is_peer_ok e = false := by
  unfold complete_file
  split
  · refine ⟨report_msgs DOWN_X data ++
      [Event.write_file (output_file_name s.client.client_rank fid) (write_to_file data)],
      ?_, ?_⟩
    · simp only [List.append_assoc]
    · intro e he
      rcases List.mem_append.1 he with he | he
      · exact report_msgs_quiet _ _ e he
      · simp only [List.mem_singleton] at he
        subst he
        exact ⟨rfl, rfl⟩
  · refine ⟨[Event.write_file (output_file_name s.client.client_rank fid)
      (write_to_file data)], rfl, ?_⟩
    intro e he
    simp only [List.mem_singleton] at he
    subst he
    exact ⟨rfl, rfl⟩

theorem finish_pass_quiet (env : DownloadEnv) (s : DownloadState) (di : Nat)
    (inner : SegmentLoopState) (fid : Int) :
    ∃ ev, (finish_pass env s di inner fid).trace = inner.trace ++ ev ∧
      ∀ e ∈ ev, is_store e = false ∧ is_peer_ok e = false := by
  by_cases hsd : inner.segment_downloaded = true
  · rw [finish_pass_downloaded env s di inner fid hsd]
    exact report_progress_quiet env _ _
  · have hf : inner.segment_downloaded = false := by simpa using hsd
    rw [finish_pass_idle env s di inner fid hf]
    exact complete_file_quiet _ _ _

theorem manifest_or_nil_set (c : ClientFiles_t) (di : Nat) (fd data1 : FileData_t)
    (extra : List FileSegment_t) (f : Int)
    (hfind : find_file_data c.owned_files fd.file_id = some di)
    (hget : c.owned_files[di]? = some fd)
    (hid : data1.file_id = fd.file_id) (hseg : data1.segments = fd.segments ++ extra) :
    manifest_or_nil { c with owned_files := c.owned_files.set di data1 } f =
      manifest_or_nil c f ++
        (if f = fd.file_id then extra.map (fun s => s.hash) else []) := by
  have hlt : di < c.owned_files.length := by
    rcases List.getElem?_eq_some_iff.mp hget with ⟨hh, _⟩
    exact hh
  unfold manifest_or_nil owned_manifest
  simp only
  rw [find_file_data_set c.owned_files f di fd data1 hget hid]
  cases hf : find_file_data c.owned_files f with
  | none =>
    have hne : f ≠ fd.file_id := by
      intro he
      rw [he, hfind] at hf
      cases hf
    simp [hne]
  | some dj =>
    rcases find_file_data_some _ _ _ hf with ⟨x, hx, hxid⟩
    by_cases hd : dj = di
    · subst hd
      rw [hget] at hx
      cases hx
      simp only [List.getElem?_set, if_pos hlt, if_true, Option.map_some', Option.getD_some,
        hget, hseg, List.map_append, hxid.symm]
    · have hne : f ≠ fd.file_id := by
        intro he
        rw [he, hfind] at hf
        cases hf
        exact hd rfl
      have hne2 : di ≠ dj := fun h => hd h.symm
      simp only [List.getElem?_set_ne hne2, if_neg hne, List.append_nil]

theorem stores_of_store (f fid : Int) (h : CStr) :
    stores_of f [Event.store fid h] = if f = fid then [h] else [] := by
  unfold stores_of
  by_cases he : fid = f
  · simp [he]
  · have : ¬ f = fid := fun h => he h.symm
    simp [he, this]

theorem contrib_inv_quiet (c0 : ClientFiles_t) (s s1 : DownloadState) (ev : List Event)
    (hinv : contrib_inv c0 s)
    (hw : s1.client.wanted_files = s.client.wanted_files)
    (hp : s1.client.peers = s.client.peers)
    (hm : ∀ f : Int, manifest_or_nil s1.client f = manifest_or_nil s.client f)
    (ht : s1.trace = s.trace ++ ev)
    (hq : ∀ e ∈ ev, is_store e = false ∧ is_peer_ok e = false) :
    contrib_inv c0 s1 := by
  obtain ⟨hwf, h1, h2, h3, h4, h5⟩ := hinv
  refine ⟨wf_client_congr s.client s1.client hp hw hwf, hw.trans h1, hp.trans h2, ?_, ?_, ?_⟩
  · intro f
    rw [hm f, h3 f, ht, stores_of_append, stores_of_quiet f ev (fun e he => (hq e he).1),
      List.append_nil]
  · rw [ht]
    exact stores_justified_append_quiet c0 _ _ h4 (fun e he => (hq e he).1)
  · rw [ht]
    exact acks_stored_append_quiet _ _ h5 (fun e he => (hq e he).2)

/-- One pass of the download loop keeps `contrib_inv`. -/
theorem contrib_pass (env : DownloadEnv) (c0 : ClientFiles_t) (s : DownloadState)
    (hinv : contrib_inv c0 s) (hcond : download_cond s = true) :
    ∃ s1, download_iter env s = some s1 ∧ contrib_inv c0 s1 := by
  have hwf := hinv.1
  obtain ⟨pl, w, hpl, hw, hA, hB⟩ := download_iter_shape env s hwf hcond
  by_cases hle : pl.peers_count ≤ 0
  · refine ⟨_, hA hle, ?_⟩
    exact contrib_inv_quiet c0 s _ [] hinv rfl rfl (fun _ => rfl) (by simp) (by simp)
  · have hpos : 0 < pl.peers_count := by omega
    obtain ⟨peer, di, fd, hpeer, hpmax, hfind, hget, hfid, h4, hiter⟩ := hB hpos
    obtain ⟨e1, e2⟩ := ensure_owned_fields s.client (file_id_of_name w.file_name)
    have hfind2 : find_file_data
        (ensure_owned s.client (file_id_of_name w.file_name)).owned_files fd.file_id =
        some di := by
      rw [hfid]
      exact hfind
    rw [hiter]
    have hblocks := segment_loop_blocks env peer.peer_rank
      (peer.segments.drop fd.segments.length)
      { data := fd, downloaded_segments := s.downloaded_segments,
        segment_downloaded := false, peer_acks := s.peer_acks, trace := s.trace }
    generalize hinner : segment_loop env peer.peer_rank
      (peer.segments.drop fd.segments.length)
      { data := fd, downloaded_segments := s.downloaded_segments,
        segment_downloaded := false, peer_acks := s.peer_acks, trace := s.trace } = inner
      at hblocks
    simp only at hblocks
    obtain ⟨ev2, ht2, hq2⟩ := finish_pass_quiet env
      { s with
        client := ensure_owned s.client (file_id_of_name w.file_name),
        rand_calls := if pl.peers_count > 1 then s.rand_calls + 1 else s.rand_calls }
      di inner (file_id_of_name w.file_name)
    have hclient := (finish_pass_fields env
      { s with
        client := ensure_owned s.client (file_id_of_name w.file_name),
        rand_calls := if pl.peers_count > 1 then s.rand_calls + 1 else s.rand_calls }
      di inner (file_id_of_name w.file_name)).1
    simp only at hclient
    refine ⟨_, rfl, ?_⟩
    rcases hblocks with ⟨ev, ht, hq, hdata, _⟩ | ⟨ev, seg, hmem, hq, _, hdata, ht⟩
    · -- nothing was stored
      apply contrib_inv_quiet c0 s _ (ev ++ ev2) hinv
      · rw [hclient]
        exact e1
      · rw [hclient]
        exact e2
      · intro f
        rw [hclient, hdata]
        have hm := manifest_or_nil_set (ensure_owned s.client (file_id_of_name w.file_name))
          di fd fd [] f hfind2 hget rfl (by simp)
        rw [hm, manifest_or_nil_ensure_owned]
        simp
      · rw [ht2, ht, List.append_assoc]
      · intro e he
        rcases List.mem_append.1 he with he | he
        · exact hq e he
        · exact hq2 e he
    · -- one hash was stored
      have hlt : fd.segments.length < peer.segments.length := by
        by_contra hge
        rw [List.drop_eq_nil_of_le (by omega)] at hmem
        cases hmem
      have hroom : fd.segments.length < MAX_CHUNKS := by omega
      obtain ⟨a1, a2⟩ := add_segment_room fd seg hroom
      simp only [a1, if_true] at ht
      rw [a2] at hdata
      obtain ⟨_, i1, i2, i3, i4, i5⟩ := hinv
      have hmid : contrib_inv c0
          { s with
            client :=
              { ensure_owned s.client (file_id_of_name w.file_name) with
                owned_files :=
                  (ensure_owned s.client (file_id_of_name w.file_name)).owned_files.set di
                    inner.data },
            trace := inner.trace } := by
        refine ⟨?_, ?_, ?_, ?_, ?_, ?_⟩
        · exact wf_client_congr s.client _ e2 e1 hwf
        · exact e1.trans i1
        · exact e2.trans i2
        · intro f
          show manifest_or_nil
              { ensure_owned s.client (file_id_of_name w.file_name) with
                owned_files :=
                  (ensure_owned s.client (file_id_of_name w.file_name)).owned_files.set di
                    inner.data } f = _
          have hm := manifest_or_nil_set
            (ensure_owned s.client (file_id_of_name w.file_name))
            di fd inner.data [{ hash := strncpy seg.hash HASH_SIZE }] f hfind2 hget
            (by rw [hdata]) (by rw [hdata])
          rw [hm, manifest_or_nil_ensure_owned, i3 f]
          show _ = _ ++ stores_of f inner.trace
          rw [ht, stores_of_append, stores_of_append, stores_of_append,
            stores_of_quiet f ev (fun e he => (hq e he).1), stores_of_store]
          have hrq : stores_of f [request_msg peer.peer_rank seg,
              Event.recv peer.peer_rank ACK_TAG (Payload.chars BUFF_SIZE OK)] = [] := rfl
          rw [hrq]
          simp only [List.append_nil, List.map_cons, List.map_nil, List.append_assoc]
        · show stores_justified c0 inner.trace
          rw [ht]
          apply stores_justified_append_store
          · apply stores_justified_append_quiet
            · exact stores_justified_append_quiet c0 _ _ i4 (fun e he => (hq e he).1)
            · intro e he
              simp only [List.mem_cons, List.mem_singleton, List.not_mem_nil, or_false] at he
              rcases he with he | he
              · subst he
                rfl
              · subst he
                rfl
          · refine ⟨s.trace ++ ev, s.current_file_idx, w, pl, peer, seg, rfl, ?_, hfid.symm,
              ?_, hpeer, List.mem_of_mem_drop hmem, rfl⟩
            · rw [← i1]
              exact hw
            · rw [← i2]
              exact hpl
        · show acks_stored inner.trace
          rw [ht]
          have hre : s.trace ++ ev ++
              [request_msg peer.peer_rank seg,
                Event.recv peer.peer_rank ACK_TAG (Payload.chars BUFF_SIZE OK)] ++
              [Event.store fd.file_id (strncpy seg.hash HASH_SIZE)] =
              (s.trace ++ (ev ++ [request_msg peer.peer_rank seg])) ++
                [Event.recv peer.peer_rank ACK_TAG (Payload.chars BUFF_SIZE OK),
                  Event.store fd.file_id (strncpy seg.hash HASH_SIZE)] := by
            simp only [List.append_assoc, List.cons_append, List.nil_append]
          rw [hre]
          apply acks_stored_append_ok
          apply acks_stored_append_quiet _ _ i5
          intro e he
          rcases List.mem_append.1 he with he | he
          · exact (hq e he).2
          · simp only [List.mem_singleton] at he
            subst he
            rfl
      apply contrib_inv_quiet c0 _ _ ev2 hmid
      · rw [hclient]
      · rw [hclient]
      · intro f
        rw [hclient]
      · exact ht2
      · exact hq2

/-- The download loop keeps `contrib_inv`. -/
theorem contrib_loop (env : DownloadEnv) (c0 : ClientFiles_t) (fuel : Nat) :
    ∀ s s1 : DownloadState, contrib_inv c0 s → download_loop env fuel s = some s1 →
      contrib_inv c0 s1 := by
  induction fuel with
  | zero =>
    intro s s1 hinv h
    unfold download_loop at h
    split at h
    · cases h
    · cases h
      exact hinv
  | succ n ih =>
    intro s s1 hinv h
    unfold download_loop at h
    by_cases hc : download_cond s = true
    · rw [if_pos hc] at h
      obtain ⟨s2, hit, hinv2⟩ := contrib_pass env c0 s hinv hc
      rw [hit] at h
      exact ih s2 s1 hinv2 h
    · rw [if_neg hc] at h
      cases h
      exact hinv

theorem contrib_inv_init (client : ClientFiles_t) (hwf : wf_client client) :
    contrib_inv client (download_init client) := by
  refine ⟨hwf, rfl, rfl, ?_, ?_, ?_⟩
  · intro f
    show manifest_or_nil client f = manifest_or_nil client f ++ stores_of f []
    simp [stores_of]
  · intro pre post fid h heq
    have := congrArg List.length heq
    simp [download_init] at this
    omega
  · intro pre post e heq _
    have := congrArg List.length heq
    simp [download_init] at this
    omega

/-- Counterexample for C15: a PEER that holds two hashes of its wanted file
at startup. The peer it selects advertises three hashes and acknowledges the
only request, for the third; when `FINISHED_DOWN_ALL` is sent the manifest
holds the three hashes, while the peer contributed one. -/
theorem startup_hashes_are_not_contributed :
    (download_thread_func (env_ok (fun _ => 0)) 10 partial_owner_client).map
        (fun s => (manifest_or_nil s.client 1, stores_of 1 s.trace, requests_of s.trace,
          s.trace.getLast?)) =
      some (hashes_abc, [List.replicate 32 'C'],
        [request_msg 2 { hash := List.replicate 32 'C' }], some finished_inform) ∧
    List.replicate 32 'A' ∈ hashes_abc ∧
    List.replicate 32 'A' ∉ [List.replicate 32 'C'] := by
  decide

/-- C15 (amended): when the downloader sends `FINISHED_DOWN_ALL`, the
manifest of every file is the manifest held at startup followed by the
hashes contributed by the selected peers, in the order in which they were
stored; for a file of which nothing was held at startup the manifest is
exactly the contributed hashes. A contributed hash is stored right after
the request of a segment to a peer of the table of a wanted file with that
id and the receive of `OK` from that peer, it is the hash of that advertised
segment, and every `OK` received from a peer is followed by the store of a
hash. -/
theorem download_manifest_contributions (env : DownloadEnv) (client : ClientFiles_t)
    (fuel : Nat) (hwf : wf_client client)
    (hfuel : client.wanted_files.length * (MAX_CHUNKS + 1) ≤ fuel) :
    ∃ s, download_thread_func env fuel client = some s ∧
      s.trace.getLast? = some finished_inform ∧
      (∀ f : Int,
        manifest_or_nil s.client f = manifest_or_nil client f ++ stores_of f s.trace) ∧
      (∀ f : Int, manifest_or_nil client f = [] →
        manifest_or_nil s.client f = stores_of f s.trace) ∧
      stores_justified client s.trace ∧ acks_stored s.trace := by
  have hm : download_measure (download_init client) ≤ fuel := by
    have : download_measure (download_init client) ≤
        client.wanted_files.length * (MAX_CHUNKS + 1) := by
      unfold download_measure
      simp only [download_init]
      unfold MAX_CHUNKS
      split <;> omega
    omega
  obtain ⟨s1, ev, hloop, _, _, _⟩ :=
    download_loop_terminates env fuel _ (download_inv_init client hwf) hm
  have hinv := contrib_loop env client fuel _ s1 (contrib_inv_init client hwf) hloop
  have hfin : contrib_inv client { s1 with trace := s1.trace ++ [finished_inform] } := by
    apply contrib_inv_quiet client s1
      { s1 with trace := s1.trace ++ [finished_inform] } [finished_inform] hinv rfl rfl
      (fun _ => rfl) rfl
    intro e he
    simp only [List.mem_singleton] at he
    subst he
    exact ⟨rfl, rfl⟩
  obtain ⟨_, _, _, h3, h4, h5⟩ := hfin
  refine ⟨{ s1 with trace := s1.trace ++ [finished_inform] }, ?_, ?_, h3, ?_, h4, h5⟩
  · simp [download_thread_func, hloop]
  · simp
  · intro f hnil
    rw [h3 f, hnil, List.nil_append]

/-- Witness for C15: the run of `partial_owner_client`. -/
theorem download_manifest_contributions_witness :
    ∃ s, download_thread_func (env_ok (fun _ => 0)) 101 partial_owner_client = some s ∧
      s.trace.getLast? = some finished_inform ∧
      (∀ f : Int,
        manifest_or_nil s.client f =
          manifest_or_nil partial_owner_client f ++ stores_of f s.trace) ∧
      (∀ f : Int, manifest_or_nil partial_owner_client f = [] →
        manifest_or_nil s.client f = stores_of f s.trace) ∧
      stores_justified partial_owner_client s.trace ∧ acks_stored s.trace :=
  download_manifest_contributions (env_ok (fun _ => 0)) partial_owner_client 101
    (by unfold wf_client; decide) (by decide)

theorem isDigit_iff (c : Char) : c.isDigit = true ↔ 48 ≤ c.toNat ∧ c.toNat ≤ 57 := by
  unfold Char.isDigit
  simp only [Bool.and_eq_true, decide_eq_true_eq, Char.toNat]
  constructor
  · rintro ⟨h1, h2⟩
    exact ⟨h1, h2⟩
  · rintro ⟨h1, h2⟩
    exact ⟨h1, h2⟩

theorem drop_last_char (l : List Char) (h : l ≠ []) :
    l.drop (l.length - 1) = [l.getLast h] := by
  have h1 := List.dropLast_append_getLast h
  have h2 : l.drop (l.length - 1) =
      (l.dropLast ++ [l.getLast h]).drop l.dropLast.length := by
    rw [h1, List.length_dropLast]
  rw [h2, List.drop_left]

/-- The function `atoi` on a string of one character: the value of the
character when it is a digit, and 0 otherwise. -/
theorem atoi_single (c : Char) :
    atoi [c] = if c.isDigit then ((c.toNat - 48 : Nat) : Int) else 0 := by
  by_cases hd : c.isDigit = true
  · have h := (isDigit_iff c).mp hd
    have hsp : is_space c = false := by
      unfold is_space
      have h1 : c ≠ ' ' := by
        intro he
        rw [he] at h
        revert h
        decide
      simp [h1]
      omega
    have hm : c ≠ '-' := by
      intro he
      rw [he] at h
      revert h
      decide
    have hp : c ≠ '+' := by
      intro he
      rw [he] at h
      revert h
      decide
    unfold atoi
    simp only [List.dropWhile, hsp]
    rw [if_pos hd]
    split
    · rename_i heq
      simp only [List.cons.injEq] at heq
      exact absurd heq.1 hm
    · rename_i heq
      simp only [List.cons.injEq] at heq
      exact absurd heq.1 hp
    · simp [digits_value, hd]
  · rw [if_neg hd]
    unfold atoi
    by_cases hsp : is_space c = true
    · simp [List.dropWhile, hsp, digits_value]
    · have hsp2 : is_space c = false := by simpa using hsp
      simp only [List.dropWhile, hsp2]
      split
      · rename_i heq
        simp only [List.cons.injEq] at heq
        rw [← heq.2]
        simp [digits_value]
      · rename_i heq
        simp only [List.cons.injEq] at heq
        rw [← heq.2]
        simp [digits_value]
      · simp [digits_value, hd]

theorem file_id_of_name_last (name : CStr) (hne : name ≠ []) :
    file_id_of_name name =
      if (name.getLast hne).isDigit then (((name.getLast hne).toNat - 48 : Nat) : Int)
      else 0 := by
  unfold file_id_of_name
  rw [drop_last_char name hne, atoi_single]

theorem file_id_of_name_range (name : CStr) :
    0 ≤ file_id_of_name name ∧ file_id_of_name name ≤ 9 := by
  by_cases hne : name = []
  · rw [hne]
    decide
  · rw [file_id_of_name_last name hne]
    by_cases hd : (name.getLast hne).isDigit = true
    · have h := (isDigit_iff _).mp hd
      rw [if_pos hd]
      omega
    · rw [if_neg hd]
      omega

theorem read_owned_files_ids (n : Nat) :
    ∀ (inp : List Char) (files : List FileData_t) (rest : List Char),
      read_owned_files n inp = some (files, rest) →
      ∀ fd ∈ files, fd.file_id = file_id_of_name fd.file_name := by
  induction n with
  | zero =>
    intro inp files rest h
    simp only [read_owned_files, Option.some.injEq, Prod.mk.injEq] at h
    intro fd hfd
    rw [← h.1] at hfd
    cases hfd
  | succ k ih =>
    intro inp files rest h
    unfold read_owned_files at h
    split at h
    · cases h
    · split at h
      · cases h
      · split at h
        · cases h
        · simp only at h
          split at h
          · cases h
          · split at h
            · cases h
            · split at h
              · cases h
              · rename_i fs rest2 hrec
                simp only [Option.some.injEq, Prod.mk.injEq] at h
                intro fd hfd
                rw [← h.1] at hfd
                rcases List.mem_cons.1 hfd with hfd | hfd
                · rw [hfd]
                · exact ih _ _ _ hrec fd hfd

theorem fgets_chars_line (h : List Char) (rest : List Char) (hnl : NEWLINE ∉ h) :
    ∀ n : Nat, h.length < n → fgets_chars n (h ++ NEWLINE :: rest) = h ++ [NEWLINE] := by
  induction h with
  | nil =>
    intro n hn
    cases n with
    | zero => omega
    | succ k => simp [fgets_chars]
  | cons c cs ih =>
    intro n hn
    cases n with
    | zero => omega
    | succ k =>
      have hc : c ≠ NEWLINE := by
        intro he
        apply hnl
        rw [he]
        exact List.mem_cons_self _ _
      have hcs : NEWLINE ∉ cs := fun hm => hnl (List.mem_cons_of_mem _ hm)
      have hrec := ih hcs k (by simpa using hn)
      show fgets_chars (k + 1) (c :: (cs ++ NEWLINE :: rest)) = c :: (cs ++ [NEWLINE])
      rw [fgets_chars, if_neg hc, hrec]

theorem fgets_hash_line (h : List Char) (rest : List Char) (hnl : NEWLINE ∉ h)
    (hlen : h.length = HASH_SIZE) :
    fgets BUFF_SIZE (h ++ NEWLINE :: rest) = some (h ++ [NEWLINE], rest) := by
  have hl : h.length < BUFF_SIZE - 1 := by
    rw [hlen]
    decide
  unfold fgets
  rw [if_neg (by simp), fgets_chars_line h rest hnl _ hl]
  simp

theorem read_segments_written (segs : List FileSegment_t) (rest : List Char)
    (h : ∀ s ∈ segs, s.hash.length = HASH_SIZE ∧ NEWLINE ∉ s.hash) :
    read_segments segs.length (segs.flatMap (fun s => s.hash ++ [NEWLINE]) ++ rest) =
      some (segs, rest) := by
  induction segs with
  | nil => rfl
  | cons s tl ih =>
    rcases h s (List.mem_cons_self _ _) with ⟨hlen, hnl⟩
    have htl := ih (fun x hx => h x (List.mem_cons_of_mem _ hx))
    have hline : strncpy (s.hash ++ [NEWLINE]) HASH_SIZE = s.hash := by
      unfold strncpy
      rw [← hlen, List.take_left]
    rw [List.flatMap_cons, List.length_cons, read_segments]
    have hshape : s.hash ++ [NEWLINE] ++ tl.flatMap (fun s => s.hash ++ [NEWLINE]) ++ rest =
        s.hash ++ NEWLINE :: (tl.flatMap (fun s => s.hash ++ [NEWLINE]) ++ rest) := by
      simp
    rw [hshape, fgets_hash_line s.hash _ hnl hlen]
    simp only [htl, hline]

/-- C22: for a manifest whose hashes have exactly `HASH_SIZE` characters and
no newline, `write_to_file` writes each hash followed by a newline, in the
order of the manifest, and the loop of the manifest reader over the hash
lines (the first `HASH_SIZE` characters of each line are kept) reads the
same segments back from the text written, leaving what follows it unread. -/
theorem write_then_read_segments (data : FileData_t) (rest : List Char)
    (h : ∀ s ∈ data.segments, s.hash.length = HASH_SIZE ∧ NEWLINE ∉ s.hash) :
    write_to_file data =
      (data.segments.map (fun s => s.hash)).flatMap (fun x => x ++ [NEWLINE]) ∧
    read_segments data.segments.length (write_to_file data ++ rest) =
      some (data.segments, rest) := by
  constructor
  · unfold write_to_file
    rw [List.flatMap_map]
  · unfold write_to_file
    exact read_segments_written data.segments rest h

/-- Witness for C22: a manifest of two hashes. -/
theorem write_then_read_segments_witness :
    write_to_file two_hash_manifest =
      (two_hash_manifest.segments.map (fun s => s.hash)).flatMap
        (fun x => x ++ [NEWLINE]) ∧
    read_segments two_hash_manifest.segments.length (write_to_file two_hash_manifest ++ []) =
      some (two_hash_manifest.segments, []) :=
  write_then_read_segments two_hash_manifest [] (by decide)

/-- The loop over the segments of the selected peer, with the test that
precedes a request: either nothing is downloaded, or a candidate that
`has_segment` does not find in the manifest is requested, acknowledged with
`OK` and appended. -/
theorem segment_loop_cases (env : DownloadEnv) (r : Int) (cands : List FileSegment_t) :
    ∀ s : SegmentLoopState,
      (∃ ev, (segment_loop env r cands s).trace = s.trace ++ ev ∧
        (∀ e ∈ ev, is_exchange e = true) ∧
        (segment_loop env r cands s).data = s.data ∧
        (segment_loop env r cands s).downloaded_segments = s.downloaded_segments ∧
        (segment_loop env r cands s).segment_downloaded = s.segment_downloaded) ∨
      (∃ ev seg, seg ∈ cands ∧ has_segment s.data seg = false ∧
        (∀ e ∈ ev, is_exchange e = true) ∧
        (segment_loop env r cands s).segment_downloaded = true ∧
        (segment_loop env r cands s).downloaded_segments = s.downloaded_segments + 1 ∧
        (segment_loop env r cands s).data = (add_segment_to_file_data s.data seg).2 ∧
        (segment_loop env r cands s).trace = s.trace ++ ev ++
          (if (add_segment_to_file_data s.data seg).1 then
            [Event.store s.data.file_id (strncpy seg.hash HASH_SIZE)] else [])) := by
  induction cands with
  | nil =>
    intro s
    left
    exact ⟨[], by simp [segment_loop], by simp, rfl, rfl, rfl⟩
  | cons seg rest ih =>
    intro s
    have hex : ∀ e ∈ [request_msg r seg,
        Event.recv r ACK_TAG (Payload.chars BUFF_SIZE (env.peer_ack s.peer_acks))],
        is_exchange e = true := by
      intro e he
      simp only [List.mem_cons, List.mem_singleton, List.not_mem_nil, or_false] at he
      rcases he with he | he <;> subst he <;> simp [is_exchange, request_msg]
    unfold segment_loop
    by_cases hhas : has_segment s.data seg = true
    · simp only [hhas, Bool.not_true, Bool.false_eq_true, if_false]
      rcases ih s with ⟨ev, h1, h2, h3, h4, h5⟩ | ⟨ev, sg, hm, hn, h1, h2, h3, h4, h5⟩
      · left
        exact ⟨ev, h1, h2, h3, h4, h5⟩
      · right
        exact ⟨ev, sg, List.mem_cons_of_mem _ hm, hn, h1, h2, h3, h4, h5⟩
    · have hf : has_segment s.data seg = false := by simpa using hhas
      simp only [hf, Bool.not_false, if_true]
      by_cases hok : env.peer_ack s.peer_acks = OK
      · simp only [hok, if_true]
        right
        refine ⟨[request_msg r seg, Event.recv r ACK_TAG (Payload.chars BUFF_SIZE OK)],
          seg, List.mem_cons_self _ _, hf, ?_, ?_, ?_, ?_, ?_⟩
        · rw [← hok]
          exact hex
        · trivial
        · trivial
        · trivial
        · split <;> simp
      · simp only [hok, if_false]
        rcases ih { s with
            peer_acks := s.peer_acks + 1,
            trace := s.trace ++
              [request_msg r seg,
               Event.recv r ACK_TAG (Payload.chars BUFF_SIZE (env.peer_ack s.peer_acks))] }
          with ⟨ev, h1, h2, h3, h4, h5⟩ | ⟨ev, sg, hm, hn, h1, h2, h3, h4, h5⟩
        · left
          refine ⟨([request_msg r seg,
            Event.recv r ACK_TAG (Payload.chars BUFF_SIZE (env.peer_ack s.peer_acks))] ++ ev),
            ?_, ?_, h3, h4, h5⟩
          · rw [h1, List.append_assoc]
          · intro e he
            rcases List.mem_append.1 he with he | he
            · exact hex e he
            · exact h2 e he
        · right
          refine ⟨([request_msg r seg,
            Event.recv r ACK_TAG (Payload.chars BUFF_SIZE (env.peer_ack s.peer_acks))] ++ ev),
            sg, List.mem_cons_of_mem _ hm, hn, ?_, h2, h3, h4, ?_⟩
          · intro e he
            rcases List.mem_append.1 he with he | he
            · exact hex e he
            · exact h1 e he
          · rw [h5]
            simp only [List.append_assoc]

theorem set_same_entry (l : List FileData_t) (di : Nat) (fd : FileData_t)
    (hget : l[di]? = some fd) : l.set di fd = l := by
  apply List.ext_getElem?
  intro i
  rw [List.getElem?_set]
  by_cases hi : di = i
  · subst hi
    have hlt : di < l.length := by
      rcases List.getElem?_eq_some_iff.mp hget with ⟨hh, _⟩
      exact hh
    rw [if_pos rfl, if_pos hlt, hget]
  · rw [if_neg hi]

/-- The three kinds of pass of the download loop, with the state each
leaves: the file has no peer and is skipped; nothing is downloaded from the
selected peer and the file is completed; one segment that the manifest does
not hold is downloaded and appended, and the periodic report follows. -/
theorem pass_cases (env : DownloadEnv) (s : DownloadState)
    (hwf : wf_client s.client) (hcond : download_cond s = true) :
    ∃ pl w, s.client.peers[s.current_file_idx]? = some pl ∧
      s.client.wanted_files[s.current_file_idx]? = some w ∧
      ((pl.peers_count ≤ 0 ∧
          download_iter env s = some { s with current_file_idx := s.current_file_idx + 1 }) ∨
        (0 < pl.peers_count ∧ ∃ peer di fd ev pa,
          peer ∈ pl.peers_array ∧
          find_file_data (ensure_owned s.client (file_id_of_name w.file_name)).owned_files
            (file_id_of_name w.file_name) = some di ∧
          (ensure_owned s.client (file_id_of_name w.file_name)).owned_files[di]? = some fd ∧
          fd.file_id = file_id_of_name w.file_name ∧
          (∀ e ∈ ev, is_exchange e = true) ∧
          (download_iter env s = some
              (complete_file
                { s with
                  client := ensure_owned s.client (file_id_of_name w.file_name),
                  rand_calls :=
                    if pl.peers_count > 1 then s.rand_calls + 1 else s.rand_calls,
                  peer_acks := pa,
                  trace := s.trace ++ ev }
                fd (file_id_of_name w.file_name)) ∨
            ∃ seg, seg ∈ peer.segments ∧ has_segment fd seg = false ∧
              fd.segments.length < MAX_CHUNKS ∧
              download_iter env s = some
                (report_progress env
                  { s with
                    client :=
                      { ensure_owned s.client (file_id_of_name w.file_name) with
                        owned_files :=
                          (ensure_owned s.client
                            (file_id_of_name w.file_name)).owned_files.set di
                            { fd with
                              segments := fd.segments ++
                                [{ hash := strncpy seg.hash HASH_SIZE }] } },
                    rand_calls :=
                      if pl.peers_count > 1 then s.rand_calls + 1 else s.rand_calls,
                    downloaded_segments := s.downloaded_segments + 1,
                    peer_acks := pa,
                    trace := s.trace ++ ev ++
                      [Event.store fd.file_id (strncpy seg.hash HASH_SIZE)] }
                  { fd with
                    segments := fd.segments ++
                      [{ hash := strncpy seg.hash HASH_SIZE }] })))) := by
  obtain ⟨pl, w, hpl, hw, hA, hB⟩ := download_iter_shape env s hwf hcond
  refine ⟨pl, w, hpl, hw, ?_⟩
  by_cases hle : pl.peers_count ≤ 0
  · left
    exact ⟨hle, hA hle⟩
  · right
    have hpos : 0 < pl.peers_count := by omega
    obtain ⟨peer, di, fd, hpeer, hpmax, hfind, hget, hfid, _, hiter⟩ := hB hpos
    have hcases := segment_loop_cases env peer.peer_rank
      (peer.segments.drop fd.segments.length)
      { data := fd, downloaded_segments := s.downloaded_segments,
        segment_downloaded := false, peer_acks := s.peer_acks, trace := s.trace }
    generalize hinner : segment_loop env peer.peer_rank
      (peer.segments.drop fd.segments.length)
      { data := fd, downloaded_segments := s.downloaded_segments,
        segment_downloaded := false, peer_acks := s.peer_acks, trace := s.trace } = inner
      at hcases hiter
    simp only at hcases
    have hset := set_same_entry _ di fd hget
    rcases hcases with ⟨ev, ht, hex, hdata, hdl, hsd⟩ |
      ⟨ev, seg, hmem, hnot, hex, hsd, hdl, hdata, ht⟩
    · refine ⟨hpos, peer, di, fd, ev, inner.peer_acks, hpeer, hfind, hget, hfid, hex, ?_⟩
      left
      rw [hiter, finish_pass_idle _ _ _ _ _ hsd]
      simp only [hdata, hdl, ht, hset]
    · have hlt : fd.segments.length < peer.segments.length := by
        by_contra hge
        rw [List.drop_eq_nil_of_le (by omega)] at hmem
        cases hmem
      have hroom : fd.segments.length < MAX_CHUNKS := by omega
      obtain ⟨a1, a2⟩ := add_segment_room fd seg hroom
      simp only [a1, if_true] at ht
      rw [a2] at hdata
      refine ⟨hpos, peer, di, fd, ev, inner.peer_acks, hpeer, hfind, hget, hfid, hex, ?_⟩
      right
      refine ⟨seg, List.mem_of_mem_drop hmem, hnot, hroom, ?_⟩
      rw [hiter, finish_pass_downloaded _ _ _ _ _ hsd]
      simp only [hdata, hdl, ht]

theorem written_names_append (a b : List Event) :
    written_names (a ++ b) = written_names a ++ written_names b := by
  unfold written_names
  rw [List.filterMap_append]

theorem written_names_exchange (ev : List Event) (h : ∀ e ∈ ev, is_exchange e = true) :
    written_names ev = [] := by
  unfold written_names
  rw [List.filterMap_eq_nil_iff]
  intro e he
  have := h e he
  cases e with
  | write_file n c => simp [is_exchange] at this
  | send _ _ _ => rfl
  | recv _ _ _ => rfl
  | store _ _ => rfl

theorem written_names_report (verb : CStr) (data : FileData_t) :
    written_names (report_msgs verb data) = [] := by
  unfold written_names
  rw [List.filterMap_eq_nil_iff]
  intro e he
  unfold report_msgs at he
  rcases List.mem_append.1 he with he | he
  · rcases List.mem_cons.1 he with he | he
    · subst he
      rfl
    · rcases List.mem_cons.1 he with he | he
      · subst he
        rfl
      · cases he
  · rcases List.mem_map.1 he with ⟨x, _, hx⟩
    subst hx
    rfl

theorem complete_file_trace (s : DownloadState) (data : FileData_t) (fid : Int) :
    (complete_file s data fid).trace = s.trace ++
      (if s.downloaded_segments > 0 then report_msgs DOWN_X data else []) ++
      [Event.write_file (output_file_name s.client.client_rank fid) (write_to_file data)] := by
  unfold complete_file
  by_cases hd : s.downloaded_segments > 0
  · simp only [if_pos hd]
  · simp only [if_neg hd, List.append_nil]

theorem report_progress_trace (env : DownloadEnv) (s : DownloadState) (data : FileData_t) :
    (report_progress env s data).trace = s.trace ++
      (if s.downloaded_segments > 0 ∧ s.downloaded_segments % 10 = 0 then
        report_msgs DOWN_10 data ++
          [inform_msg 11 GIVE_PEERS,
           Event.recv TRACKER_RANK ACK_TAG
             (Payload.chars BUFF_SIZE (env.tracker_ack s.tracker_acks))]
      else []) := by
  by_cases h : s.downloaded_segments > 0 ∧ s.downloaded_segments % 10 = 0
  · rw [report_progress_fire env s data h, if_pos h]
    simp only [List.append_assoc]
  · rw [report_progress_skip env s data h, if_neg h, List.append_nil]

theorem ensure_owned_rank (c : ClientFiles_t) (fid : Int) :
    (ensure_owned c fid).client_rank = c.client_rank := by
  unfold ensure_owned
  split
  · rfl
  · rfl

theorem toDigits_small (n : Nat) (h : n < 10) :
    Nat.toDigits 10 n = [Char.ofNat (48 + n)] := by
  interval_cases n <;> rfl

/-- The name `file<id>` of a wanted file named `file` followed by one digit
is the name itself. -/
theorem fmt_d_file_digit (d : Char) (h : d.isDigit = true) :
    fmt_d (file_id_of_name ("file".toList ++ [d])) = [d] := by
  have hd := (isDigit_iff d).mp h
  have hid : file_id_of_name ("file".toList ++ [d]) = ((d.toNat - 48 : Nat) : Int) := by
    unfold file_id_of_name
    have : ("file".toList ++ [d]).drop (("file".toList ++ [d]).length - 1) = [d] := by
      simp
    rw [this, atoi_single, if_pos h]
  rw [hid]
  unfold fmt_d
  rw [if_neg (by omega), Int.toNat_ofNat, toDigits_small _ (by omega)]
  have : 48 + (d.toNat - 48) = d.toNat := by omega
  rw [this, Char.ofNat_toNat]

/-- What the periodic report adds to the actions: no file is written. -/
theorem report_progress_tail (env : DownloadEnv) (s : DownloadState) (data : FileData_t) :
    ∃ tl, (report_progress env s data).trace = s.trace ++ tl ∧ written_names tl = [] := by
  refine ⟨_, report_progress_trace env s data, ?_⟩
  split
  · rw [written_names_append, written_names_report]
    rfl
  · rfl

/-- The name `client<rank>_file<id>`, with the id computed from the name, is
`client<rank>_<name>` exactly when the name is `file` followed by one
digit. -/
theorem output_path_eq_iff (rank : Int) (name : CStr) :
    "client".toList ++ fmt_d rank ++ "_file".toList ++ fmt_d (file_id_of_name name) =
        "client".toList ++ fmt_d rank ++ "_".toList ++ name ↔
      ∃ d : Char, d.isDigit = true ∧ name = "file".toList ++ [d] := by
  constructor
  · intro h
    simp only [List.append_assoc] at h
    have h1 := List.append_cancel_left (List.append_cancel_left h)
    have h2 : name = "file".toList ++ fmt_d (file_id_of_name name) := by
      have h3 := congrArg List.tail h1
      exact h3.symm
    obtain ⟨r0, r9⟩ := file_id_of_name_range name
    have hf : fmt_d (file_id_of_name name) =
        [Char.ofNat (48 + (file_id_of_name name).toNat)] := by
      unfold fmt_d
      rw [if_neg (by omega), toDigits_small _ (by omega)]
    have hdig : ∀ n : Nat, n < 10 → (Char.ofNat (48 + n)).isDigit = true := by
      intro n hn
      interval_cases n <;> rfl
    refine ⟨Char.ofNat (48 + (file_id_of_name name).toNat), hdig _ (by omega), ?_⟩
    rw [← hf]
    exact h2
  · rintro ⟨d, hd, hname⟩
    rw [hname, fmt_d_file_digit d hd]
    simp

/-- Counterexample for C23: the client of rank 3 completes its wanted file
`data7`; the only file it writes is named `client3_file7`, from the id of
the name, and not `client3_data7`. -/
theorem output_path_ignores_name :
    (download_thread_func (env_ok (fun _ => 0)) 10 data7_client).map
        (fun s => written_names s.trace) = some ["client3_file7".toList] ∧
    "client3_file7".toList ≠ "client".toList ++ fmt_d 3 ++ "_".toList ++ "data7".toList := by
  decide

/-- C23 (amended): a pass of the download loop writes at most one file, and
only when it advances to the next wanted file; it writes one when the file
has a peer and the pass stores no hash. The name of the file written is
`client<rank>_file<id>`, where `<id>` is the id computed from the last
character of the wanted name; this is `client<rank>_<name>` when, and only
when, the wanted name is `file` followed by one digit. -/
theorem output_path_of_pass (env : DownloadEnv) (s : DownloadState)
    (hwf : wf_client s.client) (hcond : download_cond s = true) :
    ∃ s1 pl w ev, download_iter env s = some s1 ∧
      s.client.peers[s.current_file_idx]? = some pl ∧
      s.client.wanted_files[s.current_file_idx]? = some w ∧
      s1.trace = s.trace ++ ev ∧
      (written_names ev = [] ∨
        (written_names ev =
            ["client".toList ++ fmt_d s.client.client_rank ++ "_file".toList ++
              fmt_d (file_id_of_name w.file_name)] ∧
          s1.current_file_idx = s.current_file_idx + 1)) ∧
      (0 < pl.peers_count → (∀ e ∈ ev, is_store e = false) →
        written_names ev =
          ["client".toList ++ fmt_d s.client.client_rank ++ "_file".toList ++
            fmt_d (file_id_of_name w.file_name)]) ∧
      ("client".toList ++ fmt_d s.client.client_rank ++ "_file".toList ++
            fmt_d (file_id_of_name w.file_name) =
          "client".toList ++ fmt_d s.client.client_rank ++ "_".toList ++ w.file_name ↔
        ∃ d : Char, d.isDigit = true ∧ w.file_name = "file".toList ++ [d]) := by
  obtain ⟨pl, w, hpl, hw, hcase⟩ := pass_cases env s hwf hcond
  have hdigit := output_path_eq_iff s.client.client_rank w.file_name
  rcases hcase with ⟨hle, hiter⟩ | ⟨hpos, peer, di, fd, ev, pa, _, _, _, _, hex, hiter | hdown⟩
  · refine ⟨_, pl, w, [], hiter, hpl, hw, by simp, Or.inl rfl, ?_, hdigit⟩
    intro hpos
    omega
  · have hnames : written_names (ev ++
        (if s.downloaded_segments > 0 then report_msgs DOWN_X fd else []) ++
        [Event.write_file
          (output_file_name s.client.client_rank (file_id_of_name w.file_name))
          (write_to_file fd)]) =
        ["client".toList ++ fmt_d s.client.client_rank ++ "_file".toList ++
          fmt_d (file_id_of_name w.file_name)] := by
      rw [written_names_append, written_names_append, written_names_exchange ev hex]
      have : written_names
          (if s.downloaded_segments > 0 then report_msgs DOWN_X fd else []) = [] := by
        split
        · exact written_names_report _ _
        · rfl
      rw [this]
      rfl
    refine ⟨_, pl, w,
      ev ++ (if s.downloaded_segments > 0 then report_msgs DOWN_X fd else []) ++
        [Event.write_file
          (output_file_name s.client.client_rank (file_id_of_name w.file_name))
          (write_to_file fd)],
      hiter, hpl, hw, ?_, Or.inr ⟨hnames, ?_⟩, fun _ _ => hnames, hdigit⟩
    · rw [complete_file_trace]
      simp only [ensure_owned_rank, List.append_assoc]
    · exact (complete_file_fields _ _ _).2.1
  · obtain ⟨seg, _, _, _, hiter⟩ := hdown
    obtain ⟨tl, htl, hwr⟩ := report_progress_tail env
      { s with
        client :=
          { ensure_owned s.client (file_id_of_name w.file_name) with
            owned_files :=
              (ensure_owned s.client (file_id_of_name w.file_name)).owned_files.set di
                { fd with
                  segments := fd.segments ++ [{ hash := strncpy seg.hash HASH_SIZE }] } },
        rand_calls := if pl.peers_count > 1 then s.rand_calls + 1 else s.rand_calls,
        downloaded_segments := s.downloaded_segments + 1,
        peer_acks := pa,
        trace := s.trace ++ ev ++ [Event.store fd.file_id (strncpy seg.hash HASH_SIZE)] }
      { fd with segments := fd.segments ++ [{ hash := strncpy seg.hash HASH_SIZE }] }
    refine ⟨_, pl, w, ev ++ [Event.store fd.file_id (strncpy seg.hash HASH_SIZE)] ++ tl,
      hiter, hpl, hw, ?_, Or.inl ?_, ?_, hdigit⟩
    · rw [htl]
      simp only [List.append_assoc]
    · rw [written_names_append, written_names_append, written_names_exchange ev hex, hwr]
      rfl
    · intro _ hq
      have := hq (Event.store fd.file_id (strncpy seg.hash HASH_SIZE)) (by simp)
      simp [is_store] at this

/-- Witness for C23: the first pass of `idle_peer_client`, which holds all
its peer advertises and wants `file1`. -/
theorem output_path_of_pass_witness :
    ∃ s1 pl w ev,
      download_iter (env_ok (fun _ => 0)) (download_init idle_peer_client) = some s1 ∧
      (download_init idle_peer_client).client.peers[
        (download_init idle_peer_client).current_file_idx]? = some pl ∧
      (download_init idle_peer_client).client.wanted_files[
        (download_init idle_peer_client).current_file_idx]? = some w ∧
      s1.trace = (download_init idle_peer_client).trace ++ ev ∧
      (written_names ev = [] ∨
        (written_names ev =
            ["client".toList ++ fmt_d (download_init idle_peer_client).client.client_rank ++
              "_file".toList ++ fmt_d (file_id_of_name w.file_name)] ∧
          s1.current_file_idx = (download_init idle_peer_client).current_file_idx + 1)) ∧
      (0 < pl.peers_count → (∀ e ∈ ev, is_store e = false) →
        written_names ev =
          ["client".toList ++ fmt_d (download_init idle_peer_client).client.client_rank ++
            "_file".toList ++ fmt_d (file_id_of_name w.file_name)]) ∧
      ("client".toList ++ fmt_d (download_init idle_peer_client).client.client_rank ++
            "_file".toList ++ fmt_d (file_id_of_name w.file_name) =
          "client".toList ++ fmt_d (download_init idle_peer_client).client.client_rank ++
            "_".toList ++ w.file_name ↔
        ∃ d : Char, d.isDigit = true ∧ w.file_name = "file".toList ++ [d]) :=
  output_path_of_pass (env_ok (fun _ => 0)) (download_init idle_peer_client)
    (by unfold wf_client; decide) (by decide)

/-- Counterexample for C25: the PEER of rank 1 holds a part of `file1` and
wants `file1`; the rank list the tracker returns to rank 1 for that file is
`[1, 2]`, which contains rank 1. -/
theorem swarm_reply_lists_requester :
    ((receive_data_from_clients 3 (intake_inbox self_listed_clients)).bind
        (fun p => send_peers_to_clients p.1 [query_of 1 part_owner])).map
        (fun r => r.2.1.take 2) =
      some [Event.send 1 PEERS_SEEDERS_TRANSFER_TAG (Payload.int 2),
            Event.send 1 PEERS_SEEDERS_TRANSFER_TAG (Payload.ints [1, 2])] ∧
    (1 : Int) ∈ [(1 : Int), 2] := by
  decide

/-- C25 (amended): in a registry whose swarms are those `create_file_swarms`
builds from its inventories, the reply to a query of the client `c` for a
valid file id `f` starts with the size of the swarm and its rank list, and
`c` is in that list exactly when the inventory of `c` has an entry for `f`:
the requester is not filtered out. -/
theorem swarm_reply_lists_owners (m : TrackerDataSet_t) (c f : Int)
    (hsw : m.swarms = (create_file_swarms m ((m.data.length : Int) + 1)).swarms)
    (hf1 : 1 ≤ f) (hf2 : f ≤ m.swarm_size)
    (hc1 : 1 ≤ c) (hc2 : c ≤ (m.data.length : Int)) :
    ∃ rest,
      swarm_reply m c f =
        [Event.send c PEERS_SEEDERS_TRANSFER_TAG
           (Payload.int ((swarm_members m.swarms f).length : Int)),
         Event.send c PEERS_SEEDERS_TRANSFER_TAG (Payload.ints (swarm_members m.swarms f))]
          ++ rest ∧
      (c ∈ swarm_members m.swarms f ↔ tracker_has_entry m c f = true) ∧
      (tracker_has_entry m c f = false → c ∉ swarm_members m.swarms f) := by
  have hiff : c ∈ swarm_members m.swarms f ↔ tracker_has_entry m c f = true := by
    rw [hsw]
    exact create_file_swarms_members_iff m f c hf1 hf2 hc1 hc2
  have hlen : m.swarms.length = m.swarm_size.toNat := by
    rw [hsw]
    simp only [create_file_swarms]
    exact swarms_fold_length m _
  have hlt : (f - 1).toNat < m.swarms.length := by omega
  have hget : m.swarms[(f - 1).toNat]? = some (m.swarms[(f - 1).toNat]) :=
    List.getElem?_eq_getElem hlt
  generalize m.swarms[(f - 1).toNat] = sw at hget
  have hmem : swarm_members m.swarms f = sw.clients_in_swarm := by
    unfold swarm_members
    rw [hget]
  refine ⟨sw.clients_in_swarm.flatMap (peer_entry m c f), ?_, hiff, ?_⟩
  · unfold swarm_reply
    rw [if_neg (by omega), hget, hmem]
  · intro hno hin
    rw [hiff.mp hin] at hno
    cases hno

/-- Witness for C25: the LEECHER of rank 1 of `leecher_seeder_registry` asks
for file 1. -/
theorem swarm_reply_lists_owners_witness :
    ∃ rest,
      swarm_reply leecher_seeder_registry 1 1 =
        [Event.send 1 PEERS_SEEDERS_TRANSFER_TAG
           (Payload.int ((swarm_members leecher_seeder_registry.swarms 1).length : Int)),
         Event.send 1 PEERS_SEEDERS_TRANSFER_TAG
           (Payload.ints (swarm_members leecher_seeder_registry.swarms 1))]
          ++ rest ∧
      ((1 : Int) ∈ swarm_members leecher_seeder_registry.swarms 1 ↔
        tracker_has_entry leecher_seeder_registry 1 1 = true) ∧
      (tracker_has_entry leecher_seeder_registry 1 1 = false →
        (1 : Int) ∉ swarm_members leecher_seeder_registry.swarms 1) :=
  swarm_reply_lists_owners leecher_seeder_registry 1 1 (by decide) (by decide) (by decide)
    (by decide) (by decide)

theorem count_down_x_exchange (ev : List Event) (h : ∀ e ∈ ev, is_exchange e = true) :
    ev.count down_x_msg = 0 := by
  rw [List.count_eq_zero]
  intro hm
  have := h _ hm
  simp [down_x_msg, inform_msg, is_exchange, INFORM_TAG, REQUEST_TAG] at this

theorem count_down_x_hashes (hs : List CStr) : (hs.map hash_msg).count down_x_msg = 0 := by
  rw [List.count_eq_zero]
  intro hm
  rcases List.mem_map.1 hm with ⟨x, _, hx⟩
  simp [down_x_msg, inform_msg, hash_msg, HASH_SIZE] at hx

theorem count_down_x_report_x (data : FileData_t) :
    (report_msgs DOWN_X data).count down_x_msg = 1 := by
  unfold report_msgs
  rw [List.count_append, count_down_x_hashes]
  simp [down_x_msg, inform_msg, List.count_cons]

theorem count_down_x_report_10 (data : FileData_t) :
    (report_msgs DOWN_10 data).count down_x_msg = 0 := by
  unfold report_msgs
  rw [List.count_append, count_down_x_hashes]
  have h1 : (inform_msg 8 DOWN_10 == down_x_msg) = false := by decide
  simp [down_x_msg, inform_msg, List.count_cons, h1]
  decide

theorem count_down_x_progress (env : DownloadEnv) (s : DownloadState) (data : FileData_t) :
    ∃ tl, (report_progress env s data).trace = s.trace ++ tl ∧ tl.count down_x_msg = 0 := by
  refine ⟨_, report_progress_trace env s data, ?_⟩
  split
  · rw [List.count_append, count_down_x_report_10]
    simp [down_x_msg, inform_msg, List.count_cons]
  · rfl

theorem exchange_not_store (e : Event) (h : is_exchange e = true) : is_store e = false := by
  cases e with
  | store _ _ => simp [is_exchange] at h
  | send _ _ _ => rfl
  | recv _ _ _ => rfl
  | write_file _ _ => rfl

/-- One pass of the download loop and the `DOWN_X` report: the pass sends
the verb once when it stores no hash and the counter is positive, and not at
all otherwise; when it sends it, it advances to the next wanted file. -/
theorem down_x_pass (env : DownloadEnv) (s : DownloadState)
    (hinv : download_inv s) (hcond : download_cond s = true) :
    ∃ s1 ev, download_iter env s = some s1 ∧ download_inv s1 ∧
      s1.trace = s.trace ++ ev ∧
      (ev.count down_x_msg = 1 ∨ ev.count down_x_msg = 0) ∧
      (ev.count down_x_msg = 1 ↔
        ((∀ e ∈ ev, is_store e = false) ∧ 0 < s.downloaded_segments)) ∧
      (ev.count down_x_msg = 1 → s1.current_file_idx = s.current_file_idx + 1) ∧
      s.current_file_idx ≤ s1.current_file_idx := by
  obtain ⟨s1, pre, hiter1, hok⟩ := download_pass_spec env s hinv hcond
  have hinv1 : download_inv s1 := hok.1
  obtain ⟨hwf, _, hI1, _, hI3⟩ := hinv
  obtain ⟨pl, w, hpl, hw, hcase⟩ := pass_cases env s hwf hcond
  rcases hcase with ⟨hle, hiter⟩ | ⟨hpos, peer, di, fd, ex, pa, _, _, _, _, hex, hiter | hdown⟩
  · -- the file has no peer
    have hp0 : pending s.trace = [] := by
      by_contra hne
      obtain ⟨⟨pl1, hpl1, hpos⟩, _⟩ := hI3 hne
      rw [hpl] at hpl1
      cases hpl1
      omega
    have hd0 : s.downloaded_segments = 0 := by
      rw [hI1, hp0]
      rfl
    rw [hiter1] at hiter
    cases hiter
    refine ⟨_, [], hiter1, hinv1, by simp, Or.inr rfl, ?_, ?_, by simp⟩
    · constructor
      · intro h
        simp at h
      · rintro ⟨_, h⟩
        omega
    · intro h
      simp at h
  · -- the file is completed
    rw [hiter1] at hiter
    cases hiter
    have hcount : (ex ++ (if s.downloaded_segments > 0 then report_msgs DOWN_X fd else []) ++
        [Event.write_file
          (output_file_name s.client.client_rank (file_id_of_name w.file_name))
          (write_to_file fd)]).count down_x_msg =
        if s.downloaded_segments > 0 then 1 else 0 := by
      rw [List.count_append, List.count_append, count_down_x_exchange ex hex]
      have hwr : [Event.write_file
          (output_file_name s.client.client_rank (file_id_of_name w.file_name))
          (write_to_file fd)].count down_x_msg = 0 := by
        simp [down_x_msg, inform_msg, List.count_cons]
      rw [hwr]
      by_cases hd : s.downloaded_segments > 0
      · simp only [if_pos hd, count_down_x_report_x]
      · simp only [if_neg hd]
        rfl
    have hquiet : ∀ e ∈ ex ++
        (if s.downloaded_segments > 0 then report_msgs DOWN_X fd else []) ++
        [Event.write_file
          (output_file_name s.client.client_rank (file_id_of_name w.file_name))
          (write_to_file fd)], is_store e = false := by
      intro e he
      rcases List.mem_append.1 he with he | he
      · rcases List.mem_append.1 he with he | he
        · exact exchange_not_store e (hex e he)
        · split at he
          · exact (report_msgs_quiet _ _ e he).1
          · cases he
      · simp only [List.mem_singleton] at he
        subst he
        rfl
    refine ⟨_, ex ++ (if s.downloaded_segments > 0 then report_msgs DOWN_X fd else []) ++
        [Event.write_file
          (output_file_name s.client.client_rank (file_id_of_name w.file_name))
          (write_to_file fd)], hiter1, hinv1, ?_, ?_, ?_, ?_, ?_⟩
    · rw [complete_file_trace]
      simp only [ensure_owned_rank, List.append_assoc]
    · rw [hcount]
      by_cases hd : s.downloaded_segments > 0
      · left
        rw [if_pos hd]
      · right
        rw [if_neg hd]
    · rw [hcount]
      constructor
      · intro h
        refine ⟨hquiet, ?_⟩
        by_contra hd
        rw [if_neg (by omega)] at h
        cases h
      · rintro ⟨_, hd⟩
        rw [if_pos hd]
    · intro _
      exact (complete_file_fields _ _ _).2.1
    · rw [(complete_file_fields _ _ _).2.1]
      simp
  · -- a hash is stored
    obtain ⟨seg, _, _, _, hiter⟩ := hdown
    rw [hiter1] at hiter
    cases hiter
    obtain ⟨tl, htl, hcnt⟩ := count_down_x_progress env
      { s with
        client :=
          { ensure_owned s.client (file_id_of_name w.file_name) with
            owned_files :=
              (ensure_owned s.client (file_id_of_name w.file_name)).owned_files.set di
                { fd with
                  segments := fd.segments ++ [{ hash := strncpy seg.hash HASH_SIZE }] } },
        rand_calls := if pl.peers_count > 1 then s.rand_calls + 1 else s.rand_calls,
        downloaded_segments := s.downloaded_segments + 1,
        peer_acks := pa,
        trace := s.trace ++ ex ++ [Event.store fd.file_id (strncpy seg.hash HASH_SIZE)] }
      { fd with segments := fd.segments ++ [{ hash := strncpy seg.hash HASH_SIZE }] }
    have hcount : (ex ++ [Event.store fd.file_id (strncpy seg.hash HASH_SIZE)] ++ tl).count
        down_x_msg = 0 := by
      rw [List.count_append, List.count_append, count_down_x_exchange ex hex, hcnt]
      simp [down_x_msg, inform_msg, List.count_cons]
    refine ⟨_, ex ++ [Event.store fd.file_id (strncpy seg.hash HASH_SIZE)] ++ tl,
      hiter1, hinv1, ?_, Or.inr hcount, ?_, ?_, ?_⟩
    · rw [htl]
      simp only [List.append_assoc]
    · rw [hcount]
      constructor
      · intro h
        cases h
      · rintro ⟨hq, _⟩
        have := hq (Event.store fd.file_id (strncpy seg.hash HASH_SIZE)) (by simp)
        simp [is_store] at this
    · intro h
      rw [hcount] at h
      cases h
    · rw [(report_progress_fields env _ _).2.1]

theorem down_x_inv_pass (env : DownloadEnv) (s s1 : DownloadState)
    (hinv : down_x_inv s) (hcond : download_cond s = true)
    (hiter : download_iter env s = some s1) : down_x_inv s1 := by
  obtain ⟨s2, ev, hiter2, hinv2, htr, hor, _, hadv, hmono⟩ :=
    down_x_pass env s hinv.1 hcond
  rw [hiter] at hiter2
  cases hiter2
  refine ⟨hinv2, ?_⟩
  rw [htr, List.count_append]
  have hle := hinv.2
  rcases hor with h1 | h0
  · rw [h1, hadv h1]
    omega
  · rw [h0]
    omega

/-- The property `down_x_inv` holds at the start of every pass of a run. -/
theorem down_x_steps (env : DownloadEnv) (n : Nat) :
    ∀ s0 s : DownloadState, down_x_inv s0 → download_steps env n s0 = some s →
      down_x_inv s := by
  induction n with
  | zero =>
    intro s0 s hinv h
    simp only [download_steps, Option.some.injEq] at h
    rw [← h]
    exact hinv
  | succ k ih =>
    intro s0 s hinv h
    unfold download_steps at h
    by_cases hc : download_cond s0 = true
    · rw [if_pos hc] at h
      cases hit : download_iter env s0 with
      | none => rw [hit] at h; cases h
      | some s1 =>
        rw [hit] at h
        exact ih s1 s (down_x_inv_pass env s0 s1 hinv hc hit) h
    · rw [if_neg hc] at h
      cases h

/-- C26: at the start of every pass of a run of the downloader, no more
`DOWN_X` reports have been sent than wanted files have been left. The pass
sends the verb `DOWN_X` once when it stores no hash while the counter of the
hashes downloaded since the last report is positive, and not at all
otherwise; a pass that sends it advances to the next wanted file, so each
wanted file gets at most one `DOWN_X`, and a file completed with a counter
of zero gets none. -/
theorem down_x_report_when_completed (env : DownloadEnv) (client : ClientFiles_t)
    (n : Nat) (s : DownloadState) (hwf : wf_client client)
    (hsteps : download_steps env n (download_init client) = some s)
    (hcond : download_cond s = true) :
    s.trace.count down_x_msg ≤ s.current_file_idx ∧
    ∃ s1 ev, download_iter env s = some s1 ∧ s1.trace = s.trace ++ ev ∧
      (ev.count down_x_msg = 1 ∨ ev.count down_x_msg = 0) ∧
      (ev.count down_x_msg = 1 ↔
        ((∀ e ∈ ev, is_store e = false) ∧ 0 < s.downloaded_segments)) ∧
      (ev.count down_x_msg = 1 → s1.current_file_idx = s.current_file_idx + 1) ∧
      s.current_file_idx ≤ s1.current_file_idx ∧
      s1.trace.count down_x_msg ≤ s1.current_file_idx := by
  have hinit : down_x_inv (download_init client) :=
    ⟨download_inv_init client hwf, by simp [download_init]⟩
  have hinv := down_x_steps env n _ s hinit hsteps
  obtain ⟨s1, ev, hiter, _, htr, hor, hiff, hadv, hmono⟩ := down_x_pass env s hinv.1 hcond
  exact ⟨hinv.2, s1, ev, hiter, htr, hor, hiff, hadv, hmono,
    (down_x_inv_pass env s s1 hinv hcond hiter).2⟩

/-- Witness for C26: the fourth pass of a LEECHER that has downloaded the
three hashes its peer advertises. -/
theorem down_x_report_when_completed_witness :
    ((download_steps (env_ok (fun _ => 0)) 3
        (download_init (leecher_client 3 [peer_of 2 hashes_abc]))).getD
      (download_init (leecher_client 3 [peer_of 2 hashes_abc]))).trace.count down_x_msg ≤
      ((download_steps (env_ok (fun _ => 0)) 3
        (download_init (leecher_client 3 [peer_of 2 hashes_abc]))).getD
      (download_init (leecher_client 3 [peer_of 2 hashes_abc]))).current_file_idx :=
  (down_x_report_when_completed (env_ok (fun _ => 0))
    (leecher_client 3 [peer_of 2 hashes_abc]) 3
    ((download_steps (env_ok (fun _ => 0)) 3
        (download_init (leecher_client 3 [peer_of 2 hashes_abc]))).getD
      (download_init (leecher_client 3 [peer_of 2 hashes_abc])))
    (by unfold wf_client; decide) (by rfl) (by decide)).1

theorem fmt_d_small (fid : Int) (h0 : 0 ≤ fid) (h9 : fid ≤ 9) : (fmt_d fid).length = 1 := by
  unfold fmt_d
  rw [if_neg (by omega), toDigits_small _ (by omega)]
  rfl

/-- C27: after `add_file_to_owned` has been applied when `file_is_owned` is
false, `find_file_data` returns an entry with the id, so the assertion
`current_file_data != NULL` holds and the pass has a result. The entries
held before are unchanged and come first; when the file was owned nothing
changes; a new entry is added at the end with no segment and the name
`snprintf` builds, which is `file<id>` when the decimal form of the id has
at most ten characters, as it has for every id computed from a file name. -/
theorem ensure_owned_entry (client : ClientFiles_t) (fid : Int) :
    ∃ di fd,
      find_file_data (ensure_owned client fid).owned_files fid = some di ∧
      (ensure_owned client fid).owned_files[di]? = some fd ∧ fd.file_id = fid ∧
      (ensure_owned client fid).owned_files.take client.owned_files.length =
        client.owned_files ∧
      (file_is_owned client fid = true → ensure_owned client fid = client) ∧
      (file_is_owned client fid = false →
        (ensure_owned client fid).owned_files = client.owned_files ++ [fd] ∧
        fd.segments = [] ∧ fd.file_name = snprintf_file MAX_FILENAME fid ∧
        ((fmt_d fid).length ≤ 10 → fd.file_name = "file".toList ++ fmt_d fid)) ∧
      (∀ name : CStr, (fmt_d (file_id_of_name name)).length ≤ 10) ∧
      (∀ (env : DownloadEnv) (s : DownloadState) (peer : PeerInfo_t),
        s.client = ensure_owned client fid →
        (download_from_peer env s peer fid).isSome = true) := by
  have hfmt : ∀ name : CStr, (fmt_d (file_id_of_name name)).length ≤ 10 := by
    intro name
    obtain ⟨h0, h9⟩ := file_id_of_name_range name
    rw [fmt_d_small _ h0 h9]
    omega
  have hrun : ∀ (di : Nat) (fd : FileData_t),
      find_file_data (ensure_owned client fid).owned_files fid = some di →
      (ensure_owned client fid).owned_files[di]? = some fd →
      ∀ (env : DownloadEnv) (s : DownloadState) (peer : PeerInfo_t),
        s.client = ensure_owned client fid →
        (download_from_peer env s peer fid).isSome = true := by
    intro di fd hfind hget env s peer hs
    unfold download_from_peer
    rw [hs, hfind]
    simp only [hget, Option.isSome_some]
  by_cases ho : file_is_owned client fid = true
  · have hens : ensure_owned client fid = client := by
      unfold ensure_owned
      simp [ho]
    have hsome : ∃ di, find_file_data client.owned_files fid = some di := by
      cases hf : find_file_data client.owned_files fid with
      | none =>
        rw [← file_is_owned_eq_false_iff, ho] at hf
        cases hf
      | some di => exact ⟨di, rfl⟩
    obtain ⟨di, hfind⟩ := hsome
    obtain ⟨fd, hget, hid⟩ := find_file_data_some _ _ _ hfind
    rw [← hens] at hfind hget
    refine ⟨di, fd, hfind, hget, hid, ?_, fun _ => hens, ?_, hfmt, hrun di fd hfind hget⟩
    · rw [hens, List.take_length]
    · intro hno
      rw [ho] at hno
      cases hno
  · have ho1 : file_is_owned client fid = false := by simpa using ho
    have hnone := (file_is_owned_eq_false_iff client fid).mp ho1
    have hens : (ensure_owned client fid).owned_files = client.owned_files ++
        [{ file_name := snprintf_file MAX_FILENAME fid, file_id := fid, segments := [] }] := by
      unfold ensure_owned add_file_to_owned
      simp [ho1]
    have hfind : find_file_data (ensure_owned client fid).owned_files fid =
        some client.owned_files.length := by
      rw [hens]
      exact find_file_data_append_new _ _ _ hnone rfl
    have hget : (ensure_owned client fid).owned_files[client.owned_files.length]? =
        some { file_name := snprintf_file MAX_FILENAME fid, file_id := fid, segments := [] } := by
      rw [hens]
      simp
    refine ⟨_, _, hfind, hget, rfl, ?_, ?_, ?_, hfmt, hrun _ _ hfind hget⟩
    · rw [hens, List.take_left]
    · intro hyes
      rw [ho1] at hyes
      cases hyes
    · intro _
      refine ⟨hens, rfl, rfl, ?_⟩
      intro hlen
      show snprintf_file MAX_FILENAME fid = _
      unfold snprintf_file
      apply List.take_of_length_le
      simp only [List.length_append]
      have h4 : "file".toList.length = 4 := rfl
      have h15 : MAX_FILENAME = 15 := rfl
      omega

/-- Witness for C27: a client that owns nothing and the file id 1. -/
theorem ensure_owned_entry_witness :
    (ensure_owned (leecher_client 3 [peer_of 2 hashes_abc]) 1).owned_files =
      [{ file_name := "file1".toList, file_id := 1, segments := [] }] := by
  obtain ⟨di, fd, _, _, hid, _, _, hnew, _, _⟩ :=
    ensure_owned_entry (leecher_client 3 [peer_of 2 hashes_abc]) 1
  obtain ⟨h1, h2, _, h4⟩ := hnew (by decide)
  rw [h1]
  have hname := h4 (by decide)
  have hfd : fd = { file_name := "file1".toList, file_id := 1, segments := [] } := by
    cases fd with
    | mk nm id segs =>
      simp only at hid h2 hname
      rw [hid, h2, hname]
      rfl
  rw [hfd]
  rfl

/-- The property `contrib_inv` holds at the start of every pass of a run. -/
theorem contrib_steps (env : DownloadEnv) (c0 : ClientFiles_t) (n : Nat) :
    ∀ s0 s : DownloadState, contrib_inv c0 s0 → download_steps env n s0 = some s →
      contrib_inv c0 s := by
  induction n with
  | zero =>
    intro s0 s hinv h
    simp only [download_steps, Option.some.injEq] at h
    rw [← h]
    exact hinv
  | succ k ih =>
    intro s0 s hinv h
    unfold download_steps at h
    by_cases hc : download_cond s0 = true
    · rw [if_pos hc] at h
      obtain ⟨s1, hit, hinv1⟩ := contrib_pass env c0 s0 hinv hc
      rw [hit] at h
      exact ih s1 s hinv1 h
    · rw [if_neg hc] at h
      cases h

theorem complete_file_downloaded (s : DownloadState) (data : FileData_t) (fid : Int) :
    (complete_file s data fid).downloaded_segments =
      if s.downloaded_segments > 0 then 0 else s.downloaded_segments := by
  unfold complete_file
  by_cases hd : s.downloaded_segments > 0
  · simp only [if_pos hd]
  · simp only [if_neg hd]

/-- A pass that advances to the next wanted file leaves the counter at
zero. -/
theorem counter_zero_on_advance (env : DownloadEnv) (s : DownloadState)
    (hinv : download_inv s) (hcond : download_cond s = true) :
    ∃ s1, download_iter env s = some s1 ∧
      (s1.current_file_idx ≠ s.current_file_idx → s1.downloaded_segments = 0) := by
  obtain ⟨hwf, _, hI1, _, hI3⟩ := hinv
  obtain ⟨pl, w, hpl, hw, hcase⟩ := pass_cases env s hwf hcond
  rcases hcase with ⟨hle, hiter⟩ | ⟨hpos, peer, di, fd, ex, pa, _, _, _, _, hex, hiter | hdown⟩
  · have hp0 : pending s.trace = [] := by
      by_contra hne
      obtain ⟨⟨pl1, hpl1, hpos⟩, _⟩ := hI3 hne
      rw [hpl] at hpl1
      cases hpl1
      omega
    have hd0 : s.downloaded_segments = 0 := by
      rw [hI1, hp0]
      rfl
    exact ⟨_, hiter, fun _ => hd0⟩
  · refine ⟨_, hiter, fun _ => ?_⟩
    rw [complete_file_downloaded]
    have hge : 0 ≤ s.downloaded_segments := by
      rw [hI1]
      exact Int.natCast_nonneg _
    show (if s.downloaded_segments > 0 then (0 : Int) else s.downloaded_segments) = 0
    split
    · rfl
    · omega
  · obtain ⟨seg, _, _, _, hiter⟩ := hdown
    refine ⟨_, hiter, fun hne => ?_⟩
    exfalso
    apply hne
    rw [(report_progress_fields env _ _).2.1]

/-- C28: in a run with peer tables as the client builds them (no peer
advertises more than `MAX_CHUNKS` segments), at the start of every pass the
counter `downloaded_segments` is between 0 and 9 and is the number of hashes
appended since the last report; these hashes are the end of the manifest of
the current wanted file. Every `OK` received from a peer is followed by the
store of a hash, so `add_segment_to_file_data` has never returned false. The
counter is 0 at the first pass, and a pass that moves to another wanted file
leaves it at 0. -/
theorem downloaded_counter_invariant (env : DownloadEnv) (client : ClientFiles_t)
    (n : Nat) (s : DownloadState) (hwf : wf_client client)
    (hsteps : download_steps env n (download_init client) = some s) :
    0 ≤ s.downloaded_segments ∧ s.downloaded_segments ≤ 9 ∧
    s.downloaded_segments = ((pending s.trace).length : Int) ∧
    (pending s.trace ≠ [] →
      ∃ fd base, cur_entry s = some fd ∧
        fd.segments.map (fun x => x.hash) = base ++ pending s.trace) ∧
    acks_stored s.trace ∧
    (n = 0 → s.downloaded_segments = 0) ∧
    (download_cond s = true →
      ∃ s1, download_iter env s = some s1 ∧
        (s1.current_file_idx ≠ s.current_file_idx → s1.downloaded_segments = 0)) := by
  have hinv := download_steps_inv env n _ s (download_inv_init client hwf) hsteps
  have hcon := contrib_steps env client n _ s (contrib_inv_init client hwf) hsteps
  obtain ⟨_, _, hI1, hI2, hI3⟩ := hinv
  refine ⟨?_, ?_, hI1, fun hne => (hI3 hne).2, hcon.2.2.2.2.2, ?_, ?_⟩
  · rw [hI1]
    exact Int.natCast_nonneg _
  · rw [hI1]
    omega
  · intro hn
    subst hn
    simp only [download_steps, Option.some.injEq] at hsteps
    rw [← hsteps]
    rfl
  · intro hcond
    exact counter_zero_on_advance env s
      (download_steps_inv env n _ s (download_inv_init client hwf) hsteps) hcond

/-- Witness for C28: the state of a LEECHER after two passes. -/
theorem downloaded_counter_invariant_witness :
    ((download_steps (env_ok (fun _ => 0)) 2
        (download_init (leecher_client 3 [peer_of 2 hashes_abc]))).getD
      (download_init (leecher_client 3 [peer_of 2 hashes_abc]))).downloaded_segments ≤ 9 :=
  (downloaded_counter_invariant (env_ok (fun _ => 0))
    (leecher_client 3 [peer_of 2 hashes_abc]) 2
    ((download_steps (env_ok (fun _ => 0)) 2
        (download_init (leecher_client 3 [peer_of 2 hashes_abc]))).getD
      (download_init (leecher_client 3 [peer_of 2 hashes_abc])))
    (by unfold wf_client; decide) (by rfl)).2.1

/-- C29: a pass of the download loop adds to the manifest of a file at most
one hash, and only a hash the manifest does not hold: `has_segment` has
reported that no stored segment has that hash. So a manifest without a
repeated hash has none after the pass. The hashes the peers advertise have
at most `HASH_SIZE` characters, as their buffers have room for. -/
theorem no_duplicate_introduced (env : DownloadEnv) (s : DownloadState)
    (hwf : wf_client s.client) (hcond : download_cond s = true)
    (hlen : ∀ pl ∈ s.client.peers, ∀ p ∈ pl.peers_array, ∀ seg ∈ p.segments,
      seg.hash.length ≤ HASH_SIZE) :
    ∃ s1, download_iter env s = some s1 ∧
      (∀ f : Int,
        manifest_or_nil s1.client f = manifest_or_nil s.client f ∨
        ∃ h, h ∉ manifest_or_nil s.client f ∧
          manifest_or_nil s1.client f = manifest_or_nil s.client f ++ [h]) ∧
      (∀ f : Int, (manifest_or_nil s.client f).Nodup → (manifest_or_nil s1.client f).Nodup) := by
  have hstep : ∀ s1 : DownloadState,
      (∀ f : Int,
        manifest_or_nil s1.client f = manifest_or_nil s.client f ∨
        ∃ h, h ∉ manifest_or_nil s.client f ∧
          manifest_or_nil s1.client f = manifest_or_nil s.client f ++ [h]) →
      ∀ f : Int, (manifest_or_nil s.client f).Nodup → (manifest_or_nil s1.client f).Nodup := by
    intro s1 h f hnd
    rcases h f with he | ⟨x, hx, he⟩
    · rw [he]
      exact hnd
    · rw [he]
      exact List.Nodup.append hnd (List.nodup_singleton x)
        (by
          intro a ha hb
          rw [List.mem_singleton] at hb
          rw [hb] at ha
          exact hx ha)
  obtain ⟨pl, w, hpl, hw, hcase⟩ := pass_cases env s hwf hcond
  rcases hcase with ⟨hle, hiter⟩ |
    ⟨hpos, peer, di, fd, ex, pa, hpeer, hfind, hget, hfid, hex, hiter | hdown⟩
  · have hsame : ∀ f : Int,
        manifest_or_nil
            ({ s with current_file_idx := s.current_file_idx + 1 } : DownloadState).client f =
          manifest_or_nil s.client f ∨
        ∃ h, h ∉ manifest_or_nil s.client f ∧
          manifest_or_nil
              ({ s with current_file_idx := s.current_file_idx + 1 } : DownloadState).client f =
            manifest_or_nil s.client f ++ [h] := fun f => Or.inl rfl
    exact ⟨_, hiter, hsame, hstep _ hsame⟩
  · have hsame : ∀ f : Int,
        manifest_or_nil
            (complete_file
              { s with
                client := ensure_owned s.client (file_id_of_name w.file_name),
                rand_calls := if pl.peers_count > 1 then s.rand_calls + 1 else s.rand_calls,
                peer_acks := pa,
                trace := s.trace ++ ex }
              fd (file_id_of_name w.file_name)).client f =
          manifest_or_nil s.client f ∨
        ∃ h, h ∉ manifest_or_nil s.client f ∧
          manifest_or_nil
              (complete_file
                { s with
                  client := ensure_owned s.client (file_id_of_name w.file_name),
                  rand_calls :=
                    if pl.peers_count > 1 then s.rand_calls + 1 else s.rand_calls,
                  peer_acks := pa,
                  trace := s.trace ++ ex }
                fd (file_id_of_name w.file_name)).client f =
            manifest_or_nil s.client f ++ [h] := by
      intro f
      left
      rw [(complete_file_fields _ _ _).1]
      exact manifest_or_nil_ensure_owned s.client _ f
    exact ⟨_, hiter, hsame, hstep _ hsame⟩
  · obtain ⟨seg, hseg, hnot, _, hiter⟩ := hdown
    have hplm : pl ∈ s.client.peers := List.mem_iff_getElem?.mpr ⟨_, hpl⟩
    have hsl : seg.hash.length ≤ HASH_SIZE := hlen pl hplm peer hpeer seg hseg
    have hcopy : strncpy seg.hash HASH_SIZE = seg.hash := by
      unfold strncpy
      exact List.take_of_length_le hsl
    have hfind2 : find_file_data
        (ensure_owned s.client (file_id_of_name w.file_name)).owned_files fd.file_id =
        some di := by
      rw [hfid]
      exact hfind
    have hold : manifest_or_nil s.client fd.file_id = fd.segments.map (fun x => x.hash) := by
      rw [← manifest_or_nil_ensure_owned s.client (file_id_of_name w.file_name)]
      unfold manifest_or_nil owned_manifest
      rw [hfind2]
      simp only
      rw [hget]
      rfl
    have hnew : seg.hash ∉ manifest_or_nil s.client fd.file_id := by
      rw [hold]
      intro hin
      rw [← has_segment_iff_mem, hnot] at hin
      cases hin
    refine ⟨_, hiter, ?_⟩
    have hall : ∀ f : Int,
        manifest_or_nil
            { ensure_owned s.client (file_id_of_name w.file_name) with
              owned_files :=
                (ensure_owned s.client (file_id_of_name w.file_name)).owned_files.set di
                  { fd with
                    segments := fd.segments ++ [{ hash := strncpy seg.hash HASH_SIZE }] } } f =
          manifest_or_nil s.client f ∨
        ∃ h, h ∉ manifest_or_nil s.client f ∧
          manifest_or_nil
              { ensure_owned s.client (file_id_of_name w.file_name) with
                owned_files :=
                  (ensure_owned s.client (file_id_of_name w.file_name)).owned_files.set di
                    { fd with
                      segments := fd.segments ++
                        [{ hash := strncpy seg.hash HASH_SIZE }] } } f =
            manifest_or_nil s.client f ++ [h] := by
      intro f
      have hm := manifest_or_nil_set (ensure_owned s.client (file_id_of_name w.file_name))
        di fd
        { fd with segments := fd.segments ++ [{ hash := strncpy seg.hash HASH_SIZE }] }
        [{ hash := strncpy seg.hash HASH_SIZE }] f hfind2 hget rfl rfl
      rw [hm, manifest_or_nil_ensure_owned]
      by_cases hf : f = fd.file_id
      · right
        refine ⟨seg.hash, ?_, ?_⟩
        · rw [hf]
          exact hnew
        · rw [if_pos hf, hcopy]
          rfl
      · left
        rw [if_neg hf, List.append_nil]
    have hall2 : ∀ f : Int,
        manifest_or_nil
            (report_progress env
              { s with
                client :=
                  { ensure_owned s.client (file_id_of_name w.file_name) with
                    owned_files :=
                      (ensure_owned s.client
                        (file_id_of_name w.file_name)).owned_files.set di
                        { fd with
                          segments := fd.segments ++
                            [{ hash := strncpy seg.hash HASH_SIZE }] } },
                rand_calls := if pl.peers_count > 1 then s.rand_calls + 1 else s.rand_calls,
                downloaded_segments := s.downloaded_segments + 1,
                peer_acks := pa,
                trace := s.trace ++ ex ++
                  [Event.store fd.file_id (strncpy seg.hash HASH_SIZE)] }
              { fd with
                segments := fd.segments ++
                  [{ hash := strncpy seg.hash HASH_SIZE }] }).client f =
          manifest_or_nil s.client f ∨
        ∃ h, h ∉ manifest_or_nil s.client f ∧
          manifest_or_nil
              (report_progress env
                { s with
                  client :=
                    { ensure_owned s.client (file_id_of_name w.file_name) with
                      owned_files :=
                        (ensure_owned s.client
                          (file_id_of_name w.file_name)).owned_files.set di
                          { fd with
                            segments := fd.segments ++
                              [{ hash := strncpy seg.hash HASH_SIZE }] } },
                  rand_calls :=
                    if pl.peers_count > 1 then s.rand_calls + 1 else s.rand_calls,
                  downloaded_segments := s.downloaded_segments + 1,
                  peer_acks := pa,
                  trace := s.trace ++ ex ++
                    [Event.store fd.file_id (strncpy seg.hash HASH_SIZE)] }
                { fd with
                  segments := fd.segments ++
                    [{ hash := strncpy seg.hash HASH_SIZE }] }).client f =
            manifest_or_nil s.client f ++ [h] := by
      intro f
      rw [(report_progress_fields env _ _).1]
      exact hall f
    exact ⟨hall2, hstep _ hall2⟩

/-- Witness for C29: the first pass of `partial_owner_client`, which stores
the third of `hashes_abc`. -/
theorem no_duplicate_introduced_witness :
    ∃ s1, download_iter (env_ok (fun _ => 0)) (download_init partial_owner_client) = some s1 ∧
      (∀ f : Int,
        manifest_or_nil s1.client f =
            manifest_or_nil (download_init partial_owner_client).client f ∨
        ∃ h, h ∉ manifest_or_nil (download_init partial_owner_client).client f ∧
          manifest_or_nil s1.client f =
            manifest_or_nil (download_init partial_owner_client).client f ++ [h]) ∧
      (∀ f : Int, (manifest_or_nil (download_init partial_owner_client).client f).Nodup →
        (manifest_or_nil s1.client f).Nodup) :=
  no_duplicate_introduced (env_ok (fun _ => 0)) (download_init partial_owner_client)
    (by unfold wf_client; decide) (by decide) (by decide)

theorem fgets_line (h : List Char) (rest : List Char) (hnl : NEWLINE ∉ h)
    (hlen : h.length < BUFF_SIZE - 1) :
    fgets BUFF_SIZE (h ++ NEWLINE :: rest) = some (h ++ [NEWLINE], rest) := by
  unfold fgets
  rw [if_neg (by simp), fgets_chars_line h rest hnl _ hlen]
  simp

theorem trim_newline_line (h : List Char) : trim_newline (h ++ [NEWLINE]) = h := by
  unfold trim_newline
  rw [List.getLast?_append_of_ne_nil _ (by simp)]
  simp

theorem takeWhile_until (p : Char → Bool) (x : Char) (tl : List Char) (hx : p x = false) :
    ∀ l : List Char, (∀ a ∈ l, p a = true) →
      (l ++ x :: tl).takeWhile p = l ∧ (l ++ x :: tl).dropWhile p = x :: tl := by
  intro l
  induction l with
  | nil =>
    intro _
    simp [List.takeWhile, List.dropWhile, hx]
  | cons c cs ih =>
    intro h
    have hc : p c = true := h c (List.mem_cons_self _ _)
    have hcs := ih (fun a ha => h a (List.mem_cons_of_mem _ ha))
    simp [List.takeWhile, List.dropWhile, hc, hcs.1, hcs.2]

/-- The first token of a line that starts with a name without spaces,
followed by a space. -/
theorem strtok_name (name tl : List Char) (hne : name ≠ []) (hsp : ' ' ∉ name) :
    strtok (name ++ ' ' :: tl) ' ' = some (name, tl) := by
  have hall : ∀ a ∈ name, (fun x : Char => decide (x ≠ ' ')) a = true := by
    intro a ha
    have : a ≠ ' ' := fun he => hsp (he ▸ ha)
    simpa using this
  obtain ⟨h1, h2⟩ := takeWhile_until (fun x : Char => decide (x ≠ ' ')) ' ' tl (by simp)
    name hall
  cases name with
  | nil => exact absurd rfl hne
  | cons c cs =>
    have hc : c ≠ ' ' := fun he => hsp (he ▸ List.mem_cons_self _ _)
    unfold strtok
    have hd : ((c :: cs) ++ ' ' :: tl).dropWhile (fun x => decide (x = ' ')) =
        c :: (cs ++ ' ' :: tl) := by
      simp [List.dropWhile, hc]
    rw [hd]
    show some ((((c :: cs) ++ ' ' :: tl).takeWhile (fun x => decide (x ≠ ' ')),
      (((c :: cs) ++ ' ' :: tl).dropWhile (fun x => decide (x ≠ ' '))).drop 1)) = _
    rw [h1, h2]
    rfl

/-- The reader of the owned files on the line `<name> 0`. -/
theorem read_owned_files_name (name rest : List Char) (hne : name ≠ [])
    (hsp : ' ' ∉ name) (hnl : NEWLINE ∉ name) (hfit : name.length < MAX_FILENAME) :
    read_owned_files 1 (name ++ " 0".toList ++ NEWLINE :: rest) =
      some ([{ file_name := name, file_id := file_id_of_name name, segments := [] }],
        rest) := by
  have hnl2 : NEWLINE ∉ name ++ " 0".toList := by
    intro h
    rcases List.mem_append.1 h with h | h
    · exact hnl h
    · revert h
      decide
  have hlen : (name ++ " 0".toList).length < BUFF_SIZE - 1 := by
    have : (name ++ " 0".toList).length = name.length + 2 := by simp
    rw [this]
    unfold MAX_FILENAME at hfit
    unfold BUFF_SIZE
    omega
  have hline : name ++ " 0".toList ++ [NEWLINE] = name ++ ' ' :: ['0', NEWLINE] := by
    simp
  have htok2 : strtok ['0', NEWLINE] NEWLINE = some (['0'], []) := by decide
  unfold read_owned_files
  rw [fgets_line _ rest hnl2 hlen]
  simp only [hline, strtok_name name _ hne hsp, htok2]
  have h0 : atoi ['0'] = 0 := by decide
  simp only [h0]
  rw [if_neg (by decide)]
  simp [read_segments, read_owned_files]

/-- The reader of the wanted names on one line: the name is cut to
`MAX_FILENAME - 1` characters. -/
theorem read_wanted_files_name (name rest : List Char) (hnl : NEWLINE ∉ name)
    (hlen : name.length < BUFF_SIZE - 1) :
    read_wanted_files 1 (name ++ NEWLINE :: rest) =
      some ([{ file_name := name.take 14 }], rest) := by
  unfold read_wanted_files
  rw [fgets_line name rest hnl hlen]
  simp only [read_wanted_files, trim_newline_line]
  rfl

/-- C21 fails as stated: a LEECHER whose manifest names the wanted file
`file_number_12345` stores the first 14 characters of the name,
`file_number_12`, and sends the id 2 for it, while the last character of the
name is the digit 5, whose value is the id `atoi` gives on the last
character of the whole name. -/
theorem wanted_name_cut_changes_id :
    (read_from_file (text_of_lines ["0", "1", "file_number_12345"]) 1).map
        (fun c => (c.wanted_files.map (fun w => w.file_name), send_wanted_files c)) =
      some (["file_number_12".toList],
        [Event.send 0 3 (Payload.int 1), Event.send 0 3 (Payload.ints [2])]) ∧
    file_id_of_name "file_number_12345".toList = 5 ∧
    file_id_of_name "file_number_12".toList = 2 := by
  decide

/-- C21 (amended): the file id of a non-empty name is the value of its last
character when that is an ASCII digit and 0 otherwise, so it lies in
`0 .. 9`, and `file10` has the id 0. For one name of at most
`MAX_FILENAME - 1` characters the three places compute this value: the
reader of the owned files on the line `<name> 0` stores the name with this
id (and every owned file it returns has the id of its name), the reader of
the wanted files stores the name, for which `send_wanted_files` sends this
id, and the tracker gives the received name this id. A longer wanted name is
cut to its first 14 characters when it is read, and the id sent is that of
the cut name. -/
theorem file_id_is_last_digit (name : CStr) (hne : name ≠ []) :
    file_id_of_name name =
      (if (name.getLast hne).isDigit then (((name.getLast hne).toNat - 48 : Nat) : Int)
        else 0) ∧
    0 ≤ file_id_of_name name ∧ file_id_of_name name ≤ 9 ∧
    file_id_of_name "file10".toList = 0 ∧
    (' ' ∉ name → NEWLINE ∉ name → name.length < MAX_FILENAME →
      ∀ rest : List Char,
        read_owned_files 1 (name ++ " 0".toList ++ NEWLINE :: rest) =
          some ([{ file_name := name, file_id := file_id_of_name name, segments := [] }],
            rest)) ∧
    (∀ (n : Nat) (inp : List Char) (files : List FileData_t) (rest : List Char),
      read_owned_files n inp = some (files, rest) →
      ∀ fd ∈ files, fd.file_id = file_id_of_name fd.file_name) ∧
    (NEWLINE ∉ name → name.length < BUFF_SIZE - 1 →
      ∀ rest : List Char,
        read_wanted_files 1 (name ++ NEWLINE :: rest) =
          some ([{ file_name := name.take 14 }], rest)) ∧
    (∀ client : ClientFiles_t, client.wanted_files = [{ file_name := name.take 14 }] →
      send_wanted_files client =
        [Event.send 0 3 (Payload.int 1),
         Event.send 0 3 (Payload.ints [file_id_of_name (name.take 14)])]) ∧
    (name.length < MAX_FILENAME → name.take 14 = name) ∧
    (name.length < MAX_FILENAME →
      ∀ (max_file_id : Int) (rest : List Payload),
        recv_files 1 max_file_id
            (Payload.chars MAX_FILENAME name :: Payload.int 0 :: rest) =
          some ([{ file_name := name, file_id := file_id_of_name name, segments := [] }],
            (if max_file_id > file_id_of_name name then max_file_id
              else file_id_of_name name),
            rest)) := by
  refine ⟨file_id_of_name_last name hne, (file_id_of_name_range name).1,
    (file_id_of_name_range name).2, by decide, ?_, ?_, ?_, ?_, ?_, ?_⟩
  · intro hsp hnl hfit rest
    exact read_owned_files_name name rest hne hsp hnl hfit
  · intro n inp files rest h
    exact read_owned_files_ids n inp files rest h
  · intro hnl hlen rest
    exact read_wanted_files_name name rest hnl hlen
  · intro client hw
    unfold send_wanted_files
    rw [hw]
    rfl
  · intro hfit
    exact List.take_of_length_le (Nat.le_of_lt_succ hfit)
  · intro hfit mx rest
    have hn15 : name.take MAX_FILENAME = name := List.take_of_length_le (le_of_lt hfit)
    have hn14 : strncpy name (MAX_FILENAME - 1) = name := by
      unfold strncpy
      exact List.take_of_length_le (Nat.le_sub_one_of_lt hfit)
    simp [recv_files, recv_chars, recv_int, recv_segments, hn15, hn14]

/-- Witness for C21: the name `file7` has the id 7 as an owned name, as a
wanted name and at the tracker. -/
theorem file_id_is_last_digit_witness :
    file_id_of_name "file7".toList = 7 ∧
    read_owned_files 1 "file7 0\n".toList =
      some ([{ file_name := "file7".toList, file_id := 7, segments := [] }], []) ∧
    read_wanted_files 1 "file7\n".toList = some ([{ file_name := "file7".toList }], []) ∧
    send_wanted_files
        { client_rank := 1, owned_files := [],
          wanted_files := [{ file_name := "file7".toList }], peers := [],
          client_type := Client_Type_t.LEECHER } =
      [Event.send 0 3 (Payload.int 1), Event.send 0 3 (Payload.ints [7])] ∧
    recv_files 1 0 [Payload.chars MAX_FILENAME "file7".toList, Payload.int 0] =
      some ([{ file_name := "file7".toList, file_id := 7, segments := [] }], 7, []) := by
  have h := file_id_is_last_digit "file7".toList (by decide)
  have h7 : file_id_of_name "file7".toList = 7 := by
    rw [h.1]
    decide
  refine ⟨h7, ?_, ?_, ?_, ?_⟩
  · have h1 := h.2.2.2.2.1 (by decide) (by decide) (by decide) []
    rw [h7] at h1
    exact h1
  · exact h.2.2.2.2.2.2.1 (by decide) (by decide) []
  · have h1 := h.2.2.2.2.2.2.2.1
      { client_rank := 1, owned_files := [],
        wanted_files := [{ file_name := "file7".toList }], peers := [],
        client_type := Client_Type_t.LEECHER } rfl
    exact h1
  · rw [h.2.2.2.2.2.2.2.2.2 (by decide) 0 []]
    decide

/-- The answer to a query whose sender has a slot and sends the kind the slot
holds: the registry is unchanged. -/
theorem answer_query_same (m : TrackerDataSet_t) (q : PeersQuery) (slot : TrackerData_t)
    (h1 : 1 ≤ q.source) (hs : m.data[(q.source - 1).toNat]? = some slot)
    (hk : client_type_of_code q.client_type = some slot.client_type) :
    answer_query m q = some (m, q.files_id.flatMap (swarm_reply m q.source)) := by
  have hset : m.data.set (q.source - 1).toNat { slot with client_type := slot.client_type } =
      m.data := by
    apply List.ext_getElem?
    intro j
    rw [List.getElem?_set]
    by_cases hj : (q.source - 1).toNat = j
    · subst hj
      have hlt : (q.source - 1).toNat < m.data.length := by
        rcases List.getElem?_eq_some_iff.mp hs with ⟨hh, _⟩
        exact hh
      rw [if_pos rfl, if_pos hlt, hs]
    · rw [if_neg hj]
  unfold answer_query
  rw [if_neg (by omega), hs, hk]
  simp only
  rw [hset]

/-- The loop of `send_peers_to_clients` when as many queries wait as there
are slots that are not SEEDER, each from a rank with a slot and with the
kind the slot holds: every query is taken and answered in order, and the
registry is unchanged. -/
theorem send_peers_loop_total (m : TrackerDataSet_t) :
    ∀ (n i : Nat) (qs : List PeersQuery) (sent : List Event),
      i + n = m.data.length →
      (∀ q ∈ qs, 1 ≤ q.source ∧ ∃ slot, m.data[(q.source - 1).toNat]? = some slot ∧
        client_type_of_code q.client_type = some slot.client_type) →
      qs.length =
        (m.data.drop i).countP (fun cd => decide (cd.client_type ≠ Client_Type_t.SEEDER)) →
      send_peers_loop n i m qs sent =
        some (m, sent ++ qs.flatMap (fun q => q.files_id.flatMap (swarm_reply m q.source)),
          []) := by
  intro n
  induction n with
  | zero =>
    intro i qs sent hi _ hcount
    have hdrop : m.data.drop i = [] := List.drop_eq_nil_of_le (by omega)
    rw [hdrop] at hcount
    have hqs : qs = [] := List.length_eq_zero.mp (by simpa using hcount)
    subst hqs
    simp [send_peers_loop]
  | succ n ih =>
    intro i qs sent hi hq hcount
    have hlt : i < m.data.length := by omega
    have hget : m.data[i]? = some (m.data[i]) := List.getElem?_eq_getElem hlt
    have hdrop : m.data.drop i = m.data[i] :: m.data.drop (i + 1) :=
      List.drop_eq_getElem_cons hlt
    rw [hdrop] at hcount
    rw [send_peers_loop]
    unfold send_peers_step
    rw [hget]
    simp only
    by_cases hseed : (m.data[i]).client_type = Client_Type_t.SEEDER
    · rw [if_pos hseed]
      simp only
      rw [List.countP_cons_of_neg _ _ (by simp [hseed])] at hcount
      exact ih (i + 1) qs sent (by omega) hq hcount
    · rw [if_neg hseed]
      rw [List.countP_cons_of_pos _ _ (by simp [hseed])] at hcount
      cases qs with
      | nil => simp at hcount
      | cons q tl =>
        obtain ⟨h1, slot, hs, hk⟩ := hq q (List.mem_cons_self _ _)
        simp only
        rw [answer_query_same m q slot h1 hs hk]
        simp only
        rw [ih (i + 1) tl _ (by omega)
          (fun x hx => hq x (List.mem_cons_of_mem _ hx))
          (by simpa using hcount)]
        simp only [List.flatMap_cons, List.append_assoc]

theorem client_type_code_inv (k : Client_Type_t) :
    client_type_of_code (client_type_code k) = some k := by
  cases k <;> rfl

/-- The registry of the intake has as many slots that are not SEEDER as
there are clients that are not. -/
theorem intake_kinds_count (clients : List ClientFiles_t) (td : TrackerDataSet_t)
    (hlen : td.data.length = clients.length)
    (hslots : ∀ (i : Nat) (c : ClientFiles_t), clients[i]? = some c →
      td.data[i]? = some (slot_of ((i : Int) + 1) c)) :
    td.data.countP (fun cd => decide (cd.client_type ≠ Client_Type_t.SEEDER)) =
      (clients.filter (fun x => decide (x.client_type ≠ Client_Type_t.SEEDER))).length := by
  have hmap : td.data.map (fun cd => cd.client_type) =
      clients.map (fun x => x.client_type) := by
    apply List.ext_getElem?
    intro j
    simp only [List.getElem?_map]
    cases hcj : clients[j]? with
    | none =>
      have hj : clients.length ≤ j := List.getElem?_eq_none_iff.mp hcj
      have : td.data[j]? = none := List.getElem?_eq_none_iff.mpr (by omega)
      rw [this]
      rfl
    | some c =>
      rw [hslots j c hcj]
      rfl
  have h1 : td.data.countP (fun cd => decide (cd.client_type ≠ Client_Type_t.SEEDER)) =
      (td.data.map (fun cd => cd.client_type)).countP
        (fun k => decide (k ≠ Client_Type_t.SEEDER)) := by
    rw [List.countP_map]
    rfl
  have h2 : (clients.filter
      (fun x => decide (x.client_type ≠ Client_Type_t.SEEDER))).length =
      (clients.map (fun x => x.client_type)).countP
        (fun k => decide (k ≠ Client_Type_t.SEEDER)) := by
    rw [List.countP_map, List.countP_eq_length_filter]
    rfl
  rw [h1, h2, hmap]

/-- C14: the inventory a client uploads comes back in the reply to a swarm
query. The clients `clients` (rank `i + 1` is `clients[i]`, their owned
files as `read_from_file` leaves them) each call `send_data_to_tracker`, and
the client of rank `r` holds the hashes `hs` for the file id `f`, with
`1 ≤ f`. Then the intake returns a registry in which the manifest of
`(r, f)` is `hs`; the reply to a query of any client `q` for `f` contains
the segment count `|hs|` and the rank `r` (on the tag 3) and the hashes `hs`
in order (32 characters each, on the tag 0); so do the messages
`send_peers_to_clients` sends for every query taken that wants `f`; and when
the queries are as many as the clients that are not SEEDER, each from a
client and with the kind of that client, `send_peers_to_clients` returns,
takes every query, sends the replies to them in order and leaves the
registry as it is. -/
theorem inventory_round_trip (clients : List ClientFiles_t) (c : ClientFiles_t)
    (r f : Int) (hs : List CStr)
    (hok : ∀ x ∈ clients, owned_ok x)
    (hr : 1 ≤ r) (hc : clients[(r - 1).toNat]? = some c)
    (hman : owned_manifest c f = some hs) (hf : 1 ≤ f) :
    ∃ td oks,
      receive_data_from_clients ((clients.length : Int) + 1) (intake_inbox clients) =
        some (td, oks) ∧
      tracker_manifest td r f = some hs ∧
      (∀ q : Int, ∃ pre post,
        swarm_reply td q f = pre ++
          ([Event.send q 3 (Payload.int (hs.length : Int)), Event.send q 3 (Payload.int r)]
            ++ hs.map (fun h => Event.send q 0 (Payload.chars 32 h))) ++ post) ∧
      (∀ (qs : List PeersQuery) (td1 : TrackerDataSet_t) (sent : List Event)
          (rest : List PeersQuery),
        send_peers_to_clients td qs = some (td1, sent, rest) →
        ∃ taken, qs = taken ++ rest ∧
          ∀ q ∈ taken, f ∈ q.files_id →
            ∃ pre post, sent = pre ++
              ([Event.send q.source 3 (Payload.int (hs.length : Int)),
                Event.send q.source 3 (Payload.int r)]
                ++ hs.map (fun h => Event.send q.source 0 (Payload.chars 32 h))) ++ post) ∧
      (∀ qs : List PeersQuery,
        (∀ q ∈ qs, 1 ≤ q.source ∧ ∃ x, clients[(q.source - 1).toNat]? = some x ∧
          q.client_type = client_type_code x.client_type) →
        qs.length =
          (clients.filter
            (fun x => decide (x.client_type ≠ Client_Type_t.SEEDER))).length →
        ∃ sent, send_peers_to_clients td qs = some (td, sent, []) ∧
          sent = qs.flatMap (fun q => q.files_id.flatMap (swarm_reply td q.source)) ∧
          ∀ q ∈ qs, f ∈ q.files_id →
            ∃ pre post, sent = pre ++
              ([Event.send q.source 3 (Payload.int (hs.length : Int)),
                Event.send q.source 3 (Payload.int r)]
                ++ hs.map (fun h => Event.send q.source 0 (Payload.chars 32 h))) ++ post) := by
  rcases receive_data_from_clients_spec clients hok with
    ⟨td, oks, hrecv, hlen, hslots, hnonneg, hids, hsw⟩
  have hlt : (r - 1).toNat < clients.length := by
    rcases List.getElem?_eq_some_iff.mp hc with ⟨hh, _⟩
    exact hh
  have hcm : c ∈ clients := by
    rw [List.mem_iff_getElem?]
    exact ⟨_, hc⟩
  have hslot := hslots (r - 1).toNat c hc
  have hman2 : tracker_manifest td r f = some hs := by
    rw [tracker_manifest_eq_files td r f _ hr hslot]
    exact hman
  have hfind : ∃ fd ∈ c.owned_files, fd.file_id = f := by
    rw [owned_manifest_eq_files] at hman
    unfold files_manifest at hman
    cases hfd : find_file_data c.owned_files f with
    | none => rw [hfd] at hman; cases hman
    | some di =>
      rcases find_file_data_some _ _ _ hfd with ⟨fd, hget, hid⟩
      exact ⟨fd, List.mem_iff_getElem?.mpr ⟨di, hget⟩, hid⟩
  rcases hfind with ⟨fd, hfd, hid⟩
  have hf2 : f ≤ td.swarm_size := by
    rw [← hid]
    exact hids c hcm fd hfd
  have hne : td.swarm_size ≠ 0 := by omega
  have hswarms := (hsw hne).1
  have hentry : tracker_has_entry td r f = true := by
    unfold tracker_has_entry
    rw [if_neg (by omega), hslot]
    simp only [slot_of, List.any_eq_true, decide_eq_true_eq]
    exact ⟨fd, hfd, hid⟩
  have hmem : r ∈ swarm_members td.swarms f := by
    rw [hswarms]
    exact (create_file_swarms_members_iff td f r hf hf2 hr (by omega)).mpr hentry
  have hreply : ∀ q : Int, ∃ pre post,
      swarm_reply td q f = pre ++ peer_block q r hs ++ post :=
    fun q => swarm_reply_contains td q f r hs hf hf2 hmem hman2
  have hblock : ∀ (taken : List PeersQuery) (sent : List Event),
      sent = taken.flatMap (fun q => q.files_id.flatMap (swarm_reply td q.source)) →
      ∀ q ∈ taken, f ∈ q.files_id →
        ∃ pre post, sent = pre ++ peer_block q.source r hs ++ post := by
    intro taken sent hsent q hqt hfq
    rcases flatMap_contains (fun q => q.files_id.flatMap (swarm_reply td q.source)) taken q
      hqt with ⟨p1, s1, h1⟩
    rcases flatMap_contains (swarm_reply td q.source) q.files_id f hfq with ⟨p2, s2, h2⟩
    rcases hreply q.source with ⟨p3, s3, h3⟩
    rw [← hsent] at h1
    rcases append_block_trans _ _ _ _ _ _ _ h1 h2 with ⟨a, b, hab⟩
    exact append_block_trans _ _ _ _ _ _ _ hab h3
  refine ⟨td, oks, hrecv, hman2, hreply, ?_, ?_⟩
  · intro qs td1 sent rest hsend
    unfold send_peers_to_clients at hsend
    rcases send_peers_loop_spec _ _ _ _ _ _ _ _ hsend with ⟨_, taken, hq, hsent⟩
    rw [List.nil_append] at hsent
    exact ⟨taken, hq, hblock taken sent hsent⟩
  · intro qs hq hcount
    have hq2 : ∀ q ∈ qs, 1 ≤ q.source ∧
        ∃ slot, td.data[(q.source - 1).toNat]? = some slot ∧
          client_type_of_code q.client_type = some slot.client_type := by
      intro q hqm
      obtain ⟨h1, x, hx, hk⟩ := hq q hqm
      refine ⟨h1, _, hslots _ x hx, ?_⟩
      rw [hk]
      exact client_type_code_inv x.client_type
    have hcount2 : qs.length =
        (td.data.drop 0).countP
          (fun cd => decide (cd.client_type ≠ Client_Type_t.SEEDER)) := by
      rw [List.drop_zero, intake_kinds_count clients td hlen hslots]
      exact hcount
    have hrun := send_peers_loop_total td td.data.length 0 qs [] (by omega) hq2 hcount2
    rw [List.nil_append] at hrun
    exact ⟨_, hrun, rfl, hblock qs _ rfl⟩

/-- Witness for C14: a SEEDER of rank 1 uploads `file1` with two hashes, and
the LEECHER of rank 2 uploads nothing and then asks for `file1`: the reply
holds the count 2, the rank 1 and the two hashes. -/
theorem inventory_round_trip_witness :
    ∃ td oks sent,
      receive_data_from_clients
          (([seeder_of 1 "file1", bare_leecher 2].length : Int) + 1)
          (intake_inbox [seeder_of 1 "file1", bare_leecher 2]) = some (td, oks) ∧
      tracker_manifest td 1 1 = some [List.replicate 32 'A', List.replicate 32 'B'] ∧
      send_peers_to_clients td [{ source := 2, client_type := 2, files_id := [1] }] =
        some (td, sent, []) ∧
      ∃ pre post, sent = pre ++
        [Event.send 2 3 (Payload.int 2), Event.send 2 3 (Payload.int 1),
         Event.send 2 0 (Payload.chars 32 (List.replicate 32 'A')),
         Event.send 2 0 (Payload.chars 32 (List.replicate 32 'B'))] ++ post := by
  obtain ⟨td, oks, h1, h2, _, _, h5⟩ :=
    inventory_round_trip [seeder_of 1 "file1", bare_leecher 2] (seeder_of 1 "file1") 1 1
      (hashes_abc.take 2)
      (by
        intro x hx
        simp only [List.mem_cons, List.mem_singleton, List.not_mem_nil, or_false] at hx
        rcases hx with hx | hx
        · rw [hx]
          unfold owned_ok
          decide
        · rw [hx]
          unfold owned_ok
          decide)
      (by decide) rfl (by decide) (by decide)
  obtain ⟨sent, hs1, _, hs3⟩ := h5 [{ source := 2, client_type := 2, files_id := [1] }]
    (by
      intro q hq
      rw [List.mem_singleton] at hq
      subst hq
      exact ⟨by decide, bare_leecher 2, rfl, rfl⟩)
    (by decide)
  obtain ⟨pre, post, hpp⟩ := hs3 { source := 2, client_type := 2, files_id := [1] }
    (List.mem_singleton.2 rfl) (by decide)
  exact ⟨td, oks, sent, h1, h2, hs1, pre, post, hpp⟩

theorem recv_from_rest (rank : Int) :
    ∀ (q q1 : List RawInform) (p : Payload), recv_from rank q = some (p, q1) →
      q1.length + 1 = q.length ∧ (∀ x ∈ q1, x ∈ q) ∧
      ∃ x ∈ q, x.source = rank ∧ x.payload = p := by
  intro q
  induction q with
  | nil =>
    intro q1 p h
    simp [recv_from] at h
  | cons m rest ih =>
    intro q1 p h
    rw [recv_from] at h
    by_cases hm : m.source = rank
    · rw [if_pos hm] at h
      simp only [Option.some.injEq, Prod.mk.injEq] at h
      obtain ⟨h1, h2⟩ := h
      subst h2
      exact ⟨rfl, fun x hx => List.mem_cons_of_mem _ hx,
        m, List.mem_cons_self _ _, hm, h1⟩
    · rw [if_neg hm] at h
      cases hr : recv_from rank rest with
      | none => rw [hr] at h; cases h
      | some res =>
        obtain ⟨p1, r1⟩ := res
        rw [hr] at h
        simp only [Option.some.injEq, Prod.mk.injEq] at h
        obtain ⟨h1, h2⟩ := h
        subst h1 h2
        obtain ⟨hl, hsub, x, hx, hxs, hxp⟩ := ih r1 p1 hr
        refine ⟨by simp only [List.length_cons]; omega, ?_, x,
          List.mem_cons_of_mem _ hx, hxs, hxp⟩
        intro y hy
        rcases List.mem_cons.1 hy with hy | hy
        · rw [hy]
          exact List.mem_cons_self _ _
        · exact List.mem_cons_of_mem _ (hsub y hy)

theorem recv_hashes_rest (rank : Int) :
    ∀ (n : Nat) (q q1 : List RawInform) (hs : List CStr),
      recv_hashes n rank q = Intake.got hs q1 →
      q1.length ≤ q.length ∧ (∀ x ∈ q1, x ∈ q) := by
  intro n
  induction n with
  | zero =>
    intro q q1 hs h
    simp only [recv_hashes, Intake.got.injEq] at h
    rw [← h.2]
    exact ⟨le_refl _, fun x hx => hx⟩
  | succ n ih =>
    intro q q1 hs h
    rw [recv_hashes] at h
    cases hr : recv_from rank q with
    | none => rw [hr] at h; cases h
    | some res =>
      obtain ⟨p, r1⟩ := res
      rw [hr] at h
      simp only at h
      cases hb : hash_buffer_of p with
      | none => rw [hb] at h; cases h
      | some buff =>
        rw [hb] at h
        simp only at h
        cases hrec : recv_hashes n rank r1 with
        | stop e => rw [hrec] at h; cases h
        | got hs1 q2 =>
          rw [hrec] at h
          simp only [Intake.got.injEq] at h
          obtain ⟨hl, hsub, _⟩ := recv_from_rest rank q r1 p hr
          obtain ⟨hl2, hsub2⟩ := ih r1 q2 hs1 hrec
          rw [← h.2]
          exact ⟨by omega, fun x hx => hsub x (hsub2 x hx)⟩

theorem recv_hashes_not_left (rank : Int) :
    ∀ (n : Nat) (q : List RawInform), recv_hashes n rank q ≠ Intake.stop ServeEnd.left := by
  intro n
  induction n with
  | zero =>
    intro q h
    simp [recv_hashes] at h
  | succ n ih =>
    intro q h
    rw [recv_hashes] at h
    cases hr : recv_from rank q with
    | none => rw [hr] at h; cases h
    | some res =>
      obtain ⟨p, r1⟩ := res
      rw [hr] at h
      simp only at h
      cases hb : hash_buffer_of p with
      | none => rw [hb] at h; cases h
      | some buff =>
        rw [hb] at h
        simp only at h
        cases hrec : recv_hashes n rank r1 with
        | stop e =>
          rw [hrec] at h
          simp only [Intake.stop.injEq] at h
          rw [h] at hrec
          exact ih r1 hrec
        | got hs1 q2 => rw [hrec] at h; cases h

theorem recv_update_rest (rank : Int) (q q1 : List RawInform) (p : Int × List CStr)
    (h : recv_update rank q = Intake.got p q1) :
    q1.length ≤ q.length ∧ (∀ x ∈ q1, x ∈ q) := by
  unfold recv_update at h
  split at h
  · cases h
  · rename_i fid r1 hr
    split at h
    · rename_i hs q2 hrec
      simp only [Intake.got.injEq] at h
      obtain ⟨hl, hsub, _⟩ := recv_from_rest rank q r1 _ hr
      obtain ⟨hl2, hsub2⟩ := recv_hashes_rest rank 10 r1 q2 hs hrec
      rw [← h.2]
      exact ⟨by omega, fun x hx => hsub x (hsub2 x hx)⟩
    · cases h
  · cases h

theorem recv_update_not_left (rank : Int) (q : List RawInform) :
    recv_update rank q ≠ Intake.stop ServeEnd.left := by
  intro h
  unfold recv_update at h
  split at h
  · cases h
  · split at h
    · cases h
    · rename_i e hrec
      simp only [Intake.stop.injEq] at h
      rw [h] at hrec
      exact recv_hashes_not_left rank 10 _ hrec
  · cases h

/-- A message taken by the receive of the tracker loop: fewer messages wait
afterwards, all of them waited before, and the sender is that of a message
that waited. -/
theorem take_inform_got (q rest : List RawInform) (m : InformMsg)
    (h : take_inform q = Intake.got m rest) :
    rest.length < q.length ∧ (∀ x ∈ rest, x ∈ q) ∧ ∃ x ∈ q, x.source = m.source := by
  cases q with
  | nil => simp [take_inform] at h
  | cons x tl =>
    rw [take_inform] at h
    split at h
    · cases h
    · split at h
      · split at h
        · rename_i p q2 hup
          simp only [Intake.got.injEq] at h
          obtain ⟨hl, hsub⟩ := recv_update_rest x.source tl q2 p hup
          rw [← h.2, ← h.1]
          exact ⟨by simp only [List.length_cons]; omega,
            fun y hy => List.mem_cons_of_mem _ (hsub y hy),
            x, List.mem_cons_self _ _, rfl⟩
        · cases h
      · simp only [Intake.got.injEq] at h
        rw [← h.2, ← h.1]
        exact ⟨by simp, fun y hy => List.mem_cons_of_mem _ hy,
          x, List.mem_cons_self _ _, rfl⟩

theorem take_inform_not_left (q : List RawInform) :
    take_inform q ≠ Intake.stop ServeEnd.left := by
  intro h
  cases q with
  | nil => simp [take_inform] at h
  | cons x tl =>
    rw [take_inform] at h
    split at h
    · cases h
    · split at h
      · split at h
        · cases h
        · rename_i e hup
          simp only [Intake.stop.injEq] at h
          rw [h] at hup
          exact recv_update_not_left x.source tl hup
      · cases h

/-- The senders of the messages the receive of the loop takes are senders of
waiting messages. -/
theorem frame_loop_sources :
    ∀ (n : Nat) (q : List RawInform), ∀ msg ∈ (frame_loop n q).1,
      ∃ x ∈ q, x.source = msg.source := by
  intro n
  induction n with
  | zero =>
    intro q msg h
    simp [frame_loop] at h
  | succ n ih =>
    intro q msg h
    rw [frame_loop] at h
    cases ht : take_inform q with
    | stop e =>
      rw [ht] at h
      simp at h
    | got m rest =>
      rw [ht] at h
      simp only [List.mem_cons] at h
      obtain ⟨_, hsub, hx⟩ := take_inform_got q rest m ht
      rcases h with h | h
      · rw [h]
        exact hx
      · obtain ⟨x, hxm, hxs⟩ := ih rest msg h
        exact ⟨x, hsub x hxm, hxs⟩

/-- The tracker loop on the waiting messages and the tracker loop on the
messages it has handled: the messages handled are the first of those the
receive of the loop would take, the local variables are those of
`tracker_loop` on them, which takes them all, and the loop has been left
exactly when `continue_tracking` is false. -/
theorem tracker_serve_loop_spec (total : Int) :
    ∀ (n : Nat) (st : TrackerState) (q : List RawInform),
      (tracker_serve_loop total n st q).handled <+: (frame_loop n q).1 ∧
      tracker_loop total st (tracker_serve_loop total n st q).handled =
        some ((tracker_serve_loop total n st q).state, []) ∧
      ((tracker_serve_loop total n st q).how = ServeEnd.left ↔
        (tracker_serve_loop total n st q).state.continue_tracking = false) := by
  intro n
  induction n with
  | zero =>
    intro st q
    simp only [tracker_serve_loop, frame_loop, tracker_loop]
    refine ⟨List.prefix_refl _, trivial, ?_⟩
    cases hc : st.continue_tracking <;> simp
  | succ n ih =>
    intro st q
    rw [tracker_serve_loop, frame_loop]
    cases hc : st.continue_tracking with
    | false =>
      simp only [Bool.false_eq_true, if_false, tracker_loop]
      exact ⟨List.nil_prefix, trivial, by simp [hc]⟩
    | true =>
      simp only [if_true]
      cases ht : take_inform q with
      | stop e =>
        simp only [tracker_loop]
        refine ⟨List.prefix_refl _, trivial, ?_⟩
        have hne : e ≠ ServeEnd.left := by
          intro he
          rw [he] at ht
          exact take_inform_not_left q ht
        simp [hc, hne]
      | got m rest =>
        simp only
        cases hh : tracker_handle total st m with
        | none =>
          simp only [tracker_loop]
          exact ⟨List.nil_prefix, trivial, by simp [hc]⟩
        | some st1 =>
          simp only
          obtain ⟨h1, h2, h3⟩ := ih st1 rest
          refine ⟨?_, ?_, h3⟩
          · obtain ⟨t, ht1⟩ := h1
            exact ⟨t, by rw [List.cons_append, ht1]⟩
          · rw [tracker_loop, if_pos hc, hh]
            exact h2

/-- When the loop has not been left and every sender has an inventory slot,
the loop has handled every message its receive could take, and it stands as
the receives do. -/
theorem tracker_serve_loop_all (total : Int) :
    ∀ (n : Nat) (st : TrackerState) (q : List RawInform),
      (∀ msg ∈ (frame_loop n q).1,
        1 ≤ msg.source ∧ msg.source ≤ (st.tracker_data.data.length : Int)) →
      (tracker_serve_loop total n st q).how ≠ ServeEnd.left →
      (tracker_serve_loop total n st q).handled = (frame_loop n q).1 ∧
      (tracker_serve_loop total n st q).how = (frame_loop n q).2 := by
  intro n
  induction n with
  | zero =>
    intro st q _ hne
    simp only [tracker_serve_loop, frame_loop] at hne ⊢
    cases hc : st.continue_tracking
    · rw [hc] at hne
      simp at hne
    · simp
  | succ n ih =>
    intro st q hsrc hne
    rw [tracker_serve_loop] at hne ⊢
    rw [frame_loop] at hsrc ⊢
    cases hc : st.continue_tracking with
    | false =>
      rw [hc] at hne
      simp at hne
    | true =>
      rw [hc] at hne
      simp only [if_true] at hne ⊢
      cases ht : take_inform q with
      | stop e => exact ⟨rfl, rfl⟩
      | got m rest =>
        rw [ht] at hne hsrc
        simp only at hne hsrc ⊢
        obtain ⟨hs1, hs2⟩ := hsrc m (List.mem_cons_self _ _)
        obtain ⟨st1, hh, hlen, _, _⟩ := tracker_handle_spec total st m hs1 hs2
        rw [hh] at hne ⊢
        simp only at hne ⊢
        obtain ⟨h1, h2⟩ := ih st1 rest
          (fun msg hm => by
            rw [hlen]
            exact hsrc msg (List.mem_cons_of_mem _ hm))
          hne
        exact ⟨by rw [h1], h2⟩

theorem all_finished_of_take (td : TrackerDataSet_t) (msgs : List InformMsg) (k : Nat)
    (h : all_finished td (msgs.take k)) : all_finished td msgs :=
  fun r h1 h2 h3 => (finished_senders_take_sublist msgs k).subset (h r h1 h2 h3)

/-- C3 (amended): the tracker loop on the messages that wait on the INFORM
tag, every sender having an inventory slot. The messages counted are those
the receive of the loop takes (`inform_msgs`): a `DOWN_10` or `DOWN_X` is
followed by the receives of `update_tracker_swarm`, which take the next
eleven waiting messages of the sender as the file id and ten hashes. When
`FINISHED_DOWN_ALL` is among them only from ranks that are not SEEDER in the
registry at the start and from no rank twice: the messages handled are the
first of these messages and the local variables are those of `tracker_loop`
on them; the loop is left if and only if at least one message has been
handled and every rank that is not a SEEDER has sent `FINISHED_DOWN_ALL`
among the messages handled; this holds after no smaller positive number of
messages; when the loop is not left, every message has been handled and the
tracker waits for a message, or waits for ever in `update_tracker_swarm`, as
the receives do; and when `k` is the first positive number of messages after
which every such rank has sent `FINISHED_DOWN_ALL`, the loop is left with
exactly the first `k` messages handled. -/
theorem tracker_loop_ends_when_all_finished (td : TrackerDataSet_t) (q : List RawInform)
    (hsrc : ∀ m ∈ q, 1 ≤ m.source ∧ m.source ≤ (td.data.length : Int))
    (honce : (finished_senders (inform_msgs q)).Nodup)
    (hns : ∀ r ∈ finished_senders (inform_msgs q),
      kind_of td r ≠ some Client_Type_t.SEEDER) :
    (tracker_serve td q).handled <+: inform_msgs q ∧
    tracker_loop (total_downloading_clients td.data) (tracker_init td)
        (tracker_serve td q).handled = some ((tracker_serve td q).state, []) ∧
    ((tracker_serve td q).how = ServeEnd.left ↔
      (tracker_serve td q).handled ≠ [] ∧ all_finished td (tracker_serve td q).handled) ∧
    (∀ j, 1 ≤ j → j < (tracker_serve td q).handled.length →
      ¬ all_finished td ((tracker_serve td q).handled.take j)) ∧
    ((tracker_serve td q).how ≠ ServeEnd.left →
      (tracker_serve td q).handled = inform_msgs q ∧
      (tracker_serve td q).how = inform_end q) ∧
    (∀ k, 1 ≤ k → k ≤ (inform_msgs q).length →
      all_finished td ((inform_msgs q).take k) →
      (∀ j, 1 ≤ j → j < k → ¬ all_finished td ((inform_msgs q).take j)) →
      (tracker_serve td q).how = ServeEnd.left ∧
      (tracker_serve td q).handled = (inform_msgs q).take k) := by
  obtain ⟨hpre, hloop, hleft⟩ :
      (tracker_serve td q).handled <+: inform_msgs q ∧
      tracker_loop (total_downloading_clients td.data) (tracker_init td)
        (tracker_serve td q).handled = some ((tracker_serve td q).state, []) ∧
      ((tracker_serve td q).how = ServeEnd.left ↔
        (tracker_serve td q).state.continue_tracking = false) :=
    tracker_serve_loop_spec (total_downloading_clients td.data) (q.length + 1)
      (tracker_init td) q
  have hsrcM : ∀ msg ∈ inform_msgs q,
      1 ≤ msg.source ∧ msg.source ≤ (td.data.length : Int) := by
    intro msg hm
    obtain ⟨x, hx, hxs⟩ := frame_loop_sources (q.length + 1) q msg hm
    rw [← hxs]
    exact hsrc x hx
  have hall : (tracker_serve td q).how ≠ ServeEnd.left →
      (tracker_serve td q).handled = inform_msgs q ∧
      (tracker_serve td q).how = inform_end q :=
    tracker_serve_loop_all (total_downloading_clients td.data) (q.length + 1)
      (tracker_init td) q hsrcM
  generalize tracker_serve td q = res at hpre hloop hleft hall ⊢
  have hsrcH : ∀ msg ∈ res.handled,
      1 ≤ msg.source ∧ msg.source ≤ (td.data.length : Int) :=
    fun msg hm => hsrcM msg (hpre.subset hm)
  have hsubl : List.Sublist (finished_senders res.handled)
      (finished_senders (inform_msgs q)) := by
    unfold finished_senders
    exact (hpre.sublist.filter _).map _
  have key := fun (k : Nat) (hk : k ≤ res.handled.length) =>
    tracker_loop_ends_iff_all_finished td res.handled k hsrcH (honce.sublist hsubl)
      (fun r hr => hns r (hsubl.subset hr)) hk
  have h3 : ∀ j, 1 ≤ j → j < res.handled.length →
      ¬ all_finished td (res.handled.take j) := by
    intro j
    induction j using Nat.strong_induction_on with
    | _ j ih =>
      intro hj1 hjl hfin
      obtain ⟨st, hst, _⟩ := (key j (le_of_lt hjl)).2
        ⟨hj1, hfin, fun i hi1 hij => ih i hij hi1 (by omega)⟩
      rw [hloop] at hst
      simp only [Option.some.injEq, Prod.mk.injEq] at hst
      have hlen := congrArg List.length hst.2
      simp only [List.length_nil, List.length_drop] at hlen
      omega
  have hiff : res.how = ServeEnd.left ↔
      res.handled ≠ [] ∧ all_finished td res.handled := by
    constructor
    · intro hl
      have hc := hleft.1 hl
      obtain ⟨h1, h2, _⟩ := (key res.handled.length (le_refl _)).1
        ⟨res.state, by rw [List.drop_length]; exact hloop, hc⟩
      rw [List.take_length] at h2
      refine ⟨?_, h2⟩
      intro he
      rw [he] at h1
      simp at h1
    · rintro ⟨hne, hfin⟩
      have h1 : 1 ≤ res.handled.length := by
        cases hh : res.handled with
        | nil => exact absurd hh hne
        | cons a t => simp
      obtain ⟨st, hst, hc⟩ := (key res.handled.length (le_refl _)).2
        ⟨h1, by rw [List.take_length]; exact hfin, fun j hj1 hjl => h3 j hj1 hjl⟩
      rw [List.drop_length, hloop] at hst
      simp only [Option.some.injEq, Prod.mk.injEq] at hst
      apply hleft.2
      rw [hst.1]
      exact hc
  refine ⟨hpre, hloop, hiff, h3, hall, ?_⟩
  intro k hk1 hkl hfin hmin
  have htake : res.handled = (inform_msgs q).take res.handled.length :=
    List.prefix_iff_eq_take.mp hpre
  by_cases hl : res.how = ServeEnd.left
  · refine ⟨hl, ?_⟩
    obtain ⟨hne, hfinH⟩ := hiff.1 hl
    have h1 : 1 ≤ res.handled.length := by
      cases hh : res.handled with
      | nil => exact absurd hh hne
      | cons a t => simp
    have hle : res.handled.length ≤ (inform_msgs q).length := hpre.length_le
    rcases Nat.lt_trichotomy res.handled.length k with hlt | heq | hgt
    · rw [htake] at hfinH
      exact absurd hfinH (hmin _ h1 hlt)
    · rw [← heq]
      exact htake
    · have hno := h3 k hk1 hgt
      rw [htake, List.take_take, Nat.min_eq_left (le_of_lt hgt)] at hno
      exact absurd hfin hno
  · exfalso
    obtain ⟨hH, _⟩ := hall hl
    apply hl
    apply hiff.2
    rw [hH]
    refine ⟨?_, all_finished_of_take td _ k hfin⟩
    intro he
    rw [he] at hkl
    simp at hkl
    omega

/-- Witness of `tracker_loop_ends_when_all_finished`: kinds SEEDER, PEER,
LEECHER. Rank 2 reports ten chunks with `DOWN_10` and ends, then rank 3
ends: the receive of the loop takes `DOWN_10`, `GIVE_PEERS` and the two
`FINISHED_DOWN_ALL`, and the loop is left at the second of them. -/
theorem tracker_loop_ends_when_all_finished_witness :
    (tracker_serve
        (registry_of_kinds [Client_Type_t.SEEDER, Client_Type_t.PEER, Client_Type_t.LEECHER])
        (full_report_stream 2 ++
          [{ source := 3, payload := Payload.chars 18 "FINISHED_DOWN_ALL".toList }])).how =
      ServeEnd.left ∧
    (tracker_serve
        (registry_of_kinds [Client_Type_t.SEEDER, Client_Type_t.PEER, Client_Type_t.LEECHER])
        (full_report_stream 2 ++
          [{ source := 3, payload := Payload.chars 18 "FINISHED_DOWN_ALL".toList }])).handled =
      (inform_msgs
        (full_report_stream 2 ++
          [{ source := 3, payload := Payload.chars 18 "FINISHED_DOWN_ALL".toList }])).take 4 ∧
    (inform_msgs
        (full_report_stream 2 ++
          [{ source := 3, payload := Payload.chars 18 "FINISHED_DOWN_ALL".toList }])).map
        (fun m => (m.source, m.buffer)) =
      [(2, "DOWN_10".toList), (2, "GIVE_PEERS".toList), (2, "FINISHED_DOWN_ALL".toList),
       (3, "FINISHED_DOWN_ALL".toList)] := by
  have h := (tracker_loop_ends_when_all_finished
    (registry_of_kinds [Client_Type_t.SEEDER, Client_Type_t.PEER, Client_Type_t.LEECHER])
    (full_report_stream 2 ++
      [{ source := 3, payload := Payload.chars 18 "FINISHED_DOWN_ALL".toList }])
    (by decide) (by decide) (by decide)).2.2.2.2.2 4 (by decide) (by decide)
    (by
      intro r h1 h2 h3
      have h2b : r ≤ 3 := h2
      have hr : r = 1 ∨ r = 2 ∨ r = 3 := by omega
      rcases hr with hr | hr | hr
      · subst hr
        exact absurd (by decide) h3
      · subst hr
        decide
      · subst hr
        decide)
    (by
      intro j hj1 hj4 hfin
      have h3 := hfin 3 (by decide) (by decide) (by decide)
      have hj : j = 1 ∨ j = 2 ∨ j = 3 := by omega
      rcases hj with hj | hj | hj
      · subst hj
        revert h3
        decide
      · subst hj
        revert h3
        decide
      · subst hj
        revert h3
        decide)
  exact ⟨h.1, h.2, by decide⟩

/-- The tracker on the messages of the client of the repository that has
downloaded fewer than ten chunks: `DOWN_X` and the file id are followed by
no hash, so the receives of `update_tracker_swarm` take the
`FINISHED_DOWN_ALL` of the sender as the first hash and find no further
message of the sender. The loop is not left, whatever arrives from the other
ranks, although every rank that is not a SEEDER has sent
`FINISHED_DOWN_ALL`. -/
theorem tracker_blocks_on_short_report :
    (tracker_serve (registry_of_kinds [Client_Type_t.LEECHER, Client_Type_t.LEECHER])
        (short_report_stream 1 ++
          [{ source := 2, payload := Payload.chars 18 "FINISHED_DOWN_ALL".toList }])).how =
      ServeEnd.blocked ∧
    (tracker_serve (registry_of_kinds [Client_Type_t.LEECHER, Client_Type_t.LEECHER])
        (short_report_stream 1 ++
          [{ source := 2, payload := Payload.chars 18 "FINISHED_DOWN_ALL".toList }])
      ).handled.length = 0 ∧
    inform_end
        (short_report_stream 1 ++
          [{ source := 2, payload := Payload.chars 18 "FINISHED_DOWN_ALL".toList }]) =
      ServeEnd.blocked ∧
    recv_hashes 10 1
        [{ source := 1, payload := Payload.chars 18 "FINISHED_DOWN_ALL".toList },
         { source := 2, payload := Payload.chars 18 "FINISHED_DOWN_ALL".toList }] =
      Intake.stop ServeEnd.blocked ∧
    recv_hashes 1 1
        [{ source := 1, payload := Payload.chars 18 "FINISHED_DOWN_ALL".toList },
         { source := 2, payload := Payload.chars 18 "FINISHED_DOWN_ALL".toList }] =
      Intake.got ["FINISHED_DOWN_ALL".toList]
        [{ source := 2, payload := Payload.chars 18 "FINISHED_DOWN_ALL".toList }] := by
  refine ⟨by decide, by decide, by decide, by rfl, by rfl⟩

/-- More passes than there are waiting messages change nothing: a pass takes
at least one message. -/
theorem tracker_serve_loop_fuel (total : Int) :
    ∀ (n m : Nat) (st : TrackerState) (q : List RawInform),
      q.length < n → q.length < m →
      tracker_serve_loop total n st q = tracker_serve_loop total m st q := by
  intro n
  induction n with
  | zero =>
    intro m st q hn _
    omega
  | succ n ih =>
    intro m st q hn hm
    cases m with
    | zero => omega
    | succ m =>
      rw [tracker_serve_loop, tracker_serve_loop]
      cases hc : st.continue_tracking with
      | false => rfl
      | true =>
        simp only [if_true]
        cases ht : take_inform q with
        | stop e => rfl
        | got msg rest =>
          simp only
          cases hh : tracker_handle total st msg with
          | none => rfl
          | some st1 =>
            simp only
            obtain ⟨hl, _, _⟩ := take_inform_got q rest msg ht
            rw [ih m st1 rest (by omega) (by omega)]

theorem frame_loop_fuel :
    ∀ (n m : Nat) (q : List RawInform), q.length < n → q.length < m →
      frame_loop n q = frame_loop m q := by
  intro n
  induction n with
  | zero =>
    intro m q hn _
    omega
  | succ n ih =>
    intro m q hn hm
    cases m with
    | zero => omega
    | succ m =>
      rw [frame_loop, frame_loop]
      cases ht : take_inform q with
      | stop e => rfl
      | got msg rest =>
        simp only
        obtain ⟨hl, _, _⟩ := take_inform_got q rest msg ht
        rw [ih m rest (by omega) (by omega)]

end BitTorrent
